import Mathlib

/-! Leiserchess: board representation, move generation and make-move.

A shallow embedding of `move_gen.h`, `move_gen.c` and the laser walker of
`eval.c`.  Machine integers are natural numbers or integers; `uint8_t`
arithmetic on squares is reduced modulo `256` where the source can wrap.
C arrays are total functions from indices, written with `Function.update`.
Loops of the form `while (true)` are given a step budget: the laser walker
has `4 * ARR_SIZE` states `(square, direction)`, so a walk that survives more
than that many steps never stops, and the budget `LASER_FUEL` loses nothing.
-/

namespace Leiserchess

/-! ## Constants of `move_gen.h` -/

@[reducible] def MAX_NUM_MOVES : Nat := 128
@[reducible] def ARR_WIDTH : Nat := 16
@[reducible] def ARR_SIZE : Nat := ARR_WIDTH * ARR_WIDTH
@[reducible] def BOARD_WIDTH : Nat := 10
@[reducible] def FIL_ORIGIN : Nat := (ARR_WIDTH - BOARD_WIDTH) / 2
@[reducible] def RNK_ORIGIN : Nat := (ARR_WIDTH - BOARD_WIDTH) / 2
@[reducible] def FIL_SHIFT : Nat := 4
@[reducible] def FIL_MASK : Nat := 15
@[reducible] def RNK_SHIFT : Nat := 0
@[reducible] def RNK_MASK : Nat := 15
@[reducible] def NUMBER_PAWNS : Nat := 7
@[reducible] def PIECE_SIZE : Nat := 5

@[reducible] def PTYPE_SHIFT : Nat := 2
@[reducible] def PTYPE_MASK : Nat := 3
@[reducible] def EMPTY : Nat := 0
@[reducible] def PAWN : Nat := 1
@[reducible] def KING : Nat := 2
@[reducible] def INVALID : Nat := 3

@[reducible] def COLOR_SHIFT : Nat := 4
@[reducible] def COLOR_MASK : Nat := 1
@[reducible] def WHITE : Nat := 0
@[reducible] def BLACK : Nat := 1

@[reducible] def NUM_ORI : Nat := 4
@[reducible] def ORI_SHIFT : Nat := 0
@[reducible] def ORI_MASK : Nat := NUM_ORI - 1
@[reducible] def NN : Nat := 0
@[reducible] def EE : Nat := 1
@[reducible] def SS : Nat := 2
@[reducible] def WW : Nat := 3
@[reducible] def NW : Nat := 0
@[reducible] def NE : Nat := 1
@[reducible] def SE : Nat := 2
@[reducible] def SW : Nat := 3

@[reducible] def MOVE_MASK : Nat := 0xfffff
@[reducible] def PTYPE_MV_SHIFT : Nat := 18
@[reducible] def PTYPE_MV_MASK : Nat := 3
@[reducible] def FROM_SHIFT : Nat := 8
@[reducible] def FROM_MASK : Nat := 0xFF
@[reducible] def TO_SHIFT : Nat := 0
@[reducible] def TO_MASK : Nat := 0xFF
@[reducible] def ROT_SHIFT : Nat := 16
@[reducible] def ROT_MASK : Nat := 3
@[reducible] def NONE : Nat := 0
@[reducible] def RIGHT : Nat := 1
@[reducible] def UTURN : Nat := 2
@[reducible] def LEFT : Nat := 3

@[reducible] def MAX_UINT8_T : Nat := 255
@[reducible] def KO_STOMPED : Nat := MAX_UINT8_T
@[reducible] def KO_ZAPPED : Nat := MAX_UINT8_T
@[reducible] def ILLEGAL_STOMPED : Nat := MAX_UINT8_T
@[reducible] def ILLEGAL_ZAPPED : Nat := MAX_UINT8_T

/-- Constants of `search_common.c`: the sort key sits above bit 32. -/
@[reducible] def SORT_MASK : Nat := 2 ^ 32 - 1
@[reducible] def SORT_SHIFT : Nat := 32

/-- Step budget of a laser walk: one more than the number of states
`(square, direction)`, which is `ARR_SIZE * NUM_ORI`. -/
@[reducible] def LASER_FUEL : Nat := ARR_SIZE * NUM_ORI + 1

/-! ## Data model -/

/-- The record `victims_t`: the stomped and the zapped piece byte. -/
structure victims_t where
  stomped : Nat
  zapped : Nat
deriving DecidableEq, Repr

/-- The record `position_t`.  `board`, `kloc` and `plocs` are the C arrays
`board[ARR_SIZE]`, `kloc[2]` and `plocs[2][NUMBER_PAWNS]`; `history` is the
back-pointer to the predecessor (`none` for a null pointer); `ply` is the
`int16_t` counter. -/
structure position_t where
  board : Nat → Nat
  history : Option position_t
  key : Nat
  ply : Int
  last_move : Nat
  victims : victims_t
  kloc : Nat → Nat
  plocs : Nat → Nat → Nat

/-! ## Piece getters and setters -/

/-- Source `color_to_move_of`: `(p->ply & 1) == 0 ? WHITE : BLACK`; the low bit
of a two's-complement integer is its parity. -/
def color_to_move_of (p : position_t) : Nat :=
  if p.ply % 2 = 0 then WHITE else BLACK

/-- Source `color_of`. -/
def color_of (x : Nat) : Nat := (x >>> COLOR_SHIFT) &&& COLOR_MASK

/-- Source `opp_color`. -/
def opp_color (c : Nat) : Nat := if c = WHITE then BLACK else WHITE

/-- Source `ptype_of`. -/
def ptype_of (x : Nat) : Nat := (x >>> PTYPE_SHIFT) &&& PTYPE_MASK

/-- Source `ori_of`. -/
def ori_of (x : Nat) : Nat := (x >>> ORI_SHIFT) &&& ORI_MASK

/-- Source `set_ori`, returning the new piece byte; the complement of the
orientation mask is taken within the byte. -/
def set_ori (x : Nat) (ori : Nat) : Nat :=
  ((ori &&& ORI_MASK) <<< ORI_SHIFT) ||| (x &&& (MAX_UINT8_T ^^^ (ORI_MASK <<< ORI_SHIFT)))

/-! ## Board, squares -/

/-- Source `square_of`; the result is a `square_t` byte. -/
def square_of (f r : Nat) : Nat :=
  (ARR_WIDTH * (FIL_ORIGIN + f) + RNK_ORIGIN + r) % 256

/-- Source `fil_of`; `fil_t` is an unsigned byte, so the subtraction wraps. -/
def fil_of (sq : Nat) : Nat :=
  (((sq >>> FIL_SHIFT) &&& FIL_MASK) + 256 - FIL_ORIGIN) % 256

/-- Source `rnk_of`; `rnk_t` is an unsigned byte, so the subtraction wraps. -/
def rnk_of (sq : Nat) : Nat :=
  (((sq >>> RNK_SHIFT) &&& RNK_MASK) + 256 - RNK_ORIGIN) % 256

/-- The table `dir[8]`. -/
def dir : List Int := [-17, -16, -15, -1, 1, 15, 16, 17]

/-- Source `dir_of`. -/
def dir_of (i : Nat) : Int := dir.getD i 0

/-- The table `beam[NUM_ORI]`. -/
def beam : List Int := [1, 16, -1, -16]

/-- Source `beam_of`. -/
def beam_of (direction : Nat) : Int := beam.getD direction 0

/-- The table `reflect[NUM_ORI][NUM_ORI]`, rows by beam direction, columns by
pawn orientation; `-1` is the back of the Pawn. -/
def reflect : List (List Int) :=
  [ [-1, -1, 1, 3],
    [0, -1, -1, 2],
    [3, 1, -1, -1],
    [-1, 0, 2, -1] ]

/-- Source `reflect_of`. -/
def reflect_of (beam_dir pawn_ori : Nat) : Int :=
  (reflect.getD beam_dir []).getD pawn_ori 0

/-- The squares visited by the double loop `for f, for r` over the playing
area, in loop order. -/
def board_squares : List Nat :=
  (List.range BOARD_WIDTH).flatMap (fun f => (List.range BOARD_WIDTH).map (fun r => square_of f r))

/-- Source `compute_zob_key`, for the tables `zob` and `zob_color`. -/
def compute_zob_key (zob : Nat → Nat → Nat) (zob_color : Nat) (p : position_t) : Nat :=
  let key := (List.range BOARD_WIDTH).foldl (fun key f =>
    (List.range BOARD_WIDTH).foldl (fun key r =>
      key ^^^ zob (square_of f r) (p.board (square_of f r))) key) 0
  if color_to_move_of p = BLACK then key ^^^ zob_color else key

/-! ## Move getters and setters -/

/-- Source `ptype_mv_of`. -/
def ptype_mv_of (mv : Nat) : Nat := (mv >>> PTYPE_MV_SHIFT) &&& PTYPE_MV_MASK

/-- Source `from_square`. -/
def from_square (mv : Nat) : Nat := (mv >>> FROM_SHIFT) &&& FROM_MASK

/-- Source `to_square`. -/
def to_square (mv : Nat) : Nat := (mv >>> TO_SHIFT) &&& TO_MASK

/-- Source `rot_of`. -/
def rot_of (mv : Nat) : Nat := (mv >>> ROT_SHIFT) &&& ROT_MASK

/-- Source `move_of`. -/
def move_of (typ rot from_sq to_sq : Nat) : Nat :=
  ((typ &&& PTYPE_MV_MASK) <<< PTYPE_MV_SHIFT) |||
  ((rot &&& ROT_MASK) <<< ROT_SHIFT) |||
  ((from_sq &&& FROM_MASK) <<< FROM_SHIFT) |||
  ((to_sq &&& TO_MASK) <<< TO_SHIFT)

/-- The sort key of a sortable move: the 32 bits above `SORT_SHIFT`, the field
written by `set_sort_key`. -/
def sort_key (mv : Nat) : Nat := (mv >>> SORT_SHIFT) &&& SORT_MASK

/-- Source `get_move`. -/
def get_move (sortable_mv : Nat) : Nat := sortable_mv &&& MOVE_MASK

/-! ## Victims -/

/-- Source `KO`. -/
def KO : victims_t := ⟨KO_STOMPED, KO_ZAPPED⟩

/-- Source `ILLEGAL`. -/
def ILLEGAL : victims_t := ⟨ILLEGAL_STOMPED, ILLEGAL_ZAPPED⟩

/-- Source `is_KO`. -/
def is_KO (victims : victims_t) : Bool :=
  victims.stomped == KO_STOMPED || victims.zapped == KO_ZAPPED

/-- Source `is_ILLEGAL`. -/
def is_ILLEGAL (victims : victims_t) : Bool :=
  victims.stomped == ILLEGAL_STOMPED || victims.zapped == ILLEGAL_ZAPPED

/-- Source `zero_victims`. -/
def zero_victims (victims : victims_t) : Bool :=
  victims.stomped == 0 && victims.zapped == 0

/-- Source `victim_exists`. -/
def victim_exists (victims : victims_t) : Bool :=
  decide (victims.stomped > 0) || decide (victims.zapped > 0)

/-! ## The laser walker -/

/-- Conversion of an `int` to `square_t` (an unsigned byte). -/
def as_square (x : Int) : Nat := (x % 256).toNat

/-- Conversion of an `int` to `int16_t`. -/
def as_int16 (x : Int) : Int := (x + 32768) % 65536 - 32768

/-- The `while (true)` loop of `fire` from square `sq` with beam direction
`bdir`, under a step budget: `none` when the budget runs out. -/
def fire_loop (board : Nat → Nat) : Nat → Nat → Nat → Option Nat
  | 0, _, _ => none
  | fuel + 1, sq, bdir =>
    let sq := as_square (sq + beam_of bdir)
    if ptype_of (board sq) = EMPTY then fire_loop board fuel sq bdir
    else if ptype_of (board sq) = PAWN then
      let bdir := reflect_of bdir (ori_of (board sq))
      if bdir < 0 then some sq else fire_loop board fuel sq bdir.toNat
    else if ptype_of (board sq) = KING then some sq
    else some 0

/-- Source `fire`: the square of the piece to be removed, or `0`. -/
def fire (p : position_t) : Option Nat :=
  let fake_color_to_move := if color_to_move_of p = WHITE then BLACK else WHITE
  let sq := p.kloc fake_color_to_move
  let bdir := ori_of (p.board sq)
  fire_loop p.board LASER_FUEL sq bdir

/-- The `while (true)` loop of `mark_laser_path`, under a step budget. -/
def mark_loop (board : Nat → Nat) (mark_mask : Nat) :
    Nat → (Nat → Nat) → Nat → Nat → Option (Nat → Nat)
  | 0, _, _, _ => none
  | fuel + 1, laser_map, sq, bdir =>
    let sq := as_square (sq + beam_of bdir)
    let laser_map := Function.update laser_map sq (laser_map sq ||| mark_mask)
    if ptype_of (board sq) = EMPTY then mark_loop board mark_mask fuel laser_map sq bdir
    else if ptype_of (board sq) = PAWN then
      let bdir := reflect_of bdir (ori_of (board sq))
      if bdir < 0 then some laser_map
      else mark_loop board mark_mask fuel laser_map sq bdir.toNat
    else some laser_map

/-- Source `mark_laser_path` (eval.c): the laser map after marking. -/
def mark_laser_path (p : position_t) (laser_map : Nat → Nat) (c : Nat) (mark_mask : Nat) :
    Option (Nat → Nat) :=
  let sq := p.kloc c
  let bdir := ori_of (p.board sq)
  let laser_map := Function.update laser_map sq (laser_map sq ||| mark_mask)
  mark_loop p.board mark_mask LASER_FUEL laser_map sq bdir

/-! ## Move generation -/

/-- The statement `sortable_move_list[move_count++] = mv` on the pair
(list, move_count). -/
def emit (s : (Nat → Nat) × Nat) (mv : Nat) : (Nat → Nat) × Nat :=
  (Function.update s.1 s.2 mv, s.2 + 1)

/-- The laser map of `generate_all` before marking: `4` everywhere, then `0`
on the playing area. -/
def init_laser_map : Nat → Nat :=
  (List.range BOARD_WIDTH).foldl (fun m f =>
    (List.range BOARD_WIDTH).foldl (fun m r => Function.update m (square_of f r) 0) m)
    (fun _ => 4)

/-- The body of the loop over pawn slots in `generate_all`. -/
def gen_pawn (p : position_t) (color_to_move : Nat) (laser_map : Nat → Nat)
    (s : (Nat → Nat) × Nat) (i : Nat) : (Nat → Nat) × Nat :=
  let sq := p.plocs color_to_move i
  if sq = 0 then s
  else
    let color := color_to_move
    if laser_map sq = 1 then s
    else
      let s := (List.range 8).foldl (fun s d =>
        let dest : Int := sq + dir_of d
        let typ := ptype_of (p.board dest.toNat)
        if typ = INVALID ∨ typ = KING ∨ (typ = PAWN ∧ color = color_of (p.board dest.toNat))
        then s
        else emit s (move_of PAWN 0 sq (as_square dest))) s
      (List.range' 1 3).foldl (fun s rot => emit s (move_of PAWN rot sq sq)) s

/-- Source `generate_all`: the move list after the call and the returned
move count; `none` when the marking of the enemy laser does not stop.
`strict` is ignored, as in the source. -/
def generate_all (p : position_t) (sortable_move_list : Nat → Nat) (strict : Bool) :
    Option ((Nat → Nat) × Nat) :=
  let color_to_move := color_to_move_of p
  match mark_laser_path p init_laser_map (opp_color color_to_move) 1 with
  | none => none
  | some laser_map =>
    let s : (Nat → Nat) × Nat := (sortable_move_list, 0)
    let s := (List.range NUMBER_PAWNS).foldl (gen_pawn p color_to_move laser_map) s
    let s := (List.range 8).foldl (fun s d =>
      let dest : Int := p.kloc color_to_move + dir_of d
      if ptype_of (p.board dest.toNat) ≠ EMPTY then s
      else emit s (move_of KING 0 (p.kloc color_to_move) (as_square dest))) s
    let s := (List.range' 1 3).foldl (fun s rot =>
      emit s (move_of KING rot (p.kloc color_to_move) (p.kloc color_to_move))) s
    some (emit s (move_of KING 0 (p.kloc color_to_move) (p.kloc color_to_move)))

/-! ## Make-move -/

/-- The loop `for i < NUMBER_PAWNS: if (plocs[c][i] == old_sq) plocs[c][i] = new_sq`. -/
def replace_ploc (plocs : Nat → Nat → Nat) (c old_sq new_sq : Nat) : Nat → Nat → Nat :=
  (List.range NUMBER_PAWNS).foldl (fun pl i =>
    if pl c i = old_sq then Function.update pl c (Function.update (pl c) i new_sq) else pl) plocs

/-- Source `low_level_make_move`: the new position and the square of the
stomped piece (or `0`). -/
def low_level_make_move (zob : Nat → Nat → Nat) (zob_color : Nat) (old : position_t)
    (mv : Nat) : position_t × Nat :=
  let from_sq := from_square mv
  let to_sq := to_square mv
  let rot := rot_of mv
  let p : position_t := { old with history := some old, last_move := mv }
  let p : position_t := { p with key := p.key ^^^ zob_color }
  let from_piece := p.board from_sq
  let to_piece := p.board to_sq
  if to_sq ≠ from_sq then
    let stomped_dst_sq :=
      if PAWN = ptype_of from_piece ∧ PAWN = ptype_of to_piece ∧
          color_of to_piece = opp_color (color_of from_piece) then from_sq else 0
    let key := p.key ^^^ zob from_sq from_piece
    let key := key ^^^ zob to_sq to_piece
    let board := Function.update p.board to_sq from_piece
    let board := Function.update board from_sq to_piece
    let key := key ^^^ zob to_sq from_piece
    let key := key ^^^ zob from_sq to_piece
    let kloc := if ptype_of from_piece = KING
      then Function.update p.kloc (color_of from_piece) to_sq else p.kloc
    let kloc := if ptype_of to_piece = KING
      then Function.update kloc (color_of to_piece) from_sq else kloc
    let plocs := if ptype_of from_piece = PAWN
      then replace_ploc p.plocs (color_of from_piece) from_sq to_sq else p.plocs
    let plocs := if ptype_of to_piece = PAWN
      then replace_ploc plocs (color_of to_piece) to_sq from_sq else plocs
    ({ p with board := board, key := key, kloc := kloc, plocs := plocs,
              ply := as_int16 (p.ply + 1) }, stomped_dst_sq)
  else
    let key := p.key ^^^ zob from_sq from_piece
    let from_piece := set_ori from_piece (rot + ori_of from_piece)
    let board := Function.update p.board from_sq from_piece
    let key := key ^^^ zob from_sq from_piece
    ({ p with board := board, key := key, ply := as_int16 (p.ply + 1) }, 0)

/-- Source `make_move`: the position written to `*p` and the returned victims
record (`KO` on a Ko); `none` when the laser walk does not stop. -/
def make_move (zob : Nat → Nat → Nat) (zob_color : Nat) (USE_KO : Int) (old : position_t)
    (mv : Nat) : Option (position_t × victims_t) :=
  let r := low_level_make_move zob zob_color old mv
  let p := r.1
  let stomped_sq := r.2
  let p : position_t :=
    if stomped_sq = 0 then { p with victims := { p.victims with stomped := 0 } }
    else
      let stomped := p.board stomped_sq
      let stomped_color := color_of (p.board stomped_sq)
      let key := p.key ^^^ zob stomped_sq stomped
      let board := Function.update p.board stomped_sq 0
      let plocs := replace_ploc p.plocs stomped_color stomped_sq 0
      let key := key ^^^ zob stomped_sq (board stomped_sq)
      { p with victims := { p.victims with stomped := stomped }, key := key,
               board := board, plocs := plocs }
  match fire p with
  | none => none
  | some victim_sq =>
    if victim_sq = 0 then
      let p : position_t := { p with victims := { p.victims with zapped := 0 } }
      if USE_KO ≠ 0 ∧ zero_victims p.victims = true ∧ p.key = old.key ^^^ zob_color then
        some (p, KO)
      else some (p, p.victims)
    else
      let zapped_color := color_of (p.board victim_sq)
      let zapped := p.board victim_sq
      let key := p.key ^^^ zob victim_sq zapped
      let board := Function.update p.board victim_sq 0
      let key := key ^^^ zob victim_sq 0
      let plocs := replace_ploc p.plocs zapped_color victim_sq 0
      let p : position_t := { p with victims := { p.victims with zapped := zapped },
                                     key := key, board := board, plocs := plocs }
      some (p, p.victims)

/-! ## The walker as a transition system -/

/-- One step of the laser walk common to `fire` and `mark_laser_path`, on the
state (square, beam direction): the next state, or `none` when the walk stops
(back of a Pawn, a King, or off the board). -/
def laser_step (board : Nat → Nat) (s : Nat × Nat) : Option (Nat × Nat) :=
  let sq := as_square (s.1 + beam_of s.2)
  if ptype_of (board sq) = EMPTY then some (sq, s.2)
  else if ptype_of (board sq) = PAWN then
    let bdir := reflect_of s.2 (ori_of (board sq))
    if bdir < 0 then none else some (sq, bdir.toNat)
  else none

/-- The state after `n` steps of the walk from `s`, `none` once it has stopped. -/
def laser_iter (board : Nat → Nat) (n : Nat) (s : Nat × Nat) : Option (Nat × Nat) :=
  (fun o : Option (Nat × Nat) => o.bind (laser_step board))^[n] (some s)

/-- The squares on which the loop of `mark_laser_path` steps from square `sq`
with beam direction `bdir`, in order, the last one being the square where the
beam dies or leaves the playing area; `none` when the budget runs out. -/
def laser_path_loop (board : Nat → Nat) : Nat → Nat → Nat → Option (List Nat)
  | 0, _, _ => none
  | fuel + 1, sq, bdir =>
    let sq := as_square (sq + beam_of bdir)
    if ptype_of (board sq) = EMPTY then (laser_path_loop board fuel sq bdir).map (sq :: ·)
    else if ptype_of (board sq) = PAWN then
      let bdir := reflect_of bdir (ori_of (board sq))
      if bdir < 0 then some [sq]
      else (laser_path_loop board fuel sq bdir.toNat).map (sq :: ·)
    else some [sq]

/-- The laser path of the King of colour `c`: the squares that
`mark_laser_path` marks, the King's own square first. -/
def laser_path (p : position_t) (c : Nat) : Option (List Nat) :=
  (laser_path_loop p.board LASER_FUEL (p.kloc c) (ori_of (p.board (p.kloc c)))).map
    (p.kloc c :: ·)

/-! ## Invariants of the data model -/

/-- The playing area: the squares whose file and rank lie in
`0 .. BOARD_WIDTH - 1`, as indices of the 16 x 16 array. -/
def on_board (sq : Nat) : Prop :=
  FIL_ORIGIN ≤ sq / ARR_WIDTH ∧ sq / ARR_WIDTH < FIL_ORIGIN + BOARD_WIDTH ∧
  RNK_ORIGIN ≤ sq % ARR_WIDTH ∧ sq % ARR_WIDTH < RNK_ORIGIN + BOARD_WIDTH

instance on_board_decidable (sq : Nat) : Decidable (on_board sq) := by
  unfold on_board; infer_instance

/-- Every array square outside the playing area holds INVALID. -/
def border_ok (p : position_t) : Prop :=
  ∀ sq, sq < ARR_SIZE → ¬ on_board sq → ptype_of (p.board sq) = INVALID

instance border_ok_decidable (p : position_t) : Decidable (border_ok p) := by
  unfold border_ok; infer_instance

/-- The pawn-table invariant on a board and a table `plocs`: every square with
a PAWN of colour `c` is in exactly one slot of `plocs[c]`, and every nonzero
slot of `plocs[c]` is a square with a PAWN of colour `c`. -/
def pawn_table_ok (board : Nat → Nat) (plocs : Nat → Nat → Nat) : Prop :=
  (∀ c, c < 2 → ∀ sq, sq < ARR_SIZE →
      ptype_of (board sq) = PAWN ∧ color_of (board sq) = c →
      ∃ i, i < NUMBER_PAWNS ∧ (plocs c i = sq ∧
        ∀ j, j < NUMBER_PAWNS → plocs c j = sq → j = i)) ∧
  (∀ c, c < 2 → ∀ i, i < NUMBER_PAWNS → plocs c i ≠ 0 →
      plocs c i < ARR_SIZE ∧ ptype_of (board (plocs c i)) = PAWN ∧
      color_of (board (plocs c i)) = c)

instance pawn_table_ok_decidable (board : Nat → Nat) (plocs : Nat → Nat → Nat) :
    Decidable (pawn_table_ok board plocs) := by
  unfold pawn_table_ok; exact instDecidableAnd

/-- The pawn-table invariant of a position. -/
def pawns_ok (p : position_t) : Prop := pawn_table_ok p.board p.plocs

instance pawns_ok_decidable (p : position_t) : Decidable (pawns_ok p) := by
  unfold pawns_ok; infer_instance

/-- The king invariant for colour `c` on a board and a table `kloc`: `kloc[c]`
is the unique square holding a KING of colour `c`. -/
def king_ok (board : Nat → Nat) (kloc : Nat → Nat) (c : Nat) : Prop :=
  kloc c < ARR_SIZE ∧ ptype_of (board (kloc c)) = KING ∧ color_of (board (kloc c)) = c ∧
  ∀ sq, sq < ARR_SIZE → ptype_of (board sq) = KING ∧ color_of (board sq) = c → sq = kloc c

instance king_ok_decidable (board : Nat → Nat) (kloc : Nat → Nat) (c : Nat) :
    Decidable (king_ok board kloc c) := by
  unfold king_ok; infer_instance

/-- The king invariant of a position, for both colours. -/
def kings_ok (p : position_t) : Prop := ∀ c, c < 2 → king_ok p.board p.kloc c

instance kings_ok_decidable (p : position_t) : Decidable (kings_ok p) := by
  unfold kings_ok; infer_instance

/-- The board/plocs/kloc invariants of the data model. -/
def valid_position (p : position_t) : Prop := border_ok p ∧ pawns_ok p ∧ kings_ok p

instance valid_position_decidable (p : position_t) : Decidable (valid_position p) := by
  unfold valid_position; infer_instance

/-! ## The result of `generate_all`, and its description in the specification -/

/-- The moves written by a call of `generate_all`: the entries
`0 .. move_count - 1` of the move list, in order. -/
def emitted (r : (Nat → Nat) × Nat) : List Nat := (List.range r.2).map r.1

/-- The moves written one after the other from the state `s`. -/
def emit_all (s : (Nat → Nat) × Nat) (l : List Nat) : (Nat → Nat) × Nat := l.foldl emit s

/-- The neighbour of `sq` in direction `d` of the table `dir`. -/
def neighbour (sq d : Nat) : Nat := ((sq : Int) + dir_of d).toNat

/-- The buffer of the specification before marking: `4` on INVALID squares
(outside the playing area) and `0` on playable squares. -/
def prefilled_laser_map : Nat → Nat := fun sq => if on_board sq then 0 else 4

/-- The moves of the Pawn in slot `i` of the side to move as the specification
describes them, given the marked enemy-laser map: none when the slot is zero
or the square is pinned (value 1), else one translation to each neighbour that
is EMPTY or holds an enemy PAWN, then the rotations RIGHT, U-TURN, LEFT. -/
def spec_pawn_moves (p : position_t) (laser_map : Nat → Nat) (i : Nat) : List Nat :=
  let c := color_to_move_of p
  let sq := p.plocs c i
  if sq ≠ 0 ∧ laser_map sq ≠ 1 then
    ((List.range 8).filter (fun d =>
        decide (ptype_of (p.board (neighbour sq d)) = EMPTY ∨
          (ptype_of (p.board (neighbour sq d)) = PAWN ∧
            color_of (p.board (neighbour sq d)) ≠ c)))).map
      (fun d => move_of PAWN NONE sq (neighbour sq d))
    ++ [move_of PAWN RIGHT sq sq, move_of PAWN UTURN sq sq, move_of PAWN LEFT sq sq]
  else []

/-- The moves of the King of the side to move as the specification describes
them: one translation to each EMPTY neighbour, the rotations RIGHT, U-TURN,
LEFT, and one null move. -/
def spec_king_moves (p : position_t) : List Nat :=
  let sq := p.kloc (color_to_move_of p)
  ((List.range 8).filter (fun d => decide (ptype_of (p.board (neighbour sq d)) = EMPTY))).map
    (fun d => move_of KING NONE sq (neighbour sq d))
  ++ [move_of KING RIGHT sq sq, move_of KING UTURN sq sq, move_of KING LEFT sq sq]
  ++ [move_of KING NONE sq sq]

/-! ## Devices for the proofs about `make_move` -/

/-- The transposition of the squares `f` and `t`. -/
def swap_sq (f t sq : Nat) : Nat := if sq = f then t else if sq = t then f else sq

/-- The update of `plocs` in the translation branch of `low_level_make_move`. -/
def llmm_plocs (board : Nat → Nat) (plocs : Nat → Nat → Nat) (from_sq to_sq : Nat) :
    Nat → Nat → Nat :=
  let plocs := if ptype_of (board from_sq) = PAWN
    then replace_ploc plocs (color_of (board from_sq)) from_sq to_sq else plocs
  if ptype_of (board to_sq) = PAWN
    then replace_ploc plocs (color_of (board to_sq)) to_sq from_sq else plocs

/-- The update of `kloc` in the translation branch of `low_level_make_move`. -/
def llmm_kloc (board : Nat → Nat) (kloc : Nat → Nat) (from_sq to_sq : Nat) : Nat → Nat :=
  let kloc := if ptype_of (board from_sq) = KING
    then Function.update kloc (color_of (board from_sq)) to_sq else kloc
  if ptype_of (board to_sq) = KING
    then Function.update kloc (color_of (board to_sq)) from_sq else kloc

/-- The preconditions that `low_level_make_move` asserts of a move, for the
side to move: both squares on the playing area, an own PAWN or KING on the
from-square named by the move's piece type, and either from = to, or an EMPTY
destination, or a PAWN moving onto an enemy PAWN. -/
def move_ok (p : position_t) (mv : Nat) : Prop :=
  on_board (from_square mv) ∧ on_board (to_square mv) ∧
  color_of (p.board (from_square mv)) = color_to_move_of p ∧
  ((ptype_of (p.board (from_square mv)) = PAWN ∧ ptype_mv_of mv = PAWN ∧
      (to_square mv = from_square mv ∨ ptype_of (p.board (to_square mv)) = EMPTY ∨
        (ptype_of (p.board (to_square mv)) = PAWN ∧
          color_of (p.board (to_square mv)) ≠ color_to_move_of p))) ∨
   (ptype_of (p.board (from_square mv)) = KING ∧ ptype_mv_of mv = KING ∧
      (to_square mv = from_square mv ∨ ptype_of (p.board (to_square mv)) = EMPTY)))

/-- Phase 1 of `make_move` after `low_level_make_move`: the position once the
stomped piece, if any, is recorded and removed. -/
def stomp_phase (zob : Nat → Nat → Nat) (p : position_t) (stomped_sq : Nat) : position_t :=
  if stomped_sq = 0 then { p with victims := { p.victims with stomped := 0 } }
  else
    let stomped := p.board stomped_sq
    let stomped_color := color_of (p.board stomped_sq)
    let key := p.key ^^^ zob stomped_sq stomped
    let board := Function.update p.board stomped_sq 0
    let plocs := replace_ploc p.plocs stomped_color stomped_sq 0
    let key := key ^^^ zob stomped_sq (board stomped_sq)
    { p with victims := { p.victims with stomped := stomped }, key := key,
             board := board, plocs := plocs }

/-- Phase 2 of `make_move` when the laser hit the piece on `victim_sq`: the
position once the zapped piece is recorded and removed. -/
def zap_phase (zob : Nat → Nat → Nat) (p : position_t) (victim_sq : Nat) : position_t :=
  let zapped_color := color_of (p.board victim_sq)
  let zapped := p.board victim_sq
  let key := p.key ^^^ zob victim_sq zapped
  let board := Function.update p.board victim_sq 0
  let key := key ^^^ zob victim_sq 0
  let plocs := replace_ploc p.plocs zapped_color victim_sq 0
  { p with victims := { p.victims with zapped := zapped },
           key := key, board := board, plocs := plocs }

/-- The moves written by the body of the pawn loop of `generate_all` for slot
`i`, as a list in the order written. -/
def pawn_block (p : position_t) (laser_map : Nat → Nat) (i : Nat) : List Nat :=
  let color := color_to_move_of p
  let sq := p.plocs color i
  if sq = 0 then []
  else if laser_map sq = 1 then []
  else
    ((List.range 8).filter (fun d =>
        decide (¬ (ptype_of (p.board ((sq : Int) + dir_of d).toNat) = INVALID ∨
          ptype_of (p.board ((sq : Int) + dir_of d).toNat) = KING ∨
          (ptype_of (p.board ((sq : Int) + dir_of d).toNat) = PAWN ∧
            color = color_of (p.board ((sq : Int) + dir_of d).toNat)))))).map
      (fun d => move_of PAWN 0 sq (as_square ((sq : Int) + dir_of d)))
    ++ (List.range' 1 3).map (fun rot => move_of PAWN rot sq sq)

/-- The moves written by the King part of `generate_all`, as a list in the
order written. -/
def king_block (p : position_t) : List Nat :=
  let sq := p.kloc (color_to_move_of p)
  ((List.range 8).filter (fun d =>
      decide (¬ (ptype_of (p.board ((sq : Int) + dir_of d).toNat) ≠ EMPTY)))).map
    (fun d => move_of KING 0 sq (as_square ((sq : Int) + dir_of d)))
  ++ (List.range' 1 3).map (fun rot => move_of KING rot sq sq)
  ++ [move_of KING 0 sq sq]

/-- The moves returned by `generate_all`, as a list (empty when the call does
not return). -/
def generated_moves (p : position_t) (sortable_move_list : Nat → Nat) (strict : Bool) :
    List Nat :=
  match generate_all p sortable_move_list strict with
  | none => []
  | some r => emitted r

/-! ## Example positions -/

/-- The piece byte with the given type, colour and orientation. -/
def piece_byte (typ color ori : Nat) : Nat :=
  (color <<< COLOR_SHIFT) ||| (typ <<< PTYPE_SHIFT) ||| (ori <<< ORI_SHIFT)

/-- The board with an empty playing area and INVALID elsewhere. -/
def empty_board : Nat → Nat :=
  fun sq => if on_board sq then piece_byte EMPTY WHITE 0 else piece_byte INVALID WHITE 0

/-- A Zobrist table for the examples. -/
def example_zob : Nat → Nat → Nat := fun sq x => 1000003 * (sq * 32 + x) + 12345

/-- The colour number for the examples. -/
def example_zob_color : Nat := 987654321

/-- A move list filled with zeroes. -/
def zero_list : Nat → Nat := fun _ => 0

/-- The position of the scenario "laser reflects twice" with the Pawn on e3
oriented `e3_ori` and the Black King oriented `bk_ori`: White King on e0 facing
N, White Pawns on e3 and on g3 (oriented NW), Black King on g7, White to move,
the key recomputed from the example table. -/
def reflect_position (e3_ori bk_ori : Nat) : position_t :=
  let board :=
    Function.update (Function.update (Function.update (Function.update empty_board
      (square_of 4 0) (piece_byte KING WHITE NN))
      (square_of 4 3) (piece_byte PAWN WHITE e3_ori))
      (square_of 6 3) (piece_byte PAWN WHITE NW))
      (square_of 6 7) (piece_byte KING BLACK bk_ori)
  let p : position_t :=
    { board := board, history := none, key := 0, ply := 0, last_move := 0,
      victims := ⟨0, 0⟩,
      kloc := fun c => if c = WHITE then square_of 4 0 else square_of 6 7,
      plocs := fun c i =>
        if c = WHITE then (if i = 0 then square_of 4 3 else if i = 1 then square_of 6 3 else 0)
        else 0 }
  { p with key := compute_zob_key example_zob example_zob_color p }

/-- A position in which the King of the side to move stands on the enemy laser
path, and a Pawn can stomp: White King on e0 facing N, Black King on e7 facing
S, a White Pawn on c3, a Black Pawn on d4, a Black Pawn on h5, White to
move. -/
def pinned_king_position : position_t :=
  let board :=
    Function.update (Function.update (Function.update (Function.update (Function.update
      empty_board
      (square_of 4 0) (piece_byte KING WHITE NN))
      (square_of 4 7) (piece_byte KING BLACK SS))
      (square_of 2 3) (piece_byte PAWN WHITE NE))
      (square_of 3 4) (piece_byte PAWN BLACK SW))
      (square_of 7 5) (piece_byte PAWN BLACK NW)
  let p : position_t :=
    { board := board, history := none, key := 0, ply := 0, last_move := 0,
      victims := ⟨0, 0⟩,
      kloc := fun c => if c = WHITE then square_of 4 0 else square_of 4 7,
      plocs := fun c i =>
        if c = WHITE then (if i = 0 then square_of 2 3 else 0)
        else (if i = 0 then square_of 3 4 else if i = 3 then square_of 7 5 else 0) }
  { p with key := compute_zob_key example_zob example_zob_color p }

/-- A position in which the laser of the side to move leaves the board: White
King on a0 facing N, Black King on j9 facing S, a White Pawn on c3, White to
move. -/
def quiet_position : position_t :=
  let board :=
    Function.update (Function.update (Function.update empty_board
      (square_of 0 0) (piece_byte KING WHITE NN))
      (square_of 9 9) (piece_byte KING BLACK SS))
      (square_of 2 3) (piece_byte PAWN WHITE NE)
  let p : position_t :=
    { board := board, history := none, key := 0, ply := 0, last_move := 0,
      victims := ⟨0, 0⟩,
      kloc := fun c => if c = WHITE then square_of 0 0 else square_of 9 9,
      plocs := fun c i => if c = WHITE then (if i = 2 then square_of 2 3 else 0) else 0 }
  { p with key := compute_zob_key example_zob example_zob_color p }

/-- The result of `make_move` on an example, with a default for `none`. -/
def example_result (USE_KO : Int) (p : position_t) (mv : Nat) : position_t × victims_t :=
  (make_move example_zob example_zob_color USE_KO p mv).getD (p, ⟨0, 0⟩)

/-- The position `quiet_position` with the ply counter at the largest
`int16_t` value (Black to move), the key recomputed. -/
def late_position : position_t :=
  let p : position_t := { quiet_position with ply := 32767 }
  { p with key := compute_zob_key example_zob example_zob_color p }

/-- A position that repeats its second ancestor: `quiet_position` with a
history chain of three positions, the first two with zero victims, the second
with the key of `quiet_position`, the third with a zapped Pawn. -/
def repeated_position : position_t :=
  let a3 : position_t := { late_position with victims := ⟨0, piece_byte PAWN BLACK NN⟩ }
  let a2 : position_t := { quiet_position with history := some a3 }
  let a1 : position_t := { late_position with history := some a2 }
  { quiet_position with history := some a1 }

/-! ## Sort keys; directions -/

/-- Source `set_sort_key` (search_common.c); the complement `~` is taken in the
64 bits of `sortable_move_t`. -/
def set_sort_key (mv key : Nat) : Nat :=
  ((key &&& SORT_MASK) <<< SORT_SHIFT) |||
  (mv &&& ((2 ^ 64 - 1) ^^^ (SORT_MASK <<< SORT_SHIFT)))

/-- The beam direction opposite to `d`: the specification's `opposite`, on the
encoding `NN, EE, SS, WW = 0, 1, 2, 3`. -/
def opposite (d : Nat) : Nat := (d + 2) % 4

/-! ## The walk of `fire`, recorded -/

/-- The loop of `fire` with a record of the walk: the squares stepped onto in
order, each with the beam direction on arrival, and the value returned. -/
def fire_trace_loop (board : Nat → Nat) : Nat → Nat → Nat → Option (List (Nat × Nat) × Nat)
  | 0, _, _ => none
  | fuel + 1, sq, bdir =>
    let sq := as_square (sq + beam_of bdir)
    if ptype_of (board sq) = EMPTY then
      (fire_trace_loop board fuel sq bdir).map (fun r => ((sq, bdir) :: r.1, r.2))
    else if ptype_of (board sq) = PAWN then
      let bdir2 := reflect_of bdir (ori_of (board sq))
      if bdir2 < 0 then some ([(sq, bdir)], sq)
      else (fire_trace_loop board fuel sq bdir2.toNat).map (fun r => ((sq, bdir) :: r.1, r.2))
    else if ptype_of (board sq) = KING then some ([(sq, bdir)], sq)
    else some ([(sq, bdir)], 0)

/-- Source `fire` with the record of its walk. -/
def fire_trace (p : position_t) : Option (List (Nat × Nat) × Nat) :=
  let fake_color_to_move := if color_to_move_of p = WHITE then BLACK else WHITE
  let sq := p.kloc fake_color_to_move
  let bdir := ori_of (p.board sq)
  fire_trace_loop p.board LASER_FUEL sq bdir

/-! ## Move text -/

/-- Source `square_to_str`: the characters that `snprintf` writes for `"%c%d"`
into a buffer that holds them (the callers pass `MAX_CHARS_IN_MOVE = 16`): the
character `'a' + f` and the rank in decimal. The file `f` is an unsigned byte,
so the test `f >= 0` holds and the second branch is never taken. -/
def square_to_str (sq : Nat) : List Char :=
  let f := fil_of sq
  let r := rnk_of sq
  Char.ofNat (('a'.toNat + f) % 256) :: Nat.toDigits 10 r

/-- Source `move_to_str`: the characters written to the buffer. -/
def move_to_str (mv : Nat) : List Char :=
  let f := from_square mv
  let t := to_square mv
  let r := rot_of mv
  let buf := square_to_str f
  if f ≠ t then buf ++ square_to_str t
  else if r = NONE then buf ++ square_to_str t
  else if r = RIGHT then buf ++ ['R']
  else if r = UTURN then buf ++ ['U']
  else if r = LEFT then buf ++ ['L']
  else buf

/-- The name of a square of the playing area in the specification: the file
letter `a .. j`, then the rank digit `0 .. 9`. -/
def square_name (sq : Nat) : List Char :=
  [Char.ofNat ('a'.toNat + (sq / ARR_WIDTH - FIL_ORIGIN)),
   Char.ofNat ('0'.toNat + (sq % ARR_WIDTH - RNK_ORIGIN))]

/-! ## Static evaluation: the end of `eval` -/

/-- Source `EV_SCORE_RATIO` (eval.h). -/
@[reducible] def EV_SCORE_RATIO : Nat := 100

/-- Source `eval` (eval.c) from the line `tot = score[WHITE] - score[BLACK]`
on. The two sums `score[WHITE]` and `score[BLACK]` are the pair given by
`scores`, a function of the board, `kloc` and `plocs`: the part of `eval` above
that line reads no other field of the position. `rnd` is the value drawn from
`rand_r`. The `int32_t` arithmetic is taken in range, and `/` is the
truncating division of C. -/
def eval (RANDOMIZE : Nat) (rnd : Nat)
    (scores : (Nat → Nat) → (Nat → Nat) → (Nat → Nat → Nat) → Int × Int)
    (p : position_t) : Int :=
  let score := scores p.board p.kloc p.plocs
  let tot := score.1 - score.2
  let tot :=
    if RANDOMIZE ≠ 0 then tot + ((rnd : Int) % (RANDOMIZE * 2 + 1)) - RANDOMIZE else tot
  let tot := if color_to_move_of p = BLACK then -tot else tot
  Int.tdiv tot EV_SCORE_RATIO

/-! ## Search: draws and game over (search_common.c) -/

/-- The constants and tunable integers that the search code reads from
`search.h` and the options table; the header is not among the sources, so
they are parameters. -/
structure search_config where
  INF : Int
  WIN : Int
  DRAW : Int
  PAWN_VALUE : Int
  HMB : Int
  USE_NMM : Int
  DETECT_DRAWS : Int
  FUT_DEPTH : Int
  LMR_R1 : Int
  LMR_R2 : Int
  ENABLE_TABLES : Int
  USE_KO : Int

/-- The chain of `history` pointers of a position: the predecessor, its
predecessor, and so on up to the null pointer. -/
def ancestors : position_t → List position_t
  | ⟨_, none, _, _, _, _, _, _⟩ => []
  | ⟨_, some h, _, _, _, _, _, _⟩ => h :: ancestors h

/-- The `while (true)` loop of `is_repeated` from the pointer `x`: `some true`
on `return true`, `some false` on `break`, `none` when the loop follows a null
pointer. -/
def is_repeated_loop (cur : Nat) : position_t → Option Bool
  | ⟨_, h, _, _, _, v, _, _⟩ =>
    if ¬ zero_victims v = true then some false
    else match h with
      | none => none
      | some ⟨_, h2, k2, _, _, v2, _, _⟩ =>
        if ¬ zero_victims v2 = true then some false
        else if k2 = cur then some true
        else match h2 with
          | none => none
          | some x3 => is_repeated_loop cur x3

/-- Source `is_repeated`. -/
def is_repeated (DETECT_DRAWS : Int) (p : position_t) (ply : Int) : Option Bool :=
  if DETECT_DRAWS = 0 then some false
  else match p.history with
    | none => none
    | some x => is_repeated_loop p.key x

/-- The `while (true)` loop of `get_draw_score` from the pointer `x`:
`some (some score)` on `return score`, `some none` when the loop is left by
`break` and `assert(false)` is reached, `none` when the loop follows a null
pointer. -/
def get_draw_score_loop (DRAW : Int) (cur : Nat) (ply : Int) : position_t → Option (Option Int)
  | ⟨_, h, _, _, _, v, _, _⟩ =>
    if ¬ zero_victims v = true then some none
    else match h with
      | none => none
      | some ⟨_, h2, k2, _, _, v2, _, _⟩ =>
        if ¬ zero_victims v2 = true then some none
        else if k2 = cur then some (some (if ply % 2 ≠ 0 then -DRAW else DRAW))
        else match h2 with
          | none => none
          | some x3 => get_draw_score_loop DRAW cur ply x3

/-- Source `get_draw_score`. -/
def get_draw_score (DRAW : Int) (p : position_t) (ply : Int) : Option (Option Int) :=
  match p.history with
  | none => none
  | some x => get_draw_score_loop DRAW p.key ply x

/-- Source `is_game_over`. -/
def is_game_over (victims : victims_t) (pov ply : Int) : Bool :=
  decide (ptype_of victims.zapped = KING)

/-- Source `get_game_over_score`. -/
def get_game_over_score (WIN : Int) (victims : victims_t) (pov ply : Int) : Int :=
  let score := if color_of victims.zapped = WHITE then -WIN * pov else WIN * pov
  if score < 0 then score + ply else score - ply

/-- The loop of `is_repeated` read on the list of the positions it walks
through, two at a time. -/
def repetition_scan (cur : Nat) : List position_t → Option Bool
  | [] => none
  | [x] => if ¬ zero_victims x.victims = true then some false else none
  | x :: x2 :: rest =>
    if ¬ zero_victims x.victims = true then some false
    else if ¬ zero_victims x2.victims = true then some false
    else if x2.key = cur then some true
    else repetition_scan cur rest

/-! ## Search: nodes, leaf evaluation, move evaluation (search_common.c) -/

/-- Source `MAX_PLY_IN_SEARCH`. -/
@[reducible] def MAX_PLY_IN_SEARCH : Nat := 100

/-- The enumeration `moveEvaluationResult_t`. -/
inductive moveEvaluationResult_t where
  | MOVE_EVALUATED
  | MOVE_ILLEGAL
  | MOVE_IGNORE
  | MOVE_GAMEOVER
deriving DecidableEq

/-- The enumeration `searchType_t` of `search.h`, which is not among the
sources: the code names `SEARCH_SCOUT` and tests `type != SEARCH_SCOUT`; the
other searches are gathered under `SEARCH_PV`. -/
inductive searchType_t where
  | SEARCH_PV
  | SEARCH_SCOUT
deriving DecidableEq

open moveEvaluationResult_t searchType_t

/-- The record `searchNode` of `search.h`, which is not among the sources, with
the fields that the embedded code reads or writes; `subpv` is the array
`subpv[MAX_PLY_IN_SEARCH]`. -/
structure searchNode where
  position : position_t
  type : searchType_t
  depth : Int
  ply : Int
  alpha : Int
  beta : Int
  best_score : Int
  best_move_index : Int
  legal_move_count : Int
  quiescence : Bool
  fake_color_to_move : Nat
  pov : Int
  abort : Bool
  subpv : Nat → Nat

/-- The record `moveEvaluationResult`. -/
structure moveEvaluationResult where
  score : Int
  type : moveEvaluationResult_t
  next_node : searchNode

/-- The record `leafEvalResult`. -/
structure leafEvalResult where
  score : Int
  type : moveEvaluationResult_t
  should_enter_quiescence : Bool
  hash_table_move : Nat

/-- What the transposition table gives for a node when it holds a record for
its key: the values of `tt_is_usable(rec, depth, beta)`,
`tt_adjust_score_from_hashtable(rec, ply)` and `tt_move_of(rec)`; the table
itself is not among the sources. -/
structure tt_lookup where
  usable : Bool
  score : Int
  move : Nat

/-- The table `fmarg[10]`. -/
def fmarg (PAWN_VALUE : Int) : List Int :=
  [0, Int.tdiv PAWN_VALUE 2, PAWN_VALUE, Int.tdiv (PAWN_VALUE * 5) 2,
   Int.tdiv (PAWN_VALUE * 9) 2, PAWN_VALUE * 7, PAWN_VALUE * 10, PAWN_VALUE * 15,
   PAWN_VALUE * 20, PAWN_VALUE * 30]

/-- Source `evaluate_as_leaf`; `rec` is the result of `tt_hashtable_get` for the
key of the node, and `RANDOMIZE`, `rnd`, `scores` are passed to `eval`. -/
def evaluate_as_leaf (cfg : search_config) (RANDOMIZE : Nat) (rnd : Nat)
    (scores : (Nat → Nat) → (Nat → Nat) → (Nat → Nat → Nat) → Int × Int)
    (rec : Option tt_lookup) (node : searchNode) (type : searchType_t) : leafEvalResult :=
  let result : leafEvalResult :=
    { type := MOVE_IGNORE, score := -cfg.INF, should_enter_quiescence := false,
      hash_table_move := 0 }
  let rest := fun (result : leafEvalResult) =>
    let sps := eval RANDOMIZE rnd scores node.position + cfg.HMB
    let quiescence := decide (node.depth ≤ 0)
    let result := { result with should_enter_quiescence := quiescence }
    let result := if quiescence = true then { result with score := sps } else result
    if quiescence = true ∧ result.score ≥ node.beta then
      { result with type := MOVE_EVALUATED }
    else if type = SEARCH_SCOUT ∧ cfg.USE_NMM ≠ 0 ∧ node.depth ≤ 2 ∧
        node.depth = 1 ∧ sps ≥ node.beta + 3 * cfg.PAWN_VALUE then
      { result with type := MOVE_EVALUATED, score := node.beta }
    else if type = SEARCH_SCOUT ∧ cfg.USE_NMM ≠ 0 ∧ node.depth ≤ 2 ∧
        node.depth = 2 ∧ sps ≥ node.beta + 5 * cfg.PAWN_VALUE then
      { result with type := MOVE_EVALUATED, score := node.beta }
    else if type = SEARCH_SCOUT ∧ node.depth ≤ cfg.FUT_DEPTH ∧ node.depth > 0 ∧
        sps + (fmarg cfg.PAWN_VALUE).getD node.depth.toNat 0 < node.beta then
      { result with should_enter_quiescence := true, score := sps }
    else result
  match rec with
  | some r =>
    if type = SEARCH_SCOUT ∧ r.usable = true then
      { result with type := MOVE_EVALUATED, score := r.score }
    else rest { result with hash_table_move := r.move }
  | none => rest result

/-- The value of `next_reduction` computed by `evaluateMove` for the late move
reductions. -/
def late_move_reduction (cfg : search_config) (type : searchType_t) (node : searchNode)
    (victims : victims_t) (mv killer_a killer_b : Nat) : Int :=
  if type = SEARCH_SCOUT ∧ node.legal_move_count + 1 ≥ cfg.LMR_R1 ∧ node.depth > 2 ∧
      zero_victims victims = true ∧ mv ≠ killer_a ∧ mv ≠ killer_b then
    (if node.legal_move_count + 1 ≥ cfg.LMR_R2 then 2 else 1)
  else 0

/-- Source `evaluateMove`: the record written to `*result` and the child
searches started, each with its kind and depth, in order. `scout_search n d`
and `searchPV n d` stand for the value returned by that search on
`result->next_node` with depth `d` when it is the `n`-th child search of this
call; `abortf` is the abort flag as read after the reduced search. `none` when
`make_move` or the repetition test does not return. -/
def evaluateMove (cfg : search_config) (zob : Nat → Nat → Nat) (zob_color : Nat)
    (scout_search searchPV : Nat → Int → Int) (abortf : Bool)
    (node : searchNode) (mv killer_a killer_b : Nat) (type : searchType_t)
    (result : moveEvaluationResult) :
    Option (moveEvaluationResult × List (searchType_t × Int)) :=
  match make_move zob zob_color cfg.USE_KO node.position mv with
  | none => none
  | some (next, victims) =>
    let result := { result with next_node := { result.next_node with position := next } }
    if is_KO victims = true then some ({ result with type := MOVE_ILLEGAL }, [])
    else if is_game_over victims node.pov node.ply = true then
      some ({ result with type := MOVE_GAMEOVER,
                          score := get_game_over_score cfg.WIN victims node.pov node.ply }, [])
    else if zero_victims victims = true ∧ node.quiescence = true then
      some ({ result with type := MOVE_IGNORE }, [])
    else
      match is_repeated cfg.DETECT_DRAWS next node.ply with
      | none => none
      | some true =>
        match get_draw_score cfg.DRAW next node.ply with
        | some (some score) => some ({ result with type := MOVE_GAMEOVER, score := score }, [])
        | _ => none
      | some false =>
        let blunder := decide (victims.stomped = 0 ∧ victims.zapped > 0 ∧
          color_of victims.zapped = node.fake_color_to_move)
        if node.quiescence = true ∧ blunder = true then
          some ({ result with type := MOVE_IGNORE }, [])
        else
          let ext : Int := if victim_exists victims = true ∧ ¬ blunder = true then 1 else 0
          let next_reduction := late_move_reduction cfg type node victims mv killer_a killer_b
          let result := { result with type := MOVE_EVALUATED }
          let search_depth := ext + node.depth - 1
          let rest := fun (n : Nat) (calls : List (searchType_t × Int)) (search_depth : Int) =>
            if abortf = true then ({ result with score := 0, type := MOVE_IGNORE }, calls)
            else if type = SEARCH_SCOUT then
              ({ result with score := -scout_search n search_depth },
                calls ++ [(SEARCH_SCOUT, search_depth)])
            else if node.legal_move_count = 0 ∨ node.quiescence = true then
              ({ result with score := -searchPV n search_depth },
                calls ++ [(SEARCH_PV, search_depth)])
            else
              let score := -scout_search n search_depth
              if score > node.alpha then
                ({ result with score := -searchPV (n + 1) (node.depth + ext - 1) },
                  calls ++ [(SEARCH_SCOUT, search_depth), (SEARCH_PV, node.depth + ext - 1)])
              else ({ result with score := score }, calls ++ [(SEARCH_SCOUT, search_depth)])
          if next_reduction > 0 then
            let search_depth := search_depth - next_reduction
            let reduced_depth_score := -scout_search 0 search_depth
            if reduced_depth_score < node.beta then
              some ({ result with score := reduced_depth_score },
                [(SEARCH_SCOUT, search_depth)])
            else some (rest 1 [(SEARCH_SCOUT, search_depth)] (search_depth + next_reduction))
          else some (rest 0 [] search_depth)

/-- Source `search_process_score`: the node, the killer table and the value
returned; `killer ply i` is `killer[KMT(ply, i)]`. -/
def search_process_score (cfg : search_config) (killer : Int → Nat → Nat)
    (node : searchNode) (mv : Nat) (mv_index : Int) (result : moveEvaluationResult)
    (type : searchType_t) : searchNode × (Int → Nat → Nat) × Bool :=
  if result.score > node.best_score then
    let node := { node with
      best_score := result.score, best_move_index := mv_index,
      subpv := fun i =>
        if i = 0 then mv
        else if i = MAX_PLY_IN_SEARCH - 1 then 0
        else if i < MAX_PLY_IN_SEARCH then result.next_node.subpv (i - 1)
        else node.subpv i }
    let node :=
      if type ≠ SEARCH_SCOUT ∧ result.score > node.alpha then
        { node with alpha := result.score }
      else node
    if result.score ≥ node.beta then
      let killer :=
        if mv ≠ killer node.ply 0 ∧ cfg.ENABLE_TABLES ≠ 0 then
          fun ply i =>
            if ply = node.ply ∧ i = 0 then mv
            else if ply = node.ply ∧ i = 1 then killer node.ply 0
            else killer ply i
        else killer
      (node, killer, true)
    else (node, killer, false)
  else (node, killer, false)

/-- The body of the serial loop of `scout_search` after the call of
`evaluateMove`: the node, the killer table and whether the loop is left by
`break`; `parent_aborted` is the value of `parallel_parent_aborted(node)`. -/
def scout_search_after_move (cfg : search_config) (killer : Int → Nat → Nat)
    (abortf parent_aborted : Bool) (node : searchNode) (mv : Nat) (local_index : Int)
    (result : moveEvaluationResult) : searchNode × (Int → Nat → Nat) × Bool :=
  if result.type = MOVE_ILLEGAL ∨ result.type = MOVE_IGNORE ∨ abortf = true ∨
      parent_aborted = true then (node, killer, false)
  else
    let node :=
      if result.type = MOVE_EVALUATED then
        { node with legal_move_count := node.legal_move_count + 1 }
      else node
    let r := search_process_score cfg killer node mv local_index result SEARCH_SCOUT
    if r.2.2 = true then ({ r.1 with abort := true }, r.2.1, true) else r

/-- A configuration of the search for the examples. -/
def example_config : search_config :=
  { INF := 32700, WIN := 32000, DRAW := 0, PAWN_VALUE := 100, HMB := 50,
    USE_NMM := 1, DETECT_DRAWS := 1, FUT_DEPTH := 3, LMR_R1 := 5, LMR_R2 := 20,
    ENABLE_TABLES := 1, USE_KO := 1 }

/-- A scout node on `quiet_position` for the examples: depth 1, window
`(-1001, -1000)`. -/
def example_node : searchNode :=
  { position := quiet_position, type := SEARCH_SCOUT, depth := 1, ply := 0,
    alpha := -1001, beta := -1000, best_score := -32700, best_move_index := 0,
    legal_move_count := 0, quiescence := false, fake_color_to_move := WHITE, pov := 1,
    abort := false, subpv := fun _ => 0 }

/-- A record `moveEvaluationResult` for the examples. -/
def example_move_result : moveEvaluationResult :=
  { score := 0, type := MOVE_IGNORE, next_node := example_node }

/-! ## Static evaluation: laser heuristics and king facing (eval.c) -/

/-- Conversion of an `int` to `int8_t`. -/
def as_int8 (x : Int) : Int := (x + 128) % 256 - 128

/-- The record `heuristics_t` without its field `h_attackable`, which is
computed in floating point and is not modelled. -/
structure heuristics_t where
  pawnpin : Int
  mobility : Int
deriving DecidableEq

/-- The test of `mark_laser_path_heuristics` that the square `sq` lies in the
bounding box `left .. right`, `bottom .. top` around the King. -/
def in_bounding_box (right left top bottom : Int) (sq : Nat) : Prop :=
  ((fil_of sq : Int) ≤ right ∧ (fil_of sq : Int) ≥ left) ∧
  ((rnk_of sq : Int) ≥ bottom ∧ (rnk_of sq : Int) ≤ top)

instance in_bounding_box_decidable (right left top bottom : Int) (sq : Nat) :
    Decidable (in_bounding_box right left top bottom sq) := by
  unfold in_bounding_box; infer_instance

/-- The `while (true)` loop of `mark_laser_path_heuristics` for the shooter
colour `c`, under a step budget. -/
def heuristics_loop (board : Nat → Nat) (c : Nat) (right left top bottom : Int) :
    Nat → heuristics_t → Nat → Nat → Option heuristics_t
  | 0, _, _, _ => none
  | fuel + 1, heuristics, sq, bdir =>
    let sq := as_square (sq + beam_of bdir)
    let heuristics :=
      if in_bounding_box right left top bottom sq ∧ ptype_of (board sq) ≠ INVALID then
        { heuristics with mobility := as_int8 (heuristics.mobility - 1) }
      else heuristics
    if ptype_of (board sq) = EMPTY then
      heuristics_loop board c right left top bottom fuel heuristics sq bdir
    else if ptype_of (board sq) = PAWN then
      let heuristics :=
        if color_of (board sq) ≠ c then
          { heuristics with pawnpin := as_int8 (heuristics.pawnpin + 1) }
        else heuristics
      let bdir := reflect_of bdir (ori_of (board sq))
      if bdir < 0 then some heuristics
      else heuristics_loop board c right left top bottom fuel heuristics sq bdir.toNat
    else some heuristics

/-- Source `mark_laser_path_heuristics` (eval.c), on the fields `pawnpin` and
`mobility` of the record. -/
def mark_laser_path_heuristics (p : position_t) (c : Nat) (heuristics : heuristics_t) :
    Option heuristics_t :=
  let king_sq := p.kloc (opp_color c)
  let sq := p.kloc c
  let bdir := ori_of (p.board sq)
  let right := as_int8 ((fil_of king_sq : Int) + 1)
  let left := as_int8 ((fil_of king_sq : Int) - 1)
  let top := as_int8 ((rnk_of king_sq : Int) + 1)
  let bottom := as_int8 ((rnk_of king_sq : Int) - 1)
  let heuristics :=
    if in_bounding_box right left top bottom sq then
      { heuristics with mobility := as_int8 (heuristics.mobility - 1) }
    else heuristics
  let heuristics := (List.range 8).foldl (fun heuristics d =>
    let new_sq := as_square (king_sq + dir_of d)
    if ptype_of (p.board new_sq) = INVALID then
      { heuristics with mobility := as_int8 (heuristics.mobility - 1) }
    else heuristics) heuristics
  heuristics_loop p.board c right left top bottom LASER_FUEL heuristics sq bdir

/-- The counter `number_pawns[c]` of `eval` after its loop over `plocs[c]`. -/
def number_pawns (p : position_t) (c : Nat) : Nat :=
  ((List.range NUMBER_PAWNS).filter (fun i => decide (p.plocs c i ≠ 0))).length

/-- The factor of `PAWNPIN` in `eval` for the colour `c`:
`number_pawns[c] - heuristics->pawnpin`, for the record filled by
`mark_laser_path_heuristics` on the laser of the other colour from
`{ .pawnpin = 0, .mobility = 9 }`. -/
def eval_unpinned (p : position_t) (c : Nat) : Option Int :=
  (mark_laser_path_heuristics p (opp_color c) ⟨0, 9⟩).map
    (fun heuristics => (number_pawns p c : Int) - heuristics.pawnpin)

/-- The value of an arithmetic result as an `int` of 32 bits (two's-complement
wrap). -/
def as_int32 (x : Int) : Int := (x + 2147483648) % 4294967296 - 2147483648

/-- Source `kface` (eval.c), for the tunable integer `KFACE`; the product
`bonus * KFACE` is taken in the 32 bits of `int`, and `/` is the truncating
division of C. -/
def kface (KFACE : Int) (p : position_t) (f r : Nat) : Int :=
  let sq := square_of f r
  let x := p.board sq
  let c := color_of x
  let opp_sq := p.kloc (opp_color c)
  let delta_fil : Int := (fil_of opp_sq : Int) - f
  let delta_rnk : Int := (rnk_of opp_sq : Int) - r
  let bonus : Int :=
    if ori_of x = NN then delta_rnk
    else if ori_of x = EE then delta_fil
    else if ori_of x = SS then -delta_rnk
    else if ori_of x = WW then -delta_fil
    else 0
  Int.tdiv (as_int32 (bonus * KFACE))
    ((Int.natAbs delta_rnk : Int) + (Int.natAbs delta_fil : Int))

/-- One turn of the loop of `mark_laser_path_heuristics` as it changes the
record on stepping onto the square `sq`. -/
def heuristics_step (board : Nat → Nat) (c : Nat) (right left top bottom : Int)
    (heuristics : heuristics_t) (sq : Nat) : heuristics_t :=
  let heuristics :=
    if in_bounding_box right left top bottom sq ∧ ptype_of (board sq) ≠ INVALID then
      { heuristics with mobility := as_int8 (heuristics.mobility - 1) }
    else heuristics
  if ptype_of (board sq) = PAWN ∧ color_of (board sq) ≠ c then
    { heuristics with pawnpin := as_int8 (heuristics.pawnpin + 1) }
  else heuristics

/-- The nine squares of the 3 x 3 box around the square `king_sq`: the square
itself and its eight neighbours `king_sq + dir_of d`. -/
def king_box (king_sq : Nat) : List Nat :=
  king_sq :: (List.range 8).map (fun d => as_square (king_sq + dir_of d))

/-- A position in which the Black laser runs round a rectangle of Pawns and
comes back to the first of them: Black King on a5 facing E, a White Pawn on
c5 (NW), Black Pawns on c7 (SE), e7 (SW) and e5 (NW), White King on j0, White
to move. -/
def loop_position : position_t :=
  let board :=
    Function.update (Function.update (Function.update (Function.update (Function.update
      (Function.update empty_board
      (square_of 9 0) (piece_byte KING WHITE NN))
      (square_of 0 5) (piece_byte KING BLACK EE))
      (square_of 2 5) (piece_byte PAWN WHITE NW))
      (square_of 2 7) (piece_byte PAWN BLACK SE))
      (square_of 4 7) (piece_byte PAWN BLACK SW))
      (square_of 4 5) (piece_byte PAWN BLACK NW)
  let p : position_t :=
    { board := board, history := none, key := 0, ply := 0, last_move := 0,
      victims := ⟨0, 0⟩,
      kloc := fun c => if c = WHITE then square_of 9 0 else square_of 0 5,
      plocs := fun c i =>
        if c = WHITE then (if i = 0 then square_of 2 5 else 0)
        else (if i = 0 then square_of 2 7 else if i = 1 then square_of 4 7
          else if i = 2 then square_of 4 5 else 0) }
  { p with key := compute_zob_key example_zob example_zob_color p }

/-! ## Sorting the move list (search_common.c) -/

/-- Source `sort_incremental_new`: the move list after the call. The loop
runs over `j = mv_index + 1, ..., num_of_moves - 1` on the pair
(`insert`, `hole`). -/
def sort_incremental_new (move_list : Nat → Nat) (num_of_moves mv_index : Nat) : Nat → Nat :=
  let s := (List.range' (mv_index + 1) (num_of_moves - (mv_index + 1))).foldl
    (fun (s : Nat × Nat) j => if move_list j > s.1 then (move_list j, j) else s)
    (move_list mv_index, mv_index)
  let insert := s.1
  let hole := s.2
  let move_list := Function.update move_list hole (move_list mv_index)
  Function.update move_list mv_index insert

/-- The `while` loop of `sort_incremental` for the value `insert`, from the
given `hole`: the move list and the hole when the loop is left. -/
def sort_incremental_shift (insert : Nat) : (Nat → Nat) → Nat → (Nat → Nat) × Nat
  | move_list, 0 => (move_list, 0)
  | move_list, hole + 1 =>
    if insert > move_list hole then
      sort_incremental_shift insert
        (Function.update move_list (hole + 1) (move_list hole)) hole
    else (move_list, hole + 1)

/-- Source `sort_incremental`: the move list after the call; `mv_index` is not
read, as in the source. -/
def sort_incremental (move_list : Nat → Nat) (num_of_moves mv_index : Nat) : Nat → Nat :=
  (List.range num_of_moves).foldl (fun move_list j =>
    let insert := move_list j
    let r := sort_incremental_shift insert move_list j
    Function.update r.1 r.2 insert) move_list

/-- The move list after the calls `sort_incremental_new(move_list,
num_of_moves, i)` for `i = 0, ..., k - 1`, in turn. -/
def sort_incremental_new_upto (move_list : Nat → Nat) (num_of_moves k : Nat) : Nat → Nat :=
  (List.range k).foldl (fun move_list i => sort_incremental_new move_list num_of_moves i)
    move_list

/-- The entries `lo, ..., lo + count - 1` of a move list, in order. -/
def move_entries (move_list : Nat → Nat) (lo count : Nat) : List Nat :=
  (List.range' lo count).map move_list

/-- A move list for the examples: the entries 0..5 are 30, 10, 50, 20, 50, 40. -/
def example_move_list : Nat → Nat :=
  fun i => [30, 10, 50, 20, 50, 40].getD i 0

/-- The body of the outer loop of `sort_incremental` for the index `j`. -/
def sort_incremental_body (move_list : Nat → Nat) (j : Nat) : Nat → Nat :=
  Function.update (sort_incremental_shift (move_list j) move_list j).1
    (sort_incremental_shift (move_list j) move_list j).2 (move_list j)

/-- The order `>=` on the sortable moves is antisymmetric. -/
instance ge_antisymm : IsAntisymm Nat (fun x y => x ≥ y) :=
  ⟨fun _ _ h1 h2 => le_antisymm h2 h1⟩

/-- The order `>=` on the sortable moves is total. -/
instance ge_total : IsTotal Nat (fun x y => x ≥ y) :=
  ⟨fun a b => (le_total a b).symm⟩

/-- The order `>=` on the sortable moves is transitive. -/
instance ge_trans : IsTrans Nat (fun x y => x ≥ y) :=
  ⟨fun _ _ _ h1 h2 => le_trans h2 h1⟩

/-! ## The laser walk with its array indices -/

/-- The walk common to `fire`, `mark_laser_path` and
`mark_laser_path_heuristics`, with a record of the value `sq + beam_of(bdir)`
of every step as an integer, before it is stored in the `square_t` variable
that indexes the board. -/
def laser_index_loop (board : Nat → Nat) : Nat → Nat → Nat → Option (List Int)
  | 0, _, _ => none
  | fuel + 1, sq, bdir =>
    let index : Int := sq + beam_of bdir
    let sq := as_square index
    if ptype_of (board sq) = EMPTY then (laser_index_loop board fuel sq bdir).map (index :: ·)
    else if ptype_of (board sq) = PAWN then
      let bdir := reflect_of bdir (ori_of (board sq))
      if bdir < 0 then some [index]
      else (laser_index_loop board fuel sq bdir.toNat).map (index :: ·)
    else some [index]

/-! ## The successor positions of `perft_search` -/

/-- The body of the loop of `perft_search` for the move `mv` up to the
recursive call: the position `np` and whether the loop went on with
`continue` because the laser hit a King; `none` when the laser walk does not
stop. -/
def perft_successor (zob : Nat → Nat → Nat) (zob_color : Nat) (p : position_t) (mv : Nat) :
    Option (position_t × Bool) :=
  let r := low_level_make_move zob zob_color p mv
  let np := r.1
  let stomped_sq := r.2
  let np : position_t :=
    if stomped_sq ≠ 0 then
      let stomped := np.board stomped_sq
      let key := np.key ^^^ zob stomped_sq stomped
      let board := Function.update np.board stomped_sq 0
      let key := key ^^^ zob stomped_sq 0
      { np with victims := { np.victims with stomped := stomped }, key := key, board := board }
    else np
  match fire np with
  | none => none
  | some victim_sq =>
    if victim_sq ≠ 0 then
      let typ := ptype_of (np.board victim_sq)
      if typ = KING then some (np, true)
      else
        let zapped := np.board victim_sq
        let key := np.key ^^^ zob victim_sq zapped
        let board := Function.update np.board victim_sq 0
        let key := key ^^^ zob victim_sq 0
        some ({ np with victims := { np.victims with zapped := zapped }, key := key,
                        board := board }, false)
    else some (np, false)

/-- The position `quiet_position` with a Black Pawn added on d4, which the
White Pawn on c3 can stomp; the White laser leaves the board. -/
def stomp_position : position_t :=
  let p : position_t :=
    { quiet_position with
      board := Function.update quiet_position.board (square_of 3 4) (piece_byte PAWN BLACK SW),
      plocs := fun c i => if c = WHITE then (if i = 2 then square_of 2 3 else 0)
        else (if i = 0 then square_of 3 4 else 0) }
  { p with key := compute_zob_key example_zob example_zob_color p }

/-- The value of `perft_successor` on an example, with a default for `none`. -/
def example_perft_successor (p : position_t) (mv : Nat) : position_t × Bool :=
  (perft_successor example_zob example_zob_color p mv).getD (p, false)

/-! ## The board-scanning move generator `old_generate_all` -/

/-- The body of the loops over files and ranks of `old_generate_all` for the
square `sq`: the `switch` on the piece type, with the fall-through from the
case PAWN into the case KING. -/
def old_gen_square (p : position_t) (color_to_move : Nat) (laser_map : Nat → Nat)
    (s : (Nat → Nat) × Nat) (sq : Nat) : (Nat → Nat) × Nat :=
  let x := p.board sq
  let typ := ptype_of x
  let color := color_of x
  if typ = EMPTY then s
  else if typ = PAWN ∧ laser_map sq = 1 then s
  else if typ = PAWN ∨ typ = KING then
    if color ≠ color_to_move then s
    else
      let s := (List.range 8).foldl (fun s d =>
        let dest : Int := sq + dir_of d
        if ptype_of (p.board dest.toNat) = INVALID ∨ ptype_of (p.board dest.toNat) = KING ∨
            (typ = KING ∧ ptype_of (p.board dest.toNat) ≠ EMPTY) ∨
            (typ = PAWN ∧ ptype_of (p.board dest.toNat) = PAWN ∧
              color = color_of (p.board dest.toNat))
        then s
        else emit s (move_of typ 0 sq (as_square dest))) s
      let s := (List.range' 1 3).foldl (fun s rot => emit s (move_of typ rot sq sq)) s
      if typ = KING then emit s (move_of typ 0 sq sq) else s
  else s

/-- Source `old_generate_all`: the move list after the call and the returned
move count; `none` when the marking of the enemy laser does not stop.
`strict` is ignored, as in the source. -/
def old_generate_all (p : position_t) (sortable_move_list : Nat → Nat) (strict : Bool) :
    Option ((Nat → Nat) × Nat) :=
  let color_to_move := color_to_move_of p
  match mark_laser_path p init_laser_map (opp_color color_to_move) 1 with
  | none => none
  | some laser_map =>
    let s : (Nat → Nat) × Nat := (sortable_move_list, 0)
    some ((List.range BOARD_WIDTH).foldl (fun s f =>
      (List.range BOARD_WIDTH).foldl (fun s r =>
        old_gen_square p color_to_move laser_map s (square_of f r)) s) s)

/-- The moves written by the body of the loops of `old_generate_all` for the
square `sq`, as a list in the order written. -/
def old_block (p : position_t) (laser_map : Nat → Nat) (sq : Nat) : List Nat :=
  let typ := ptype_of (p.board sq)
  let color := color_of (p.board sq)
  if typ = EMPTY then []
  else if typ = PAWN ∧ laser_map sq = 1 then []
  else if typ = PAWN ∨ typ = KING then
    if color ≠ color_to_move_of p then []
    else
      ((List.range 8).filter (fun d =>
        decide (¬ (ptype_of (p.board ((sq : Int) + dir_of d).toNat) = INVALID ∨
          ptype_of (p.board ((sq : Int) + dir_of d).toNat) = KING ∨
          (typ = KING ∧ ptype_of (p.board ((sq : Int) + dir_of d).toNat) ≠ EMPTY) ∨
          (typ = PAWN ∧ ptype_of (p.board ((sq : Int) + dir_of d).toNat) = PAWN ∧
            color = color_of (p.board ((sq : Int) + dir_of d).toNat)))))).map
        (fun d => move_of typ 0 sq (as_square ((sq : Int) + dir_of d)))
      ++ (List.range' 1 3).map (fun rot => move_of typ rot sq sq)
      ++ (if typ = KING then [move_of typ 0 sq sq] else [])
  else []

/-! ## The scout search of one node (search_scout.c) -/

/-- Source `YOUNG_BROTHERS_WAIT`. -/
@[reducible] def YOUNG_BROTHERS_WAIT : Int := 5

/-- Source `initialize_scout_node`; `parent` is the node `node->parent`. -/
def initialize_scout_node (node parent : searchNode) (depth : Int) : searchNode :=
  { node with
    type := SEARCH_SCOUT,
    beta := -parent.alpha,
    alpha := -parent.alpha - 1,
    depth := depth,
    ply := parent.ply + 1,
    subpv := Function.update node.subpv 0 0,
    legal_move_count := 0,
    fake_color_to_move := color_to_move_of node.position,
    pov := 1 - (color_to_move_of node.position : Int) * 2,
    best_move_index := 0,
    abort := false }

/-- Source `get_sortable_move_list`: the move list with its sort keys and the
number of moves; `best_move_history c pce ts ot` is the entry
`best_move_history[BMH(c, pce, ts, ot)]` as a sort key and `killer ply i` is
`killer[KMT(ply, i)]` (the tables and their index macros are not among the
sources). `none` when `generate_all` does not return. -/
def get_sortable_move_list (best_move_history : Nat → Nat → Nat → Nat → Nat)
    (killer : Int → Nat → Nat) (node : searchNode) (move_list : Nat → Nat)
    (hash_table_move : Nat) : Option ((Nat → Nat) × Nat) :=
  match generate_all node.position move_list false with
  | none => none
  | some (move_list, num_of_moves) =>
    let fake_color_to_move := color_to_move_of node.position
    let killer_a := killer node.ply 0
    let killer_b := killer node.ply 1
    some ((List.range num_of_moves).foldl (fun move_list mv_index =>
      let mv := get_move (move_list mv_index)
      if mv = hash_table_move then
        Function.update move_list mv_index (set_sort_key (move_list mv_index) SORT_MASK)
      else if mv = killer_a then
        Function.update move_list mv_index (set_sort_key (move_list mv_index) (SORT_MASK - 1))
      else if mv = killer_b then
        Function.update move_list mv_index (set_sort_key (move_list mv_index) (SORT_MASK - 2))
      else
        let pce := ptype_mv_of mv
        let ro := rot_of mv
        let fs := from_square mv
        let ot := ORI_MASK &&& (ori_of (node.position.board fs) + ro)
        let ts := to_square mv
        Function.update move_list mv_index
          (set_sort_key (move_list mv_index) (best_move_history fake_color_to_move pce ts ot)))
      move_list, num_of_moves)

/-- What a call of `scout_search` reads from outside the node while it runs:
the value returned by `should_abort_check()` at entry; the values of
`parallel_parent_aborted(node)` at entry, after the serial loop and after the
parallel loop; for the move with local index `n`, the flag `abortf` as read
inside `evaluateMove`, the flag `abortf` and the value of
`parallel_parent_aborted(node)` as read after `evaluateMove`, and the values
returned by the child searches; the transposition-table record of the node and
the inputs of `eval`; the content of the local `result` before its first
use. -/
structure scout_env where
  should_abort_check : Bool
  parent_aborted_entry : Bool
  parent_aborted_serial : Bool
  parent_aborted_final : Bool
  abortf_move : Nat → Bool
  abortf_after : Nat → Bool
  parent_aborted_after : Nat → Bool
  scout_search : Nat → Nat → Int → Int
  searchPV : Nat → Nat → Int → Int
  tt_record : Option tt_lookup
  RANDOMIZE : Nat
  rnd : Nat
  scores : (Nat → Nat) → (Nat → Nat) → (Nat → Nat → Nat) → Int × Int
  stack_result : moveEvaluationResult

/-- The events of a call of `scout_search` that the claims speak about: a call
of `evaluateMove` in the serial loop, with the local index, the move, and the
values of `node->legal_move_count` and `node->abort` at the top of the
iteration; a call of `evaluateMove` in the parallel loop; the call of
`update_best_move_history` with `best_move_index` and
`number_of_moves_evaluated`; the call of `update_transposition_table`, with
the key, depth and `best_score` of the node. -/
inductive scout_event where
  | serial_move (local_index mv : Nat) (legal_move_count : Int) (abort : Bool)
  | parallel_move (local_index mv : Nat)
  | update_best_move_history (best_move_index : Int) (number_of_moves_evaluated : Nat)
  | update_transposition_table (key : Nat) (depth best_score : Int)
deriving DecidableEq

/-- The variables of `scout_search` that change in its two loops, with the
events so far. -/
structure scout_state where
  node : searchNode
  killer : Int → Nat → Nat
  move_list : Nat → Nat
  number_of_moves_evaluated : Nat
  result : moveEvaluationResult
  events : List scout_event

/-- What a call of `scout_search` leaves: the value returned, the node, the
killer table and the events. -/
structure scout_outcome where
  score : Int
  node : searchNode
  killer : Int → Nat → Nat
  events : List scout_event

/-- The serial loop of `scout_search` with `todo` iterations of the counter
`mv_index` left (the counter is read by the loop test only). `none` when
`evaluateMove` does not return. -/
def scout_serial_loop (cfg : search_config) (zob : Nat → Nat → Nat) (zob_color : Nat)
    (env : scout_env) (killer_a killer_b : Nat) (num_of_moves : Nat) :
    Nat → scout_state → Option scout_state
  | 0, s => some s
  | todo + 1, s =>
    if s.node.legal_move_count > YOUNG_BROTHERS_WAIT then some s
    else
      let move_list := sort_incremental_new s.move_list num_of_moves s.number_of_moves_evaluated
      let local_index := s.number_of_moves_evaluated
      let mv := get_move (move_list local_index)
      match evaluateMove cfg zob zob_color (env.scout_search local_index)
          (env.searchPV local_index) (env.abortf_move local_index) s.node mv killer_a killer_b
          SEARCH_SCOUT s.result with
      | none => none
      | some (result, _) =>
        let r := scout_search_after_move cfg s.killer (env.abortf_after local_index)
          (env.parent_aborted_after local_index) s.node mv local_index result
        let s2 : scout_state :=
          { node := r.1, killer := r.2.1, move_list := move_list,
            number_of_moves_evaluated := local_index + 1, result := result,
            events := s.events ++
              [scout_event.serial_move local_index mv s.node.legal_move_count s.node.abort] }
        if r.2.2 = true then some s2
        else scout_serial_loop cfg zob zob_color env killer_a killer_b num_of_moves todo s2

/-- The `cilk_for` loop of `scout_search` run by one worker, iteration after
iteration (the function sets the Cilk parameter `nworkers` to 1 at its top),
with `todo` iterations left; its body after `evaluateMove` is the body of the
serial loop with `continue` in the place of `break`. -/
def scout_parallel_loop (cfg : search_config) (zob : Nat → Nat → Nat) (zob_color : Nat)
    (env : scout_env) (killer_a killer_b : Nat) :
    Nat → scout_state → Option scout_state
  | 0, s => some s
  | todo + 1, s =>
    if s.node.abort = true then
      scout_parallel_loop cfg zob zob_color env killer_a killer_b todo s
    else
      let local_index := s.number_of_moves_evaluated
      let mv := get_move (s.move_list local_index)
      let result : moveEvaluationResult :=
        { env.stack_result with
          next_node := { env.stack_result.next_node with
            subpv := Function.update env.stack_result.next_node.subpv 0 0 } }
      match evaluateMove cfg zob zob_color (env.scout_search local_index)
          (env.searchPV local_index) (env.abortf_move local_index) s.node mv killer_a killer_b
          SEARCH_SCOUT result with
      | none => none
      | some (result, _) =>
        let r := scout_search_after_move cfg s.killer (env.abortf_after local_index)
          (env.parent_aborted_after local_index) s.node mv local_index result
        scout_parallel_loop cfg zob zob_color env killer_a killer_b todo
          { node := r.1, killer := r.2.1, move_list := s.move_list,
            number_of_moves_evaluated := local_index + 1, result := s.result,
            events := s.events ++ [scout_event.parallel_move local_index mv] }

/-- The end of `scout_search`, from the test of the parent after the parallel
loop on. -/
def scout_finish (env : scout_env) (s : scout_state) : scout_outcome :=
  if env.parent_aborted_final = true then
    { score := 0, node := s.node, killer := s.killer, events := s.events }
  else
    let events :=
      if s.node.quiescence = false then
        s.events ++ [scout_event.update_best_move_history s.node.best_move_index
          s.number_of_moves_evaluated]
      else s.events
    { score := s.node.best_score, node := s.node, killer := s.killer,
      events := events ++ [scout_event.update_transposition_table s.node.position.key
        s.node.depth s.node.best_score] }

/-- Source `scout_search` for one node, the searches of the children being
given by `env`: the value returned, the node, the killer table and the events.
`move_list` is the content of the local array before `generate_all` fills it.
`none` when `generate_all` or `evaluateMove` does not return. -/
def scout_search (cfg : search_config) (zob : Nat → Nat → Nat) (zob_color : Nat)
    (best_move_history : Nat → Nat → Nat → Nat → Nat) (env : scout_env)
    (killer : Int → Nat → Nat) (node parent : searchNode) (depth : Int)
    (move_list : Nat → Nat) : Option scout_outcome :=
  let node := initialize_scout_node node parent depth
  if env.should_abort_check = true ∨ env.parent_aborted_entry = true then
    some { score := 0, node := node, killer := killer, events := [] }
  else
    let pre_evaluation_result :=
      evaluate_as_leaf cfg env.RANDOMIZE env.rnd env.scores env.tt_record node SEARCH_SCOUT
    if pre_evaluation_result.type = MOVE_EVALUATED then
      some { score := pre_evaluation_result.score, node := node, killer := killer, events := [] }
    else
      let hash_table_move := pre_evaluation_result.hash_table_move
      let node := { node with
        best_score := pre_evaluation_result.score,
        quiescence := pre_evaluation_result.should_enter_quiescence }
      let killer_a := killer node.ply 0
      let killer_b := killer node.ply 1
      match get_sortable_move_list best_move_history killer node move_list hash_table_move with
      | none => none
      | some (move_list, num_of_moves) =>
        let result : moveEvaluationResult :=
          { env.stack_result with
            next_node := { env.stack_result.next_node with
              subpv := Function.update env.stack_result.next_node.subpv 0 0 } }
        match scout_serial_loop cfg zob zob_color env killer_a killer_b num_of_moves
            num_of_moves
            { node := node, killer := killer, move_list := move_list,
              number_of_moves_evaluated := 0, result := result, events := [] } with
        | none => none
        | some s =>
          if env.parent_aborted_serial = true then
            some { score := 0, node := s.node, killer := s.killer, events := s.events }
          else if ¬ s.node.abort = true then
            let start_value := s.number_of_moves_evaluated
            match scout_parallel_loop cfg zob zob_color env killer_a killer_b
                (num_of_moves - start_value)
                { s with move_list :=
                    sort_incremental s.move_list num_of_moves s.number_of_moves_evaluated } with
            | none => none
            | some s => some (scout_finish env s)
          else some (scout_finish env s)

/-- The index under which an event of a move was dispatched. -/
def event_index : scout_event → Nat
  | scout_event.serial_move i _ _ _ => i
  | scout_event.parallel_move i _ => i
  | _ => 0

/-- Whether an event is a call of `update_best_move_history` or of
`update_transposition_table`. -/
def is_table_update : scout_event → Bool
  | scout_event.update_best_move_history _ _ => true
  | scout_event.update_transposition_table _ _ _ => true
  | _ => false

/-- Whether an event is a call of `evaluateMove` in the serial loop. -/
def is_serial_move : scout_event → Bool
  | scout_event.serial_move _ _ _ _ => true
  | _ => false

/-- The position `quiet_position` with a predecessor that has a victim, so
that the repetition test of `evaluateMove` ends at once. -/
def search_position : position_t :=
  { quiet_position with
    history := some { late_position with victims := ⟨0, piece_byte PAWN BLACK NN⟩ } }

/-- A parent node with `alpha = -1000` for the examples. -/
def example_parent : searchNode :=
  { example_node with alpha := -1000, ply := 0 }

/-- An environment for the examples in which no abort is seen: every child
search returns 0, the table has no record, the evaluation is 0. -/
def quiet_env : scout_env :=
  { should_abort_check := false, parent_aborted_entry := false,
    parent_aborted_serial := false, parent_aborted_final := false,
    abortf_move := fun _ => false, abortf_after := fun _ => false,
    parent_aborted_after := fun _ => false,
    scout_search := fun _ _ _ => 0, searchPV := fun _ _ _ => 0,
    tt_record := none, RANDOMIZE := 0, rnd := 0, scores := fun _ _ _ => (0, 0),
    stack_result := example_move_result }

/-- The environment `quiet_env` with the time-out: the flag `abortf` is set
during the search of the first child, and is read as set from then on. -/
def timeout_env : scout_env :=
  { quiet_env with abortf_move := fun n => decide (0 < n), abortf_after := fun _ => true }

/-- The outcome of `scout_search` on an example, with a default for `none`. -/
def example_outcome (cfg : search_config) (env : scout_env) (depth : Int) : scout_outcome :=
  (scout_search cfg example_zob example_zob_color (fun _ _ _ _ => 0) env
    (fun _ _ => 0) { example_node with position := search_position } example_parent depth
    zero_list).getD { score := 12345, node := example_node, killer := fun _ _ => 0, events := [] }

/-! ## Devices for the proofs about `scout_search` -/

/-- The chain of predecessors of `p`, `p` first, holds a position with a
victim, so that the loops of `is_repeated` and `get_draw_score` stop before the
end of the chain. -/
def history_ends (p : position_t) : Prop :=
  ∃ (n : Nat) (x : position_t), (p :: ancestors p)[n]? = some x ∧ zero_victims x.victims = false

/-- The first `n` entries of the move list hold moves that meet the
preconditions of `low_level_make_move` on `p`. -/
def moves_ok (p : position_t) (move_list : Nat → Nat) (n : Nat) : Prop :=
  ∀ i, i < n → move_ok p (get_move (move_list i))

/-- The state of `scout_search` after the iteration of the serial loop in
which `evaluateMove` wrote `result`. -/
def serial_next (cfg : search_config) (env : scout_env) (num_of_moves : Nat) (s : scout_state)
    (result : moveEvaluationResult) : scout_state :=
  { node := (scout_search_after_move cfg s.killer (env.abortf_after s.number_of_moves_evaluated)
      (env.parent_aborted_after s.number_of_moves_evaluated) s.node
      (get_move (sort_incremental_new s.move_list num_of_moves s.number_of_moves_evaluated
        s.number_of_moves_evaluated))
      s.number_of_moves_evaluated result).1,
    killer := (scout_search_after_move cfg s.killer
      (env.abortf_after s.number_of_moves_evaluated)
      (env.parent_aborted_after s.number_of_moves_evaluated) s.node
      (get_move (sort_incremental_new s.move_list num_of_moves s.number_of_moves_evaluated
        s.number_of_moves_evaluated))
      s.number_of_moves_evaluated result).2.1,
    move_list := sort_incremental_new s.move_list num_of_moves s.number_of_moves_evaluated,
    number_of_moves_evaluated := s.number_of_moves_evaluated + 1,
    result := result,
    events := s.events ++
      [scout_event.serial_move s.number_of_moves_evaluated
        (get_move (sort_incremental_new s.move_list num_of_moves s.number_of_moves_evaluated
          s.number_of_moves_evaluated))
        s.node.legal_move_count s.node.abort] }

/-- The state of `scout_search` after the iteration of the parallel loop in
which `evaluateMove` wrote `result`. -/
def parallel_next (cfg : search_config) (env : scout_env) (s : scout_state)
    (result : moveEvaluationResult) : scout_state :=
  { node := (scout_search_after_move cfg s.killer (env.abortf_after s.number_of_moves_evaluated)
      (env.parent_aborted_after s.number_of_moves_evaluated) s.node
      (get_move (s.move_list s.number_of_moves_evaluated))
      s.number_of_moves_evaluated result).1,
    killer := (scout_search_after_move cfg s.killer
      (env.abortf_after s.number_of_moves_evaluated)
      (env.parent_aborted_after s.number_of_moves_evaluated) s.node
      (get_move (s.move_list s.number_of_moves_evaluated))
      s.number_of_moves_evaluated result).2.1,
    move_list := s.move_list,
    number_of_moves_evaluated := s.number_of_moves_evaluated + 1,
    result := s.result,
    events := s.events ++
      [scout_event.parallel_move s.number_of_moves_evaluated
        (get_move (s.move_list s.number_of_moves_evaluated))] }

/-- The content of the local `result` of `scout_search` when it is first
passed to `evaluateMove`. -/
def fresh_result (env : scout_env) : moveEvaluationResult :=
  { env.stack_result with
    next_node := { env.stack_result.next_node with
      subpv := Function.update env.stack_result.next_node.subpv 0 0 } }

/-- The node of `scout_search` when the move loops start. -/
def scout_start_node (cfg : search_config) (env : scout_env) (node parent : searchNode)
    (depth : Int) : searchNode :=
  { initialize_scout_node node parent depth with
    best_score := (evaluate_as_leaf cfg env.RANDOMIZE env.rnd env.scores env.tt_record
      (initialize_scout_node node parent depth) SEARCH_SCOUT).score,
    quiescence := (evaluate_as_leaf cfg env.RANDOMIZE env.rnd env.scores env.tt_record
      (initialize_scout_node node parent depth) SEARCH_SCOUT).should_enter_quiescence }

/-- The entries of the move list from which the parallel loop starts. -/
def parallel_start (s : scout_state) (n : Nat) : scout_state :=
  { s with move_list := sort_incremental s.move_list n s.number_of_moves_evaluated }

/-- The configuration `example_config` without the Ko rule. -/
def no_ko_config : search_config := { example_config with USE_KO := 0 }

/-- The scout node on `search_position` for the examples. -/
def search_node : searchNode := { example_node with position := search_position }

/-! # Theorems -/

/-! ## Bit fields as arithmetic -/
theorem ptype_of_eq (x : Nat) : ptype_of x = x / 4 % 4 := by
  unfold ptype_of
  rw [Nat.shiftRight_eq_div_pow]
  exact Nat.and_pow_two_sub_one_eq_mod _ 2

theorem color_of_eq (x : Nat) : color_of x = x / 16 % 2 := by
  unfold color_of
  rw [Nat.shiftRight_eq_div_pow]
  exact Nat.and_pow_two_sub_one_eq_mod _ 1

theorem ori_of_eq (x : Nat) : ori_of x = x % 4 := by
  unfold ori_of
  rw [Nat.shiftRight_eq_div_pow]
  simpa using Nat.and_pow_two_sub_one_eq_mod x 2

set_option maxRecDepth 100000 in
theorem set_ori_byte : ∀ y, y < 256 → ∀ o, o < 4 →
    (o ||| (y &&& 252)) = y / 4 * 4 + o := by
  decide

theorem set_ori_eq (x o : Nat) : set_ori x o = x % 256 / 4 * 4 + o % 4 := by
  unfold set_ori
  have h1 : (o &&& ORI_MASK) = o % 4 := Nat.and_pow_two_sub_one_eq_mod o 2
  have h2 : x &&& 252 = (x % 256) &&& 252 := by
    have : x &&& 255 = x % 256 := Nat.and_pow_two_sub_one_eq_mod x 8
    rw [← this, Nat.and_assoc]
    rfl
  have h3 : (MAX_UINT8_T ^^^ (ORI_MASK <<< ORI_SHIFT)) = 252 := by decide
  rw [h3, h1, h2, Nat.shiftLeft_zero]
  exact set_ori_byte _ (Nat.mod_lt _ (by decide)) _ (Nat.mod_lt _ (by decide))

theorem move_of_eq (typ rot from_sq to_sq : Nat) :
    move_of typ rot from_sq to_sq =
      typ % 4 * 262144 + rot % 4 * 65536 + from_sq % 256 * 256 + to_sq % 256 := by
  unfold move_of
  have h1 : typ &&& PTYPE_MV_MASK = typ % 4 := Nat.and_pow_two_sub_one_eq_mod typ 2
  have h2 : rot &&& ROT_MASK = rot % 4 := Nat.and_pow_two_sub_one_eq_mod rot 2
  have h3 : from_sq &&& FROM_MASK = from_sq % 256 := Nat.and_pow_two_sub_one_eq_mod from_sq 8
  have h4 : to_sq &&& TO_MASK = to_sq % 256 := Nat.and_pow_two_sub_one_eq_mod to_sq 8
  rw [h1, h2, h3, h4]
  simp only [Nat.shiftLeft_eq, Nat.pow_zero, Nat.mul_one]
  have a : typ % 4 < 4 := Nat.mod_lt _ (by decide)
  have b : rot % 4 < 4 := Nat.mod_lt _ (by decide)
  have c : from_sq % 256 < 256 := Nat.mod_lt _ (by decide)
  have d : to_sq % 256 < 256 := Nat.mod_lt _ (by decide)
  generalize typ % 4 = t at *
  generalize rot % 4 = r at *
  generalize from_sq % 256 = f at *
  generalize to_sq % 256 = g at *
  have e1 : t * 2 ^ 18 ||| r * 2 ^ 16 = 2 ^ 16 * (t * 4 + r) := by
    have := Nat.mul_add_lt_is_or (i := 18) (b := r * 2 ^ 16) (by omega) t
    rw [Nat.mul_comm (2 ^ 18) t] at this
    rw [← this]; omega
  have e2 : 2 ^ 16 * (t * 4 + r) ||| f * 2 ^ 8 = 2 ^ 8 * ((t * 4 + r) * 256 + f) := by
    have := Nat.mul_add_lt_is_or (i := 16) (b := f * 2 ^ 8) (by omega) (t * 4 + r)
    rw [← this]; omega
  have e3 : 2 ^ 8 * ((t * 4 + r) * 256 + f) ||| g = 2 ^ 8 * ((t * 4 + r) * 256 + f) + g := by
    have := Nat.mul_add_lt_is_or (i := 8) (b := g) (by omega) ((t * 4 + r) * 256 + f)
    rw [← this]
  rw [e1, e2, e3]; omega

theorem from_square_eq (mv : Nat) : from_square mv = mv / 256 % 256 := by
  unfold from_square
  rw [Nat.shiftRight_eq_div_pow]
  exact Nat.and_pow_two_sub_one_eq_mod _ 8

theorem to_square_eq (mv : Nat) : to_square mv = mv % 256 := by
  unfold to_square
  rw [Nat.shiftRight_eq_div_pow]
  simpa using Nat.and_pow_two_sub_one_eq_mod mv 8

theorem rot_of_eq (mv : Nat) : rot_of mv = mv / 65536 % 4 := by
  unfold rot_of
  rw [Nat.shiftRight_eq_div_pow]
  exact Nat.and_pow_two_sub_one_eq_mod _ 2

theorem ptype_mv_of_eq (mv : Nat) : ptype_mv_of mv = mv / 262144 % 4 := by
  unfold ptype_mv_of
  rw [Nat.shiftRight_eq_div_pow]
  exact Nat.and_pow_two_sub_one_eq_mod _ 2

theorem sort_key_eq (mv : Nat) : sort_key mv = mv / 4294967296 % 4294967296 := by
  unfold sort_key
  rw [Nat.shiftRight_eq_div_pow]
  exact Nat.and_pow_two_sub_one_eq_mod _ 32

theorem from_square_move_of (typ rot from_sq to_sq : Nat) :
    from_square (move_of typ rot from_sq to_sq) = from_sq % 256 := by
  rw [from_square_eq, move_of_eq]; omega

theorem to_square_move_of (typ rot from_sq to_sq : Nat) :
    to_square (move_of typ rot from_sq to_sq) = to_sq % 256 := by
  rw [to_square_eq, move_of_eq]; omega

theorem rot_of_move_of (typ rot from_sq to_sq : Nat) :
    rot_of (move_of typ rot from_sq to_sq) = rot % 4 := by
  rw [rot_of_eq, move_of_eq]; omega

theorem ptype_mv_of_move_of (typ rot from_sq to_sq : Nat) :
    ptype_mv_of (move_of typ rot from_sq to_sq) = typ % 4 := by
  rw [ptype_mv_of_eq, move_of_eq]; omega

theorem sort_key_move_of (typ rot from_sq to_sq : Nat) :
    sort_key (move_of typ rot from_sq to_sq) = 0 := by
  rw [sort_key_eq, move_of_eq]; omega

/-! ## Termination of the laser walk -/

theorem ori_of_lt (x : Nat) : ori_of x < 4 := by
  rw [ori_of_eq]; omega

theorem as_square_lt (x : Int) : as_square x < 256 := by
  unfold as_square; omega

theorem reflect_of_range : ∀ b, b < 4 → ∀ o, o < 4 →
    reflect_of b o = -1 ∨ (0 ≤ reflect_of b o ∧ reflect_of b o < 4) := by
  decide

theorem reflect_of_inj : ∀ b, b < 4 → ∀ b', b' < 4 → ∀ o, o < 4 →
    0 ≤ reflect_of b o → reflect_of b o = reflect_of b' o → b = b' := by
  decide

theorem beam_of_cases : ∀ b, b < 4 →
    beam_of b = 1 ∨ beam_of b = 16 ∨ beam_of b = -1 ∨ beam_of b = -16 := by
  decide

theorem beam_of_inj_mod : ∀ b, b < 4 → ∀ s s' : Nat, s < 256 → s' < 256 →
    as_square (s + beam_of b) = as_square (s' + beam_of b) → s = s' := by
  intro b hb s s' hs hs' h
  unfold as_square at h
  have := beam_of_cases b hb
  omega

theorem laser_step_spec {board : Nat → Nat} {s t : Nat × Nat} (hs : s.2 < 4)
    (h : laser_step board s = some t) :
    t.1 = as_square (s.1 + beam_of s.2) ∧ t.1 < 256 ∧ t.2 < 4 ∧
    ((ptype_of (board t.1) = EMPTY ∧ t.2 = s.2) ∨
     (ptype_of (board t.1) = PAWN ∧ (t.2 : Int) = reflect_of s.2 (ori_of (board t.1)))) := by
  unfold laser_step at h
  simp only at h
  split_ifs at h with h1 h2 h3
  · cases h
    exact ⟨rfl, as_square_lt _, hs, Or.inl ⟨h1, rfl⟩⟩
  · cases h
    have := reflect_of_range s.2 hs _ (ori_of_lt (board (as_square (s.1 + beam_of s.2))))
    refine ⟨rfl, as_square_lt _, ?_, Or.inr ⟨h2, ?_⟩⟩
    · simp only; omega
    · simp only; omega

theorem laser_step_inj {board : Nat → Nat} {s s' t : Nat × Nat}
    (hs1 : s.1 < 256) (hs : s.2 < 4) (hs1' : s'.1 < 256) (hs' : s'.2 < 4)
    (h : laser_step board s = some t) (h' : laser_step board s' = some t) : s = s' := by
  obtain ⟨e1, -, -, c1⟩ := laser_step_spec hs h
  obtain ⟨e2, -, -, c2⟩ := laser_step_spec hs' h'
  have hd : s.2 = s'.2 := by
    rcases c1 with ⟨p1, d1⟩ | ⟨p1, d1⟩ <;> rcases c2 with ⟨p2, d2⟩ | ⟨p2, d2⟩
    · omega
    · rw [p1] at p2; exact absurd p2 (by decide)
    · rw [p1] at p2; exact absurd p2 (by decide)
    · apply reflect_of_inj s.2 hs s'.2 hs' _ (ori_of_lt (board t.1))
      · omega
      · omega
  have : s.1 = s'.1 := by
    apply beam_of_inj_mod s.2 hs _ _ hs1 hs1'
    rw [← e1]; rw [hd]; exact e2
  exact Prod.ext this hd

theorem laser_iter_succ (board : Nat → Nat) (n : Nat) (s : Nat × Nat) :
    laser_iter board (n + 1) s = (laser_iter board n s).bind (laser_step board) := by
  unfold laser_iter
  rw [Function.iterate_succ_apply']

theorem laser_iter_succ_front (board : Nat → Nat) (n : Nat) (s : Nat × Nat) :
    laser_iter board (n + 1) s =
      (fun o : Option (Nat × Nat) => o.bind (laser_step board))^[n] (laser_step board s) := by
  unfold laser_iter
  rw [Function.iterate_succ_apply]
  rfl

theorem laser_iter_none (board : Nat → Nat) (n : Nat) :
    (fun o : Option (Nat × Nat) => o.bind (laser_step board))^[n] none = none := by
  induction n with
  | zero => rfl
  | succ n ih => rw [Function.iterate_succ_apply]; exact ih

/-- The states of a walk are in range, and all but the first stand on an EMPTY or PAWN square. -/
theorem laser_iter_valid {board : Nat → Nat} {s : Nat × Nat} (hs1 : s.1 < 256) (hs : s.2 < 4) :
    ∀ n t, laser_iter board n s = some t →
      t.1 < 256 ∧ t.2 < 4 ∧
      (0 < n → ptype_of (board t.1) = EMPTY ∨ ptype_of (board t.1) = PAWN) := by
  intro n
  induction n with
  | zero =>
    intro t h
    have : s = t := by simpa [laser_iter] using h
    subst this
    exact ⟨hs1, hs, fun h => absurd h (by decide)⟩
  | succ n ih =>
    intro t h
    rw [laser_iter_succ] at h
    obtain ⟨u, hu, hstep⟩ := Option.bind_eq_some.mp h
    obtain ⟨-, hu2, -⟩ := ih u hu
    obtain ⟨-, ht1, ht2, c⟩ := laser_step_spec hu2 hstep
    refine ⟨ht1, ht2, fun _ => ?_⟩
    rcases c with ⟨c, -⟩ | ⟨c, -⟩
    · exact Or.inl c
    · exact Or.inr c

theorem laser_iter_defined_pred {board : Nat → Nat} {s : Nat × Nat} :
    ∀ n, (∃ t, laser_iter board (n + 1) s = some t) → ∃ t, laser_iter board n s = some t := by
  intro n ⟨t, h⟩
  rw [laser_iter_succ] at h
  obtain ⟨u, hu, -⟩ := Option.bind_eq_some.mp h
  exact ⟨u, hu⟩

theorem laser_iter_defined_le {board : Nat → Nat} {s : Nat × Nat} (n : Nat)
    (h : ∃ t, laser_iter board n s = some t) :
    ∀ i, i ≤ n → ∃ t, laser_iter board i s = some t := by
  induction n with
  | zero => intro i hi; have : i = 0 := by omega
            subst this; exact h
  | succ n ih =>
    intro i hi
    rcases Nat.lt_or_ge i (n + 1) with h1 | h1
    · exact ih (laser_iter_defined_pred n h) i (by omega)
    · have : i = n + 1 := by omega
      subst this; exact h

/-- A walk that starts on a square that is neither EMPTY nor a PAWN never
visits the same state twice. -/
theorem laser_iter_distinct {board : Nat → Nat} {s : Nat × Nat} (hs1 : s.1 < 256) (hs : s.2 < 4)
    (hstart : ptype_of (board s.1) ≠ EMPTY ∧ ptype_of (board s.1) ≠ PAWN) :
    ∀ i j t, i < j → laser_iter board i s = some t → laser_iter board j s = some t → False := by
  intro i
  induction i with
  | zero =>
    intro j t hij h0 hj
    have : s = t := by simpa [laser_iter] using h0
    subst this
    obtain ⟨-, -, c⟩ := laser_iter_valid hs1 hs j s hj
    rcases c hij with c | c
    · exact hstart.1 c
    · exact hstart.2 c
  | succ i ih =>
    intro j t hij hi hj
    obtain ⟨j', rfl⟩ : ∃ j', j = j' + 1 := ⟨j - 1, by omega⟩
    rw [laser_iter_succ] at hi hj
    obtain ⟨u, hu, hstep⟩ := Option.bind_eq_some.mp hi
    obtain ⟨u', hu', hstep'⟩ := Option.bind_eq_some.mp hj
    obtain ⟨a1, a2, -⟩ := laser_iter_valid hs1 hs i u hu
    obtain ⟨b1, b2, -⟩ := laser_iter_valid hs1 hs j' u' hu'
    have := laser_step_inj a1 a2 b1 b2 hstep hstep'
    subst this
    exact ih j' u (by omega) hu hu'

theorem LASER_FUEL_eq : LASER_FUEL = 1024 + 1 := rfl

set_option maxRecDepth 20000 in
/-- Pigeonhole: a walk from a square that is neither EMPTY nor a PAWN stops
within `ARR_SIZE * NUM_ORI = 1024` steps. -/
theorem laser_iter_stops {board : Nat → Nat} {s : Nat × Nat} (hs1 : s.1 < 256) (hs : s.2 < 4)
    (hstart : ptype_of (board s.1) ≠ EMPTY ∧ ptype_of (board s.1) ≠ PAWN) :
    laser_iter board 1024 s = none := by
  by_contra hne
  obtain ⟨t, ht⟩ := Option.ne_none_iff_exists'.mp hne
  have hall := laser_iter_defined_le 1024 ⟨t, ht⟩
  let f : Nat → Nat × Nat := fun i => (laser_iter board i s).getD (0, 0)
  have hmaps : ∀ i ∈ Finset.range 1025,
      f i ∈ (Finset.range 256 ×ˢ Finset.range 4) := by
    intro i hi
    have hi' : i ≤ 1024 := by
      have := Finset.mem_range.mp hi
      omega
    obtain ⟨u, hu⟩ := hall i hi' 
    obtain ⟨a1, a2, -⟩ := laser_iter_valid hs1 hs i u hu
    simp only [f, hu, Option.getD_some, Finset.mem_product, Finset.mem_range]
    exact ⟨a1, a2⟩
  have hcard : (Finset.range 256 ×ˢ Finset.range 4).card < (Finset.range 1025).card := by
    rw [Finset.card_product, Finset.card_range, Finset.card_range, Finset.card_range]
    omega
  obtain ⟨i, hi, j, hj, hne, heq⟩ :=
    Finset.exists_ne_map_eq_of_card_lt_of_maps_to hcard hmaps
  have hi' : i ≤ 1024 := by
    have := Finset.mem_range.mp hi
    omega
  have hj' : j ≤ 1024 := by
    have := Finset.mem_range.mp hj
    omega
  obtain ⟨u, hu⟩ := hall i hi'
  obtain ⟨v, hv⟩ := hall j hj' 
  have huv : u = v := by simpa only [f, hu, hv, Option.getD_some] using heq
  subst huv
  rcases Nat.lt_or_gt_of_ne hne with h | h
  · exact laser_iter_distinct hs1 hs hstart i j u h hu hv
  · exact laser_iter_distinct hs1 hs hstart j i u h hv hu

theorem fire_loop_none {board : Nat → Nat} :
    ∀ n sq bdir, fire_loop board n sq bdir = none →
      ∃ t, laser_iter board n (sq, bdir) = some t := by
  intro n
  induction n with
  | zero => intro sq bdir _; exact ⟨(sq, bdir), rfl⟩
  | succ n ih =>
    intro sq bdir h
    rw [laser_iter_succ_front]
    unfold fire_loop at h
    unfold laser_step
    simp only at h ⊢
    split_ifs at h ⊢ with h1 h2 h3 h4
    · exact ih _ _ h
    · exact ih _ _ h

theorem fire_loop_stops {board : Nat → Nat} {sq bdir : Nat} (hs1 : sq < 256) (hs : bdir < 4)
    (hstart : ptype_of (board sq) ≠ EMPTY ∧ ptype_of (board sq) ≠ PAWN) :
    ∃ r, fire_loop board LASER_FUEL sq bdir = some r := by
  rcases h : fire_loop board LASER_FUEL sq bdir with _ | r
  · exfalso
    obtain ⟨t, ht⟩ := fire_loop_none _ _ _ h
    rw [LASER_FUEL_eq] at ht
    obtain ⟨u, hu⟩ := laser_iter_defined_pred 1024 ⟨t, ht⟩
    have := @laser_iter_stops board (sq, bdir) hs1 hs hstart
    rw [this] at hu
    cases hu
  · exact ⟨r, rfl⟩

/-! ## Writing moves into the move list -/

theorem emit_all_nil (s : (Nat → Nat) × Nat) : emit_all s [] = s := rfl

theorem emit_all_cons (s : (Nat → Nat) × Nat) (mv : Nat) (l : List Nat) :
    emit_all s (mv :: l) = emit_all (emit s mv) l := rfl

theorem emit_all_append (s : (Nat → Nat) × Nat) (l₁ l₂ : List Nat) :
    emit_all s (l₁ ++ l₂) = emit_all (emit_all s l₁) l₂ := by
  unfold emit_all; rw [List.foldl_append]

/-- A loop that emits `g x` for the `x` that pass a test writes the filtered list. -/
theorem foldl_emit_filter {α : Type} (l : List α) (skip : α → Prop) [DecidablePred skip]
    (g : α → Nat) (s : (Nat → Nat) × Nat) :
    l.foldl (fun s x => if skip x then s else emit s (g x)) s =
      emit_all s ((l.filter (fun x => decide (¬ skip x))).map g) := by
  induction l generalizing s with
  | nil => rfl
  | cons x l ih =>
    rw [List.foldl_cons, ih]
    by_cases h : skip x
    · simp [h]
    · simp [h, emit_all_cons]

theorem foldl_emit_map {α : Type} (l : List α) (g : α → Nat) (s : (Nat → Nat) × Nat) :
    l.foldl (fun s x => emit s (g x)) s = emit_all s (l.map g) := by
  induction l generalizing s with
  | nil => rfl
  | cons x l ih => rw [List.foldl_cons, ih]; rfl

theorem foldl_emit_all_flatMap {α : Type} (l : List α) (B : α → List Nat)
    (s : (Nat → Nat) × Nat) :
    l.foldl (fun s x => emit_all s (B x)) s = emit_all s (l.flatMap B) := by
  induction l generalizing s with
  | nil => rfl
  | cons x l ih =>
    rw [List.foldl_cons, ih, List.flatMap_cons, emit_all_append]

/-- Writing the list `l` from the state `s`: the count grows by the length,
the entries from the old count on are those of `l`, all others are unchanged. -/
theorem emit_all_spec (l : List Nat) (s : (Nat → Nat) × Nat) :
    (emit_all s l).2 = s.2 + l.length ∧
    (∀ j, j < s.2 ∨ s.2 + l.length ≤ j → (emit_all s l).1 j = s.1 j) ∧
    (∀ k, k < l.length → (emit_all s l).1 (s.2 + k) = l.getD k 0) := by
  induction l generalizing s with
  | nil =>
    refine ⟨rfl, fun j _ => rfl, fun k hk => absurd hk (by simp)⟩
  | cons mv l ih =>
    obtain ⟨h1, h2, h3⟩ := ih (emit s mv)
    rw [emit_all_cons]
    have e2 : (emit s mv).2 = s.2 + 1 := rfl
    have e1 : ∀ j, (emit s mv).1 j = if j = s.2 then mv else s.1 j := by
      intro j; unfold emit; simp [Function.update_apply]
    refine ⟨?_, ?_, ?_⟩
    · rw [h1, e2, List.length_cons]; omega
    · intro j hj
      rw [h2 j (by rw [e2]; rw [List.length_cons] at hj; omega), e1]
      rw [List.length_cons] at hj
      rw [if_neg (by omega)]
    · intro k hk
      rw [List.length_cons] at hk
      rcases Nat.eq_zero_or_pos k with hk0 | hk0
      · subst hk0
        rw [h2 _ (by rw [e2]; omega), e1]
        simp
      · obtain ⟨k', rfl⟩ : ∃ k', k = k' + 1 := ⟨k - 1, by omega⟩
        have := h3 k' (by omega)
        rw [e2] at this
        rw [show s.2 + (k' + 1) = s.2 + 1 + k' by omega, this]
        simp

theorem emitted_emit_all (list : Nat → Nat) (l : List Nat) :
    emitted (emit_all (list, 0) l) = l := by
  obtain ⟨h1, -, h3⟩ := emit_all_spec l (list, 0)
  unfold emitted
  apply List.ext_getElem
  · simp [h1]
  · intro n hn1 hn2
    simp only [List.getElem_map, List.getElem_range]
    have := h3 n hn2
    simp only [Nat.zero_add] at this
    rw [this]
    simp [List.getD_eq_getElem?_getD, hn2]

/-! ## The move list of generate_all -/

theorem ptype_of_lt (x : Nat) : ptype_of x < 4 := by
  rw [ptype_of_eq]; omega

theorem color_of_lt (x : Nat) : color_of x < 2 := by
  rw [color_of_eq]; omega

theorem dir_of_cases : ∀ d, d < 8 → -17 ≤ dir_of d ∧ dir_of d ≤ 17 := by
  decide

theorem as_square_neighbour {sq d : Nat} (hd : d < 8) (h : 17 ≤ sq) (h' : sq < 239) :
    as_square (sq + dir_of d) = neighbour sq d := by
  unfold as_square neighbour
  have := dir_of_cases d hd
  omega

theorem range'_1_3 : List.range' 1 3 = [1, 2, 3] := by decide

theorem map_filter_congr {α β : Type} (l : List α) (P Q : α → Bool) (g g' : α → β)
    (h : ∀ x ∈ l, P x = Q x ∧ g x = g' x) :
    (l.filter P).map g = (l.filter Q).map g' := by
  induction l with
  | nil => rfl
  | cons x l ih =>
    have hx := h x (List.mem_cons_self x l)
    have ih' := ih (fun y hy => h y (List.mem_cons_of_mem x hy))
    simp only [List.filter_cons, hx.1]
    split
    · simp only [List.map_cons, hx.2, ih']
    · exact ih'

theorem gen_pawn_eq (p : position_t) (lm : Nat → Nat) (s : (Nat → Nat) × Nat) (i : Nat)
    (h : p.plocs (color_to_move_of p) i = 0 ∨
      (17 ≤ p.plocs (color_to_move_of p) i ∧ p.plocs (color_to_move_of p) i < 239)) :
    gen_pawn p (color_to_move_of p) lm s i = emit_all s (spec_pawn_moves p lm i) := by
  unfold gen_pawn spec_pawn_moves
  simp only
  by_cases h0 : p.plocs (color_to_move_of p) i = 0
  · simp [h0, emit_all_nil]
  · rcases h with h | ⟨h, h'⟩
    · exact absurd h h0
    by_cases h1 : lm (p.plocs (color_to_move_of p) i) = 1
    · simp [h0, h1, emit_all_nil]
    · rw [if_neg h0, if_neg h1, if_pos ⟨h0, h1⟩]
      rw [foldl_emit_filter, foldl_emit_map, ← emit_all_append, range'_1_3]
      congr 1
      congr 1
      apply map_filter_congr
      intro d hd
      have hd8 : d < 8 := List.mem_range.mp hd
      have hn : (↑(p.plocs (color_to_move_of p) i) + dir_of d).toNat =
          neighbour (p.plocs (color_to_move_of p) i) d := rfl
      rw [as_square_neighbour hd8 h h', hn]
      refine ⟨?_, rfl⟩
      have := ptype_of_lt (p.board (neighbour (p.plocs (color_to_move_of p) i) d))
      apply decide_eq_decide.mpr
      simp only [INVALID, KING, PAWN, EMPTY]
      constructor
      · intro hh
        by_contra hc
        apply hh
        omega
      · intro hh hc
        omega

theorem gen_king_eq (p : position_t) (s : (Nat → Nat) × Nat)
    (h : 17 ≤ p.kloc (color_to_move_of p)) (h' : p.kloc (color_to_move_of p) < 239) :
    emit ((List.range' 1 3).foldl (fun s rot =>
      emit s (move_of KING rot (p.kloc (color_to_move_of p)) (p.kloc (color_to_move_of p))))
      ((List.range 8).foldl (fun s d =>
        let dest : Int := p.kloc (color_to_move_of p) + dir_of d
        if ptype_of (p.board dest.toNat) ≠ EMPTY then s
        else emit s (move_of KING 0 (p.kloc (color_to_move_of p)) (as_square dest))) s))
      (move_of KING 0 (p.kloc (color_to_move_of p)) (p.kloc (color_to_move_of p))) =
    emit_all s (spec_king_moves p) := by
  unfold spec_king_moves
  simp only
  rw [foldl_emit_filter, foldl_emit_map, range'_1_3, emit_all_append, emit_all_append]
  congr 1
  congr 1
  congr 1
  apply map_filter_congr
  intro d hd
  have hd8 : d < 8 := List.mem_range.mp hd
  rw [as_square_neighbour hd8 h h']
  refine ⟨?_, rfl⟩
  apply decide_eq_decide.mpr
  unfold neighbour
  simp

theorem generate_all_eq (p : position_t) (list : Nat → Nat) (strict : Bool)
    (hp : ∀ i, i < NUMBER_PAWNS → p.plocs (color_to_move_of p) i = 0 ∨
      (17 ≤ p.plocs (color_to_move_of p) i ∧ p.plocs (color_to_move_of p) i < 239))
    (hk : 17 ≤ p.kloc (color_to_move_of p)) (hk' : p.kloc (color_to_move_of p) < 239) :
    generate_all p list strict =
      (mark_laser_path p init_laser_map (opp_color (color_to_move_of p)) 1).map
        (fun lm => emit_all (list, 0)
          ((List.range NUMBER_PAWNS).flatMap (spec_pawn_moves p lm) ++ spec_king_moves p)) := by
  unfold generate_all
  simp only
  cases hm : mark_laser_path p init_laser_map (opp_color (color_to_move_of p)) 1 with
  | none => rfl
  | some lm =>
    simp only [Option.map_some']
    rw [gen_king_eq p _ hk hk', emit_all_append]
    congr 2
    rw [← foldl_emit_all_flatMap]
    apply List.foldl_ext
    intro s i hi
    exact gen_pawn_eq p lm s i (hp i (List.mem_range.mp hi))

/-! ## Termination of marking and firing; the laser map -/

theorem mark_loop_none {board : Nat → Nat} {mask : Nat} :
    ∀ n lm sq bdir, mark_loop board mask n lm sq bdir = none →
      ∃ t, laser_iter board n (sq, bdir) = some t := by
  intro n
  induction n with
  | zero => intro lm sq bdir _; exact ⟨(sq, bdir), rfl⟩
  | succ n ih =>
    intro lm sq bdir h
    rw [laser_iter_succ_front]
    unfold mark_loop at h
    unfold laser_step
    simp only at h ⊢
    split_ifs at h ⊢ with h1 h2 h3
    · exact ih _ _ _ h
    · exact ih _ _ _ h

theorem mark_loop_stops {board : Nat → Nat} {mask : Nat} (lm : Nat → Nat) {sq bdir : Nat}
    (hs1 : sq < 256) (hs : bdir < 4)
    (hstart : ptype_of (board sq) ≠ EMPTY ∧ ptype_of (board sq) ≠ PAWN) :
    ∃ r, mark_loop board mask LASER_FUEL lm sq bdir = some r := by
  rcases h : mark_loop board mask LASER_FUEL lm sq bdir with _ | r
  · exfalso
    obtain ⟨t, ht⟩ := mark_loop_none _ _ _ _ h
    rw [LASER_FUEL_eq] at ht
    obtain ⟨u, hu⟩ := laser_iter_defined_pred 1024 ⟨t, ht⟩
    have := @laser_iter_stops board (sq, bdir) hs1 hs hstart
    rw [this] at hu
    cases hu
  · exact ⟨r, rfl⟩

/-- The marking of the laser of a King standing on its `kloc` square stops. -/
theorem mark_laser_path_stops (p : position_t) (lm : Nat → Nat) (c mask : Nat)
    (h1 : p.kloc c < ARR_SIZE) (h2 : ptype_of (p.board (p.kloc c)) = KING) :
    ∃ r, mark_laser_path p lm c mask = some r := by
  unfold mark_laser_path
  apply mark_loop_stops _ h1 (ori_of_lt _)
  rw [h2]; decide

/-- The laser fired by a King standing on its `kloc` square stops. -/
theorem fire_stops (p : position_t)
    (h1 : p.kloc (if color_to_move_of p = WHITE then BLACK else WHITE) < ARR_SIZE)
    (h2 : ptype_of (p.board (p.kloc (if color_to_move_of p = WHITE then BLACK else WHITE)))
      = KING) :
    ∃ r, fire p = some r := by
  unfold fire
  apply fire_loop_stops h1 (ori_of_lt _)
  rw [h2]; decide

/-- The square returned by the walk of `fire` is `0` or holds a PAWN or a KING. -/
theorem fire_loop_result {board : Nat → Nat} :
    ∀ n sq bdir r, fire_loop board n sq bdir = some r →
      r = 0 ∨ (r < 256 ∧ (ptype_of (board r) = PAWN ∨ ptype_of (board r) = KING)) := by
  intro n
  induction n with
  | zero => intro sq bdir r h; cases h
  | succ n ih =>
    intro sq bdir r h
    unfold fire_loop at h
    simp only at h
    split_ifs at h with h1 h2 h3 h4
    · exact ih _ _ _ h
    · cases h; exact Or.inr ⟨as_square_lt _, Or.inl h2⟩
    · exact ih _ _ _ h
    · cases h; exact Or.inr ⟨as_square_lt _, Or.inr h4⟩
    · cases h; exact Or.inl rfl

theorem mem_board_squares (sq : Nat) : sq ∈ board_squares ↔ on_board sq := by
  unfold board_squares on_board square_of
  simp only [List.mem_flatMap, List.mem_map, List.mem_range]
  constructor
  · rintro ⟨f, hf, r, hr, rfl⟩
    simp only [ARR_WIDTH, FIL_ORIGIN, RNK_ORIGIN, BOARD_WIDTH] at *
    omega
  · intro h
    simp only [ARR_WIDTH, FIL_ORIGIN, RNK_ORIGIN, BOARD_WIDTH] at *
    refine ⟨sq / 16 - 3, by omega, sq % 16 - 3, by omega, by omega⟩

theorem on_board_range {sq : Nat} (h : on_board sq) : 51 ≤ sq ∧ sq ≤ 204 := by
  unfold on_board at h
  simp only [ARR_WIDTH, FIL_ORIGIN, RNK_ORIGIN, BOARD_WIDTH] at h
  omega

theorem foldl_update_const {α : Type} (l : List α) (g : α → Nat) (v : Nat) (m : Nat → Nat)
    (sq : Nat) :
    (l.foldl (fun m x => Function.update m (g x) v) m) sq =
      if sq ∈ l.map g then v else m sq := by
  induction l generalizing m with
  | nil => simp
  | cons x l ih =>
    rw [List.foldl_cons, ih]
    by_cases h : sq ∈ l.map g
    · simp [h]
    · by_cases h2 : sq = g x
      · subst h2; simp [h]
      · simp [h, h2, Function.update_apply]

theorem init_laser_map_eq : init_laser_map = prefilled_laser_map := by
  funext sq
  have key : init_laser_map sq = if sq ∈ board_squares then 0 else 4 := by
    unfold init_laser_map board_squares
    have : ∀ (l : List Nat) (m : Nat → Nat),
        (l.foldl (fun m f => (List.range BOARD_WIDTH).foldl
          (fun m r => Function.update m (square_of f r) 0) m) m) sq =
        if sq ∈ l.flatMap (fun f => (List.range BOARD_WIDTH).map (fun r => square_of f r))
        then 0 else m sq := by
      intro l
      induction l with
      | nil => intro m; simp
      | cons f l ih =>
        intro m
        rw [List.foldl_cons, ih, foldl_update_const, List.flatMap_cons]
        simp only [List.mem_append]
        by_cases h1 : sq ∈ l.flatMap
            (fun f => (List.range BOARD_WIDTH).map (fun r => square_of f r))
        · simp [h1]
        · by_cases h2 : sq ∈ List.map (fun r => square_of f r) (List.range BOARD_WIDTH)
          · simp [h1, h2]
          · simp [h1, h2]
    exact this _ _
  rw [key]
  unfold prefilled_laser_map
  by_cases h : on_board sq
  · rw [if_pos ((mem_board_squares sq).mpr h), if_pos h]
  · rw [if_neg (fun hh => h ((mem_board_squares sq).mp hh)), if_neg h]

/-! ## The Zobrist key as an XOR over the playing area -/

theorem xor_left_comm (a b c : Nat) : a ^^^ (b ^^^ c) = b ^^^ (a ^^^ c) := by
  rw [← Nat.xor_assoc, Nat.xor_comm a b, Nat.xor_assoc]

/-- The XOR of `g` over a list, from the accumulator `a`. -/
theorem foldl_xor_acc {α : Type} (l : List α) (g : α → Nat) (a : Nat) :
    l.foldl (fun k x => k ^^^ g x) a = a ^^^ l.foldl (fun k x => k ^^^ g x) 0 := by
  induction l generalizing a with
  | nil => simp
  | cons x l ih =>
    rw [List.foldl_cons, List.foldl_cons, ih (a ^^^ g x), ih (0 ^^^ g x)]
    simp [Nat.xor_assoc]

theorem foldl_xor_congr (l : List Nat) (g g' : Nat → Nat) (a : Nat)
    (h : ∀ x ∈ l, g x = g' x) :
    l.foldl (fun k x => k ^^^ g x) a = l.foldl (fun k x => k ^^^ g' x) a := by
  apply List.foldl_ext
  intro k x hx
  rw [h x hx]

/-- Changing `g` at one point `s` of a duplicate-free list changes the XOR by
the old and the new value at `s`. -/
theorem foldl_xor_update (l : List Nat) (hnd : l.Nodup) (g g' : Nat → Nat) (s : Nat)
    (hs : s ∈ l) (h : ∀ x, x ≠ s → g' x = g x) :
    l.foldl (fun k x => k ^^^ g' x) 0 = l.foldl (fun k x => k ^^^ g x) 0 ^^^ g s ^^^ g' s := by
  induction l with
  | nil => cases hs
  | cons x l ih =>
    rw [List.foldl_cons, List.foldl_cons, foldl_xor_acc l g', foldl_xor_acc l g]
    rw [List.nodup_cons] at hnd
    rcases List.mem_cons.mp hs with rfl | hs'
    · have : l.foldl (fun k x => k ^^^ g' x) 0 = l.foldl (fun k x => k ^^^ g x) 0 := by
        apply foldl_xor_congr
        intro y hy
        exact h y (fun e => hnd.1 (e ▸ hy))
      rw [this]
      simp only [Nat.zero_xor]
      simp only [Nat.xor_assoc, Nat.xor_comm, xor_left_comm, Nat.xor_self, Nat.xor_zero,
        Nat.xor_cancel_left]
    · have hx : x ≠ s := fun e => hnd.1 (e ▸ hs')
      rw [ih hnd.2 hs', h x hx]
      simp only [Nat.zero_xor, Nat.xor_assoc]

/-- The XOR of the Zobrist numbers of the playing area. -/
theorem board_squares_nodup : board_squares.Nodup := by decide

theorem compute_zob_key_eq (zob : Nat → Nat → Nat) (zob_color : Nat) (p : position_t) :
    compute_zob_key zob zob_color p =
      if color_to_move_of p = BLACK
      then board_squares.foldl (fun key sq => key ^^^ zob sq (p.board sq)) 0 ^^^ zob_color
      else board_squares.foldl (fun key sq => key ^^^ zob sq (p.board sq)) 0 := by
  unfold compute_zob_key
  have : ∀ (l : List Nat) (a : Nat),
      l.foldl (fun key f => (List.range BOARD_WIDTH).foldl (fun key r =>
        key ^^^ zob (square_of f r) (p.board (square_of f r))) key) a =
      (l.flatMap (fun f => (List.range BOARD_WIDTH).map (fun r => square_of f r))).foldl
        (fun key sq => key ^^^ zob sq (p.board sq)) a := by
    intro l
    induction l with
    | nil => intro a; rfl
    | cons f l ih =>
      intro a
      rw [List.foldl_cons, ih, List.flatMap_cons, List.foldl_append, List.foldl_map]
  simp only [this]
  rfl

theorem zob_sum_update (zob : Nat → Nat → Nat) (board : Nat → Nat) (s v : Nat)
    (hs : on_board s) :
    board_squares.foldl (fun key sq => key ^^^ zob sq (Function.update board s v sq)) 0 =
      board_squares.foldl (fun key sq => key ^^^ zob sq (board sq)) 0
        ^^^ zob s (board s) ^^^ zob s v := by
  have := foldl_xor_update board_squares board_squares_nodup
    (fun sq => zob sq (board sq)) (fun sq => zob sq (Function.update board s v sq)) s
    ((mem_board_squares s).mpr hs)
    (fun x hx => by simp only [Function.update_noteq hx])
  simpa using this

/-! ## Pawn and king tables under the elementary board updates -/

theorem lt_succ_iff_of_ne {i k : Nat} (h : i ≠ k) : i < k + 1 ↔ i < k := by omega

theorem replace_ploc_range (pl : Nat → Nat → Nat) (c o n : Nat) (k : Nat) (c' i : Nat) :
    ((List.range k).foldl (fun pl i =>
      if pl c i = o then Function.update pl c (Function.update (pl c) i n) else pl) pl) c' i =
    if c' = c ∧ i < k ∧ pl c i = o then n else pl c' i := by
  induction k generalizing c' i with
  | zero => simp
  | succ k ih =>
    rw [List.range_succ, List.foldl_append, List.foldl_cons, List.foldl_nil]
    have hk : ((List.range k).foldl (fun pl i =>
      if pl c i = o then Function.update pl c (Function.update (pl c) i n) else pl) pl) c k
        = pl c k := by
      rw [ih]; simp
    rw [hk]
    by_cases h : pl c k = o
    · rw [if_pos h]
      by_cases hc : c' = c
      · subst hc
        rw [Function.update_same]
        by_cases hi : i = k
        · subst hi
          rw [Function.update_same]
          simp [h]
        · rw [Function.update_noteq hi, ih]
          simp only [lt_succ_iff_of_ne hi]
      · rw [Function.update_noteq hc, ih]
        simp [hc]
    · rw [if_neg h, ih]
      by_cases hi : i = k
      · subst hi
        simp [h]
      · simp only [lt_succ_iff_of_ne hi]

/-- Closed form of the loop `replace_ploc`. -/
theorem replace_ploc_apply (pl : Nat → Nat → Nat) (c o n c' i : Nat) :
    replace_ploc pl c o n c' i =
      if c' = c ∧ i < NUMBER_PAWNS ∧ pl c i = o then n else pl c' i := by
  unfold replace_ploc
  exact replace_ploc_range pl c o n NUMBER_PAWNS c' i

theorem swap_sq_invol (f t sq : Nat) : swap_sq f t (swap_sq f t sq) = sq := by
  unfold swap_sq
  by_cases h1 : sq = f
  · subst h1
    by_cases h2 : t = sq
    · simp [h2]
    · simp [h2]
  · by_cases h2 : sq = t
    · subst h2; simp [h1]
    · simp [h1, h2]

theorem swap_sq_lt {f t sq : Nat} (hf : f < 256) (ht : t < 256) (hs : sq < 256) :
    swap_sq f t sq < 256 := by
  unfold swap_sq; split_ifs <;> assumption

theorem swap_sq_eq_zero {f t sq : Nat} (hf : f ≠ 0) (ht : t ≠ 0) :
    swap_sq f t sq = 0 ↔ sq = 0 := by
  unfold swap_sq
  constructor
  · intro h
    split_ifs at h with h1 h2
    · exact absurd h ht
    · exact absurd h hf
    · exact h
  · intro h
    subst h
    rw [if_neg (Ne.symm hf), if_neg (Ne.symm ht)]

theorem swap_board_apply (b : Nat → Nat) (f t sq : Nat) :
    Function.update (Function.update b t (b f)) f (b t) sq = b (swap_sq f t sq) := by
  unfold swap_sq
  by_cases h1 : sq = f
  · subst h1; simp
  · by_cases h2 : sq = t
    · subst h2; simp [h1]
    · simp [h1, h2, Function.update_apply]

/-- The pawn-table invariant is kept when board and table are relabelled by a
transposition of two nonzero squares. -/
theorem pawn_table_ok_relabel {b b' : Nat → Nat} {pl pl' : Nat → Nat → Nat} {f t : Nat}
    (h : pawn_table_ok b pl) (hf : f < 256) (ht : t < 256) (hf0 : f ≠ 0) (ht0 : t ≠ 0)
    (hb : ∀ sq, b' sq = b (swap_sq f t sq))
    (hpl : ∀ c, c < 2 → ∀ i, i < NUMBER_PAWNS → pl' c i = swap_sq f t (pl c i)) :
    pawn_table_ok b' pl' := by
  obtain ⟨h1, h2⟩ := h
  constructor
  · intro c hc sq hsq hp
    rw [hb] at hp
    obtain ⟨i, hi, e, u⟩ := h1 c hc (swap_sq f t sq) (swap_sq_lt hf ht hsq) hp
    refine ⟨i, hi, ?_, ?_⟩
    · rw [hpl c hc i hi, e, swap_sq_invol]
    · intro j hj ej
      apply u j hj
      rw [hpl c hc j hj] at ej
      rw [← ej, swap_sq_invol]
  · intro c hc i hi hne
    rw [hpl c hc i hi] at hne ⊢
    have hne' : pl c i ≠ 0 := fun e => hne ((swap_sq_eq_zero hf0 ht0).mpr e)
    obtain ⟨a1, a2, a3⟩ := h2 c hc i hi hne'
    refine ⟨swap_sq_lt hf ht a1, ?_, ?_⟩
    · rw [hb, swap_sq_invol]; exact a2
    · rw [hb, swap_sq_invol]; exact a3

/-- Under the pawn-table invariant the two loops of `low_level_make_move`
relabel the table by the transposition, unless both squares hold Pawns of one
colour. -/
theorem llmm_plocs_apply {b : Nat → Nat} {pl : Nat → Nat → Nat} {f t : Nat}
    (h : pawn_table_ok b pl) (hft : f ≠ t) (hf0 : f ≠ 0) (ht0 : t ≠ 0)
    (hno : ¬ (ptype_of (b f) = PAWN ∧ ptype_of (b t) = PAWN ∧ color_of (b f) = color_of (b t)))
    (c : Nat) (hc : c < 2) (i : Nat) (hi : i < NUMBER_PAWNS) :
    llmm_plocs b pl f t c i = swap_sq f t (pl c i) := by
  obtain ⟨-, h2⟩ := h
  have F1 : pl c i = f → ptype_of (b f) = PAWN ∧ color_of (b f) = c := by
    intro e
    have := (h2 c hc i hi (by rw [e]; exact hf0)).2
    rwa [e] at this
  have F2 : pl c i = t → ptype_of (b t) = PAWN ∧ color_of (b t) = c := by
    intro e
    have := (h2 c hc i hi (by rw [e]; exact ht0)).2
    rwa [e] at this
  clear h2
  unfold llmm_plocs swap_sq
  by_cases hA : ptype_of (b f) = PAWN <;> by_cases hB : ptype_of (b t) = PAWN <;>
    simp only [hA, hB, if_true, if_false, replace_ploc_apply] <;>
    by_cases e1 : pl c i = f <;> by_cases e2 : pl c i = t <;>
    by_cases c1 : c = color_of (b f) <;> by_cases c2 : c = color_of (b t) <;>
    simp_all

/-- The king invariant is kept when board and table are relabelled by a
transposition. -/
theorem king_ok_relabel {b b' : Nat → Nat} {kl kl' : Nat → Nat} {f t c : Nat}
    (h : king_ok b kl c) (hf : f < 256) (ht : t < 256)
    (hb : ∀ sq, b' sq = b (swap_sq f t sq))
    (hkl : kl' c = swap_sq f t (kl c)) :
    king_ok b' kl' c := by
  obtain ⟨a1, a2, a3, a4⟩ := h
  refine ⟨?_, ?_, ?_, ?_⟩
  · rw [hkl]; exact swap_sq_lt hf ht a1
  · rw [hkl, hb, swap_sq_invol]; exact a2
  · rw [hkl, hb, swap_sq_invol]; exact a3
  · intro sq hsq hp
    rw [hb] at hp
    have := a4 (swap_sq f t sq) (swap_sq_lt hf ht hsq) hp
    rw [hkl, ← this, swap_sq_invol]

/-- Under the king invariant for both colours the updates of `kloc` in
`low_level_make_move` relabel the table by the transposition. -/
theorem llmm_kloc_apply {b : Nat → Nat} {kl : Nat → Nat} {f t : Nat}
    (h : ∀ c, c < 2 → king_ok b kl c) (hft : f ≠ t) (hf : f < 256) (ht : t < 256)
    (c : Nat) (hc : c < 2) :
    llmm_kloc b kl f t c = swap_sq f t (kl c) := by
  obtain ⟨-, a2, a3, a4⟩ := h c hc
  have G1 : kl c = f ↔ (ptype_of (b f) = KING ∧ color_of (b f) = c) :=
    ⟨fun e => by rw [← e]; exact ⟨a2, a3⟩, fun x => (a4 f hf x).symm⟩
  have G2 : kl c = t ↔ (ptype_of (b t) = KING ∧ color_of (b t) = c) :=
    ⟨fun e => by rw [← e]; exact ⟨a2, a3⟩, fun x => (a4 t ht x).symm⟩
  clear a2 a3 a4 h hf ht hc
  unfold llmm_kloc swap_sq
  have o1 : (c = color_of (b f)) = (color_of (b f) = c) := propext eq_comm
  have o2 : (c = color_of (b t)) = (color_of (b t) = c) := propext eq_comm
  by_cases hA : ptype_of (b f) = KING <;> by_cases hB : ptype_of (b t) = KING <;>
    simp only [hA, hB, if_true, if_false, Function.update_apply, o1, o2] <;>
    by_cases c1 : color_of (b f) = c <;> by_cases c2 : color_of (b t) = c <;>
    simp_all
/-- Removing the piece on `s` (board byte zeroed, slot of its colour cleared)
keeps the pawn-table invariant. -/
theorem pawn_table_ok_remove {b : Nat → Nat} {pl : Nat → Nat → Nat} (s : Nat)
    (h : pawn_table_ok b pl) (h0 : ptype_of (b 0) ≠ PAWN) :
    pawn_table_ok (Function.update b s 0) (replace_ploc pl (color_of (b s)) s 0) := by
  obtain ⟨h1, h2⟩ := h
  have hz : ptype_of 0 ≠ PAWN := by decide
  constructor
  · intro c hc sq hsq hp
    have hne : sq ≠ s := by
      intro e
      rw [e, Function.update_same] at hp
      exact hz hp.1
    rw [Function.update_noteq hne] at hp
    obtain ⟨i, hi, e, u⟩ := h1 c hc sq hsq hp
    have hsq0 : sq ≠ 0 := fun e0 => h0 (by rw [← e0]; exact hp.1)
    refine ⟨i, hi, ?_, ?_⟩
    · rw [replace_ploc_apply, if_neg (fun hh => hne (by rw [← e]; rw [← hh.1] at hh; exact hh.2.2)),
        e]
    · intro j hj ej
      rw [replace_ploc_apply] at ej
      split_ifs at ej with hh
      · exact absurd ej.symm hsq0
      · exact u j hj ej
  · intro c hc i hi hne
    rw [replace_ploc_apply] at hne ⊢
    split_ifs at hne ⊢ with hh
    · exact absurd rfl hne
    · obtain ⟨a1, a2, a3⟩ := h2 c hc i hi hne
      have hns : pl c i ≠ s := by
        intro e
        apply hh
        rw [e] at a3
        exact ⟨a3.symm, hi, by rw [a3]; exact e⟩
      rw [if_neg hh, Function.update_noteq hns]
      exact ⟨a1, a2, a3⟩

/-- Removing a piece that is not the King of colour `c` keeps the king
invariant of colour `c`. -/
theorem king_ok_remove {b : Nat → Nat} {kl : Nat → Nat} {c : Nat} (s : Nat)
    (h : king_ok b kl c) (hs : ¬ (ptype_of (b s) = KING ∧ color_of (b s) = c)) :
    king_ok (Function.update b s 0) kl c := by
  obtain ⟨a1, a2, a3, a4⟩ := h
  have hz : ptype_of 0 ≠ KING := by decide
  have hne : kl c ≠ s := fun e => hs (by rw [← e]; exact ⟨a2, a3⟩)
  refine ⟨a1, ?_, ?_, ?_⟩
  · rw [Function.update_noteq hne]; exact a2
  · rw [Function.update_noteq hne]; exact a3
  · intro sq hsq hp
    have hne' : sq ≠ s := by
      intro e
      rw [e, Function.update_same] at hp
      exact hz hp.1
    rw [Function.update_noteq hne'] at hp
    exact a4 sq hsq hp

/-- Removing the King of colour `c` leaves `kloc[c]` on the emptied square and
no King of colour `c` on the board. -/
theorem king_gone_remove {b : Nat → Nat} {kl : Nat → Nat} {c : Nat} (s : Nat) (hs256 : s < 256)
    (h : king_ok b kl c) (hs : ptype_of (b s) = KING ∧ color_of (b s) = c) :
    kl c = s ∧ Function.update b s 0 (kl c) = 0 ∧
    ∀ sq, sq < ARR_SIZE →
      ¬ (ptype_of (Function.update b s 0 sq) = KING ∧ color_of (Function.update b s 0 sq) = c) := by
  obtain ⟨-, -, -, a4⟩ := h
  have hz : ptype_of 0 ≠ KING := by decide
  have e : kl c = s := (a4 s hs256 hs).symm
  refine ⟨e, by rw [e, Function.update_same], ?_⟩
  intro sq hsq hp
  by_cases hne : sq = s
  · rw [hne, Function.update_same] at hp
    exact hz hp.1
  · rw [Function.update_noteq hne] at hp
    exact hne ((a4 sq hsq hp).trans e)

/-- The invariants only look at the type and colour of the board bytes. -/
theorem pawn_table_ok_congr {b b' : Nat → Nat} {pl : Nat → Nat → Nat}
    (h : pawn_table_ok b pl)
    (hb : ∀ sq, ptype_of (b' sq) = ptype_of (b sq) ∧ color_of (b' sq) = color_of (b sq)) :
    pawn_table_ok b' pl := by
  obtain ⟨h1, h2⟩ := h
  constructor
  · intro c hc sq hsq hp
    rw [(hb sq).1, (hb sq).2] at hp
    exact h1 c hc sq hsq hp
  · intro c hc i hi hne
    rw [(hb _).1, (hb _).2]
    exact h2 c hc i hi hne

theorem king_ok_congr {b b' : Nat → Nat} {kl : Nat → Nat} {c : Nat}
    (h : king_ok b kl c)
    (hb : ∀ sq, ptype_of (b' sq) = ptype_of (b sq) ∧ color_of (b' sq) = color_of (b sq)) :
    king_ok b' kl c := by
  obtain ⟨a1, a2, a3, a4⟩ := h
  refine ⟨a1, by rw [(hb _).1]; exact a2, by rw [(hb _).2]; exact a3, ?_⟩
  intro sq hsq hp
  rw [(hb sq).1, (hb sq).2] at hp
  exact a4 sq hsq hp

theorem ptype_of_set_ori (x o : Nat) : ptype_of (set_ori x o) = ptype_of x := by
  rw [set_ori_eq, ptype_of_eq, ptype_of_eq]; omega

theorem color_of_set_ori (x o : Nat) : color_of (set_ori x o) = color_of x := by
  rw [set_ori_eq, color_of_eq, color_of_eq]; omega

theorem set_ori_lt (x o : Nat) (hx : x < 32) : set_ori x o < 32 := by
  rw [set_ori_eq]; omega

/-! ## make_move: phases -/

/-- `make_move` as the composition of its phases. -/
theorem make_move_eq (zob : Nat → Nat → Nat) (zob_color : Nat) (USE_KO : Int)
    (old : position_t) (mv : Nat) :
    make_move zob zob_color USE_KO old mv =
      match fire (stomp_phase zob (low_level_make_move zob zob_color old mv).1
          (low_level_make_move zob zob_color old mv).2) with
      | none => none
      | some victim_sq =>
        if victim_sq = 0 then
          if USE_KO ≠ 0 ∧
              zero_victims { (stomp_phase zob (low_level_make_move zob zob_color old mv).1
                (low_level_make_move zob zob_color old mv).2).victims with zapped := 0 } = true ∧
              (stomp_phase zob (low_level_make_move zob zob_color old mv).1
                (low_level_make_move zob zob_color old mv).2).key = old.key ^^^ zob_color
          then some ({ stomp_phase zob (low_level_make_move zob zob_color old mv).1
                (low_level_make_move zob zob_color old mv).2 with
              victims := { (stomp_phase zob (low_level_make_move zob zob_color old mv).1
                (low_level_make_move zob zob_color old mv).2).victims with zapped := 0 } }, KO)
          else some ({ stomp_phase zob (low_level_make_move zob zob_color old mv).1
                (low_level_make_move zob zob_color old mv).2 with
              victims := { (stomp_phase zob (low_level_make_move zob zob_color old mv).1
                (low_level_make_move zob zob_color old mv).2).victims with zapped := 0 } },
              { (stomp_phase zob (low_level_make_move zob zob_color old mv).1
                (low_level_make_move zob zob_color old mv).2).victims with zapped := 0 })
        else some (zap_phase zob (stomp_phase zob (low_level_make_move zob zob_color old mv).1
                (low_level_make_move zob zob_color old mv).2) victim_sq,
              (zap_phase zob (stomp_phase zob (low_level_make_move zob zob_color old mv).1
                (low_level_make_move zob zob_color old mv).2) victim_sq).victims) := by
  rfl

theorem llmm_move (zob : Nat → Nat → Nat) (zob_color : Nat) (old : position_t) (mv : Nat)
    (h : to_square mv ≠ from_square mv) :
    low_level_make_move zob zob_color old mv =
      ({ old with
          history := some old, last_move := mv,
          board := Function.update
            (Function.update old.board (to_square mv) (old.board (from_square mv)))
            (from_square mv) (old.board (to_square mv)),
          key := old.key ^^^ zob_color ^^^ zob (from_square mv) (old.board (from_square mv))
            ^^^ zob (to_square mv) (old.board (to_square mv))
            ^^^ zob (to_square mv) (old.board (from_square mv))
            ^^^ zob (from_square mv) (old.board (to_square mv)),
          kloc := llmm_kloc old.board old.kloc (from_square mv) (to_square mv),
          plocs := llmm_plocs old.board old.plocs (from_square mv) (to_square mv),
          ply := as_int16 (old.ply + 1) },
       if PAWN = ptype_of (old.board (from_square mv)) ∧
          PAWN = ptype_of (old.board (to_square mv)) ∧
          color_of (old.board (to_square mv)) = opp_color (color_of (old.board (from_square mv)))
       then from_square mv else 0) := by
  unfold low_level_make_move
  simp only [if_pos h]
  rfl

theorem llmm_rot (zob : Nat → Nat → Nat) (zob_color : Nat) (old : position_t) (mv : Nat)
    (h : to_square mv = from_square mv) :
    low_level_make_move zob zob_color old mv =
      ({ old with
          history := some old, last_move := mv,
          board := Function.update old.board (from_square mv)
            (set_ori (old.board (from_square mv))
              (rot_of mv + ori_of (old.board (from_square mv)))),
          key := old.key ^^^ zob_color ^^^ zob (from_square mv) (old.board (from_square mv))
            ^^^ zob (from_square mv) (set_ori (old.board (from_square mv))
              (rot_of mv + ori_of (old.board (from_square mv)))),
          ply := as_int16 (old.ply + 1) }, 0) := by
  unfold low_level_make_move
  simp only [h, ne_eq, not_true_eq_false, if_false]

theorem color_to_move_flip (ply : Int) :
    (if as_int16 (ply + 1) % 2 = 0 then WHITE else BLACK) =
      opp_color (if ply % 2 = 0 then WHITE else BLACK) := by
  unfold as_int16 opp_color
  by_cases h : ply % 2 = 0
  · rw [if_pos h, if_neg (by omega)]; rfl
  · rw [if_neg h, if_pos (by omega)]; rfl

/-! ## low_level_make_move keeps the invariants -/

theorem on_board_lt {sq : Nat} (h : on_board sq) : sq < 256 := by
  have := on_board_range h; omega

theorem on_board_ne_zero {sq : Nat} (h : on_board sq) : sq ≠ 0 := by
  have := on_board_range h; omega

theorem not_on_board_zero : ¬ on_board 0 := by decide

theorem border_zero_not_pawn {p : position_t} (h : border_ok p) : ptype_of (p.board 0) ≠ PAWN := by
  rw [h 0 (by decide) not_on_board_zero]; decide

/-- A square of the array that does not hold INVALID is on the playing area. -/
theorem on_board_of_not_invalid {p : position_t} (h : border_ok p) {sq : Nat} (hsq : sq < 256)
    (hne : ptype_of (p.board sq) ≠ INVALID) : on_board sq := by
  by_contra hc
  exact hne (h sq hsq hc)

theorem swap_sq_of_ne {f t sq : Nat} (h1 : sq ≠ f) (h2 : sq ≠ t) : swap_sq f t sq = sq := by
  unfold swap_sq; rw [if_neg h1, if_neg h2]

theorem move_ok_no_same_pawns {p : position_t} {mv : Nat} (hm : move_ok p mv)
    (hne : to_square mv ≠ from_square mv) :
    ¬ (ptype_of (p.board (from_square mv)) = PAWN ∧ ptype_of (p.board (to_square mv)) = PAWN ∧
      color_of (p.board (from_square mv)) = color_of (p.board (to_square mv))) := by
  obtain ⟨-, -, hc, h | h⟩ := hm
  · rintro ⟨-, hB, hcol⟩
    rcases h.2.2 with h1 | h1 | h1
    · exact hne h1
    · rw [h1] at hB; exact absurd hB (by decide)
    · exact h1.2 (by rw [← hcol, hc])
  · rintro ⟨hA, -, -⟩
    rw [h.1] at hA; exact absurd hA (by decide)

/-- `low_level_make_move` keeps the board/plocs/kloc invariants. -/
theorem llmm_valid (zob : Nat → Nat → Nat) (zob_color : Nat) {old : position_t} {mv : Nat}
    (hv : valid_position old) (hm : move_ok old mv) :
    valid_position (low_level_make_move zob zob_color old mv).1 := by
  obtain ⟨hb, hp, hk⟩ := hv
  have hf := hm.1
  have ht := hm.2.1
  by_cases hne : to_square mv = from_square mv
  · rw [llmm_rot zob zob_color old mv hne]
    have hcongr : ∀ sq, ptype_of (Function.update old.board (from_square mv)
          (set_ori (old.board (from_square mv))
            (rot_of mv + ori_of (old.board (from_square mv)))) sq) = ptype_of (old.board sq) ∧
        color_of (Function.update old.board (from_square mv)
          (set_ori (old.board (from_square mv))
            (rot_of mv + ori_of (old.board (from_square mv)))) sq) = color_of (old.board sq) := by
      intro sq
      by_cases e : sq = from_square mv
      · rw [e, Function.update_same]
        exact ⟨ptype_of_set_ori _ _, color_of_set_ori _ _⟩
      · rw [Function.update_noteq e]
        exact ⟨rfl, rfl⟩
    refine ⟨?_, ?_, ?_⟩
    · intro sq hsq hnb
      show ptype_of (Function.update old.board _ _ sq) = INVALID
      rw [(hcongr sq).1]
      exact hb sq hsq hnb
    · exact pawn_table_ok_congr hp hcongr
    · intro c hc
      exact king_ok_congr (hk c hc) hcongr
  · rw [llmm_move zob zob_color old mv hne]
    have hft : from_square mv ≠ to_square mv := fun e => hne e.symm
    refine ⟨?_, ?_, ?_⟩
    · intro sq hsq hnb
      show ptype_of (Function.update (Function.update old.board _ _) _ _ sq) = INVALID
      have h1 : sq ≠ from_square mv := fun e => hnb (by rw [e]; exact hf)
      have h2 : sq ≠ to_square mv := fun e => hnb (by rw [e]; exact ht)
      rw [swap_board_apply, swap_sq_of_ne h1 h2]
      exact hb sq hsq hnb
    · exact pawn_table_ok_relabel hp (on_board_lt hf) (on_board_lt ht) (on_board_ne_zero hf)
        (on_board_ne_zero ht) (swap_board_apply _ _ _)
        (fun c hc i hi => llmm_plocs_apply hp hft (on_board_ne_zero hf) (on_board_ne_zero ht)
          (move_ok_no_same_pawns hm hne) c hc i hi)
    · intro c hc
      exact king_ok_relabel (hk c hc) (on_board_lt hf) (on_board_lt ht) (swap_board_apply _ _ _)
        (llmm_kloc_apply hk hft (on_board_lt hf) (on_board_lt ht) c hc)

/-- `low_level_make_move` flips the side to move. -/
theorem llmm_color (zob : Nat → Nat → Nat) (zob_color : Nat) (old : position_t) (mv : Nat) :
    color_to_move_of (low_level_make_move zob zob_color old mv).1 =
      opp_color (color_to_move_of old) := by
  by_cases hne : to_square mv = from_square mv
  · rw [llmm_rot zob zob_color old mv hne]
    exact color_to_move_flip old.ply
  · rw [llmm_move zob zob_color old mv hne]
    exact color_to_move_flip old.ply

/-- `low_level_make_move` keeps the key equal to the recomputed key. -/
theorem llmm_key (zob : Nat → Nat → Nat) (zob_color : Nat) {old : position_t} {mv : Nat}
    (hm : move_ok old mv) (hkey : old.key = compute_zob_key zob zob_color old) :
    (low_level_make_move zob zob_color old mv).1.key =
      compute_zob_key zob zob_color (low_level_make_move zob zob_color old mv).1 := by
  have hf := hm.1
  have ht := hm.2.1
  have hcol := llmm_color zob zob_color old mv
  rw [compute_zob_key_eq] at hkey ⊢
  rw [hcol]
  by_cases hne : to_square mv = from_square mv
  · rw [llmm_rot zob zob_color old mv hne]
    simp only
    rw [zob_sum_update zob old.board _ _ hf, hkey]
    unfold opp_color
    by_cases hw : color_to_move_of old = WHITE
    · simp only [hw, if_true, show ¬ (WHITE = BLACK) by decide, if_false]
      simp only [Nat.xor_assoc, Nat.xor_comm, xor_left_comm, Nat.xor_self, Nat.xor_zero,
        Nat.xor_cancel_left]
    · have hbk : color_to_move_of old = BLACK := by
        unfold color_to_move_of at hw ⊢
        split_ifs at hw ⊢ with h1
        · exact absurd rfl hw
        · rfl
      simp only [hbk, show ¬ (BLACK = WHITE) by decide, if_true, if_false,
        show ¬ (WHITE = BLACK) by decide]
      simp only [Nat.xor_assoc, Nat.xor_comm, xor_left_comm, Nat.xor_self, Nat.xor_zero,
        Nat.xor_cancel_left]
  · rw [llmm_move zob zob_color old mv hne]
    simp only
    rw [zob_sum_update zob _ _ _ hf, zob_sum_update zob old.board _ _ ht,
      Function.update_noteq (fun e => hne e.symm), hkey]
    unfold opp_color
    by_cases hw : color_to_move_of old = WHITE
    · simp only [hw, if_true, show ¬ (WHITE = BLACK) by decide, if_false]
      simp only [Nat.xor_assoc, Nat.xor_comm, xor_left_comm, Nat.xor_self, Nat.xor_zero,
        Nat.xor_cancel_left]
    · have hbk : color_to_move_of old = BLACK := by
        unfold color_to_move_of at hw ⊢
        split_ifs at hw ⊢ with h1
        · exact absurd rfl hw
        · rfl
      simp only [hbk, show ¬ (BLACK = WHITE) by decide, if_true, if_false,
        show ¬ (WHITE = BLACK) by decide]
      simp only [Nat.xor_assoc, Nat.xor_comm, xor_left_comm, Nat.xor_self, Nat.xor_zero,
        Nat.xor_cancel_left]

/-! ## The stomp and zap phases -/

theorem llmm_stomped (zob : Nat → Nat → Nat) (zob_color : Nat) {old : position_t} {mv : Nat}
    (hm : move_ok old mv) :
    (low_level_make_move zob zob_color old mv).2 = 0 ∨
    (on_board (low_level_make_move zob zob_color old mv).2 ∧
      ptype_of ((low_level_make_move zob zob_color old mv).1.board
        (low_level_make_move zob zob_color old mv).2) = PAWN) := by
  by_cases hne : to_square mv = from_square mv
  · rw [llmm_rot zob zob_color old mv hne]; exact Or.inl rfl
  · rw [llmm_move zob zob_color old mv hne]
    simp only
    split_ifs with h
    · right
      refine ⟨hm.1, ?_⟩
      rw [if_pos h, Function.update_same]
      exact h.2.1.symm
    · exact Or.inl rfl

/-- Removing the piece on an on-board square keeps the border. -/
theorem border_remove {b : Nat → Nat} {s : Nat} (hs : on_board s)
    (hb : ∀ sq, sq < ARR_SIZE → ¬ on_board sq → ptype_of (b sq) = INVALID) :
    ∀ sq, sq < ARR_SIZE → ¬ on_board sq → ptype_of (Function.update b s 0 sq) = INVALID := by
  intro sq hsq hnb
  have : sq ≠ s := fun e => hnb (by rw [e]; exact hs)
  rw [Function.update_noteq this]
  exact hb sq hsq hnb

theorem stomp_phase_zero (zob : Nat → Nat → Nat) (q : position_t) :
    stomp_phase zob q 0 = { q with victims := { q.victims with stomped := 0 } } := by
  unfold stomp_phase; rw [if_pos rfl]

theorem stomp_phase_pos (zob : Nat → Nat → Nat) (q : position_t) {s : Nat} (hs : s ≠ 0) :
    stomp_phase zob q s =
      { q with victims := { q.victims with stomped := q.board s },
               key := q.key ^^^ zob s (q.board s) ^^^ zob s 0,
               board := Function.update q.board s 0,
               plocs := replace_ploc q.plocs (color_of (q.board s)) s 0 } := by
  unfold stomp_phase; rw [if_neg hs]
  simp only [Function.update_same]

theorem stomp_phase_color (zob : Nat → Nat → Nat) (q : position_t) (s : Nat) :
    color_to_move_of (stomp_phase zob q s) = color_to_move_of q := by
  by_cases hs : s = 0
  · rw [hs, stomp_phase_zero]; rfl
  · rw [stomp_phase_pos zob q hs]; rfl

/-- The stomp phase keeps the board/plocs/kloc invariants. -/
theorem stomp_phase_valid (zob : Nat → Nat → Nat) {q : position_t} {s : Nat}
    (hv : valid_position q) (hs : s = 0 ∨ (on_board s ∧ ptype_of (q.board s) = PAWN)) :
    valid_position (stomp_phase zob q s) := by
  obtain ⟨hb, hp, hk⟩ := hv
  by_cases h0 : s = 0
  · rw [h0, stomp_phase_zero]; exact ⟨hb, hp, hk⟩
  · rw [stomp_phase_pos zob q h0]
    rcases hs with hs | ⟨hs, hpawn⟩
    · exact absurd hs h0
    refine ⟨border_remove hs hb, pawn_table_ok_remove s hp (border_zero_not_pawn hb), ?_⟩
    intro c hc
    apply king_ok_remove s (hk c hc)
    rw [hpawn]
    exact fun hh => absurd hh.1 (by decide)

/-- The stomp phase keeps the key equal to the recomputed key. -/
theorem stomp_phase_key (zob : Nat → Nat → Nat) (zob_color : Nat) {q : position_t} {s : Nat}
    (hs : s = 0 ∨ on_board s) (hkey : q.key = compute_zob_key zob zob_color q) :
    (stomp_phase zob q s).key = compute_zob_key zob zob_color (stomp_phase zob q s) := by
  have hcol := stomp_phase_color zob q s
  rw [compute_zob_key_eq] at hkey ⊢
  rw [hcol]
  by_cases h0 : s = 0
  · subst h0
    rw [stomp_phase_zero]
    exact hkey
  · rcases hs with hs | hs
    · exact absurd hs h0
    rw [stomp_phase_pos zob q h0]
    simp only
    rw [zob_sum_update zob q.board _ _ hs, hkey]
    split_ifs <;>
      simp only [Nat.xor_assoc, Nat.xor_comm, xor_left_comm, Nat.xor_self, Nat.xor_zero,
        Nat.xor_cancel_left]

theorem zap_phase_eq (zob : Nat → Nat → Nat) (q : position_t) (v : Nat) :
    zap_phase zob q v =
      { q with victims := { q.victims with zapped := q.board v },
               key := q.key ^^^ zob v (q.board v) ^^^ zob v 0,
               board := Function.update q.board v 0,
               plocs := replace_ploc q.plocs (color_of (q.board v)) v 0 } := rfl

/-- The zap phase keeps the border and the pawn table. -/
theorem zap_phase_border_pawns (zob : Nat → Nat → Nat) {q : position_t} {v : Nat}
    (hv : valid_position q) (hs : on_board v) :
    border_ok (zap_phase zob q v) ∧ pawns_ok (zap_phase zob q v) := by
  obtain ⟨hb, hp, -⟩ := hv
  rw [zap_phase_eq]
  exact ⟨border_remove hs hb, pawn_table_ok_remove v hp (border_zero_not_pawn hb)⟩

/-- The zap phase keeps the key equal to the recomputed key. -/
theorem zap_phase_key (zob : Nat → Nat → Nat) (zob_color : Nat) {q : position_t} {v : Nat}
    (hs : on_board v) (hkey : q.key = compute_zob_key zob zob_color q) :
    (zap_phase zob q v).key = compute_zob_key zob zob_color (zap_phase zob q v) := by
  have hcol : color_to_move_of (zap_phase zob q v) = color_to_move_of q := rfl
  rw [compute_zob_key_eq] at hkey ⊢
  rw [hcol, zap_phase_eq]
  simp only
  rw [zob_sum_update zob q.board _ _ hs, hkey]
  split_ifs <;>
    simp only [Nat.xor_assoc, Nat.xor_comm, xor_left_comm, Nat.xor_self, Nat.xor_zero,
      Nat.xor_cancel_left]

/-- The zap phase and the kings: the king invariant of colour `c` is kept
unless the zapped piece is the King of colour `c`; then `kloc[c]` stays on the
emptied square and no King of colour `c` is left. -/
theorem zap_phase_kings (zob : Nat → Nat → Nat) {q : position_t} {v : Nat}
    (hv : valid_position q) (hs : on_board v) (c : Nat) (hc : c < 2) :
    (¬ (ptype_of (zap_phase zob q v).victims.zapped = KING ∧
        color_of (zap_phase zob q v).victims.zapped = c) →
      king_ok (zap_phase zob q v).board (zap_phase zob q v).kloc c) ∧
    ((ptype_of (zap_phase zob q v).victims.zapped = KING ∧
        color_of (zap_phase zob q v).victims.zapped = c) →
      (zap_phase zob q v).kloc c = v ∧
      (zap_phase zob q v).board ((zap_phase zob q v).kloc c) = 0 ∧
      ∀ sq, sq < ARR_SIZE →
        ¬ (ptype_of ((zap_phase zob q v).board sq) = KING ∧
           color_of ((zap_phase zob q v).board sq) = c)) := by
  obtain ⟨-, -, hk⟩ := hv
  rw [zap_phase_eq]
  constructor
  · intro h
    exact king_ok_remove v (hk c hc) h
  · intro h
    exact king_gone_remove v (on_board_lt hs) (hk c hc) h

/-- On a valid position the laser of the side that just moved stops, on `0`
or on an on-board square holding a PAWN or a KING. -/
theorem fire_valid {q : position_t} (hv : valid_position q) :
    ∃ v, fire q = some v ∧
      (v = 0 ∨ (on_board v ∧ (ptype_of (q.board v) = PAWN ∨ ptype_of (q.board v) = KING))) := by
  obtain ⟨hb, -, hk⟩ := hv
  have hc : (if color_to_move_of q = WHITE then BLACK else WHITE) < 2 := by
    split_ifs <;> decide
  obtain ⟨a1, a2, -, -⟩ := hk _ hc
  obtain ⟨v, hfire⟩ := fire_stops q a1 a2
  refine ⟨v, hfire, ?_⟩
  unfold fire at hfire
  rcases fire_loop_result _ _ _ _ hfire with h | ⟨h1, h2⟩
  · exact Or.inl h
  · right
    refine ⟨?_, h2⟩
    apply on_board_of_not_invalid hb h1
    rcases h2 with h2 | h2 <;> rw [h2] <;> decide

/-! ## make_move on a valid position -/

/-- What `make_move` does to a valid position for a move that meets the
preconditions of `low_level_make_move`: it returns, the new position keeps the
border, the pawn table and the key, and the king table of each colour whose
King was not zapped. -/
theorem make_move_spec (zob : Nat → Nat → Nat) (zob_color : Nat) (USE_KO : Int)
    {old : position_t} {mv : Nat} (hv : valid_position old) (hm : move_ok old mv) :
    ∃ new v, make_move zob zob_color USE_KO old mv = some (new, v) ∧
      border_ok new ∧ pawns_ok new ∧
      (old.key = compute_zob_key zob zob_color old →
        new.key = compute_zob_key zob zob_color new) ∧
      ∀ c, c < 2 →
        (¬ (ptype_of new.victims.zapped = KING ∧ color_of new.victims.zapped = c) →
          king_ok new.board new.kloc c) ∧
        ((ptype_of new.victims.zapped = KING ∧ color_of new.victims.zapped = c) →
          new.board (new.kloc c) = 0 ∧
          ∀ sq, sq < ARR_SIZE →
            ¬ (ptype_of (new.board sq) = KING ∧ color_of (new.board sq) = c)) := by
  have h1 := llmm_valid zob zob_color hv hm
  have hst := llmm_stomped zob zob_color hm
  have hq := stomp_phase_valid zob h1 hst
  have hkq : old.key = compute_zob_key zob zob_color old →
      (stomp_phase zob (low_level_make_move zob zob_color old mv).1
        (low_level_make_move zob zob_color old mv).2).key =
      compute_zob_key zob zob_color
        (stomp_phase zob (low_level_make_move zob zob_color old mv).1
          (low_level_make_move zob zob_color old mv).2) := by
    intro hkey
    apply stomp_phase_key zob zob_color _ (llmm_key zob zob_color hm hkey)
    rcases hst with h | h
    · exact Or.inl h
    · exact Or.inr h.1
  obtain ⟨v, hfire, hvic⟩ := fire_valid hq
  rw [make_move_eq, hfire]
  generalize stomp_phase zob (low_level_make_move zob zob_color old mv).1
    (low_level_make_move zob zob_color old mv).2 = q at *
  simp only
  have hz : ptype_of 0 ≠ KING := by decide
  by_cases hv0 : v = 0
  · rw [if_pos hv0]
    split_ifs with hko
    · refine ⟨_, _, rfl, hq.1, hq.2.1, hkq, ?_⟩
      intro c hc
      exact ⟨fun _ => hq.2.2 c hc, fun hh => absurd hh.1 hz⟩
    · refine ⟨_, _, rfl, hq.1, hq.2.1, hkq, ?_⟩
      intro c hc
      exact ⟨fun _ => hq.2.2 c hc, fun hh => absurd hh.1 hz⟩
  · rw [if_neg hv0]
    rcases hvic with h | ⟨hon, -⟩
    · exact absurd h hv0
    obtain ⟨b1, b2⟩ := zap_phase_border_pawns zob hq hon
    refine ⟨_, _, rfl, b1, b2, fun hkey => zap_phase_key zob zob_color hon (hkq hkey), ?_⟩
    intro c hc
    obtain ⟨k1, k2⟩ := zap_phase_kings zob hq hon c hc
    exact ⟨k1, fun hh => (k2 hh).2⟩

/-! ## generate_all on a valid position -/

theorem color_to_move_lt (p : position_t) : color_to_move_of p < 2 := by
  unfold color_to_move_of; split_ifs <;> decide

theorem opp_color_lt (c : Nat) : opp_color c < 2 := by
  unfold opp_color; split_ifs <;> decide

/-- On a valid position the nonzero pawn slots are on the playing area. -/
theorem valid_ploc_on_board {p : position_t} (hv : valid_position p) {c i : Nat} (hc : c < 2)
    (hi : i < NUMBER_PAWNS) (hne : p.plocs c i ≠ 0) :
    on_board (p.plocs c i) ∧ ptype_of (p.board (p.plocs c i)) = PAWN ∧
      color_of (p.board (p.plocs c i)) = c := by
  obtain ⟨hb, ⟨-, h2⟩, -⟩ := hv
  obtain ⟨a1, a2, a3⟩ := h2 c hc i hi hne
  refine ⟨on_board_of_not_invalid hb a1 ?_, a2, a3⟩
  rw [a2]; decide

/-- On a valid position the kings are on the playing area. -/
theorem valid_kloc_on_board {p : position_t} (hv : valid_position p) {c : Nat} (hc : c < 2) :
    on_board (p.kloc c) ∧ ptype_of (p.board (p.kloc c)) = KING ∧
      color_of (p.board (p.kloc c)) = c := by
  obtain ⟨hb, -, hk⟩ := hv
  obtain ⟨a1, a2, a3, -⟩ := hk c hc
  refine ⟨on_board_of_not_invalid hb a1 ?_, a2, a3⟩
  rw [a2]; decide

/-- On a valid position `generate_all` returns, and writes the moves of the
specification: the Pawn moves slot by slot, then the King moves. -/
theorem generate_all_valid {p : position_t} (hv : valid_position p) (list : Nat → Nat)
    (strict : Bool) :
    ∃ lm, mark_laser_path p prefilled_laser_map (opp_color (color_to_move_of p)) 1 = some lm ∧
      generate_all p list strict = some (emit_all (list, 0)
        ((List.range NUMBER_PAWNS).flatMap (spec_pawn_moves p lm) ++ spec_king_moves p)) := by
  have hk := valid_kloc_on_board hv (opp_color_lt (color_to_move_of p))
  obtain ⟨lm, hlm⟩ := mark_laser_path_stops p prefilled_laser_map
    (opp_color (color_to_move_of p)) 1 (on_board_lt hk.1) hk.2.1
  refine ⟨lm, hlm, ?_⟩
  have hk' := (valid_kloc_on_board hv (color_to_move_lt p)).1
  have hkr := on_board_range hk'
  rw [generate_all_eq p list strict ?_ (by omega) (by omega), init_laser_map_eq, hlm]
  · rfl
  · intro i hi
    by_cases h0 : p.plocs (color_to_move_of p) i = 0
    · exact Or.inl h0
    · have := on_board_range (valid_ploc_on_board hv (color_to_move_lt p) hi h0).1
      right; omega

theorem neighbour_lt {sq d : Nat} (hs : on_board sq) (hd : d < 8) : neighbour sq d < 256 := by
  have := on_board_range hs
  have := dir_of_cases d hd
  unfold neighbour; omega

theorem neighbour_ne {sq d : Nat} (hs : on_board sq) (hd : d < 8) : neighbour sq d ≠ sq := by
  have := on_board_range hs
  have h : ∀ d, d < 8 → dir_of d ≠ 0 := by decide
  have := h d hd
  have := dir_of_cases d hd
  unfold neighbour; omega

/-- The moves of a Pawn slot in the specification's list. -/
theorem mem_spec_pawn_moves {p : position_t} {lm : Nat → Nat} {i mv : Nat} :
    mv ∈ spec_pawn_moves p lm i ↔
      p.plocs (color_to_move_of p) i ≠ 0 ∧ lm (p.plocs (color_to_move_of p) i) ≠ 1 ∧
      ((∃ d, d < 8 ∧
          (ptype_of (p.board (neighbour (p.plocs (color_to_move_of p) i) d)) = EMPTY ∨
            (ptype_of (p.board (neighbour (p.plocs (color_to_move_of p) i) d)) = PAWN ∧
             color_of (p.board (neighbour (p.plocs (color_to_move_of p) i) d)) ≠
               color_to_move_of p)) ∧
          mv = move_of PAWN NONE (p.plocs (color_to_move_of p) i)
            (neighbour (p.plocs (color_to_move_of p) i) d)) ∨
        ∃ rot, (rot = RIGHT ∨ rot = UTURN ∨ rot = LEFT) ∧
          mv = move_of PAWN rot (p.plocs (color_to_move_of p) i)
            (p.plocs (color_to_move_of p) i)) := by
  unfold spec_pawn_moves
  simp only
  split_ifs with h
  · simp only [List.mem_append, List.mem_map, List.mem_filter, List.mem_range, decide_eq_true_eq,
      List.mem_cons, List.mem_singleton, List.not_mem_nil, or_false]
    constructor
    · rintro (⟨d, ⟨hd, hc⟩, rfl⟩ | h1 | h1 | h1)
      · exact ⟨h.1, h.2, Or.inl ⟨d, hd, hc, rfl⟩⟩
      · exact ⟨h.1, h.2, Or.inr ⟨RIGHT, Or.inl rfl, h1⟩⟩
      · exact ⟨h.1, h.2, Or.inr ⟨UTURN, Or.inr (Or.inl rfl), h1⟩⟩
      · exact ⟨h.1, h.2, Or.inr ⟨LEFT, Or.inr (Or.inr rfl), h1⟩⟩
    · rintro ⟨-, -, ⟨d, hd, hc, rfl⟩ | ⟨rot, hr | hr | hr, rfl⟩⟩
      · exact Or.inl ⟨d, ⟨hd, hc⟩, rfl⟩
      · subst hr; exact Or.inr (Or.inl rfl)
      · subst hr; exact Or.inr (Or.inr (Or.inl rfl))
      · subst hr; exact Or.inr (Or.inr (Or.inr rfl))
  · simp only [List.not_mem_nil, false_iff]
    rintro ⟨h1, h2, -⟩
    exact h ⟨h1, h2⟩

/-- The moves of the King in the specification's list. -/
theorem mem_spec_king_moves {p : position_t} {mv : Nat} :
    mv ∈ spec_king_moves p ↔
      ((∃ d, d < 8 ∧
          ptype_of (p.board (neighbour (p.kloc (color_to_move_of p)) d)) = EMPTY ∧
          mv = move_of KING NONE (p.kloc (color_to_move_of p))
            (neighbour (p.kloc (color_to_move_of p)) d)) ∨
        ∃ rot, rot < 4 ∧
          mv = move_of KING rot (p.kloc (color_to_move_of p)) (p.kloc (color_to_move_of p))) := by
  unfold spec_king_moves
  simp only [List.mem_append, List.mem_map, List.mem_filter, List.mem_range, decide_eq_true_eq,
      List.mem_cons, List.mem_singleton, List.not_mem_nil, or_false]
  constructor
  · rintro ((⟨d, ⟨hd, hc⟩, rfl⟩ | h1 | h1 | h1) | h1)
    · exact Or.inl ⟨d, hd, hc, rfl⟩
    · exact Or.inr ⟨RIGHT, by decide, h1⟩
    · exact Or.inr ⟨UTURN, by decide, h1⟩
    · exact Or.inr ⟨LEFT, by decide, h1⟩
    · exact Or.inr ⟨NONE, by decide, h1⟩
  · rintro (⟨d, hd, hc, rfl⟩ | ⟨rot, hr, rfl⟩)
    · exact Or.inl (Or.inl ⟨d, ⟨hd, hc⟩, rfl⟩)
    · have : rot = 0 ∨ rot = 1 ∨ rot = 2 ∨ rot = 3 := by omega
      rcases this with h | h | h | h <;> subst h
      · exact Or.inr rfl
      · exact Or.inl (Or.inr (Or.inl rfl))
      · exact Or.inl (Or.inr (Or.inr (Or.inl rfl)))
      · exact Or.inl (Or.inr (Or.inr (Or.inr rfl)))

/-- The list written by `generate_all` on a valid position. -/
theorem emitted_generate_all {p : position_t} (hv : valid_position p) {list : Nat → Nat}
    {strict : Bool} {r : (Nat → Nat) × Nat} (hgen : generate_all p list strict = some r) :
    ∃ lm, mark_laser_path p prefilled_laser_map (opp_color (color_to_move_of p)) 1 = some lm ∧
      r = emit_all (list, 0)
        ((List.range NUMBER_PAWNS).flatMap (spec_pawn_moves p lm) ++ spec_king_moves p) ∧
      emitted r =
        (List.range NUMBER_PAWNS).flatMap (spec_pawn_moves p lm) ++ spec_king_moves p := by
  obtain ⟨lm, hlm, hg⟩ := generate_all_valid hv list strict
  rw [hg] at hgen
  have : r = emit_all (list, 0)
      ((List.range NUMBER_PAWNS).flatMap (spec_pawn_moves p lm) ++ spec_king_moves p) :=
    (Option.some.inj hgen).symm
  refine ⟨lm, hlm, this, ?_⟩
  rw [this, emitted_emit_all]

/-- A generated move is a move of a Pawn slot or a move of the King. -/
theorem generated_cases {p : position_t} (hv : valid_position p) {list : Nat → Nat}
    {strict : Bool} {r : (Nat → Nat) × Nat} (hgen : generate_all p list strict = some r)
    {mv : Nat} (hmv : mv ∈ emitted r) :
    (∃ lm i, i < NUMBER_PAWNS ∧ mv ∈ spec_pawn_moves p lm i) ∨ mv ∈ spec_king_moves p := by
  obtain ⟨lm, -, -, he⟩ := emitted_generate_all hv hgen
  rw [he, List.mem_append, List.mem_flatMap] at hmv
  rcases hmv with ⟨i, hi, h⟩ | h
  · exact Or.inl ⟨lm, i, List.mem_range.mp hi, h⟩
  · exact Or.inr h

/-- A generated move meets the preconditions of `low_level_make_move`. -/
theorem generated_move_ok {p : position_t} (hv : valid_position p) {list : Nat → Nat}
    {strict : Bool} {r : (Nat → Nat) × Nat} (hgen : generate_all p list strict = some r)
    {mv : Nat} (hmv : mv ∈ emitted r) : move_ok p mv := by
  have hb := hv.1
  rcases generated_cases hv hgen hmv with ⟨lm, i, hi, h⟩ | h
  · obtain ⟨h0, -, hc⟩ := mem_spec_pawn_moves.mp h
    obtain ⟨hon0, pt, col⟩ := valid_ploc_on_board hv (color_to_move_lt p) hi h0
    have hlt := on_board_lt hon0
    rcases hc with ⟨d, hd, hdest, rfl⟩ | ⟨rot, -, rfl⟩
    · have hn := neighbour_lt hon0 hd
      have hon : on_board (neighbour (p.plocs (color_to_move_of p) i) d) := by
        apply on_board_of_not_invalid hb hn
        rcases hdest with e | ⟨e, -⟩ <;> rw [e] <;> decide
      unfold move_ok
      rw [from_square_move_of, to_square_move_of, ptype_mv_of_move_of, Nat.mod_eq_of_lt hlt,
        Nat.mod_eq_of_lt hn]
      exact ⟨hon0, hon, col, Or.inl ⟨pt, rfl, Or.inr hdest⟩⟩
    · unfold move_ok
      rw [from_square_move_of, to_square_move_of, ptype_mv_of_move_of, Nat.mod_eq_of_lt hlt]
      exact ⟨hon0, hon0, col, Or.inl ⟨pt, rfl, Or.inl rfl⟩⟩
  · obtain ⟨hon0, pt, col⟩ := valid_kloc_on_board hv (color_to_move_lt p)
    have hlt := on_board_lt hon0
    rcases mem_spec_king_moves.mp h with ⟨d, hd, hdest, rfl⟩ | ⟨rot, -, rfl⟩
    · have hn := neighbour_lt hon0 hd
      have hon : on_board (neighbour (p.kloc (color_to_move_of p)) d) := by
        apply on_board_of_not_invalid hb hn
        rw [hdest]; decide
      unfold move_ok
      rw [from_square_move_of, to_square_move_of, ptype_mv_of_move_of, Nat.mod_eq_of_lt hlt,
        Nat.mod_eq_of_lt hn]
      exact ⟨hon0, hon, col, Or.inr ⟨pt, rfl, Or.inr hdest⟩⟩
    · unfold move_ok
      rw [from_square_move_of, to_square_move_of, ptype_mv_of_move_of, Nat.mod_eq_of_lt hlt]
      exact ⟨hon0, hon0, col, Or.inr ⟨pt, rfl, Or.inl rfl⟩⟩

/-! ## generate_all as a list of blocks, for every position -/

theorem gen_pawn_block (p : position_t) (lm : Nat → Nat) (s : (Nat → Nat) × Nat) (i : Nat) :
    gen_pawn p (color_to_move_of p) lm s i = emit_all s (pawn_block p lm i) := by
  unfold gen_pawn pawn_block
  simp only
  by_cases h0 : p.plocs (color_to_move_of p) i = 0
  · simp [h0, emit_all_nil]
  · by_cases h1 : lm (p.plocs (color_to_move_of p) i) = 1
    · simp [h0, h1, emit_all_nil]
    · rw [if_neg h0, if_neg h1, if_neg h0, if_neg h1]
      rw [foldl_emit_filter, foldl_emit_map, ← emit_all_append]

/-- `generate_all` writes the pawn blocks slot by slot, then the king block,
when the marking of the enemy laser stops. -/
theorem generate_all_blocks (p : position_t) (list : Nat → Nat) (strict : Bool) :
    generate_all p list strict =
      (mark_laser_path p init_laser_map (opp_color (color_to_move_of p)) 1).map
        (fun lm => emit_all (list, 0)
          ((List.range NUMBER_PAWNS).flatMap (pawn_block p lm) ++ king_block p)) := by
  unfold generate_all
  simp only
  cases hm : mark_laser_path p init_laser_map (opp_color (color_to_move_of p)) 1 with
  | none => rfl
  | some lm =>
    simp only [Option.map_some']
    have hfold : (List.range NUMBER_PAWNS).foldl (gen_pawn p (color_to_move_of p) lm) (list, 0) =
        emit_all (list, 0) ((List.range NUMBER_PAWNS).flatMap (pawn_block p lm)) := by
      rw [← foldl_emit_all_flatMap]
      apply List.foldl_ext
      intro s i _
      exact gen_pawn_block p lm s i
    unfold king_block
    simp only
    rw [hfold, foldl_emit_filter, foldl_emit_map, emit_all_append, emit_all_append,
      emit_all_append]
    rfl

theorem pawn_block_length (p : position_t) (lm : Nat → Nat) (i : Nat) :
    (pawn_block p lm i).length ≤ 8 + 3 := by
  unfold pawn_block
  simp only
  split_ifs
  · simp
  · simp
  · rw [List.length_append, List.length_map, List.length_map]
    have h1 := List.length_filter_le (fun d =>
        decide (¬ (ptype_of (p.board ((p.plocs (color_to_move_of p) i : Int) + dir_of d).toNat)
            = INVALID ∨
          ptype_of (p.board ((p.plocs (color_to_move_of p) i : Int) + dir_of d).toNat) = KING ∨
          (ptype_of (p.board ((p.plocs (color_to_move_of p) i : Int) + dir_of d).toNat) = PAWN ∧
            color_to_move_of p =
              color_of (p.board ((p.plocs (color_to_move_of p) i : Int) + dir_of d).toNat)))))
      (List.range 8)
    rw [List.length_range] at h1
    have h2 : (List.range' 1 3).length = 3 := by decide
    omega

theorem king_block_length (p : position_t) : (king_block p).length ≤ 8 + 4 := by
  unfold king_block
  simp only
  rw [List.length_append, List.length_append, List.length_map, List.length_map]
  have h1 := List.length_filter_le (fun d =>
      decide (¬ (ptype_of (p.board ((p.kloc (color_to_move_of p) : Int) + dir_of d).toNat)
        ≠ EMPTY))) (List.range 8)
  rw [List.length_range] at h1
  have h2 : (List.range' 1 3).length = 3 := by decide
  simp only [List.length_singleton]
  omega

theorem flatMap_length_le {α β : Type} (l : List α) (B : α → List β) (k : Nat)
    (h : ∀ x, (B x).length ≤ k) : (l.flatMap B).length ≤ l.length * k := by
  induction l with
  | nil => simp
  | cons x l ih =>
    rw [List.flatMap_cons, List.length_append, List.length_cons]
    have := h x
    have e : (l.length + 1) * k = l.length * k + k := by ring
    omega

theorem pawn_block_sort_key (p : position_t) (lm : Nat → Nat) (i : Nat) :
    ∀ mv ∈ pawn_block p lm i, sort_key mv = 0 := by
  intro mv hmv
  unfold pawn_block at hmv
  simp only at hmv
  split_ifs at hmv
  · cases hmv
  · cases hmv
  · rw [List.mem_append, List.mem_map, List.mem_map] at hmv
    rcases hmv with ⟨d, -, rfl⟩ | ⟨r, -, rfl⟩ <;> exact sort_key_move_of _ _ _ _

theorem king_block_sort_key (p : position_t) : ∀ mv ∈ king_block p, sort_key mv = 0 := by
  intro mv hmv
  unfold king_block at hmv
  simp only at hmv
  rw [List.mem_append, List.mem_append, List.mem_map, List.mem_map, List.mem_singleton] at hmv
  rcases hmv with (⟨d, -, rfl⟩ | ⟨r, -, rfl⟩) | rfl <;> exact sort_key_move_of _ _ _ _

/-! ## The ways make_move returns -/

/-- The square returned by `low_level_make_move` is `0` or holds a PAWN. -/
theorem llmm_stomped_any (zob : Nat → Nat → Nat) (zob_color : Nat) (old : position_t) (mv : Nat) :
    (low_level_make_move zob zob_color old mv).2 = 0 ∨
      ptype_of ((low_level_make_move zob zob_color old mv).1.board
        (low_level_make_move zob zob_color old mv).2) = PAWN := by
  by_cases hne : to_square mv = from_square mv
  · rw [llmm_rot zob zob_color old mv hne]; exact Or.inl rfl
  · rw [llmm_move zob zob_color old mv hne]
    simp only
    split_ifs with h
    · right
      rw [if_pos h, Function.update_same]
      exact h.2.1.symm
    · exact Or.inl rfl

/-- The stomped byte after the stomp phase: `0` exactly when nothing was
stomped, else a PAWN byte. -/
theorem stomp_phase_stomped (zob : Nat → Nat → Nat) (q : position_t) (s : Nat)
    (hs : s = 0 ∨ ptype_of (q.board s) = PAWN) :
    ((stomp_phase zob q s).victims.stomped = 0 ↔ s = 0) ∧
    ((stomp_phase zob q s).victims.stomped = 0 ∨
      ptype_of (stomp_phase zob q s).victims.stomped = PAWN) ∧
    (s ≠ 0 → (stomp_phase zob q s).victims.stomped = q.board s) := by
  by_cases h0 : s = 0
  · subst h0
    rw [stomp_phase_zero]
    exact ⟨⟨fun _ => rfl, fun _ => rfl⟩, Or.inl rfl, fun h => absurd rfl h⟩
  · rw [stomp_phase_pos zob q h0]
    rcases hs with hs | hs
    · exact absurd hs h0
    refine ⟨⟨fun h => ?_, fun h => absurd h h0⟩, Or.inr hs, fun _ => rfl⟩
    exfalso
    have : ptype_of (q.board s) = ptype_of 0 := congrArg ptype_of h
    rw [hs] at this
    exact absurd this (by decide)

/-- The ways in which `make_move` returns. -/
theorem make_move_cases {zob : Nat → Nat → Nat} {zob_color : Nat} {USE_KO : Int}
    {old : position_t} {mv : Nat} {new : position_t} {v : victims_t}
    (h : make_move zob zob_color USE_KO old mv = some (new, v)) :
    ∃ q vsq,
      q = stomp_phase zob (low_level_make_move zob zob_color old mv).1
        (low_level_make_move zob zob_color old mv).2 ∧
      fire q = some vsq ∧
      ((vsq = 0 ∧ new = { q with victims := { q.victims with zapped := 0 } } ∧
          (((USE_KO ≠ 0 ∧ zero_victims new.victims = true ∧ new.key = old.key ^^^ zob_color) ∧
              v = KO) ∨
           (¬ (USE_KO ≠ 0 ∧ zero_victims new.victims = true ∧
                new.key = old.key ^^^ zob_color) ∧ v = new.victims))) ∨
       (vsq ≠ 0 ∧ vsq < 256 ∧
          (ptype_of (q.board vsq) = PAWN ∨ ptype_of (q.board vsq) = KING) ∧
          new = zap_phase zob q vsq ∧ v = new.victims)) := by
  rw [make_move_eq] at h
  generalize hq : stomp_phase zob (low_level_make_move zob zob_color old mv).1
    (low_level_make_move zob zob_color old mv).2 = q at h
  refine ⟨q, ?_⟩
  cases hf : fire q with
  | none => rw [hf] at h; cases h
  | some vsq =>
    rw [hf] at h
    simp only at h
    refine ⟨vsq, rfl, rfl, ?_⟩
    by_cases hv0 : vsq = 0
    · left
      rw [if_pos hv0] at h
      split_ifs at h with hko
      · cases h
        exact ⟨hv0, rfl, Or.inl ⟨hko, rfl⟩⟩
      · cases h
        exact ⟨hv0, rfl, Or.inr ⟨hko, rfl⟩⟩
    · right
      rw [if_neg hv0] at h
      cases h
      unfold fire at hf
      rcases fire_loop_result _ _ _ _ hf with h0 | ⟨h1, h2⟩
      · exact absurd h0 hv0
      · exact ⟨hv0, h1, h2, rfl, rfl⟩

theorem ptype_of_ko : ptype_of 255 = INVALID := by decide

/-- A victims record whose bytes are each `0`, a PAWN or a KING is not the KO
sentinel. -/
theorem not_is_KO_of_pieces (w : victims_t)
    (h1 : w.stomped = 0 ∨ ptype_of w.stomped = PAWN ∨ ptype_of w.stomped = KING)
    (h2 : w.zapped = 0 ∨ ptype_of w.zapped = PAWN ∨ ptype_of w.zapped = KING) :
    is_KO w = false := by
  have a : w.stomped ≠ 255 := by
    intro e; rw [e] at h1
    rcases h1 with h | h | h
    · exact absurd h (by decide)
    · rw [ptype_of_ko] at h; exact absurd h (by decide)
    · rw [ptype_of_ko] at h; exact absurd h (by decide)
  have b : w.zapped ≠ 255 := by
    intro e; rw [e] at h2
    rcases h2 with h | h | h
    · exact absurd h (by decide)
    · rw [ptype_of_ko] at h; exact absurd h (by decide)
    · rw [ptype_of_ko] at h; exact absurd h (by decide)
  unfold is_KO
  simp [a, b]

/-- The victims of the position written by `make_move`: the stomped byte is `0`
or a PAWN, the zapped byte is `0` or a PAWN or a KING. -/
theorem make_move_victims {zob : Nat → Nat → Nat} {zob_color : Nat} {USE_KO : Int}
    {old : position_t} {mv : Nat} {new : position_t} {v : victims_t}
    (h : make_move zob zob_color USE_KO old mv = some (new, v)) :
    (new.victims.stomped = 0 ∨ ptype_of new.victims.stomped = PAWN) ∧
    (new.victims.zapped = 0 ∨ ptype_of new.victims.zapped = PAWN ∨
      ptype_of new.victims.zapped = KING) ∧
    (new.victims.stomped = 0 ↔ (low_level_make_move zob zob_color old mv).2 = 0) := by
  obtain ⟨q, vsq, hq, -, hc⟩ := make_move_cases h
  have hs := stomp_phase_stomped zob (low_level_make_move zob zob_color old mv).1
    (low_level_make_move zob zob_color old mv).2 (llmm_stomped_any zob zob_color old mv)
  rw [← hq] at hs
  rcases hc with ⟨-, hnew, -⟩ | ⟨-, -, hty, hnew, -⟩
  · subst hnew
    exact ⟨hs.2.1, Or.inl rfl, hs.1⟩
  · subst hnew
    rw [zap_phase_eq]
    exact ⟨hs.2.1, Or.inr hty, hs.1⟩

/-- A move of the list `generated_moves` was written by a call of
`generate_all` that returned. -/
theorem generated_moves_mem {p : position_t} {list : Nat → Nat} {strict : Bool} {mv : Nat}
    (h : mv ∈ generated_moves p list strict) :
    ∃ r, generate_all p list strict = some r ∧ mv ∈ emitted r := by
  unfold generated_moves at h
  cases hg : generate_all p list strict with
  | none => rw [hg] at h; cases h
  | some r => rw [hg] at h; exact ⟨r, rfl, h⟩

/-- A generated move of a valid position meets the preconditions of
`low_level_make_move`. -/
theorem generated_moves_ok {p : position_t} (hv : valid_position p) {list : Nat → Nat}
    {strict : Bool} {mv : Nat} (h : mv ∈ generated_moves p list strict) : move_ok p mv := by
  obtain ⟨r, hg, hm⟩ := generated_moves_mem h
  exact generated_move_ok hv hg hm

/-- The board bytes stay below `2 ^ PIECE_SIZE` through `make_move`, so the
recorded victims are below it too. -/
theorem make_move_bytes {zob : Nat → Nat → Nat} {zob_color : Nat} {USE_KO : Int}
    {old : position_t} {mv : Nat} {new : position_t} {v : victims_t}
    (hb : ∀ sq, sq < ARR_SIZE → old.board sq < 2 ^ PIECE_SIZE)
    (h : make_move zob zob_color USE_KO old mv = some (new, v)) :
    new.victims.stomped < 2 ^ PIECE_SIZE ∧ new.victims.zapped < 2 ^ PIECE_SIZE := by
  have hf : from_square mv < 256 := by rw [from_square_eq]; omega
  have ht : to_square mv < 256 := by rw [to_square_eq]; omega
  have hL : ∀ sq, sq < 256 → (low_level_make_move zob zob_color old mv).1.board sq < 32 := by
    intro sq hsq
    by_cases hne : to_square mv = from_square mv
    · rw [llmm_rot zob zob_color old mv hne]
      simp only
      by_cases e : sq = from_square mv
      · rw [e, Function.update_same]
        exact set_ori_lt _ _ (hb _ hf)
      · rw [Function.update_noteq e]
        exact hb sq hsq
    · rw [llmm_move zob zob_color old mv hne]
      simp only
      rw [swap_board_apply]
      exact hb _ (swap_sq_lt hf ht hsq)
  have hs2 : (low_level_make_move zob zob_color old mv).2 < 256 := by
    by_cases hne : to_square mv = from_square mv
    · rw [llmm_rot zob zob_color old mv hne]
      show 0 < 256
      decide
    · rw [llmm_move zob zob_color old mv hne]
      simp only
      split_ifs
      · exact hf
      · decide
  obtain ⟨q, vsq, hq, -, hc⟩ := make_move_cases h
  have hst := stomp_phase_stomped zob (low_level_make_move zob zob_color old mv).1
    (low_level_make_move zob zob_color old mv).2 (llmm_stomped_any zob zob_color old mv)
  rw [← hq] at hst
  have hqs : q.victims.stomped < 32 := by
    by_cases h0 : (low_level_make_move zob zob_color old mv).2 = 0
    · rw [hst.1.mpr h0]; decide
    · rw [hst.2.2 h0]; exact hL _ hs2
  have hqb : ∀ sq, sq < 256 → q.board sq < 32 := by
    intro sq hsq
    rw [hq]
    by_cases h0 : (low_level_make_move zob zob_color old mv).2 = 0
    · rw [h0, stomp_phase_zero]; exact hL sq hsq
    · rw [stomp_phase_pos zob _ h0]
      simp only
      by_cases e : sq = (low_level_make_move zob zob_color old mv).2
      · rw [e, Function.update_same]; decide
      · rw [Function.update_noteq e]; exact hL sq hsq
  rcases hc with ⟨-, hnew, -⟩ | ⟨-, hv256, -, hnew, -⟩
  · subst hnew
    refine ⟨hqs, ?_⟩
    show 0 < 2 ^ PIECE_SIZE
    decide
  · subst hnew
    rw [zap_phase_eq]
    exact ⟨hqs, hqb vsq hv256⟩

/-! ## The laser path and the enemy-laser map -/

/-- Marking a list of squares: a square of the list gets the mask OR-ed in,
every other square is unchanged. -/
theorem mark_fold_apply (mask : Nat) (l : List Nat) (m : Nat → Nat) (x : Nat) :
    (l.foldl (fun m sq => Function.update m sq (m sq ||| mask)) m) x =
      if x ∈ l then m x ||| mask else m x := by
  induction l generalizing m with
  | nil => simp
  | cons a l ih =>
    rw [List.foldl_cons, ih]
    by_cases hxa : x = a
    · subst hxa
      simp only [Function.update_same, List.mem_cons, true_or, if_true]
      split_ifs
      · rw [Nat.or_assoc, Nat.or_self]
      · rfl
    · simp only [Function.update_noteq hxa, List.mem_cons, hxa, false_or]

/-- The loop of `mark_laser_path` marks exactly the squares of the path. -/
theorem mark_loop_eq (board : Nat → Nat) (mask : Nat) :
    ∀ fuel lm sq bdir, mark_loop board mask fuel lm sq bdir =
      (laser_path_loop board fuel sq bdir).map
        (fun l => l.foldl (fun m x => Function.update m x (m x ||| mask)) lm) := by
  intro fuel
  induction fuel with
  | zero => intro lm sq bdir; rfl
  | succ n ih =>
    intro lm sq bdir
    unfold mark_loop laser_path_loop
    simp only
    split_ifs with h1 h2 h3
    · rw [ih, Option.map_map]; rfl
    · rfl
    · rw [ih, Option.map_map]; rfl
    · rfl

/-- `mark_laser_path` marks exactly the squares of the laser path. -/
theorem mark_laser_path_eq (p : position_t) (lm : Nat → Nat) (c mask : Nat) :
    mark_laser_path p lm c mask =
      (laser_path p c).map
        (fun l => l.foldl (fun m x => Function.update m x (m x ||| mask)) lm) := by
  unfold mark_laser_path laser_path
  simp only
  rw [mark_loop_eq, Option.map_map]
  rfl

/-- In the enemy-laser map of `generate_all` a square of the playing area has
value 1 exactly when it is on the laser path. -/
theorem pinned_iff_on_path {p : position_t} {c : Nat} {lm : Nat → Nat}
    (h : mark_laser_path p prefilled_laser_map c 1 = some lm) :
    ∃ path, laser_path p c = some path ∧
      ∀ sq, on_board sq → (lm sq = 1 ↔ sq ∈ path) := by
  rw [mark_laser_path_eq] at h
  cases hp : laser_path p c with
  | none => rw [hp] at h; cases h
  | some path =>
    rw [hp] at h
    simp only [Option.map_some', Option.some.injEq] at h
    refine ⟨path, rfl, ?_⟩
    intro sq hsq
    rw [← h, mark_fold_apply]
    unfold prefilled_laser_map
    rw [if_pos hsq]
    split_ifs with hm
    · exact ⟨fun _ => hm, fun _ => rfl⟩
    · exact ⟨fun hh => absurd hh (by decide), fun hh => absurd hh hm⟩

/-! ## The claims about `make_move` -/

/-- Claim C1: for every Zobrist table, every position `old` of the data model
(border, pawn table and king table in order) whose key equals the recomputed
key, and every move returned by `generate_all old`, `make_move` returns and
the position it writes again has its key equal to the recomputed key, whether
the returned record is the KO sentinel or normal victims. -/
theorem make_move_keeps_zobrist_key (zob : Nat → Nat → Nat) (zob_color : Nat) (USE_KO : Int)
    (old : position_t) (list : Nat → Nat) (strict : Bool) (mv : Nat)
    (hv : valid_position old)
    (hkey : old.key = compute_zob_key zob zob_color old)
    (hmv : mv ∈ generated_moves old list strict) :
    ∃ new v, make_move zob zob_color USE_KO old mv = some (new, v) ∧
      (v = KO ∨ v = new.victims) ∧
      new.key = compute_zob_key zob zob_color new := by
  obtain ⟨new, v, h, -, -, hk, -⟩ :=
    make_move_spec zob zob_color USE_KO hv (generated_moves_ok hv hmv)
  refine ⟨new, v, h, ?_, hk hkey⟩
  obtain ⟨q, vsq, -, -, hc⟩ := make_move_cases h
  rcases hc with ⟨-, -, ⟨-, e⟩ | ⟨-, e⟩⟩ | ⟨-, -, -, -, e⟩
  · exact Or.inl e
  · exact Or.inr e
  · exact Or.inr e

set_option maxRecDepth 100000 in
/-- Claim C1 at the stomping move c3 x d4 of `pinned_king_position`, with the
Ko rule enabled. -/
theorem make_move_keeps_zobrist_key_witness :
    valid_position pinned_king_position ∧
    pinned_king_position.key =
      compute_zob_key example_zob example_zob_color pinned_king_position ∧
    move_of PAWN NONE (square_of 2 3) (square_of 3 4) ∈
      generated_moves pinned_king_position zero_list true ∧
    ∃ new v, make_move example_zob example_zob_color 1 pinned_king_position
        (move_of PAWN NONE (square_of 2 3) (square_of 3 4)) = some (new, v) ∧
      (v = KO ∨ v = new.victims) ∧
      new.key = compute_zob_key example_zob example_zob_color new :=
  ⟨by decide, by decide, by decide,
    make_move_keeps_zobrist_key example_zob example_zob_color 1 pinned_king_position zero_list
      true (move_of PAWN NONE (square_of 2 3) (square_of 3 4))
      (by decide) (by decide) (by decide)⟩

/-- Claim C2: if `old` satisfies the pawn-table invariant (with the border and
king invariants of the data model), then for every move returned by
`generate_all old` the position written by `make_move` satisfies the
pawn-table invariant again, also after a stomp and after a zap. -/
theorem make_move_keeps_pawn_table (zob : Nat → Nat → Nat) (zob_color : Nat) (USE_KO : Int)
    (old : position_t) (list : Nat → Nat) (strict : Bool) (mv : Nat)
    (hv : valid_position old)
    (hmv : mv ∈ generated_moves old list strict) :
    ∃ new v, make_move zob zob_color USE_KO old mv = some (new, v) ∧ pawns_ok new := by
  obtain ⟨new, v, h, -, hp, -, -⟩ :=
    make_move_spec zob zob_color USE_KO hv (generated_moves_ok hv hmv)
  exact ⟨new, v, h, hp⟩

set_option maxRecDepth 100000 in
/-- Claim C2 at the move c3 x d4 of `pinned_king_position`, which stomps the
Pawn on d4 and then zaps the Black King. -/
theorem make_move_keeps_pawn_table_witness :
    valid_position pinned_king_position ∧
    move_of PAWN NONE (square_of 2 3) (square_of 3 4) ∈
      generated_moves pinned_king_position zero_list true ∧
    ∃ new v, make_move example_zob example_zob_color 0 pinned_king_position
        (move_of PAWN NONE (square_of 2 3) (square_of 3 4)) = some (new, v) ∧ pawns_ok new :=
  ⟨by decide, by decide,
    make_move_keeps_pawn_table example_zob example_zob_color 0 pinned_king_position zero_list
      true (move_of PAWN NONE (square_of 2 3) (square_of 3 4)) (by decide) (by decide)⟩

set_option maxRecDepth 100000 in
/-- Claim C3 fails as stated: in `reflect_position SE NN`, a position of the
data model, the generated King null move zaps the Black King on g7, and in the
position written by `make_move` the square `kloc[BLACK]` is still g7, which is
now EMPTY, so `kloc[BLACK]` is not a square holding a KING of colour BLACK. -/
theorem king_table_after_king_zap :
    valid_position (reflect_position SE NN) ∧
    move_of KING NONE (square_of 4 0) (square_of 4 0) ∈
      generated_moves (reflect_position SE NN) zero_list true ∧
    (make_move example_zob example_zob_color 0 (reflect_position SE NN)
        (move_of KING NONE (square_of 4 0) (square_of 4 0))).map
      (fun r => (r.2.zapped, r.1.kloc BLACK, ptype_of (r.1.board (r.1.kloc BLACK)),
        decide (king_ok r.1.board r.1.kloc BLACK))) =
      some (piece_byte KING BLACK NN, square_of 6 7, EMPTY, false) := by
  refine ⟨by decide, by decide, by decide⟩

/-- Claim C3 as amended: from a position of the data model, for every move
returned by `generate_all`, `make_move` returns, and for each colour `c`:
if the zapped piece is not the King of colour `c`, then `kloc[c]` is again the
unique square holding a KING of colour `c`; if it is, `kloc[c]` names the
emptied square and no KING of colour `c` is left on the board. -/
theorem make_move_keeps_king_table_unless_zapped (zob : Nat → Nat → Nat) (zob_color : Nat)
    (USE_KO : Int) (old : position_t) (list : Nat → Nat) (strict : Bool) (mv : Nat)
    (hv : valid_position old)
    (hmv : mv ∈ generated_moves old list strict) :
    ∃ new v, make_move zob zob_color USE_KO old mv = some (new, v) ∧
      ∀ c, c < 2 →
        (¬ (ptype_of new.victims.zapped = KING ∧ color_of new.victims.zapped = c) →
          king_ok new.board new.kloc c) ∧
        ((ptype_of new.victims.zapped = KING ∧ color_of new.victims.zapped = c) →
          new.board (new.kloc c) = 0 ∧
          ∀ sq, sq < ARR_SIZE →
            ¬ (ptype_of (new.board sq) = KING ∧ color_of (new.board sq) = c)) := by
  obtain ⟨new, v, h, -, -, -, hk⟩ :=
    make_move_spec zob zob_color USE_KO hv (generated_moves_ok hv hmv)
  exact ⟨new, v, h, hk⟩

set_option maxRecDepth 100000 in
/-- Claim C3 as amended, at the King null move of `reflect_position SE NN`,
which zaps the Black King. -/
theorem make_move_keeps_king_table_unless_zapped_witness :
    valid_position (reflect_position SE NN) ∧
    move_of KING NONE (square_of 4 0) (square_of 4 0) ∈
      generated_moves (reflect_position SE NN) zero_list true ∧
    ∃ new v, make_move example_zob example_zob_color 0 (reflect_position SE NN)
        (move_of KING NONE (square_of 4 0) (square_of 4 0)) = some (new, v) ∧
      ∀ c, c < 2 →
        (¬ (ptype_of new.victims.zapped = KING ∧ color_of new.victims.zapped = c) →
          king_ok new.board new.kloc c) ∧
        ((ptype_of new.victims.zapped = KING ∧ color_of new.victims.zapped = c) →
          new.board (new.kloc c) = 0 ∧
          ∀ sq, sq < ARR_SIZE →
            ¬ (ptype_of (new.board sq) = KING ∧ color_of (new.board sq) = c)) :=
  ⟨by decide, by decide,
    make_move_keeps_king_table_unless_zapped example_zob example_zob_color 0
      (reflect_position SE NN) zero_list true (move_of KING NONE (square_of 4 0) (square_of 4 0))
      (by decide) (by decide)⟩

theorem ptype_ne_zero_of {x : Nat} (h : ptype_of x = PAWN ∨ ptype_of x = KING) : x ≠ 0 := by
  intro e
  rw [e] at h
  rcases h with h | h <;> exact absurd h (by decide)

/-- Claim C4: whenever `make_move` returns the KO sentinel (a record that
`is_KO` accepts), the record is `KO`, the new key XOR `zob_color` is the old
key and both victims of the new position are zero; and `is_KO` does not change
when the stomped and zapped bytes of a record are swapped. -/
theorem ko_return_state (zob : Nat → Nat → Nat) (zob_color : Nat) (USE_KO : Int)
    (old : position_t) (mv : Nat) (new : position_t) (v : victims_t)
    (h : make_move zob zob_color USE_KO old mv = some (new, v))
    (hko : is_KO v = true) :
    v = KO ∧ new.key ^^^ zob_color = old.key ∧
    new.victims.stomped = 0 ∧ new.victims.zapped = 0 ∧
    ∀ w : victims_t, is_KO ⟨w.zapped, w.stomped⟩ = is_KO w := by
  have hvict := make_move_victims h
  have hnot : is_KO new.victims = false :=
    not_is_KO_of_pieces _ (hvict.1.elim Or.inl (fun x => Or.inr (Or.inl x))) hvict.2.1
  have hsym : ∀ w : victims_t, is_KO ⟨w.zapped, w.stomped⟩ = is_KO w := by
    intro w
    unfold is_KO
    exact Bool.or_comm _ _
  obtain ⟨q, vsq, -, -, hc⟩ := make_move_cases h
  rcases hc with ⟨-, -, ⟨⟨-, hz, hk⟩, e⟩ | ⟨-, e⟩⟩ | ⟨-, -, -, -, e⟩
  · unfold zero_victims at hz
    simp only [Bool.and_eq_true, beq_iff_eq] at hz
    refine ⟨e, ?_, hz.1, hz.2, hsym⟩
    rw [hk, Nat.xor_assoc, Nat.xor_self, Nat.xor_zero]
  · rw [e, hnot] at hko; cases hko
  · rw [e, hnot] at hko; cases hko

set_option maxRecDepth 100000 in
/-- Claim C4 at the King null move of `quiet_position` with the Ko rule
enabled, which returns the KO sentinel. -/
theorem ko_return_state_witness :
    is_KO (example_result 1 quiet_position
      (move_of KING NONE (square_of 0 0) (square_of 0 0))).2 = true ∧
    (example_result 1 quiet_position (move_of KING NONE (square_of 0 0) (square_of 0 0))).2 = KO ∧
    (example_result 1 quiet_position
      (move_of KING NONE (square_of 0 0) (square_of 0 0))).1.key ^^^ example_zob_color =
      quiet_position.key ∧
    (example_result 1 quiet_position
      (move_of KING NONE (square_of 0 0) (square_of 0 0))).1.victims.stomped = 0 ∧
    (example_result 1 quiet_position
      (move_of KING NONE (square_of 0 0) (square_of 0 0))).1.victims.zapped = 0 ∧
    ∀ w : victims_t, is_KO ⟨w.zapped, w.stomped⟩ = is_KO w :=
  ⟨by decide,
    ko_return_state example_zob example_zob_color 1 quiet_position
      (move_of KING NONE (square_of 0 0) (square_of 0 0))
      (example_result 1 quiet_position (move_of KING NONE (square_of 0 0) (square_of 0 0))).1
      (example_result 1 quiet_position (move_of KING NONE (square_of 0 0) (square_of 0 0))).2
      rfl (by decide)⟩

/-- Claim C5: with the Ko rule enabled (`USE_KO` nonzero) and board bytes below
`2 ^ PIECE_SIZE`, `make_move` returns the KO sentinel if and only if the move
stomped nothing, the laser zapped nothing and the new key is the old key XOR
`zob_color`; otherwise it returns the victims of the new position, whose bytes
are each `0` or a piece byte below 32 (a PAWN for the stomped byte, a PAWN or a
KING for the zapped byte), so `is_KO` of the result is false. -/
theorem ko_iff_quiet_repetition (zob : Nat → Nat → Nat) (zob_color : Nat) (USE_KO : Int)
    (old : position_t) (mv : Nat) (new : position_t) (v : victims_t)
    (hko : USE_KO ≠ 0)
    (hb : ∀ sq, sq < ARR_SIZE → old.board sq < 2 ^ PIECE_SIZE)
    (h : make_move zob zob_color USE_KO old mv = some (new, v)) :
    (v = KO ↔ (new.victims.stomped = 0 ∧ new.victims.zapped = 0 ∧
      new.key = old.key ^^^ zob_color)) ∧
    (new.victims.stomped = 0 ↔ (low_level_make_move zob zob_color old mv).2 = 0) ∧
    (new.victims.zapped = 0 ↔
      fire (stomp_phase zob (low_level_make_move zob zob_color old mv).1
        (low_level_make_move zob zob_color old mv).2) = some 0) ∧
    (v ≠ KO → v = new.victims ∧
      (v.stomped = 0 ∨ ptype_of v.stomped = PAWN) ∧
      (v.zapped = 0 ∨ ptype_of v.zapped = PAWN ∨ ptype_of v.zapped = KING) ∧
      v.stomped < 2 ^ PIECE_SIZE ∧ v.zapped < 2 ^ PIECE_SIZE ∧ is_KO v = false) := by
  have hvict := make_move_victims h
  have hbytes := make_move_bytes hb h
  have hnot : is_KO new.victims = false :=
    not_is_KO_of_pieces _ (hvict.1.elim Or.inl (fun x => Or.inr (Or.inl x))) hvict.2.1
  have hne : new.victims ≠ KO := by
    intro e
    rw [e] at hnot
    exact absurd hnot (by decide)
  obtain ⟨q, vsq, hq, hfire, hc⟩ := make_move_cases h
  rw [← hq]
  rcases hc with ⟨hv0, hnew, ⟨⟨-, hz, hk⟩, e⟩ | ⟨hcond, e⟩⟩ | ⟨hv0, -, hty, hnew, e⟩
  · unfold zero_victims at hz
    simp only [Bool.and_eq_true, beq_iff_eq] at hz
    refine ⟨⟨fun _ => ⟨hz.1, hz.2, hk⟩, fun _ => e⟩, hvict.2.2, ?_, fun hh => absurd e hh⟩
    rw [hfire, hv0]
    exact ⟨fun _ => rfl, fun _ => hz.2⟩
  · have hzap : new.victims.zapped = 0 := by rw [hnew]
    refine ⟨⟨fun hh => absurd (e ▸ hh) hne, fun hh => ?_⟩, hvict.2.2, ?_, fun _ => ?_⟩
    · exfalso
      apply hcond
      refine ⟨hko, ?_, hh.2.2⟩
      unfold zero_victims
      simp only [Bool.and_eq_true, beq_iff_eq]
      exact ⟨hh.1, hh.2.1⟩
    · rw [hfire, hv0]
      exact ⟨fun _ => rfl, fun _ => hzap⟩
    · rw [e]
      exact ⟨rfl, hvict.1, hvict.2.1, hbytes.1, hbytes.2, hnot⟩
  · have hzap : new.victims.zapped ≠ 0 := by
      rw [hnew, zap_phase_eq]
      exact ptype_ne_zero_of hty
    refine ⟨⟨fun hh => absurd (e ▸ hh) hne, fun hh => absurd hh.2.1 hzap⟩, hvict.2.2, ?_,
      fun _ => ?_⟩
    · rw [hfire]
      exact ⟨fun hh => absurd hh hzap, fun hh => absurd (Option.some.inj hh) hv0⟩
    · rw [e]
      exact ⟨rfl, hvict.1, hvict.2.1, hbytes.1, hbytes.2, hnot⟩

set_option maxRecDepth 100000 in
/-- Claim C5 at the stomping move c3 x d4 of `pinned_king_position` with the Ko
rule enabled: the result is the normal victims record. -/
theorem ko_iff_quiet_repetition_witness :
    (1 : Int) ≠ 0 ∧
    (∀ sq, sq < ARR_SIZE → pinned_king_position.board sq < 2 ^ PIECE_SIZE) ∧
    (example_result 1 pinned_king_position
      (move_of PAWN NONE (square_of 2 3) (square_of 3 4))).2 ≠ KO ∧
    (example_result 1 pinned_king_position
      (move_of PAWN NONE (square_of 2 3) (square_of 3 4))).2 =
      ⟨piece_byte PAWN BLACK SW, piece_byte KING BLACK SS⟩ ∧
    is_KO (example_result 1 pinned_king_position
      (move_of PAWN NONE (square_of 2 3) (square_of 3 4))).2 = false :=
  have h := ko_iff_quiet_repetition example_zob example_zob_color 1 pinned_king_position
    (move_of PAWN NONE (square_of 2 3) (square_of 3 4))
    (example_result 1 pinned_king_position (move_of PAWN NONE (square_of 2 3) (square_of 3 4))).1
    (example_result 1 pinned_king_position (move_of PAWN NONE (square_of 2 3) (square_of 3 4))).2
    (by decide) (by decide) rfl
  ⟨by decide, by decide, by decide, by decide, (h.2.2.2 (by decide)).2.2.2.2.2⟩

/-! ## The claims about `generate_all` -/

/-- Claim C6: for every position satisfying the board/plocs/kloc invariants,
`generate_all` returns, and every move it returns has a from-square that holds
a PAWN or a KING of the side to move (so neither EMPTY nor INVALID nor an enemy
piece), and the move's piece-type field is the type of the piece there. -/
theorem generated_from_square_own_piece (p : position_t) (list : Nat → Nat) (strict : Bool)
    (hv : valid_position p) :
    ∃ r, generate_all p list strict = some r ∧
      ∀ mv, mv ∈ emitted r →
        (ptype_of (p.board (from_square mv)) = PAWN ∨
          ptype_of (p.board (from_square mv)) = KING) ∧
        color_of (p.board (from_square mv)) = color_to_move_of p ∧
        ptype_mv_of mv = ptype_of (p.board (from_square mv)) := by
  obtain ⟨lm, -, hg⟩ := generate_all_valid hv list strict
  refine ⟨_, hg, ?_⟩
  intro mv hmv
  obtain ⟨-, -, hc, h | h⟩ := generated_move_ok hv hg hmv
  · exact ⟨Or.inl h.1, hc, by rw [h.1, h.2.1]⟩
  · exact ⟨Or.inr h.1, hc, by rw [h.1, h.2.1]⟩

set_option maxRecDepth 100000 in
/-- Claim C6 at `pinned_king_position`. -/
theorem generated_from_square_own_piece_witness :
    valid_position pinned_king_position ∧
    ∃ r, generate_all pinned_king_position zero_list true = some r ∧
      ∀ mv, mv ∈ emitted r →
        (ptype_of (pinned_king_position.board (from_square mv)) = PAWN ∨
          ptype_of (pinned_king_position.board (from_square mv)) = KING) ∧
        color_of (pinned_king_position.board (from_square mv)) =
          color_to_move_of pinned_king_position ∧
        ptype_mv_of mv = ptype_of (pinned_king_position.board (from_square mv)) :=
  ⟨by decide, generated_from_square_own_piece pinned_king_position zero_list true (by decide)⟩

/-- Claim C7: for every position whose enemy King stands on its `kloc` square
(the precondition that `mark_laser_path` asserts), `generate_all` returns a
count of at most 7 * (8 + 3) + (8 + 4) = 89, hence less than
`MAX_NUM_MOVES` = 128; the entries of the move list from the count on are
untouched, and the entries below the count have a zero sort key. -/
theorem generate_all_count_bound (p : position_t) (list : Nat → Nat) (strict : Bool)
    (h1 : p.kloc (opp_color (color_to_move_of p)) < ARR_SIZE)
    (h2 : ptype_of (p.board (p.kloc (opp_color (color_to_move_of p)))) = KING) :
    ∃ r, generate_all p list strict = some r ∧
      r.2 ≤ NUMBER_PAWNS * (8 + 3) + (8 + 4) ∧ r.2 ≤ 89 ∧ r.2 < MAX_NUM_MOVES ∧
      (∀ j, r.2 ≤ j → r.1 j = list j) ∧
      (∀ j, j < r.2 → sort_key (r.1 j) = 0) := by
  obtain ⟨lm, hlm⟩ := mark_laser_path_stops p init_laser_map
    (opp_color (color_to_move_of p)) 1 h1 h2
  have hg := generate_all_blocks p list strict
  rw [hlm] at hg
  simp only [Option.map_some'] at hg
  refine ⟨_, hg, ?_⟩
  obtain ⟨e1, e2, e3⟩ := emit_all_spec
    ((List.range NUMBER_PAWNS).flatMap (pawn_block p lm) ++ king_block p) (list, 0)
  have hlen : ((List.range NUMBER_PAWNS).flatMap (pawn_block p lm) ++ king_block p).length
      ≤ NUMBER_PAWNS * (8 + 3) + (8 + 4) := by
    rw [List.length_append]
    have a := flatMap_length_le (List.range NUMBER_PAWNS) (pawn_block p lm) (8 + 3)
      (pawn_block_length p lm)
    rw [List.length_range] at a
    have b := king_block_length p
    omega
  simp only [Nat.zero_add] at e1 e2 e3
  have hcount : (emit_all (list, 0)
      ((List.range NUMBER_PAWNS).flatMap (pawn_block p lm) ++ king_block p)).2
      ≤ NUMBER_PAWNS * (8 + 3) + (8 + 4) := by rw [e1]; exact hlen
  refine ⟨hcount, ?_, ?_, ?_, ?_⟩
  · exact hcount
  · exact Nat.lt_of_le_of_lt hcount (by decide)
  · intro j hj
    rw [e1] at hj
    exact e2 j (Or.inr hj)
  · intro j hj
    rw [e1] at hj
    rw [e3 j hj]
    have hmem : ((List.range NUMBER_PAWNS).flatMap (pawn_block p lm) ++ king_block p).getD j 0 ∈
        (List.range NUMBER_PAWNS).flatMap (pawn_block p lm) ++ king_block p := by
      rw [List.getD_eq_getElem _ _ hj]
      exact List.getElem_mem _
    rw [List.mem_append, List.mem_flatMap] at hmem
    rcases hmem with ⟨i, -, hi⟩ | hk
    · exact pawn_block_sort_key p lm i _ hi
    · exact king_block_sort_key p _ hk

set_option maxRecDepth 100000 in
/-- Claim C7 at `pinned_king_position`. -/
theorem generate_all_count_bound_witness :
    pinned_king_position.kloc (opp_color (color_to_move_of pinned_king_position)) < ARR_SIZE ∧
    ptype_of (pinned_king_position.board
      (pinned_king_position.kloc (opp_color (color_to_move_of pinned_king_position)))) = KING ∧
    ∃ r, generate_all pinned_king_position zero_list true = some r ∧
      r.2 ≤ NUMBER_PAWNS * (8 + 3) + (8 + 4) ∧ r.2 ≤ 89 ∧ r.2 < MAX_NUM_MOVES ∧
      (∀ j, r.2 ≤ j → r.1 j = zero_list j) ∧
      (∀ j, j < r.2 → sort_key (r.1 j) = 0) :=
  ⟨by decide, by decide,
    generate_all_count_bound pinned_king_position zero_list true (by decide) (by decide)⟩

theorem filter_eq_self_of {α : Type} (l : List α) (P : α → Bool) (h : ∀ x ∈ l, P x = true) :
    l.filter P = l := List.filter_eq_self.mpr h

theorem filter_eq_nil_of {α : Type} (l : List α) (P : α → Bool) (h : ∀ x ∈ l, P x = false) :
    l.filter P = [] := by
  induction l with
  | nil => rfl
  | cons x l ih =>
    rw [List.filter_cons, h x (List.mem_cons_self x l)]
    exact ih (fun y hy => h y (List.mem_cons_of_mem x hy))

theorem spec_pawn_moves_ptype {p : position_t} {lm : Nat → Nat} {i mv : Nat}
    (h : mv ∈ spec_pawn_moves p lm i) : ptype_mv_of mv = PAWN := by
  obtain ⟨-, -, hc⟩ := mem_spec_pawn_moves.mp h
  rcases hc with ⟨d, -, -, rfl⟩ | ⟨rot, -, rfl⟩ <;> exact ptype_mv_of_move_of _ _ _ _

theorem spec_king_moves_ptype {p : position_t} {mv : Nat}
    (h : mv ∈ spec_king_moves p) : ptype_mv_of mv = KING := by
  rcases mem_spec_king_moves.mp h with ⟨d, -, -, rfl⟩ | ⟨rot, -, rfl⟩ <;>
    exact ptype_mv_of_move_of _ _ _ _

/-- Claim C8: on a position satisfying the invariants, with `lm` the enemy
laser map (the buffer prefilled with 4 outside and 0 inside the playing area,
marked by `mark_laser_path` for the opponent's King with mask 1), a square of
the playing area has value 1 in `lm` exactly when it is on the laser path of
the opponent's King, and the Pawn moves written by `generate_all` are, slot by
slot, those of the specification: none for a slot that is zero or whose square
has value 1 in `lm`; otherwise one translation to each of the 8 neighbours
that is EMPTY or holds an enemy PAWN (none to an INVALID, KING or own-PAWN
neighbour) followed by the rotations RIGHT, U-TURN, LEFT. -/
theorem generated_pawn_moves (p : position_t) (list : Nat → Nat) (strict : Bool)
    (hv : valid_position p) :
    ∃ lm r,
      mark_laser_path p prefilled_laser_map (opp_color (color_to_move_of p)) 1 = some lm ∧
      (∃ path, laser_path p (opp_color (color_to_move_of p)) = some path ∧
        ∀ sq, on_board sq → (lm sq = 1 ↔ sq ∈ path)) ∧
      generate_all p list strict = some r ∧
      (emitted r).filter (fun mv => decide (ptype_mv_of mv = PAWN)) =
        (List.range NUMBER_PAWNS).flatMap (spec_pawn_moves p lm) ∧
      ∀ mv, ptype_mv_of mv = PAWN →
        (mv ∈ emitted r ↔
          ∃ i, i < NUMBER_PAWNS ∧
            p.plocs (color_to_move_of p) i ≠ 0 ∧ lm (p.plocs (color_to_move_of p) i) ≠ 1 ∧
            ((∃ d, d < 8 ∧
                (ptype_of (p.board (neighbour (p.plocs (color_to_move_of p) i) d)) = EMPTY ∨
                  (ptype_of (p.board (neighbour (p.plocs (color_to_move_of p) i) d)) = PAWN ∧
                   color_of (p.board (neighbour (p.plocs (color_to_move_of p) i) d)) ≠
                     color_to_move_of p)) ∧
                mv = move_of PAWN NONE (p.plocs (color_to_move_of p) i)
                  (neighbour (p.plocs (color_to_move_of p) i) d)) ∨
              ∃ rot, (rot = RIGHT ∨ rot = UTURN ∨ rot = LEFT) ∧
                mv = move_of PAWN rot (p.plocs (color_to_move_of p) i)
                  (p.plocs (color_to_move_of p) i))) := by
  obtain ⟨lm, hlm, hg⟩ := generate_all_valid hv list strict
  obtain ⟨lm', hlm', -, he⟩ := emitted_generate_all hv hg
  have : lm' = lm := Option.some.inj (hlm'.symm.trans hlm)
  subst this
  refine ⟨lm', _, hlm, pinned_iff_on_path hlm, hg, ?_, ?_⟩
  · rw [he, List.filter_append, filter_eq_self_of, filter_eq_nil_of, List.append_nil]
    · intro mv hmv
      rw [spec_king_moves_ptype hmv]; decide
    · intro mv hmv
      obtain ⟨i, -, hi⟩ := List.mem_flatMap.mp hmv
      rw [spec_pawn_moves_ptype hi]; decide
  · intro mv hpt
    rw [he, List.mem_append, List.mem_flatMap]
    constructor
    · rintro (⟨i, hi, h⟩ | h)
      · exact ⟨i, List.mem_range.mp hi, mem_spec_pawn_moves.mp h⟩
      · rw [spec_king_moves_ptype h] at hpt; exact absurd hpt (by decide)
    · rintro ⟨i, hi, h⟩
      exact Or.inl ⟨i, List.mem_range.mpr hi, mem_spec_pawn_moves.mpr h⟩

/-- Claim C9: on a position satisfying the invariants, the King moves written
by `generate_all` are exactly those of the specification, in this order: one
translation to each neighbouring square that is EMPTY (and to no other
neighbour), the three rotations RIGHT, U-TURN, LEFT, and one null move
(from = to, rotation NONE); they close the move list, and they are written
whatever the enemy laser map says about the King's square. -/
theorem generated_king_moves (p : position_t) (list : Nat → Nat) (strict : Bool)
    (hv : valid_position p) :
    ∃ r, generate_all p list strict = some r ∧
      (emitted r).filter (fun mv => decide (ptype_mv_of mv = KING)) = spec_king_moves p ∧
      spec_king_moves p <:+ emitted r ∧
      ∀ mv, ptype_mv_of mv = KING →
        (mv ∈ emitted r ↔
          ((∃ d, d < 8 ∧
              ptype_of (p.board (neighbour (p.kloc (color_to_move_of p)) d)) = EMPTY ∧
              mv = move_of KING NONE (p.kloc (color_to_move_of p))
                (neighbour (p.kloc (color_to_move_of p)) d)) ∨
            ∃ rot, rot < 4 ∧
              mv = move_of KING rot (p.kloc (color_to_move_of p))
                (p.kloc (color_to_move_of p)))) := by
  obtain ⟨lm, hlm, hg⟩ := generate_all_valid hv list strict
  obtain ⟨lm', -, -, he⟩ := emitted_generate_all hv hg
  refine ⟨_, hg, ?_, ?_, ?_⟩
  · rw [he, List.filter_append, filter_eq_nil_of, filter_eq_self_of, List.nil_append]
    · intro mv hmv
      rw [spec_king_moves_ptype hmv]; decide
    · intro mv hmv
      obtain ⟨i, -, hi⟩ := List.mem_flatMap.mp hmv
      rw [spec_pawn_moves_ptype hi]; decide
  · rw [he]
    exact List.suffix_append _ _
  · intro mv hpt
    rw [he, List.mem_append, List.mem_flatMap]
    constructor
    · rintro (⟨i, -, h⟩ | h)
      · rw [spec_pawn_moves_ptype h] at hpt; exact absurd hpt (by decide)
      · exact mem_spec_king_moves.mp h
    · intro h
      exact Or.inr (mem_spec_king_moves.mpr h)

set_option maxRecDepth 100000 in
/-- Claim C8 at `pinned_king_position`. -/
theorem generated_pawn_moves_witness :
    valid_position pinned_king_position ∧
    ∃ lm r,
      mark_laser_path pinned_king_position prefilled_laser_map
        (opp_color (color_to_move_of pinned_king_position)) 1 = some lm ∧
      (∃ path, laser_path pinned_king_position
          (opp_color (color_to_move_of pinned_king_position)) = some path ∧
        ∀ sq, on_board sq → (lm sq = 1 ↔ sq ∈ path)) ∧
      generate_all pinned_king_position zero_list true = some r ∧
      (emitted r).filter (fun mv => decide (ptype_mv_of mv = PAWN)) =
        (List.range NUMBER_PAWNS).flatMap (spec_pawn_moves pinned_king_position lm) ∧
      ∀ mv, ptype_mv_of mv = PAWN →
        (mv ∈ emitted r ↔
          ∃ i, i < NUMBER_PAWNS ∧
            pinned_king_position.plocs (color_to_move_of pinned_king_position) i ≠ 0 ∧
            lm (pinned_king_position.plocs (color_to_move_of pinned_king_position) i) ≠ 1 ∧
            ((∃ d, d < 8 ∧
                (ptype_of (pinned_king_position.board (neighbour
                    (pinned_king_position.plocs (color_to_move_of pinned_king_position) i) d))
                    = EMPTY ∨
                  (ptype_of (pinned_king_position.board (neighbour
                    (pinned_king_position.plocs (color_to_move_of pinned_king_position) i) d))
                    = PAWN ∧
                   color_of (pinned_king_position.board (neighbour
                    (pinned_king_position.plocs (color_to_move_of pinned_king_position) i) d)) ≠
                     color_to_move_of pinned_king_position)) ∧
                mv = move_of PAWN NONE
                  (pinned_king_position.plocs (color_to_move_of pinned_king_position) i)
                  (neighbour
                    (pinned_king_position.plocs (color_to_move_of pinned_king_position) i) d)) ∨
              ∃ rot, (rot = RIGHT ∨ rot = UTURN ∨ rot = LEFT) ∧
                mv = move_of PAWN rot
                  (pinned_king_position.plocs (color_to_move_of pinned_king_position) i)
                  (pinned_king_position.plocs (color_to_move_of pinned_king_position) i))) :=
  ⟨by decide, generated_pawn_moves pinned_king_position zero_list true (by decide)⟩

set_option maxRecDepth 100000 in
/-- Claim C9 at `pinned_king_position`, where the White King stands on the
path of the Black laser (its square has value 1 in the enemy laser map). -/
theorem generated_king_moves_witness :
    valid_position pinned_king_position ∧
    (mark_laser_path pinned_king_position prefilled_laser_map
        (opp_color (color_to_move_of pinned_king_position)) 1).map
      (fun lm => lm (pinned_king_position.kloc (color_to_move_of pinned_king_position)))
      = some 1 ∧
    ∃ r, generate_all pinned_king_position zero_list true = some r ∧
      (emitted r).filter (fun mv => decide (ptype_mv_of mv = KING)) =
        spec_king_moves pinned_king_position ∧
      spec_king_moves pinned_king_position <:+ emitted r ∧
      ∀ mv, ptype_mv_of mv = KING →
        (mv ∈ emitted r ↔
          ((∃ d, d < 8 ∧
              ptype_of (pinned_king_position.board (neighbour
                (pinned_king_position.kloc (color_to_move_of pinned_king_position)) d)) = EMPTY ∧
              mv = move_of KING NONE
                (pinned_king_position.kloc (color_to_move_of pinned_king_position))
                (neighbour
                  (pinned_king_position.kloc (color_to_move_of pinned_king_position)) d)) ∨
            ∃ rot, rot < 4 ∧
              mv = move_of KING rot
                (pinned_king_position.kloc (color_to_move_of pinned_king_position))
                (pinned_king_position.kloc (color_to_move_of pinned_king_position)))) :=
  ⟨by decide, by decide, generated_king_moves pinned_king_position zero_list true (by decide)⟩

/-! ## The scenario "laser reflects twice" -/

set_option maxRecDepth 100000 in
/-- Claim C10 fails as stated: with the Pawn on e3 oriented NE, the beam of the
White King going N strikes the back of that Pawn (`reflect_of NN NE = -1`), and
`make_move` with the King's null move returns the White Pawn of e3 as the
zapped piece, not the Black King, whatever the Black King's orientation. -/
theorem reflect_twice_as_stated :
    reflect_of NN NE = -1 ∧
    ∀ o : Fin 4,
      (make_move example_zob example_zob_color 1 (reflect_position NE o)
          (move_of KING NONE (square_of 4 0) (square_of 4 0))).map (fun r => r.2) =
        some ⟨0, piece_byte PAWN WHITE NE⟩ ∧
      piece_byte PAWN WHITE NE ≠ piece_byte KING BLACK o := by
  decide

/-- The colour whose King fires after `low_level_make_move` is the side that
was to move before. -/
theorem fire_color (zob : Nat → Nat → Nat) (zob_color : Nat) (old : position_t) (mv : Nat) :
    (if color_to_move_of (stomp_phase zob (low_level_make_move zob zob_color old mv).1
        (low_level_make_move zob zob_color old mv).2) = WHITE then BLACK else WHITE) =
      color_to_move_of old := by
  rw [stomp_phase_color, llmm_color]
  unfold opp_color color_to_move_of
  split_ifs <;> first | rfl | contradiction

/-- The victims returned for a rotation or null move whose laser shot hits the
square `vsq`: nothing stomped, and the piece on `vsq` zapped. -/
theorem make_move_rot_victims (zob : Nat → Nat → Nat) (zob_color : Nat) (USE_KO : Int)
    (old : position_t) (mv : Nat) (vsq : Nat)
    (hrot : to_square mv = from_square mv)
    (hfire : fire_loop
      (Function.update old.board (from_square mv)
        (set_ori (old.board (from_square mv)) (rot_of mv + ori_of (old.board (from_square mv)))))
      LASER_FUEL (old.kloc (color_to_move_of old))
      (ori_of (Function.update old.board (from_square mv)
        (set_ori (old.board (from_square mv)) (rot_of mv + ori_of (old.board (from_square mv))))
        (old.kloc (color_to_move_of old)))) = some vsq)
    (hv : vsq ≠ 0) :
    (make_move zob zob_color USE_KO old mv).map (fun r => r.2) =
      some ⟨0, Function.update old.board (from_square mv)
        (set_ori (old.board (from_square mv)) (rot_of mv + ori_of (old.board (from_square mv))))
        vsq⟩ := by
  have hcol := fire_color zob zob_color old mv
  have hf : fire (stomp_phase zob (low_level_make_move zob zob_color old mv).1
      (low_level_make_move zob zob_color old mv).2) = some vsq := by
    unfold fire
    simp only
    rw [hcol]
    rw [llmm_rot zob zob_color old mv hrot]
    simp only [stomp_phase_zero]
    exact hfire
  rw [make_move_eq, hf]
  simp only [if_neg hv, Option.map_some']
  rw [llmm_rot zob zob_color old mv hrot]
  simp only [stomp_phase_zero]
  rfl

set_option maxRecDepth 100000 in
/-- Claim C10 as amended: with the White King on e0 facing N, a White Pawn on
e3 oriented SE, a White Pawn on g3 oriented NW and the Black King on g7 (any
orientation), White to move, the beam reflects at e3 to E and at g3 to N, and
`make_move` with the White King's null move returns stomped = 0 and the Black
King as the zapped piece, for every Zobrist table and Ko setting. -/
theorem reflect_twice_zaps_king (zob : Nat → Nat → Nat) (zob_color : Nat) (USE_KO : Int)
    (o : Fin 4) :
    reflect_of NN SE = EE ∧ reflect_of EE NW = NN ∧
    (make_move zob zob_color USE_KO (reflect_position SE o)
        (move_of KING NONE (square_of 4 0) (square_of 4 0))).map (fun r => r.2) =
      some ⟨0, piece_byte KING BLACK o⟩ := by
  refine ⟨by decide, by decide, ?_⟩
  have h : ∀ o : Fin 4,
      fire_loop
        (Function.update (reflect_position SE o).board
          (from_square (move_of KING NONE (square_of 4 0) (square_of 4 0)))
          (set_ori ((reflect_position SE o).board
              (from_square (move_of KING NONE (square_of 4 0) (square_of 4 0))))
            (rot_of (move_of KING NONE (square_of 4 0) (square_of 4 0)) +
              ori_of ((reflect_position SE o).board
                (from_square (move_of KING NONE (square_of 4 0) (square_of 4 0)))))))
        LASER_FUEL ((reflect_position SE o).kloc (color_to_move_of (reflect_position SE o)))
        (ori_of (Function.update (reflect_position SE o).board
          (from_square (move_of KING NONE (square_of 4 0) (square_of 4 0)))
          (set_ori ((reflect_position SE o).board
              (from_square (move_of KING NONE (square_of 4 0) (square_of 4 0))))
            (rot_of (move_of KING NONE (square_of 4 0) (square_of 4 0)) +
              ori_of ((reflect_position SE o).board
                (from_square (move_of KING NONE (square_of 4 0) (square_of 4 0))))))
          ((reflect_position SE o).kloc (color_to_move_of (reflect_position SE o))))) =
          some (square_of 6 7) ∧
      Function.update (reflect_position SE o).board
          (from_square (move_of KING NONE (square_of 4 0) (square_of 4 0)))
          (set_ori ((reflect_position SE o).board
              (from_square (move_of KING NONE (square_of 4 0) (square_of 4 0))))
            (rot_of (move_of KING NONE (square_of 4 0) (square_of 4 0)) +
              ori_of ((reflect_position SE o).board
                (from_square (move_of KING NONE (square_of 4 0) (square_of 4 0))))))
          (square_of 6 7) =
        piece_byte KING BLACK o := by
    decide
  obtain ⟨hfire, hbyte⟩ := h o
  rw [make_move_rot_victims zob zob_color USE_KO (reflect_position SE o) _ (square_of 6 7)
    (by decide) hfire (by decide), hbyte]

/-! ## Squares, directions and move words as tables -/

theorem set_sort_key_eq (mv key : Nat) :
    set_sort_key mv key = key % 2 ^ 32 * 2 ^ 32 + mv % 2 ^ 32 := by
  unfold set_sort_key SORT_MASK SORT_SHIFT
  have e : ((2 ^ 64 - 1) ^^^ ((2 ^ 32 - 1) <<< 32) : Nat) = 2 ^ 32 - 1 := by decide
  rw [e, Nat.and_pow_two_sub_one_eq_mod, Nat.and_pow_two_sub_one_eq_mod, Nat.shiftLeft_eq,
    Nat.mul_comm]
  exact (Nat.mul_add_lt_is_or (Nat.mod_lt _ (by decide)) _).symm

theorem get_move_eq (m : Nat) : get_move m = m % 2 ^ 20 := by
  unfold get_move MOVE_MASK
  exact Nat.and_pow_two_sub_one_eq_mod m 20

theorem square_of_on_board_table :
    ∀ f < 10, ∀ r < 10, square_of f r = 16 * (3 + f) + 3 + r ∧ square_of f r < 256 ∧
      fil_of (square_of f r) = f ∧ rnk_of (square_of f r) = r := by decide

set_option maxRecDepth 100000 in
theorem square_of_fil_rnk_table :
    ∀ s < 256, fil_of s < 10 → rnk_of s < 10 → square_of (fil_of s) (rnk_of s) = s := by
  decide

theorem reflect_of_table :
    ∀ b < 4, ∀ o < 4,
      (reflect_of b o = -1 ∨ reflect_of b o = ((b + 1) % 4 : Nat) ∨
        reflect_of b o = ((b + 3) % 4 : Nat)) ∧
      ((List.range 4).filter (fun b2 => decide (reflect_of b2 o = -1))).length = 2 ∧
      ∀ b2 : Nat, b2 < 4 → reflect_of b o = (b2 : Int) →
        reflect_of (opposite b2) o = (opposite b : Nat) := by decide

/-! ## The claims about squares, directions and move words -/

/-- Claim C15: for a file `f` and a rank `r` in `0..9`, `square_of f r` is
`16 * (3 + f) + 3 + r`, a byte, and `fil_of` and `rnk_of` give back `f` and
`r`; for a byte `s` whose file and rank are in `0..9`,
`square_of (fil_of s) (rnk_of s)` is `s`. -/
theorem square_of_fil_rnk_round_trip :
    (∀ f r : Nat, f < 10 → r < 10 →
      square_of f r = 16 * (3 + f) + 3 + r ∧ square_of f r < 256 ∧
        fil_of (square_of f r) = f ∧ rnk_of (square_of f r) = r) ∧
    (∀ s : Nat, s < 256 → fil_of s < 10 → rnk_of s < 10 →
      square_of (fil_of s) (rnk_of s) = s) :=
  ⟨fun f r hf hr => square_of_on_board_table f hf r hr,
   fun s hs hf hr => square_of_fil_rnk_table s hs hf hr⟩

theorem square_of_fil_rnk_round_trip_witness :
    (square_of 4 0 = 16 * (3 + 4) + 3 + 0 ∧ square_of 4 0 < 256 ∧
      fil_of (square_of 4 0) = 4 ∧ rnk_of (square_of 4 0) = 0) ∧
    square_of (fil_of 204) (rnk_of 204) = 204 :=
  ⟨square_of_fil_rnk_round_trip.1 4 0 (by decide) (by decide),
   square_of_fil_rnk_round_trip.2 204 (by decide) (by decide) (by decide)⟩

/-- Claim C16 as stated fails: with the compass of `beam_of`, where north is
`+1`, the entry `dir_of 1` is `-16`, which is west, not north. -/
theorem dir_of_one_is_not_north :
    dir_of 1 = -16 ∧ beam_of NN = 1 ∧ dir_of 1 ≠ beam_of NN ∧ dir_of 1 = beam_of WW := by
  decide

/-- Claim C16, corrected: in the compass of `beam_of` (north `+1`, east `+16`,
south `-1`, west `-16`) the table of `dir_of` lists the eight offsets in the
order SW, W, NW, S, N, SE, E, NE: the entries 4, 6, 3 and 1 are the beams to
north, east, south and west, and the entries 0, 2, 5 and 7 are the sums of the
two adjacent ones. -/
theorem dir_of_compass :
    (dir_of 4 = beam_of NN ∧ beam_of NN = 1) ∧
    (dir_of 6 = beam_of EE ∧ beam_of EE = 16) ∧
    (dir_of 3 = beam_of SS ∧ beam_of SS = -1) ∧
    (dir_of 1 = beam_of WW ∧ beam_of WW = -16) ∧
    dir_of 0 = beam_of SS + beam_of WW ∧
    dir_of 2 = beam_of NN + beam_of WW ∧
    dir_of 5 = beam_of SS + beam_of EE ∧
    dir_of 7 = beam_of NN + beam_of EE := by
  decide

/-- Claim C17: for a beam direction `b` and a Pawn orientation `o` in `0..3`,
`reflect_of b o` is `-1` or one of the two directions perpendicular to `b`;
for each orientation exactly two beam directions give `-1`; and a reflection
from `b` into `b2` is undone by the same Pawn: the beam opposite to `b2` is
reflected into the direction opposite to `b`. -/
theorem reflect_of_perpendicular_reversible (b o : Nat) (hb : b < 4) (ho : o < 4) :
    (reflect_of b o = -1 ∨ reflect_of b o = ((b + 1) % 4 : Nat) ∨
      reflect_of b o = ((b + 3) % 4 : Nat)) ∧
    ((List.range 4).filter (fun b2 => decide (reflect_of b2 o = -1))).length = 2 ∧
    ∀ b2 : Nat, b2 < 4 → reflect_of b o = (b2 : Int) →
      reflect_of (opposite b2) o = (opposite b : Nat) :=
  reflect_of_table b hb o ho

theorem reflect_of_perpendicular_reversible_witness :
    (reflect_of NN SE = -1 ∨ reflect_of NN SE = ((NN + 1) % 4 : Nat) ∨
      reflect_of NN SE = ((NN + 3) % 4 : Nat)) ∧
    ((List.range 4).filter (fun b2 => decide (reflect_of b2 SE = -1))).length = 2 ∧
    ∀ b2 : Nat, b2 < 4 → reflect_of NN SE = (b2 : Int) →
      reflect_of (opposite b2) SE = (opposite NN : Nat) :=
  reflect_of_perpendicular_reversible NN SE (by decide) (by decide)

/-- Claim C18: for `t`, `r` in `0..3` and `a`, `b` in `0..255`, `move_of t r a b`
is below `2 ^ 20` and the four getters give back `t`, `r`, `a` and `b`;
`set_sort_key` leaves `get_move` unchanged and writes the key; and of two
64-bit sortable moves the one with the smaller sort key is the smaller
number. -/
theorem move_word_round_trip :
    (∀ t r a b : Nat, t < 4 → r < 4 → a < 256 → b < 256 →
      move_of t r a b < 2 ^ 20 ∧ ptype_mv_of (move_of t r a b) = t ∧
        rot_of (move_of t r a b) = r ∧ from_square (move_of t r a b) = a ∧
        to_square (move_of t r a b) = b) ∧
    (∀ m k : Nat, get_move (set_sort_key m k) = get_move m) ∧
    (∀ m k : Nat, k < 2 ^ 32 →
      sort_key (set_sort_key m k) = k ∧ set_sort_key m k < 2 ^ 64) ∧
    (∀ m1 m2 : Nat, m1 < 2 ^ 64 → m2 < 2 ^ 64 → sort_key m1 < sort_key m2 → m1 < m2) := by
  refine ⟨?_, ?_, ?_, ?_⟩
  · intro t r a b ht hr ha hb
    rw [ptype_mv_of_move_of, rot_of_move_of, from_square_move_of, to_square_move_of,
      move_of_eq]
    omega
  · intro m k
    rw [get_move_eq, get_move_eq, set_sort_key_eq]
    omega
  · intro m k hk
    rw [sort_key_eq, set_sort_key_eq]
    omega
  · intro m1 m2 h1 h2
    rw [sort_key_eq, sort_key_eq]
    omega

theorem move_word_round_trip_witness :
    (move_of KING LEFT 67 67 < 2 ^ 20 ∧ ptype_mv_of (move_of KING LEFT 67 67) = KING ∧
        rot_of (move_of KING LEFT 67 67) = LEFT ∧ from_square (move_of KING LEFT 67 67) = 67 ∧
        to_square (move_of KING LEFT 67 67) = 67) ∧
    (sort_key (set_sort_key 5 7) = 7 ∧ set_sort_key 5 7 < 2 ^ 64) ∧
    set_sort_key 1000000 1 < set_sort_key 5 2 :=
  ⟨move_word_round_trip.1 KING LEFT 67 67 (by decide) (by decide) (by decide) (by decide),
   move_word_round_trip.2.2.1 5 7 (by decide),
   move_word_round_trip.2.2.2 (set_sort_key 1000000 1) (set_sort_key 5 2)
     (by decide) (by decide) (by decide)⟩

/-! ## The stomp of a Pawn -/

/-- The position recorded by `make_move` carries the stomped piece found by the
stomp phase. -/
theorem make_move_stomped {zob : Nat → Nat → Nat} {zob_color : Nat} {USE_KO : Int}
    {old : position_t} {mv : Nat} {new : position_t} {v : victims_t}
    (h : make_move zob zob_color USE_KO old mv = some (new, v)) :
    new.victims.stomped =
      (stomp_phase zob (low_level_make_move zob zob_color old mv).1
        (low_level_make_move zob zob_color old mv).2).victims.stomped ∧
    (new.victims.stomped ≠ 0 → v = new.victims) := by
  obtain ⟨q, vsq, hq, -, hc⟩ := make_move_cases h
  rw [← hq]
  rcases hc with ⟨-, hn, hk⟩ | ⟨-, -, -, hn, hv⟩
  · refine ⟨by rw [hn], fun hs => ?_⟩
    rcases hk with ⟨⟨-, hz, -⟩, -⟩ | ⟨-, hv⟩
    · exfalso
      apply hs
      unfold zero_victims at hz
      simp only [Bool.and_eq_true, beq_iff_eq] at hz
      exact hz.1
    · exact hv
  · exact ⟨by rw [hn, zap_phase_eq], fun _ => hv⟩

/-- The square returned by `low_level_make_move` for a Pawn moving onto an
enemy Pawn is the from-square. -/
theorem llmm_snd_stomp (zob : Nat → Nat → Nat) (zob_color : Nat) (old : position_t) (mv : Nat)
    (h : to_square mv ≠ from_square mv)
    (hf : ptype_of (old.board (from_square mv)) = PAWN)
    (ht : ptype_of (old.board (to_square mv)) = PAWN)
    (hc : color_of (old.board (to_square mv)) ≠ color_of (old.board (from_square mv))) :
    (low_level_make_move zob zob_color old mv).2 = from_square mv := by
  rw [llmm_move zob zob_color old mv h]
  have h1 := color_of_lt (old.board (to_square mv))
  have h2 := color_of_lt (old.board (from_square mv))
  have e : color_of (old.board (to_square mv)) =
      opp_color (color_of (old.board (from_square mv))) := by
    unfold opp_color WHITE BLACK
    split <;> omega
  exact if_pos ⟨hf.symm, ht.symm, e⟩

/-- The square returned by `low_level_make_move` for a move onto an EMPTY
square is `0`. -/
theorem llmm_snd_empty (zob : Nat → Nat → Nat) (zob_color : Nat) (old : position_t) (mv : Nat)
    (h : to_square mv ≠ from_square mv)
    (ht : ptype_of (old.board (to_square mv)) = EMPTY) :
    (low_level_make_move zob zob_color old mv).2 = 0 := by
  rw [llmm_move zob zob_color old mv h]
  refine if_neg ?_
  rintro ⟨-, h2, -⟩
  rw [ht] at h2
  exact absurd h2 (by decide)

/-- The position after the stomp phase of a Pawn move onto an enemy Pawn. -/
theorem stomp_phase_of_stomp (zob : Nat → Nat → Nat) (zob_color : Nat) {old : position_t}
    {mv : Nat} (hv : valid_position old) (h : to_square mv ≠ from_square mv)
    (hf : ptype_of (old.board (from_square mv)) = PAWN)
    (ht : ptype_of (old.board (to_square mv)) = PAWN)
    (hc : color_of (old.board (to_square mv)) ≠ color_of (old.board (from_square mv))) :
    let q := stomp_phase zob (low_level_make_move zob zob_color old mv).1
      (low_level_make_move zob zob_color old mv).2
    q.victims.stomped = old.board (to_square mv) ∧
    q.board (to_square mv) = old.board (from_square mv) ∧
    q.board (from_square mv) = 0 ∧
    (∀ sq, sq ≠ from_square mv → sq ≠ to_square mv → q.board sq = old.board sq) ∧
    (∀ i, i < NUMBER_PAWNS →
      q.plocs (color_of (old.board (from_square mv))) i =
        if old.plocs (color_of (old.board (from_square mv))) i = from_square mv
        then to_square mv else old.plocs (color_of (old.board (from_square mv))) i) ∧
    (∀ i, i < NUMBER_PAWNS →
      q.plocs (color_of (old.board (to_square mv))) i =
        if old.plocs (color_of (old.board (to_square mv))) i = to_square mv
        then 0 else old.plocs (color_of (old.board (to_square mv))) i) := by
  intro q
  have hfl : from_square mv < 256 := by rw [from_square_eq]; omega
  have hf0 : from_square mv ≠ 0 :=
    on_board_ne_zero (on_board_of_not_invalid hv.1 hfl (by rw [hf]; decide))
  have hs := llmm_snd_stomp zob zob_color old mv h hf ht hc
  have hq : q = stomp_phase zob (low_level_make_move zob zob_color old mv).1 (from_square mv) := by
    show stomp_phase _ _ _ = _
    rw [hs]
  rw [stomp_phase_pos zob _ hf0, llmm_move zob zob_color old mv h] at hq
  have hb : (Function.update (Function.update old.board (to_square mv)
      (old.board (from_square mv))) (from_square mv) (old.board (to_square mv)))
      (from_square mv) = old.board (to_square mv) := Function.update_same _ _ _
  simp only [hb] at hq
  have hpl : llmm_plocs old.board old.plocs (from_square mv) (to_square mv) =
      replace_ploc (replace_ploc old.plocs (color_of (old.board (from_square mv)))
        (from_square mv) (to_square mv)) (color_of (old.board (to_square mv)))
        (to_square mv) (from_square mv) := by
    unfold llmm_plocs
    simp only [hf, ht, if_true]
  rw [hpl] at hq
  rw [hq]
  refine ⟨rfl, ?_, ?_, ?_, ?_, ?_⟩
  · show Function.update _ _ _ _ = _
    rw [Function.update_noteq h, Function.update_noteq h, Function.update_same]
  · show Function.update _ _ _ _ = _
    rw [Function.update_same]
  · intro sq h1 h2
    show Function.update _ _ _ _ = _
    rw [Function.update_noteq h1, Function.update_noteq h1, Function.update_noteq h2]
  · intro i hi
    dsimp only
    rw [replace_ploc_apply, if_neg (fun hh => hc hh.1.symm), replace_ploc_apply,
      if_neg (fun hh => hc hh.1.symm), replace_ploc_apply]
    simp only [hi, true_and]
  · intro i hi
    dsimp only
    rw [replace_ploc_apply, replace_ploc_apply, replace_ploc_apply]
    simp only [hi, true_and, hc, false_and, if_false]
    by_cases e : old.plocs (color_of (old.board (to_square mv))) i = to_square mv
    · simp [e]
    · by_cases e2 : old.plocs (color_of (old.board (to_square mv))) i = from_square mv
      · exfalso
        have := (hv.2.1.2 _ (color_of_lt _) i hi (by rw [e2]; exact hf0)).2.2
        rw [e2] at this
        exact hc this.symm
      · simp [e, e2]

/-- The board written by `make_move` is the board after the stomp phase with
the zapped square, if any, cleared. -/
theorem make_move_board {zob : Nat → Nat → Nat} {zob_color : Nat} {USE_KO : Int}
    {old : position_t} {mv : Nat} {new : position_t} {v : victims_t}
    (h : make_move zob zob_color USE_KO old mv = some (new, v)) :
    ∃ vsq, fire (stomp_phase zob (low_level_make_move zob zob_color old mv).1
        (low_level_make_move zob zob_color old mv).2) = some vsq ∧
      new.board = (if vsq = 0 then
          (stomp_phase zob (low_level_make_move zob zob_color old mv).1
            (low_level_make_move zob zob_color old mv).2).board
        else Function.update (stomp_phase zob (low_level_make_move zob zob_color old mv).1
            (low_level_make_move zob zob_color old mv).2).board vsq 0) ∧
      new.history = (low_level_make_move zob zob_color old mv).1.history ∧
      new.last_move = (low_level_make_move zob zob_color old mv).1.last_move ∧
      new.ply = (low_level_make_move zob zob_color old mv).1.ply ∧
      new.kloc = (low_level_make_move zob zob_color old mv).1.kloc := by
  obtain ⟨q, vsq, hq, hfire, hc⟩ := make_move_cases h
  have hst : q.history = (low_level_make_move zob zob_color old mv).1.history ∧
      q.last_move = (low_level_make_move zob zob_color old mv).1.last_move ∧
      q.ply = (low_level_make_move zob zob_color old mv).1.ply ∧
      q.kloc = (low_level_make_move zob zob_color old mv).1.kloc := by
    rw [hq]
    by_cases h0 : (low_level_make_move zob zob_color old mv).2 = 0
    · rw [h0, stomp_phase_zero]
      exact ⟨rfl, rfl, rfl, rfl⟩
    · rw [stomp_phase_pos zob _ h0]
      exact ⟨rfl, rfl, rfl, rfl⟩
  rw [← hq]
  refine ⟨vsq, hfire, ?_⟩
  rcases hc with ⟨h0, hn, -⟩ | ⟨h0, -, -, hn, -⟩
  · rw [if_pos h0, hn]
    exact ⟨rfl, hst⟩
  · rw [if_neg h0, hn, zap_phase_eq]
    exact ⟨rfl, hst⟩

/-- Claim C11: a Pawn of the side to move that moves from `a` onto a square `b`
holding an enemy Pawn `q` stomps it: `make_move` returns, records `q` as
`victims.stomped`, and the position in which the laser is fired has the
mover's byte on `b`, EMPTY on `a`, every other square as before, the mover's
`plocs` slot changed from `a` to `b` and the slot of `q` cleared. A move onto
an EMPTY square records `victims.stomped = 0`. -/
theorem pawn_stomp_recorded (zob : Nat → Nat → Nat) (zob_color : Nat) (USE_KO : Int)
    (old : position_t) (mv : Nat) :
    (valid_position old → to_square mv ≠ from_square mv → ptype_mv_of mv = PAWN →
      ptype_of (old.board (from_square mv)) = PAWN →
      color_of (old.board (from_square mv)) = color_to_move_of old →
      ptype_of (old.board (to_square mv)) = PAWN →
      color_of (old.board (to_square mv)) = opp_color (color_to_move_of old) →
      ∃ new v q vsq, make_move zob zob_color USE_KO old mv = some (new, v) ∧
        q = stomp_phase zob (low_level_make_move zob zob_color old mv).1
          (low_level_make_move zob zob_color old mv).2 ∧
        fire q = some vsq ∧
        new.board = (if vsq = 0 then q.board else Function.update q.board vsq 0) ∧
        new.victims.stomped = old.board (to_square mv) ∧ v = new.victims ∧
        q.board (to_square mv) = old.board (from_square mv) ∧
        q.board (from_square mv) = 0 ∧ ptype_of (q.board (from_square mv)) = EMPTY ∧
        (∀ sq, sq ≠ from_square mv → sq ≠ to_square mv → q.board sq = old.board sq) ∧
        (∀ i, i < NUMBER_PAWNS →
          q.plocs (color_to_move_of old) i =
            if old.plocs (color_to_move_of old) i = from_square mv
            then to_square mv else old.plocs (color_to_move_of old) i) ∧
        (∀ i, i < NUMBER_PAWNS →
          q.plocs (opp_color (color_to_move_of old)) i =
            if old.plocs (opp_color (color_to_move_of old)) i = to_square mv
            then 0 else old.plocs (opp_color (color_to_move_of old)) i)) ∧
    (to_square mv ≠ from_square mv → ptype_of (old.board (to_square mv)) = EMPTY →
      (stomp_phase zob (low_level_make_move zob zob_color old mv).1
        (low_level_make_move zob zob_color old mv).2).victims.stomped = 0 ∧
      (∀ new v, make_move zob zob_color USE_KO old mv = some (new, v) →
        new.victims.stomped = 0) ∧
      (valid_position old → move_ok old mv →
        ∃ new v, make_move zob zob_color USE_KO old mv = some (new, v) ∧
          new.victims.stomped = 0)) := by
  constructor
  · intro hv h hty hf hcf ht hct
    have hfl : from_square mv < 256 := by rw [from_square_eq]; omega
    have htl : to_square mv < 256 := by rw [to_square_eq]; omega
    have hc : color_of (old.board (to_square mv)) ≠ color_of (old.board (from_square mv)) := by
      rw [hct, hcf]
      unfold opp_color WHITE BLACK
      split <;> omega
    have hc2 : color_of (old.board (to_square mv)) ≠ color_to_move_of old := by
      rw [← hcf]; exact hc
    have hm : move_ok old mv :=
      ⟨on_board_of_not_invalid hv.1 hfl (by rw [hf]; decide),
       on_board_of_not_invalid hv.1 htl (by rw [ht]; decide), hcf,
       Or.inl ⟨hf, hty, Or.inr (Or.inr ⟨ht, hc2⟩)⟩⟩
    obtain ⟨new, v, hmm, -⟩ := make_move_spec zob zob_color USE_KO hv hm
    obtain ⟨vsq, hfire, hboard, -⟩ := make_move_board hmm
    obtain ⟨hs1, hs2⟩ := make_move_stomped hmm
    obtain ⟨q1, q2, q3, q4, q5, q6⟩ := stomp_phase_of_stomp zob zob_color hv h hf ht hc
    rw [hcf] at q5
    rw [hct] at q6
    have hne : old.board (to_square mv) ≠ 0 := by
      intro e
      rw [e] at ht
      exact absurd ht (by decide)
    refine ⟨new, v, _, vsq, hmm, rfl, hfire, hboard, hs1.trans q1, ?_, q2, q3, ?_, q4, q5, q6⟩
    · exact hs2 (by rw [hs1.trans q1]; exact hne)
    · rw [q3]; decide
  · intro h ht
    have h0 := llmm_snd_empty zob zob_color old mv h ht
    have hq : (stomp_phase zob (low_level_make_move zob zob_color old mv).1
        (low_level_make_move zob zob_color old mv).2).victims.stomped = 0 := by
      rw [h0, stomp_phase_zero]
    refine ⟨hq, fun new v hmm => (make_move_stomped hmm).1.trans hq, fun hv hm => ?_⟩
    obtain ⟨new, v, hmm, -⟩ := make_move_spec zob zob_color USE_KO hv hm
    exact ⟨new, v, hmm, (make_move_stomped hmm).1.trans hq⟩

set_option maxRecDepth 100000 in
theorem pawn_stomp_recorded_witness :
    valid_position pinned_king_position ∧
    (∃ new v, make_move example_zob example_zob_color 1 pinned_king_position
        (move_of PAWN NONE (square_of 2 3) (square_of 3 4)) = some (new, v) ∧
      new.victims.stomped = pinned_king_position.board
        (to_square (move_of PAWN NONE (square_of 2 3) (square_of 3 4))) ∧
      v = new.victims) ∧
    (∀ new v, make_move example_zob example_zob_color 1 quiet_position
        (move_of PAWN NONE (square_of 2 3) (square_of 2 4)) = some (new, v) →
      new.victims.stomped = 0) :=
  ⟨by decide,
   let ⟨new, v, _, _, h1, _, _, _, h5, h6, _⟩ :=
     (pawn_stomp_recorded example_zob example_zob_color 1 pinned_king_position
       (move_of PAWN NONE (square_of 2 3) (square_of 3 4))).1
       (by decide) (by decide) (by decide) (by decide) (by decide) (by decide) (by decide)
   ⟨new, v, h1, h5, h6⟩,
   ((pawn_stomp_recorded example_zob example_zob_color 1 quiet_position
       (move_of PAWN NONE (square_of 2 3) (square_of 2 4))).2
       (by decide) (by decide)).2.1⟩

/-! ## Rotation moves -/

/-- The board after a rotation move, square by square. -/
theorem llmm_rot_board (zob : Nat → Nat → Nat) (zob_color : Nat) (old : position_t) (mv : Nat)
    (h : to_square mv = from_square mv) (s : Nat) :
    (low_level_make_move zob zob_color old mv).1.board s =
      if s = from_square mv then
        old.board s % 256 / 4 * 4 + (rot_of mv + old.board s % 4) % 4
      else old.board s := by
  rw [llmm_rot zob zob_color old mv h]
  show Function.update _ _ _ _ = _
  by_cases e : s = from_square mv
  · rw [if_pos e, e, Function.update_same, set_ori_eq, ori_of_eq]
  · rw [if_neg e, Function.update_noteq e]

/-- Claim C12: on a rotation move (from-square = to-square) `low_level_make_move`
keeps the type and the colour of the piece, turns its orientation `o` into
`(o + r) mod 4` for the rotation `r` of the move (one of NONE, RIGHT, UTURN,
LEFT), changes no other square and no entry of `kloc` or `plocs`, and returns
`0`; on a square holding a byte, four RIGHT rotations, and a RIGHT followed by
a LEFT, give back the board. -/
theorem rotation_move_effect (zob : Nat → Nat → Nat) (zob_color : Nat) (old : position_t) :
    (∀ mv, to_square mv = from_square mv →
      ptype_of ((low_level_make_move zob zob_color old mv).1.board (from_square mv)) =
        ptype_of (old.board (from_square mv)) ∧
      color_of ((low_level_make_move zob zob_color old mv).1.board (from_square mv)) =
        color_of (old.board (from_square mv)) ∧
      ori_of ((low_level_make_move zob zob_color old mv).1.board (from_square mv)) =
        (ori_of (old.board (from_square mv)) + rot_of mv) % 4 ∧
      (rot_of mv = NONE ∨ rot_of mv = RIGHT ∨ rot_of mv = UTURN ∨ rot_of mv = LEFT) ∧
      (∀ s, s ≠ from_square mv →
        (low_level_make_move zob zob_color old mv).1.board s = old.board s) ∧
      (low_level_make_move zob zob_color old mv).1.kloc = old.kloc ∧
      (low_level_make_move zob zob_color old mv).1.plocs = old.plocs ∧
      (low_level_make_move zob zob_color old mv).2 = 0) ∧
    (∀ typ sq, sq < 256 → old.board sq < 256 →
      (∀ s, (low_level_make_move zob zob_color
          (low_level_make_move zob zob_color
            (low_level_make_move zob zob_color
              (low_level_make_move zob zob_color old (move_of typ RIGHT sq sq)).1
              (move_of typ RIGHT sq sq)).1
            (move_of typ RIGHT sq sq)).1
          (move_of typ RIGHT sq sq)).1.board s = old.board s) ∧
      (∀ s, (low_level_make_move zob zob_color
          (low_level_make_move zob zob_color old (move_of typ RIGHT sq sq)).1
          (move_of typ LEFT sq sq)).1.board s = old.board s)) := by
  constructor
  · intro mv h
    have hb := llmm_rot_board zob zob_color old mv h
    have hr : rot_of mv < 4 := by rw [rot_of_eq]; omega
    refine ⟨?_, ?_, ?_, ?_, fun s hs => ?_, ?_, ?_, ?_⟩
    · rw [hb, if_pos rfl, ptype_of_eq, ptype_of_eq]; omega
    · rw [hb, if_pos rfl, color_of_eq, color_of_eq]; omega
    · rw [hb, if_pos rfl, ori_of_eq, ori_of_eq]; omega
    · unfold NONE RIGHT UTURN LEFT; omega
    · rw [hb, if_neg hs]
    · rw [llmm_rot zob zob_color old mv h]
    · rw [llmm_rot zob zob_color old mv h]
    · rw [llmm_rot zob zob_color old mv h]
  · intro typ sq hsq hx
    have hR : to_square (move_of typ RIGHT sq sq) = from_square (move_of typ RIGHT sq sq) := by
      rw [to_square_move_of, from_square_move_of]
    have hL : to_square (move_of typ LEFT sq sq) = from_square (move_of typ LEFT sq sq) := by
      rw [to_square_move_of, from_square_move_of]
    have fR : from_square (move_of typ RIGHT sq sq) = sq := by
      rw [from_square_move_of]; omega
    have fL : from_square (move_of typ LEFT sq sq) = sq := by
      rw [from_square_move_of]; omega
    have rR : rot_of (move_of typ RIGHT sq sq) = 1 := by rw [rot_of_move_of]; rfl
    have rL : rot_of (move_of typ LEFT sq sq) = 3 := by rw [rot_of_move_of]; rfl
    have h1 := llmm_rot_board zob zob_color old (move_of typ RIGHT sq sq) hR
    generalize (low_level_make_move zob zob_color old (move_of typ RIGHT sq sq)).1 = p1 at h1 ⊢
    have h2 := llmm_rot_board zob zob_color p1 (move_of typ RIGHT sq sq) hR
    have hl := llmm_rot_board zob zob_color p1 (move_of typ LEFT sq sq) hL
    generalize (low_level_make_move zob zob_color p1 (move_of typ RIGHT sq sq)).1 = p2 at h2 ⊢
    have h3 := llmm_rot_board zob zob_color p2 (move_of typ RIGHT sq sq) hR
    generalize (low_level_make_move zob zob_color p2 (move_of typ RIGHT sq sq)).1 = p3 at h3 ⊢
    have h4 := llmm_rot_board zob zob_color p3 (move_of typ RIGHT sq sq) hR
    generalize (low_level_make_move zob zob_color p3 (move_of typ RIGHT sq sq)).1 = p4 at h4 ⊢
    generalize (low_level_make_move zob zob_color p1 (move_of typ LEFT sq sq)).1 = pl at hl ⊢
    rw [fR, rR] at h1 h2 h3 h4
    rw [fL, rL] at hl
    have a1 := h1 sq
    have a2 := h2 sq
    have a3 := h3 sq
    have a4 := h4 sq
    have al := hl sq
    rw [if_pos rfl] at a1 a2 a3 a4 al
    constructor
    · intro s
      by_cases e : s = sq
      · rw [e]; clear hR hL fR fL rR rL h1 h2 h3 h4 hl; omega
      · rw [h4, if_neg e, h3, if_neg e, h2, if_neg e, h1, if_neg e]
    · intro s
      by_cases e : s = sq
      · rw [e]; clear hR hL fR fL rR rL h1 h2 h3 h4 hl; omega
      · rw [hl, if_neg e, h1, if_neg e]

set_option maxRecDepth 100000 in
theorem rotation_move_effect_witness :
    (ori_of ((low_level_make_move example_zob example_zob_color quiet_position
        (move_of PAWN UTURN (square_of 2 3) (square_of 2 3))).1.board
        (from_square (move_of PAWN UTURN (square_of 2 3) (square_of 2 3)))) =
      (ori_of (quiet_position.board
        (from_square (move_of PAWN UTURN (square_of 2 3) (square_of 2 3)))) +
        rot_of (move_of PAWN UTURN (square_of 2 3) (square_of 2 3))) % 4) ∧
    (∀ s, (low_level_make_move example_zob example_zob_color
        (low_level_make_move example_zob example_zob_color quiet_position
          (move_of PAWN RIGHT (square_of 2 3) (square_of 2 3))).1
        (move_of PAWN LEFT (square_of 2 3) (square_of 2 3))).1.board s =
      quiet_position.board s) :=
  ⟨((rotation_move_effect example_zob example_zob_color quiet_position).1
      (move_of PAWN UTURN (square_of 2 3) (square_of 2 3)) (by decide)).2.2.1,
   ((rotation_move_effect example_zob example_zob_color quiet_position).2
      PAWN (square_of 2 3) (by decide) (by decide)).2⟩

/-! ## The frame of make_move -/

/-- The fields written by `low_level_make_move` whatever the move, and the
squares it leaves alone. -/
theorem llmm_frame (zob : Nat → Nat → Nat) (zob_color : Nat) (old : position_t) (mv : Nat) :
    (low_level_make_move zob zob_color old mv).1.history = some old ∧
    (low_level_make_move zob zob_color old mv).1.last_move = mv ∧
    (low_level_make_move zob zob_color old mv).1.ply = as_int16 (old.ply + 1) ∧
    ((low_level_make_move zob zob_color old mv).2 = 0 ∨
      (low_level_make_move zob zob_color old mv).2 = from_square mv) ∧
    ∀ sq, sq ≠ from_square mv → sq ≠ to_square mv →
      (low_level_make_move zob zob_color old mv).1.board sq = old.board sq := by
  by_cases h : to_square mv = from_square mv
  · rw [llmm_rot zob zob_color old mv h]
    refine ⟨rfl, rfl, rfl, Or.inl rfl, fun sq h1 _ => ?_⟩
    show Function.update _ _ _ _ = _
    rw [Function.update_noteq h1]
  · rw [llmm_move zob zob_color old mv h]
    refine ⟨rfl, rfl, rfl, ?_, fun sq h1 h2 => ?_⟩
    · dsimp only
      split
      · exact Or.inr rfl
      · exact Or.inl rfl
    · show Function.update _ _ _ _ = _
      rw [Function.update_noteq h1, Function.update_noteq h2]

/-- The stomp phase changes the board at most on the stomped square. -/
theorem stomp_phase_board (zob : Nat → Nat → Nat) (q : position_t) (s sq : Nat)
    (h : s = 0 ∨ sq ≠ s) :
    (stomp_phase zob q s).board sq = q.board sq := by
  by_cases h0 : s = 0
  · rw [h0, stomp_phase_zero]
  · rw [stomp_phase_pos zob q h0]
    show Function.update _ _ _ _ = _
    rw [Function.update_noteq (h.resolve_left h0)]

/-- Claim C13, corrected: when `make_move` returns `new`, then `new.history` is
`old`, `new.last_move` is the move, `new.ply` is `old.ply + 1` as an `int16_t`
(equal to `old.ply + 1` when `old.ply < 32767`), the side to move has flipped,
and every board square other than the from-square, the to-square and the
square hit by the laser is as in `old`; on a valid position and an admissible
move `make_move` returns and every border square is unchanged. -/
theorem make_move_frame (zob : Nat → Nat → Nat) (zob_color : Nat) (USE_KO : Int)
    (old : position_t) (mv : Nat) :
    (∀ new v, make_move zob zob_color USE_KO old mv = some (new, v) →
      new.history = some old ∧ new.last_move = mv ∧
      new.ply = as_int16 (old.ply + 1) ∧
      (-32768 ≤ old.ply → old.ply < 32767 → new.ply = old.ply + 1) ∧
      color_to_move_of new = opp_color (color_to_move_of old) ∧
      ∃ vsq, fire (stomp_phase zob (low_level_make_move zob zob_color old mv).1
          (low_level_make_move zob zob_color old mv).2) = some vsq ∧
        ∀ sq, sq ≠ from_square mv → sq ≠ to_square mv → (vsq = 0 ∨ sq ≠ vsq) →
          new.board sq = old.board sq) ∧
    (valid_position old → move_ok old mv →
      ∃ new v, make_move zob zob_color USE_KO old mv = some (new, v) ∧
        ∀ sq, sq < ARR_SIZE → ¬ on_board sq → new.board sq = old.board sq) := by
  have part1 : ∀ new v, make_move zob zob_color USE_KO old mv = some (new, v) →
      new.history = some old ∧ new.last_move = mv ∧
      new.ply = as_int16 (old.ply + 1) ∧
      (-32768 ≤ old.ply → old.ply < 32767 → new.ply = old.ply + 1) ∧
      color_to_move_of new = opp_color (color_to_move_of old) ∧
      ∃ vsq, fire (stomp_phase zob (low_level_make_move zob zob_color old mv).1
          (low_level_make_move zob zob_color old mv).2) = some vsq ∧
        ∀ sq, sq ≠ from_square mv → sq ≠ to_square mv → (vsq = 0 ∨ sq ≠ vsq) →
          new.board sq = old.board sq := by
    intro new v h
    obtain ⟨vsq, hfire, hboard, hh, hl, hp, -⟩ := make_move_board h
    obtain ⟨f1, f2, f3, f4, f5⟩ := llmm_frame zob zob_color old mv
    refine ⟨hh.trans f1, hl.trans f2, hp.trans f3, fun h1 h2 => ?_, ?_, vsq, hfire,
      fun sq h1 h2 h3 => ?_⟩
    · rw [hp.trans f3]; unfold as_int16; omega
    · unfold color_to_move_of
      rw [hp.trans f3]
      exact color_to_move_flip old.ply
    · have hq : (stomp_phase zob (low_level_make_move zob zob_color old mv).1
          (low_level_make_move zob zob_color old mv).2).board sq = old.board sq := by
        rw [stomp_phase_board zob _ _ sq (f4.imp id (fun e => by rw [e]; exact h1))]
        exact f5 sq h1 h2
      rw [hboard]
      rcases h3 with h3 | h3
      · rw [if_pos h3]; exact hq
      · by_cases h0 : vsq = 0
        · rw [if_pos h0]; exact hq
        · rw [if_neg h0, Function.update_noteq h3]; exact hq
  refine ⟨part1, fun hv hm => ?_⟩
  obtain ⟨new, v, hmm, -⟩ := make_move_spec zob zob_color USE_KO hv hm
  refine ⟨new, v, hmm, fun sq _ hsq => ?_⟩
  obtain ⟨-, -, -, -, -, vsq, hfire, hfr⟩ := part1 new v hmm
  have hq := stomp_phase_valid zob (llmm_valid zob zob_color hv hm)
    (llmm_stomped zob zob_color hm)
  obtain ⟨v2, hf2, hv2⟩ := fire_valid hq
  rw [hfire] at hf2
  have e : vsq = v2 := Option.some.inj hf2
  rw [← e] at hv2
  refine hfr sq ?_ ?_ ?_
  · intro e1; rw [e1] at hsq; exact hsq hm.1
  · intro e1; rw [e1] at hsq; exact hsq hm.2.1
  · rcases hv2 with h0 | ⟨h1, -⟩
    · exact Or.inl h0
    · right; intro e1; rw [e1] at hsq; exact hsq h1

set_option maxRecDepth 100000 in
/-- Claim C13 as stated fails at the largest ply: in `late_position`, a valid
position with `ply = 32767`, the Black King turns RIGHT; `make_move` returns a
position whose ply is `-32768`, not `32768`. -/
theorem ply_wraps_at_int16_max :
    valid_position late_position ∧
    move_ok late_position (move_of KING RIGHT (square_of 9 9) (square_of 9 9)) ∧
    make_move example_zob example_zob_color 0 late_position
        (move_of KING RIGHT (square_of 9 9) (square_of 9 9)) =
      some (example_result 0 late_position
        (move_of KING RIGHT (square_of 9 9) (square_of 9 9))) ∧
    late_position.ply = 32767 ∧
    (example_result 0 late_position
      (move_of KING RIGHT (square_of 9 9) (square_of 9 9))).1.ply = -32768 ∧
    (example_result 0 late_position
      (move_of KING RIGHT (square_of 9 9) (square_of 9 9))).1.ply ≠ late_position.ply + 1 := by
  refine ⟨by decide, by unfold move_ok; decide, rfl, rfl, by decide, by decide⟩

set_option maxRecDepth 100000 in
theorem make_move_frame_witness :
    (example_result 0 quiet_position
      (move_of PAWN NONE (square_of 2 3) (square_of 2 4))).1.ply = quiet_position.ply + 1 ∧
    ∃ new v, make_move example_zob example_zob_color 0 quiet_position
        (move_of PAWN NONE (square_of 2 3) (square_of 2 4)) = some (new, v) ∧
      ∀ sq, sq < ARR_SIZE → ¬ on_board sq → new.board sq = quiet_position.board sq :=
  ⟨((make_move_frame example_zob example_zob_color 0 quiet_position
      (move_of PAWN NONE (square_of 2 3) (square_of 2 4))).1 _ _ rfl).2.2.2.1
      (by decide) (by decide),
   (make_move_frame example_zob example_zob_color 0 quiet_position
      (move_of PAWN NONE (square_of 2 3) (square_of 2 4))).2
      (by decide) (by unfold move_ok; decide)⟩

/-! ## The walk of fire and the marked laser path -/

/-- The value returned by `fire` is the value of the recorded walk. -/
theorem fire_loop_eq_trace (board : Nat → Nat) :
    ∀ fuel sq bdir, fire_loop board fuel sq bdir =
      (fire_trace_loop board fuel sq bdir).map Prod.snd := by
  intro fuel
  induction fuel with
  | zero => intro sq bdir; rfl
  | succ n ih =>
    intro sq bdir
    unfold fire_loop fire_trace_loop
    dsimp only
    split
    · rw [ih, Option.map_map]; rfl
    · split
      · split
        · rfl
        · rw [ih, Option.map_map]; rfl
      · split <;> rfl

/-- The squares of the recorded walk of `fire` are the squares of the loop of
`mark_laser_path`. -/
theorem fire_trace_squares (board : Nat → Nat) :
    ∀ fuel sq bdir, (fire_trace_loop board fuel sq bdir).map (fun r => r.1.map Prod.fst) =
      laser_path_loop board fuel sq bdir := by
  intro fuel
  induction fuel with
  | zero => intro sq bdir; rfl
  | succ n ih =>
    intro sq bdir
    unfold fire_trace_loop laser_path_loop
    dsimp only
    split
    · rw [← ih, Option.map_map, Option.map_map]; rfl
    · split
      · split
        · rfl
        · rw [← ih, Option.map_map, Option.map_map]; rfl
      · split <;> rfl

/-- Where the recorded walk of `fire` ends, and what is returned there. -/
theorem fire_trace_end (board : Nat → Nat) :
    ∀ fuel sq bdir steps r, fire_trace_loop board fuel sq bdir = some (steps, r) →
      ∃ e d, steps.getLast? = some (e, d) ∧
        ((ptype_of (board e) = KING ∧ r = e) ∨
         (ptype_of (board e) = PAWN ∧ reflect_of d (ori_of (board e)) < 0 ∧ r = e) ∨
         (ptype_of (board e) = INVALID ∧ r = 0)) := by
  intro fuel
  induction fuel with
  | zero => intro sq bdir steps r h; exact absurd h (by unfold fire_trace_loop; exact nofun)
  | succ n ih =>
    intro sq bdir steps r h
    unfold fire_trace_loop at h
    dsimp only at h
    have key : ∀ bd, (fire_trace_loop board n (as_square (sq + beam_of bdir)) bd).map
        (fun r => ((as_square (sq + beam_of bdir), bdir) :: r.1, r.2)) = some (steps, r) →
        ∃ e d, steps.getLast? = some (e, d) ∧
        ((ptype_of (board e) = KING ∧ r = e) ∨
         (ptype_of (board e) = PAWN ∧ reflect_of d (ori_of (board e)) < 0 ∧ r = e) ∨
         (ptype_of (board e) = INVALID ∧ r = 0)) := by
      intro bd hh
      rw [Option.map_eq_some'] at hh
      obtain ⟨⟨st, r2⟩, h1, h2⟩ := hh
      obtain ⟨e, d, hl, hc⟩ := ih _ _ st r2 h1
      have e1 : steps = (as_square (sq + beam_of bdir), bdir) :: st := (Prod.mk.inj h2).1.symm
      have e2 : r = r2 := (Prod.mk.inj h2).2.symm
      refine ⟨e, d, ?_, by rw [e2]; exact hc⟩
      rw [e1]
      cases st with
      | nil => exact absurd hl (by simp)
      | cons a t => rw [List.getLast?_cons_cons]; exact hl
    split at h
    · exact key _ h
    · rename_i hne
      split at h
      · rename_i hp
        split at h
        · rename_i hb
          have e := Prod.mk.inj (Option.some.inj h)
          refine ⟨_, bdir, by rw [← e.1]; rfl, Or.inr (Or.inl ⟨hp, hb, e.2.symm⟩)⟩
        · exact key _ h
      · rename_i hnp
        split at h
        · rename_i hk
          have e := Prod.mk.inj (Option.some.inj h)
          exact ⟨_, bdir, by rw [← e.1]; rfl, Or.inl ⟨hk, e.2.symm⟩⟩
        · rename_i hnk
          have e := Prod.mk.inj (Option.some.inj h)
          refine ⟨_, bdir, by rw [← e.1]; rfl, Or.inr (Or.inr ⟨?_, e.2.symm⟩)⟩
          have := ptype_of_lt (board (as_square (sq + beam_of bdir)))
          unfold EMPTY at hne
          unfold PAWN at hnp
          unfold KING at hnk
          unfold INVALID
          omega

/-- Claim C14: `fire p` walks the laser of the King of the colour that just
moved, the opposite of `color_to_move_of p`, over the squares that
`mark_laser_path` marks for that colour: the value returned is that of the
recorded walk, whose squares after the King's own are the laser path; the
walk ends on a KING or on a PAWN hit in the back, and that square is returned,
or on an INVALID square, and `0` is returned; every square stepped onto is
marked by `mark_laser_path`; one call returns exactly when the other does, and
both return on a valid position. -/
theorem fire_follows_laser_path (p : position_t) (lm : Nat → Nat) (mask : Nat) :
    fire p = (fire_trace p).map Prod.snd ∧
    (fire_trace p).map
        (fun r => p.kloc (opp_color (color_to_move_of p)) :: r.1.map Prod.fst) =
      laser_path p (opp_color (color_to_move_of p)) ∧
    (∀ steps r, fire_trace p = some (steps, r) →
      (∃ e d, steps.getLast? = some (e, d) ∧
        ((ptype_of (p.board e) = KING ∧ r = e) ∨
         (ptype_of (p.board e) = PAWN ∧ reflect_of d (ori_of (p.board e)) < 0 ∧ r = e) ∨
         (ptype_of (p.board e) = INVALID ∧ r = 0))) ∧
      ∃ lm2, mark_laser_path p lm (opp_color (color_to_move_of p)) mask = some lm2 ∧
        ∀ x, x ∈ steps → lm2 x.1 = lm x.1 ||| mask) ∧
    (fire p = none ↔ mark_laser_path p lm (opp_color (color_to_move_of p)) mask = none) ∧
    (valid_position p → ∃ steps r, fire_trace p = some (steps, r)) := by
  have h1 : fire p = (fire_trace p).map Prod.snd := by
    unfold fire fire_trace
    exact fire_loop_eq_trace _ _ _ _
  have h2 : (fire_trace p).map
        (fun r => p.kloc (opp_color (color_to_move_of p)) :: r.1.map Prod.fst) =
      laser_path p (opp_color (color_to_move_of p)) := by
    unfold laser_path
    rw [← fire_trace_squares, Option.map_map]
    rfl
  refine ⟨h1, h2, fun steps r h => ⟨?_, ?_⟩, ?_, fun hv => ?_⟩
  · unfold fire_trace at h
    exact fire_trace_end _ _ _ _ steps r h
  · rw [mark_laser_path_eq, ← h2, h]
    refine ⟨_, rfl, fun x hx => ?_⟩
    dsimp only
    rw [mark_fold_apply, if_pos]
    exact List.mem_cons_of_mem _ (List.mem_map_of_mem _ hx)
  · rw [mark_laser_path_eq, ← h2, h1]
    simp only [Option.map_eq_none']
  · obtain ⟨v, hf, -⟩ := fire_valid hv
    rw [h1, Option.map_eq_some'] at hf
    obtain ⟨⟨steps, r⟩, hh, -⟩ := hf
    exact ⟨steps, r, hh⟩

set_option maxRecDepth 100000 in
theorem fire_follows_laser_path_witness :
    fire pinned_king_position = some (square_of 4 0) ∧
    ∃ lm2, mark_laser_path pinned_king_position prefilled_laser_map
        (opp_color (color_to_move_of pinned_king_position)) 1 = some lm2 ∧
      ∀ x, x ∈ (List.range 7).map (fun i => (square_of 4 (6 - i), SS)) →
        lm2 x.1 = prefilled_laser_map x.1 ||| 1 :=
  ⟨by decide,
   ((fire_follows_laser_path pinned_king_position prefilled_laser_map 1).2.2.1
      ((List.range 7).map (fun i => (square_of 4 (6 - i), SS))) (square_of 4 0)
      (by decide)).2⟩

/-! ## Move text -/

set_option maxRecDepth 100000 in
theorem square_to_str_on_board :
    ∀ sq, sq < 256 → on_board sq → square_to_str sq = square_name sq := by
  decide

theorem square_name_square_of :
    ∀ f < 10, ∀ r < 10,
      square_name (square_of f r) = [Char.ofNat ('a'.toNat + f), Char.ofNat ('0'.toNat + r)] := by
  decide

/-! ## The claim about move text -/

/-- Claim C19 as stated fails on the King null move: for the null move on e0
`move_to_str` writes the square twice, "e0e0", not "e0". -/
theorem null_move_text_is_doubled :
    on_board (square_of 4 0) ∧
    rot_of (move_of KING NONE (square_of 4 0) (square_of 4 0)) = NONE ∧
    from_square (move_of KING NONE (square_of 4 0) (square_of 4 0)) =
      to_square (move_of KING NONE (square_of 4 0) (square_of 4 0)) ∧
    square_name (square_of 4 0) = ['e', '0'] ∧
    move_to_str (move_of KING NONE (square_of 4 0) (square_of 4 0)) = ['e', '0', 'e', '0'] ∧
    move_to_str (move_of KING NONE (square_of 4 0) (square_of 4 0)) ≠
      square_name (square_of 4 0) := by
  decide

/-- Claim C19, corrected: for a move whose squares are on the playing area,
`move_to_str` writes the name of the from-square followed by the name of the
to-square for a translation, the name of the square followed by `R`, `U` or
`L` for a rotation by RIGHT, UTURN or LEFT, and the name of the square twice
for the null move (from = to, rotation NONE); the name of the square of file
`f` and rank `r` is the letter `'a' + f` followed by the digit `'0' + r`. -/
theorem move_to_str_format (mv : Nat) (hf : on_board (from_square mv))
    (ht : on_board (to_square mv)) :
    (from_square mv ≠ to_square mv →
      move_to_str mv = square_name (from_square mv) ++ square_name (to_square mv)) ∧
    (from_square mv = to_square mv → rot_of mv = RIGHT →
      move_to_str mv = square_name (from_square mv) ++ ['R']) ∧
    (from_square mv = to_square mv → rot_of mv = UTURN →
      move_to_str mv = square_name (from_square mv) ++ ['U']) ∧
    (from_square mv = to_square mv → rot_of mv = LEFT →
      move_to_str mv = square_name (from_square mv) ++ ['L']) ∧
    (from_square mv = to_square mv → rot_of mv = NONE →
      move_to_str mv = square_name (from_square mv) ++ square_name (from_square mv)) ∧
    (∀ f r, f < 10 → r < 10 →
      square_name (square_of f r) =
        [Char.ofNat ('a'.toNat + f), Char.ofNat ('0'.toNat + r)]) := by
  have e1 := square_to_str_on_board _ (on_board_lt hf) hf
  have e2 := square_to_str_on_board _ (on_board_lt ht) ht
  refine ⟨fun h => ?_, fun h hr => ?_, fun h hr => ?_, fun h hr => ?_, fun h hr => ?_,
    fun f r hf hr => square_name_square_of f hf r hr⟩
  · unfold move_to_str
    simp only [h, ne_eq, not_false_eq_true, if_true, e1, e2]
  · unfold move_to_str
    rw [hr]
    simp [h, e2, RIGHT, NONE]
  · unfold move_to_str
    rw [hr]
    simp [h, e2, UTURN, RIGHT, NONE]
  · unfold move_to_str
    rw [hr]
    simp [h, e2, LEFT, UTURN, RIGHT, NONE]
  · unfold move_to_str
    rw [hr]
    simp [h, e2]

theorem move_to_str_format_witness :
    move_to_str (move_of PAWN RIGHT (square_of 2 3) (square_of 2 3)) =
      square_name (from_square (move_of PAWN RIGHT (square_of 2 3) (square_of 2 3))) ++ ['R'] ∧
    move_to_str (move_of PAWN NONE (square_of 2 3) (square_of 3 4)) =
      square_name (from_square (move_of PAWN NONE (square_of 2 3) (square_of 3 4))) ++
        square_name (to_square (move_of PAWN NONE (square_of 2 3) (square_of 3 4))) :=
  ⟨(move_to_str_format (move_of PAWN RIGHT (square_of 2 3) (square_of 2 3))
      (by decide) (by decide)).2.1 (by decide) (by decide),
   (move_to_str_format (move_of PAWN NONE (square_of 2 3) (square_of 3 4))
      (by decide) (by decide)).1 (by decide)⟩

/-! ## The end of eval -/

theorem ancestors_eq (p : position_t) :
    ancestors p = match p.history with
      | none => []
      | some h => h :: ancestors h := by
  cases p with
  | mk b h k pl lm v kl pls => cases h <;> simp [ancestors]

theorem is_repeated_loop_eq (cur : Nat) (x : position_t) :
    is_repeated_loop cur x =
      if ¬ zero_victims x.victims = true then some false
      else match x.history with
        | none => none
        | some x2 =>
          if ¬ zero_victims x2.victims = true then some false
          else if x2.key = cur then some true
          else match x2.history with
            | none => none
            | some x3 => is_repeated_loop cur x3 := by
  cases x with
  | mk b h k pl lm v kl pls =>
    cases h with
    | none => simp [is_repeated_loop]
    | some x2 =>
      cases x2 with
      | mk b h k pl lm v kl pls => cases h <;> simp [is_repeated_loop]

theorem get_draw_score_loop_eq (DRAW : Int) (cur : Nat) (ply : Int) (x : position_t) :
    get_draw_score_loop DRAW cur ply x =
      if ¬ zero_victims x.victims = true then some none
      else match x.history with
        | none => none
        | some x2 =>
          if ¬ zero_victims x2.victims = true then some none
          else if x2.key = cur then some (some (if ply % 2 ≠ 0 then -DRAW else DRAW))
          else match x2.history with
            | none => none
            | some x3 => get_draw_score_loop DRAW cur ply x3 := by
  cases x with
  | mk b h k pl lm v kl pls =>
    cases h with
    | none => simp [get_draw_score_loop]
    | some x2 =>
      cases x2 with
      | mk b h k pl lm v kl pls => cases h <;> simp [get_draw_score_loop]

/-- Induction along the history chain, two predecessors at a time. -/
theorem history_induction (P : position_t → Prop)
    (step : ∀ x, (∀ x2 x3, x.history = some x2 → x2.history = some x3 → P x3) → P x) :
    ∀ x, P x := by
  have main : ∀ n x, (ancestors x).length ≤ n → P x := by
    intro n
    induction n with
    | zero =>
      intro x hx
      apply step
      intro x2 x3 h2 _
      rw [ancestors_eq, h2] at hx
      simp at hx
    | succ n ih =>
      intro x hx
      apply step
      intro x2 x3 h2 h3
      apply ih
      rw [ancestors_eq, h2] at hx
      have hx2 : (ancestors x2).length ≤ n := by simpa using hx
      rw [ancestors_eq, h3] at hx2
      simp at hx2
      omega
  exact fun x => main _ x (le_refl _)

/-- The loop of `is_repeated` is the scan of the history chain. -/
theorem is_repeated_loop_scan (cur : Nat) :
    ∀ x, is_repeated_loop cur x = repetition_scan cur (x :: ancestors x) := by
  apply history_induction
  intro x ih
  rw [is_repeated_loop_eq, ancestors_eq x]
  cases h2 : x.history with
  | none => simp [repetition_scan]
  | some x2 =>
    dsimp only
    rw [ancestors_eq x2]
    cases h3 : x2.history with
    | none => simp [repetition_scan]
    | some x3 =>
      simp only [repetition_scan]
      rw [ih x2 x3 h2 h3]

/-- The loop of `get_draw_score` follows the loop of `is_repeated`. -/
theorem get_draw_score_loop_repeated (DRAW : Int) (cur : Nat) (ply : Int) :
    ∀ x, get_draw_score_loop DRAW cur ply x =
      (is_repeated_loop cur x).map
        (fun b => if b = true then some (if ply % 2 ≠ 0 then -DRAW else DRAW) else none) := by
  apply history_induction
  intro x ih
  rw [is_repeated_loop_eq, get_draw_score_loop_eq]
  split
  · rfl
  · cases h2 : x.history with
    | none => rfl
    | some x2 =>
      dsimp only
      split
      · rfl
      · split
        · rfl
        · cases h3 : x2.history with
          | none => rfl
          | some x3 => exact ih x2 x3 h2 h3

/-- What the scan of a chain returns, when the chain holds a position with
non-zero victims. -/
theorem repetition_scan_spec (cur : Nat) : ∀ l : List position_t,
    (∃ (n : Nat) (x : position_t), l[n]? = some x ∧ zero_victims x.victims = false) →
    ∃ b, repetition_scan cur l = some b ∧
      (b = true ↔ ∃ k, 1 ≤ k ∧ (∃ x, l[2 * k - 1]? = some x ∧ x.key = cur) ∧
        ∀ i, i < 2 * k → ∃ y, l[i]? = some y ∧ zero_victims y.victims = true) := by
  have main : ∀ n (l : List position_t), l.length ≤ n →
      (∃ (n : Nat) (x : position_t), l[n]? = some x ∧ zero_victims x.victims = false) →
      ∃ b, repetition_scan cur l = some b ∧
        (b = true ↔ ∃ k, 1 ≤ k ∧ (∃ x, l[2 * k - 1]? = some x ∧ x.key = cur) ∧
          ∀ i, i < 2 * k → ∃ y, l[i]? = some y ∧ zero_victims y.victims = true) := by
    intro n
    induction n with
    | zero =>
      intro l hl ⟨m, x, hx, _⟩
      have : l = [] := List.length_eq_zero.mp (Nat.le_zero.mp hl)
      rw [this] at hx
      simp at hx
    | succ n ih =>
      intro l hl ⟨m, xm, hxm, hzm⟩
      match l, hl, hxm with
      | [], _, hxm => simp at hxm
      | [x], _, hxm =>
        have hm : m = 0 := by
          cases m with
          | zero => rfl
          | succ m => simp at hxm
        rw [hm] at hxm
        simp at hxm
        rw [← hxm] at hzm
        refine ⟨false, by simp [repetition_scan, hzm], ?_⟩
        constructor
        · intro h; exact absurd h (by decide)
        · rintro ⟨k, hk, -, hall⟩
          obtain ⟨y, hy, hz⟩ := hall 0 (by omega)
          simp at hy
          rw [← hy, hzm] at hz
          exact absurd hz (by decide)
      | x :: x2 :: rest, hl, hxm =>
        by_cases h1 : zero_victims x.victims = true
        · by_cases h2 : zero_victims x2.victims = true
          · by_cases h3 : x2.key = cur
            · refine ⟨true, by simp [repetition_scan, h1, h2, h3], ?_⟩
              refine ⟨fun _ => ⟨1, le_refl _, ⟨x2, by simp, h3⟩, fun i hi => ?_⟩, fun _ => rfl⟩
              have : i = 0 ∨ i = 1 := by omega
              rcases this with e | e
              · exact ⟨x, by simp [e], h1⟩
              · exact ⟨x2, by simp [e], h2⟩
            · have hm : 2 ≤ m := by
                cases m with
                | zero =>
                  simp at hxm
                  rw [← hxm, h1] at hzm
                  exact absurd hzm (by decide)
                | succ m =>
                  cases m with
                  | zero =>
                    simp at hxm
                    rw [← hxm, h2] at hzm
                    exact absurd hzm (by decide)
                  | succ m => omega
              have hrest : ∃ (n : Nat) (x : position_t), rest[n]? = some x ∧ zero_victims x.victims = false := by
                refine ⟨m - 2, xm, ?_, hzm⟩
                obtain ⟨j, rfl⟩ : ∃ j, m = j + 2 := ⟨m - 2, by omega⟩
                simpa using hxm
              have hlen : rest.length ≤ n := by
                simp at hl
                omega
              obtain ⟨b, hb, hiff⟩ := ih rest hlen hrest
              refine ⟨b, by simp [repetition_scan, h1, h2, h3, hb], ?_⟩
              rw [hiff]
              constructor
              · rintro ⟨k, hk, ⟨y, hy, hyk⟩, hall⟩
                refine ⟨k + 1, by omega, ⟨y, ?_, hyk⟩, fun i hi => ?_⟩
                · have e : 2 * (k + 1) - 1 = (2 * k - 1) + 2 := by omega
                  rw [e]
                  simpa using hy
                · match i, hi with
                  | 0, _ => exact ⟨x, by simp, h1⟩
                  | 1, _ => exact ⟨x2, by simp, h2⟩
                  | j + 2, hi =>
                    obtain ⟨z, hz, hzz⟩ := hall j (by omega)
                    exact ⟨z, by simpa using hz, hzz⟩
              · rintro ⟨k, hk, ⟨y, hy, hyk⟩, hall⟩
                have hk2 : 2 ≤ k := by
                  by_contra hc
                  have e : k = 1 := by omega
                  rw [e] at hy
                  simp at hy
                  rw [← hy] at hyk
                  exact h3 hyk
                refine ⟨k - 1, by omega, ⟨y, ?_, hyk⟩, fun i hi => ?_⟩
                · have e : 2 * k - 1 = (2 * (k - 1) - 1) + 2 := by omega
                  rw [e] at hy
                  simpa using hy
                · obtain ⟨z, hz, hzz⟩ := hall (i + 2) (by omega)
                  exact ⟨z, by simpa using hz, hzz⟩
          · refine ⟨false, by simp [repetition_scan, h1, h2], ?_⟩
            constructor
            · intro h; exact absurd h (by decide)
            · rintro ⟨k, hk, -, hall⟩
              obtain ⟨y, hy, hz⟩ := hall 1 (by omega)
              simp at hy
              rw [← hy] at hz
              exact absurd hz h2
        · refine ⟨false, by simp [repetition_scan, h1], ?_⟩
          constructor
          · intro h; exact absurd h (by decide)
          · rintro ⟨k, hk, -, hall⟩
            obtain ⟨y, hy, hz⟩ := hall 0 (by omega)
            simp at hy
            rw [← hy] at hz
            exact absurd hz h1
  exact fun l => main _ l (le_refl _)

/-! ## The claims about game over and draws -/

/-- Claim C24: for a victims record whose zapped piece is a KING, `pov` in
`{1, -1}` and `0 <= ply < WIN`, `is_game_over` holds and
`get_game_over_score` is `pov * (WIN - ply)` when the zapped King is Black and
`-pov * (WIN - ply)` when it is White; for the side whose King survives the
score is positive and strictly smaller at any later ply, for the side whose
King is zapped it is negative and strictly larger at any later ply. -/
theorem game_over_score (WIN : Int) (v : victims_t) (pov ply : Int)
    (hk : ptype_of v.zapped = KING) (hpov : pov = 1 ∨ pov = -1)
    (h0 : 0 ≤ ply) (h1 : ply < WIN) :
    is_game_over v pov ply = true ∧
    (color_of v.zapped = BLACK → get_game_over_score WIN v pov ply = pov * (WIN - ply)) ∧
    (color_of v.zapped = WHITE → get_game_over_score WIN v pov ply = -pov * (WIN - ply)) ∧
    ((color_of v.zapped = BLACK ∧ pov = 1) ∨ (color_of v.zapped = WHITE ∧ pov = -1) →
      0 < get_game_over_score WIN v pov ply ∧
      ∀ ply2, ply < ply2 → ply2 < WIN →
        get_game_over_score WIN v pov ply2 < get_game_over_score WIN v pov ply) ∧
    ((color_of v.zapped = BLACK ∧ pov = -1) ∨ (color_of v.zapped = WHITE ∧ pov = 1) →
      get_game_over_score WIN v pov ply < 0 ∧
      ∀ ply2, ply < ply2 → ply2 < WIN →
        get_game_over_score WIN v pov ply < get_game_over_score WIN v pov ply2) := by
  have hbw : ¬ (BLACK = WHITE) := by decide
  have hB : ∀ q, 0 ≤ q → q < WIN → color_of v.zapped = BLACK →
      get_game_over_score WIN v pov q = pov * (WIN - q) := by
    intro q hq0 hq1 hc
    unfold get_game_over_score
    simp only [hc, hbw, if_false]
    rcases hpov with e | e
    · subst e
      rw [if_neg (by omega)]; omega
    · subst e
      rw [if_pos (by omega)]; omega
  have hW : ∀ q, 0 ≤ q → q < WIN → color_of v.zapped = WHITE →
      get_game_over_score WIN v pov q = -pov * (WIN - q) := by
    intro q hq0 hq1 hc
    unfold get_game_over_score
    simp only [hc, if_true]
    rcases hpov with e | e
    · subst e
      rw [if_pos (by omega)]; omega
    · subst e
      rw [if_neg (by omega)]; omega
  refine ⟨by unfold is_game_over; exact decide_eq_true hk, hB ply h0 h1, hW ply h0 h1, ?_, ?_⟩
  · rintro (⟨hc, e⟩ | ⟨hc, e⟩)
    · rw [hB ply h0 h1 hc]
      refine ⟨by rw [e]; omega, fun q h2 h3 => ?_⟩
      rw [hB q (by omega) h3 hc, e]; omega
    · rw [hW ply h0 h1 hc]
      refine ⟨by rw [e]; omega, fun q h2 h3 => ?_⟩
      rw [hW q (by omega) h3 hc, e]; omega
  · rintro (⟨hc, e⟩ | ⟨hc, e⟩)
    · rw [hB ply h0 h1 hc]
      refine ⟨by rw [e]; omega, fun q h2 h3 => ?_⟩
      rw [hB q (by omega) h3 hc, e]; omega
    · rw [hW ply h0 h1 hc]
      refine ⟨by rw [e]; omega, fun q h2 h3 => ?_⟩
      rw [hW q (by omega) h3 hc, e]; omega

theorem game_over_score_witness :
    is_game_over ⟨0, piece_byte KING BLACK NN⟩ 1 3 = true ∧
    (color_of (piece_byte KING BLACK NN) = BLACK →
      get_game_over_score 32000 ⟨0, piece_byte KING BLACK NN⟩ 1 3 = 1 * (32000 - 3)) :=
  ⟨(game_over_score 32000 ⟨0, piece_byte KING BLACK NN⟩ 1 3
      (by decide) (by decide) (by decide) (by decide)).1,
   (game_over_score 32000 ⟨0, piece_byte KING BLACK NN⟩ 1 3
      (by decide) (by decide) (by decide) (by decide)).2.1⟩

/-- Claim C25: with `DETECT_DRAWS` disabled `is_repeated` returns false; with
it enabled, on a position whose history chain holds an ancestor with non-zero
victims, `is_repeated` returns, and returns true exactly when for some
`k >= 1` the `2k`-th ancestor has the key of the position and the ancestors
`1 .. 2k` all have zero victims (the `i`-th ancestor is entry `i - 1` of
`ancestors p`). -/
theorem is_repeated_iff (DETECT_DRAWS : Int) (p : position_t) (ply : Int) :
    (DETECT_DRAWS = 0 → is_repeated DETECT_DRAWS p ply = some false) ∧
    (DETECT_DRAWS ≠ 0 →
      (∃ (n : Nat) (x : position_t),
        (ancestors p)[n]? = some x ∧ zero_victims x.victims = false) →
      ∃ b, is_repeated DETECT_DRAWS p ply = some b ∧
        (b = true ↔ ∃ k, 1 ≤ k ∧
          (∃ x, (ancestors p)[2 * k - 1]? = some x ∧ x.key = p.key) ∧
          ∀ i, i < 2 * k →
            ∃ y, (ancestors p)[i]? = some y ∧ zero_victims y.victims = true)) := by
  constructor
  · intro h
    unfold is_repeated
    rw [if_pos h]
  · intro h hex
    unfold is_repeated
    rw [if_neg h]
    rw [ancestors_eq] at hex ⊢
    cases hh : p.history with
    | none =>
      rw [hh] at hex
      obtain ⟨n, x, hx, -⟩ := hex
      simp at hx
    | some x =>
      rw [hh] at hex
      dsimp only at hex ⊢
      rw [is_repeated_loop_scan]
      exact repetition_scan_spec p.key _ hex

set_option maxRecDepth 100000 in
theorem is_repeated_iff_witness :
    ∃ b, is_repeated 1 repeated_position 0 = some b ∧
      (b = true ↔ ∃ k, 1 ≤ k ∧
        (∃ x, (ancestors repeated_position)[2 * k - 1]? = some x ∧
          x.key = repeated_position.key) ∧
        ∀ i, i < 2 * k →
          ∃ y, (ancestors repeated_position)[i]? = some y ∧
            zero_victims y.victims = true) :=
  (is_repeated_iff 1 repeated_position 0).2 (by decide)
    ⟨2, { late_position with victims := ⟨0, piece_byte PAWN BLACK NN⟩ }, rfl, by decide⟩

/-- Claim C26: when `is_repeated` returns true, `get_draw_score` returns
without reaching `assert(false)`, with `DRAW` for an even `ply` and `-DRAW` for
an odd one; so on the same history a `ply` of the other parity gives the
negated score. -/
theorem draw_score_of_repetition (DETECT_DRAWS DRAW : Int) (p : position_t) (ply : Int)
    (h : is_repeated DETECT_DRAWS p ply = some true) :
    get_draw_score DRAW p ply = some (some (if ply % 2 = 0 then DRAW else -DRAW)) ∧
    ∀ ply2 : Int, ply2 % 2 ≠ ply % 2 →
      is_repeated DETECT_DRAWS p ply2 = some true ∧
      get_draw_score DRAW p ply2 = some (some (- (if ply % 2 = 0 then DRAW else -DRAW))) := by
  have hloop : ∃ x, p.history = some x ∧ is_repeated_loop p.key x = some true := by
    unfold is_repeated at h
    split at h
    · exact absurd h (by decide)
    · cases hh : p.history with
      | none => rw [hh] at h; exact absurd h (by simp)
      | some x => rw [hh] at h; exact ⟨x, rfl, h⟩
  obtain ⟨x, hx, hl⟩ := hloop
  have hscore : ∀ q : Int, get_draw_score DRAW p q =
      some (some (if q % 2 ≠ 0 then -DRAW else DRAW)) := by
    intro q
    unfold get_draw_score
    rw [hx]
    dsimp only
    rw [get_draw_score_loop_repeated, hl]
    rfl
  refine ⟨?_, fun ply2 hp => ⟨?_, ?_⟩⟩
  · rw [hscore]
    by_cases e : ply % 2 = 0
    · rw [if_pos e, if_neg (not_not.mpr e)]
    · rw [if_neg e, if_pos e]
  · unfold is_repeated at h ⊢
    exact h
  · rw [hscore]
    by_cases e : ply % 2 = 0
    · rw [if_pos e, if_pos (by omega)]
    · rw [if_neg e, if_neg (by omega), neg_neg]

set_option maxRecDepth 100000 in
theorem draw_score_of_repetition_witness :
    is_repeated 1 repeated_position 0 = some true ∧
    get_draw_score 5 repeated_position 0 = some (some (if (0 : Int) % 2 = 0 then 5 else -5)) :=
  ⟨by decide, (draw_score_of_repetition 1 5 repeated_position 0 (by decide)).1⟩

/-! ## Leaf evaluation -/

/-! ## The claims about leaf evaluation and move evaluation -/

/-- Claim C27 as stated fails when the margin pruning is switched off: with
`USE_NMM = 0`, on a scout node of depth 1 with no table record and a stand-pat
score of `50 >= beta + 3 * PAWN_VALUE = -700`, `evaluate_as_leaf` does not
return a final result. -/
theorem leaf_not_pruned_without_nmm :
    example_node.depth = 1 ∧
    eval 0 0 (fun _ _ _ => (0, 0)) example_node.position + example_config.HMB ≥
      example_node.beta + 3 * example_config.PAWN_VALUE ∧
    (evaluate_as_leaf { example_config with USE_NMM := 0 } 0 0 (fun _ _ _ => (0, 0)) none
      example_node SEARCH_SCOUT).type = MOVE_IGNORE ∧
    (evaluate_as_leaf { example_config with USE_NMM := 0 } 0 0 (fun _ _ _ => (0, 0)) none
      example_node SEARCH_SCOUT).type ≠ MOVE_EVALUATED := by
  decide

/-- Claim C27, corrected: on a scout node with no usable table record, with
`stand-pat = eval(position) + HMB`: when `USE_NMM` is set, `evaluate_as_leaf`
returns the final result `beta` for depth 1 and `stand-pat >= beta + 3 *
PAWN_VALUE` and for depth 2 and `stand-pat >= beta + 5 * PAWN_VALUE`; for
`depth <= 0` it returns the stand-pat score as a final result when it is
`>= beta`, and otherwise asks for quiescence with the stand-pat score as the
initial score. -/
theorem evaluate_as_leaf_scout (cfg : search_config) (RANDOMIZE : Nat) (rnd : Nat)
    (scores : (Nat → Nat) → (Nat → Nat) → (Nat → Nat → Nat) → Int × Int)
    (rec : Option tt_lookup) (node : searchNode)
    (hrec : ∀ r, rec = some r → r.usable = false) :
    (cfg.USE_NMM ≠ 0 →
      (node.depth = 1 ∧
          eval RANDOMIZE rnd scores node.position + cfg.HMB ≥ node.beta + 3 * cfg.PAWN_VALUE) ∨
        (node.depth = 2 ∧
          eval RANDOMIZE rnd scores node.position + cfg.HMB ≥ node.beta + 5 * cfg.PAWN_VALUE) →
      (evaluate_as_leaf cfg RANDOMIZE rnd scores rec node SEARCH_SCOUT).type = MOVE_EVALUATED ∧
      (evaluate_as_leaf cfg RANDOMIZE rnd scores rec node SEARCH_SCOUT).score = node.beta) ∧
    (node.depth ≤ 0 →
      eval RANDOMIZE rnd scores node.position + cfg.HMB ≥ node.beta →
      (evaluate_as_leaf cfg RANDOMIZE rnd scores rec node SEARCH_SCOUT).type = MOVE_EVALUATED ∧
      (evaluate_as_leaf cfg RANDOMIZE rnd scores rec node SEARCH_SCOUT).score =
        eval RANDOMIZE rnd scores node.position + cfg.HMB) ∧
    (node.depth ≤ 0 →
      eval RANDOMIZE rnd scores node.position + cfg.HMB < node.beta →
      (evaluate_as_leaf cfg RANDOMIZE rnd scores rec node SEARCH_SCOUT).type = MOVE_IGNORE ∧
      (evaluate_as_leaf cfg RANDOMIZE rnd scores rec node SEARCH_SCOUT).should_enter_quiescence
        = true ∧
      (evaluate_as_leaf cfg RANDOMIZE rnd scores rec node SEARCH_SCOUT).score =
        eval RANDOMIZE rnd scores node.position + cfg.HMB) := by
  generalize hs : eval RANDOMIZE rnd scores node.position + cfg.HMB = sps
  have hnot : ∀ r : tt_lookup, rec = some r → ¬ (SEARCH_SCOUT = SEARCH_SCOUT ∧ r.usable = true) := by
    intro r hr h
    rw [hrec r hr] at h
    exact absurd h.2 (by decide)
  refine ⟨fun hn hc => ?_, fun hd hb => ?_, fun hd hb => ?_⟩
  · have hq : ¬ node.depth ≤ 0 := by rcases hc with h | h <;> omega
    cases hr : rec with
    | none =>
      unfold evaluate_as_leaf
      simp only [hs, hq, decide_False, Bool.false_eq_true, false_and, if_false]
      rcases hc with ⟨h1, h2⟩ | ⟨h1, h2⟩
      · simp [h1, h2, hn]
      · simp [h1, h2, hn]
    | some r =>
      unfold evaluate_as_leaf
      simp only [hs, hq, decide_False, Bool.false_eq_true, false_and, if_false,
        if_neg (hnot r hr)]
      rcases hc with ⟨h1, h2⟩ | ⟨h1, h2⟩
      · simp [h1, h2, hn, hrec r hr]
      · simp [h1, h2, hn, hrec r hr]
  · cases hr : rec with
    | none =>
      unfold evaluate_as_leaf
      simp [hs, hd, hb]
    | some r =>
      unfold evaluate_as_leaf
      simp [hs, hd, hb, hrec r hr]
  · have h1 : ¬ node.depth = 1 := by omega
    have h2 : ¬ node.depth = 2 := by omega
    have h3 : ¬ node.depth > 0 := by omega
    have h4 : ¬ node.beta ≤ sps := by omega
    cases hr : rec with
    | none =>
      unfold evaluate_as_leaf
      simp [hs, hd, h1, h2, h3, h4]
    | some r =>
      unfold evaluate_as_leaf
      simp [hs, hd, h1, h2, h3, h4, hrec r hr]

theorem evaluate_as_leaf_scout_witness :
    (evaluate_as_leaf example_config 0 0 (fun _ _ _ => (0, 0)) none example_node
      SEARCH_SCOUT).type = MOVE_EVALUATED ∧
    (evaluate_as_leaf example_config 0 0 (fun _ _ _ => (0, 0)) none example_node
      SEARCH_SCOUT).score = example_node.beta :=
  (evaluate_as_leaf_scout example_config 0 0 (fun _ _ _ => (0, 0)) none example_node
    (fun _ h => absurd h (by simp))).1 (by decide) (Or.inl ⟨by decide, by decide⟩)

/-! ## Move evaluation -/

/-! ## The number of pieces along the history chain -/

theorem make_move_history {zob : Nat → Nat → Nat} {zob_color : Nat} {USE_KO : Int}
    {old : position_t} {mv : Nat} {new : position_t} {v : victims_t}
    (h : make_move zob zob_color USE_KO old mv = some (new, v)) :
    new.history = some old := by
  obtain ⟨_, -, -, hh, -⟩ := make_move_board h
  rw [hh]
  exact (llmm_frame zob zob_color old mv).1

/-- The search part of `evaluateMove` on a scout node, for a move that is not
classified before it and with the abort flag not set. -/
theorem evaluateMove_scout_search (cfg : search_config) (zob : Nat → Nat → Nat)
    (zob_color : Nat) (scout_search searchPV : Nat → Int → Int)
    (node : searchNode) (mv killer_a killer_b : Nat)
    (result : moveEvaluationResult) (next : position_t) (victims : victims_t)
    (hm : make_move zob zob_color cfg.USE_KO node.position mv = some (next, victims))
    (h1 : is_KO victims = false) (h2 : ptype_of victims.zapped ≠ KING)
    (h3 : ¬ (zero_victims victims = true ∧ node.quiescence = true))
    (h4 : is_repeated cfg.DETECT_DRAWS next node.ply = some false)
    (h5 : ¬ (node.quiescence = true ∧ victims.stomped = 0 ∧ victims.zapped > 0 ∧
      color_of victims.zapped = node.fake_color_to_move)) :
    evaluateMove cfg zob zob_color scout_search searchPV false node mv killer_a killer_b
        SEARCH_SCOUT result =
      (let ext : Int :=
        if victim_exists victims = true ∧ ¬ (victims.stomped = 0 ∧ victims.zapped > 0 ∧
          color_of victims.zapped = node.fake_color_to_move) then 1 else 0
       let red := late_move_reduction cfg SEARCH_SCOUT node victims mv killer_a killer_b
       let res : moveEvaluationResult :=
         { result with next_node := { result.next_node with position := next },
                       type := MOVE_EVALUATED }
       if red > 0 then
         if -scout_search 0 (ext + node.depth - 1 - red) < node.beta then
           some ({ res with score := -scout_search 0 (ext + node.depth - 1 - red) },
             [(SEARCH_SCOUT, ext + node.depth - 1 - red)])
         else
           some ({ res with score := -scout_search 1 (ext + node.depth - 1 - red + red) },
             [(SEARCH_SCOUT, ext + node.depth - 1 - red),
              (SEARCH_SCOUT, ext + node.depth - 1 - red + red)])
       else
         some ({ res with score := -scout_search 0 (ext + node.depth - 1) },
           [(SEARCH_SCOUT, ext + node.depth - 1)])) := by
  unfold evaluateMove
  rw [hm]
  simp only [h1, Bool.false_eq_true, if_false, is_game_over, h2, decide_False, h3, h4]
  by_cases hq : node.quiescence = true
  · have hb : ¬ (victims.stomped = 0 ∧ victims.zapped > 0 ∧
        color_of victims.zapped = node.fake_color_to_move) := fun h => h5 ⟨hq, h⟩
    simp only [hq, hb, decide_False, Bool.false_eq_true, and_false, if_false, not_false_eq_true,
      and_true, List.nil_append, List.singleton_append, if_true]
  · simp only [hq, false_and, if_false, if_true, Bool.false_eq_true, decide_eq_true_eq,
      List.nil_append, List.singleton_append]

theorem zero_victims_fields {v : victims_t} (h : zero_victims v = true) :
    v.stomped = 0 ∧ v.zapped = 0 := by
  unfold zero_victims at h
  simpa using h

/-- Claim C29: in `evaluateMove` on a scout node the late-move reduction is `0`
unless `legal_move_count + 1 >= LMR_R1`, `depth > 2`, the move has no victims
and is neither killer, and then it is `2` if `legal_move_count + 1 >= LMR_R2`
and `1` otherwise; with a positive reduction, the abort flag not set and the
move reaching the search (no quiescence node, no repetition), the child is
searched at depth `depth - 1 - reduction`, the negated score is the score of
the move if it is below `beta`, and otherwise the child is searched again at
depth `depth - 1` and that negated score is the score of the move. -/
theorem late_move_reduction_research (cfg : search_config) (zob : Nat → Nat → Nat)
    (zob_color : Nat) (scout_search searchPV : Nat → Int → Int)
    (node : searchNode) (mv killer_a killer_b : Nat)
    (result : moveEvaluationResult) (next : position_t) (victims : victims_t)
    (hm : make_move zob zob_color cfg.USE_KO node.position mv = some (next, victims)) :
    (late_move_reduction cfg SEARCH_SCOUT node victims mv killer_a killer_b ≠ 0 ↔
      node.legal_move_count + 1 ≥ cfg.LMR_R1 ∧ node.depth > 2 ∧
        zero_victims victims = true ∧ mv ≠ killer_a ∧ mv ≠ killer_b) ∧
    (late_move_reduction cfg SEARCH_SCOUT node victims mv killer_a killer_b ≠ 0 →
      late_move_reduction cfg SEARCH_SCOUT node victims mv killer_a killer_b =
        if node.legal_move_count + 1 ≥ cfg.LMR_R2 then 2 else 1) ∧
    (late_move_reduction cfg SEARCH_SCOUT node victims mv killer_a killer_b > 0 →
      node.quiescence = false →
      is_repeated cfg.DETECT_DRAWS next node.ply = some false →
      evaluateMove cfg zob zob_color scout_search searchPV false node mv killer_a killer_b
          SEARCH_SCOUT result =
        if -scout_search 0 (node.depth - 1 -
            late_move_reduction cfg SEARCH_SCOUT node victims mv killer_a killer_b) < node.beta
        then
          some ({ result with
              next_node := { result.next_node with position := next },
              type := MOVE_EVALUATED,
              score := -scout_search 0 (node.depth - 1 -
                late_move_reduction cfg SEARCH_SCOUT node victims mv killer_a killer_b) },
            [(SEARCH_SCOUT, node.depth - 1 -
                late_move_reduction cfg SEARCH_SCOUT node victims mv killer_a killer_b)])
        else
          some ({ result with
              next_node := { result.next_node with position := next },
              type := MOVE_EVALUATED,
              score := -scout_search 1 (node.depth - 1) },
            [(SEARCH_SCOUT, node.depth - 1 -
                late_move_reduction cfg SEARCH_SCOUT node victims mv killer_a killer_b),
             (SEARCH_SCOUT, node.depth - 1)])) := by
  refine ⟨?_, ?_, ?_⟩
  · unfold late_move_reduction
    constructor
    · intro h
      by_contra hc
      apply h
      rw [if_neg (fun hh => hc hh.2)]
    · intro h
      rw [if_pos ⟨rfl, h⟩]
      split <;> decide
  · intro h
    unfold late_move_reduction at h ⊢
    split
    · rfl
    · rename_i hc
      rw [if_neg hc] at h
      exact absurd rfl h
  · intro hpos hq hrep
    have hz : zero_victims victims = true := by
      unfold late_move_reduction at hpos
      split at hpos
      · rename_i hc; exact hc.2.2.2.1
      · exact absurd hpos (by decide)
    obtain ⟨hs, hzp⟩ := zero_victims_fields hz
    have hve : victim_exists victims = false := by
      unfold victim_exists
      simp [hs, hzp]
    have h1 : is_KO victims = false := by
      unfold is_KO
      rw [hs, hzp]
      decide
    have h2 : ptype_of victims.zapped ≠ KING := by
      rw [hzp]; decide
    rw [evaluateMove_scout_search cfg zob zob_color scout_search searchPV node mv killer_a
      killer_b result next victims hm h1 h2 (by simp [hq]) hrep (by simp [hq])]
    simp only [hve, Bool.false_eq_true, false_and, if_false, zero_add, hpos, if_true]
    have e : node.depth - 1 -
        late_move_reduction cfg SEARCH_SCOUT node victims mv killer_a killer_b +
        late_move_reduction cfg SEARCH_SCOUT node victims mv killer_a killer_b =
        node.depth - 1 := by omega
    rw [e]

set_option maxRecDepth 100000 in
theorem late_move_reduction_research_witness :
    (evaluateMove { example_config with DETECT_DRAWS := 0 } example_zob example_zob_color
        (fun n _ => if n = 0 then 900 else 7) (fun _ _ => 0) false
        { example_node with depth := 4, legal_move_count := 4 }
        (move_of PAWN RIGHT (square_of 2 3) (square_of 2 3)) 0 0 SEARCH_SCOUT
        example_move_result).map (fun r => (r.1.type, r.1.score, r.2)) =
      some (MOVE_EVALUATED, -7, [(SEARCH_SCOUT, 2), (SEARCH_SCOUT, 3)]) :=
  congrArg (Option.map (fun r => (r.1.type, r.1.score, r.2)))
    ((late_move_reduction_research { example_config with DETECT_DRAWS := 0 } example_zob
      example_zob_color (fun n _ => if n = 0 then 900 else 7) (fun _ _ => 0)
      { example_node with depth := 4, legal_move_count := 4 }
      (move_of PAWN RIGHT (square_of 2 3) (square_of 2 3)) 0 0 example_move_result
      (example_result 1 quiet_position (move_of PAWN RIGHT (square_of 2 3) (square_of 2 3))).1
      (example_result 1 quiet_position (move_of PAWN RIGHT (square_of 2 3) (square_of 2 3))).2
      rfl).2.2 (by decide) (by decide) (by decide))

/-! ## Score processing -/

theorem search_process_score_neg (cfg : search_config) (killer : Int → Nat → Nat)
    (node : searchNode) (mv : Nat) (mv_index : Int) (result : moveEvaluationResult)
    (type : searchType_t) (h1 : ¬ result.score > node.best_score) :
    search_process_score cfg killer node mv mv_index result type = (node, killer, false) := by
  unfold search_process_score
  rw [if_neg h1]

theorem search_process_score_pos (cfg : search_config) (killer : Int → Nat → Nat)
    (node : searchNode) (mv : Nat) (mv_index : Int) (result : moveEvaluationResult)
    (type : searchType_t) (h1 : result.score > node.best_score) :
    search_process_score cfg killer node mv mv_index result type =
      ({ node with
          best_score := result.score, best_move_index := mv_index,
          subpv := fun i =>
            if i = 0 then mv
            else if i = MAX_PLY_IN_SEARCH - 1 then 0
            else if i < MAX_PLY_IN_SEARCH then result.next_node.subpv (i - 1)
            else node.subpv i,
          alpha := if type ≠ SEARCH_SCOUT ∧ result.score > node.alpha then result.score
            else node.alpha },
       if result.score ≥ node.beta ∧ mv ≠ killer node.ply 0 ∧ cfg.ENABLE_TABLES ≠ 0 then
          fun ply i =>
            if ply = node.ply ∧ i = 0 then mv
            else if ply = node.ply ∧ i = 1 then killer node.ply 0
            else killer ply i
        else killer,
       decide (result.score ≥ node.beta)) := by
  unfold search_process_score
  rw [if_pos h1]
  dsimp only
  by_cases h2 : type ≠ SEARCH_SCOUT ∧ result.score > node.alpha
  · rw [if_pos h2, if_pos h2]
    by_cases h3 : result.score ≥ node.beta
    · rw [if_pos h3]
      by_cases h4 : mv ≠ killer node.ply 0 ∧ cfg.ENABLE_TABLES ≠ 0
      · rw [if_pos h4, if_pos ⟨h3, h4⟩, decide_eq_true h3]
      · rw [if_neg h4, if_neg (fun h => h4 h.2), decide_eq_true h3]
    · rw [if_neg h3, if_neg (fun h => h3 h.1), decide_eq_false h3]
  · rw [if_neg h2, if_neg h2]
    by_cases h3 : result.score ≥ node.beta
    · rw [if_pos h3]
      by_cases h4 : mv ≠ killer node.ply 0 ∧ cfg.ENABLE_TABLES ≠ 0
      · rw [if_pos h4, if_pos ⟨h3, h4⟩, decide_eq_true h3]
      · rw [if_neg h4, if_neg (fun h => h4 h.2), decide_eq_true h3]
    · rw [if_neg h3, if_neg (fun h => h3 h.1), decide_eq_false h3]


/-- Claim C30 as stated fails on a node whose `best_score` is not below `beta`:
with `best_score = 100`, `beta = 50` and a child score of `60 >= beta`,
`search_process_score` returns false. -/
theorem no_cutoff_without_improvement :
    (60 : Int) ≥ ({ example_node with best_score := 100, beta := 50 } : searchNode).beta ∧
    (search_process_score example_config (fun _ _ => 0)
      { example_node with best_score := 100, beta := 50 } 7 0
      { example_move_result with score := 60 } SEARCH_SCOUT).2.2 = false := by
  decide

/-- Claim C30, corrected: `search_process_score` returns true exactly when the
score of the child is above `best_score` and at least `beta` (on a node whose
`best_score` is below `beta`: exactly when the score is at least `beta`); it
sets `best_score` to the larger of the old `best_score` and the score; when
the score is above the old `best_score` it sets `best_move_index` to the index
of the move and `subpv[0]` to the move, and otherwise it leaves the node as it
is; for a scout node it changes neither `alpha` nor `beta`. -/
theorem search_process_score_spec (cfg : search_config) (killer : Int → Nat → Nat)
    (node : searchNode) (mv : Nat) (mv_index : Int) (result : moveEvaluationResult)
    (type : searchType_t) :
    ((search_process_score cfg killer node mv mv_index result type).2.2 = true ↔
      result.score > node.best_score ∧ result.score ≥ node.beta) ∧
    (node.best_score < node.beta →
      ((search_process_score cfg killer node mv mv_index result type).2.2 = true ↔
        result.score ≥ node.beta)) ∧
    (search_process_score cfg killer node mv mv_index result type).1.best_score =
      max node.best_score result.score ∧
    (result.score > node.best_score →
      (search_process_score cfg killer node mv mv_index result type).1.best_move_index =
        mv_index ∧
      (search_process_score cfg killer node mv mv_index result type).1.subpv 0 = mv) ∧
    (¬ result.score > node.best_score →
      (search_process_score cfg killer node mv mv_index result type).1 = node) ∧
    (search_process_score cfg killer node mv mv_index result type).1.beta = node.beta ∧
    (type = SEARCH_SCOUT →
      (search_process_score cfg killer node mv mv_index result type).1.alpha = node.alpha) := by
  by_cases h1 : result.score > node.best_score
  · rw [search_process_score_pos cfg killer node mv mv_index result type h1]
    refine ⟨?_, fun hb => ?_, ?_, fun _ => ⟨rfl, rfl⟩, fun h => absurd h1 h, rfl, fun ht => ?_⟩
    · simp only [decide_eq_true_eq]
      exact ⟨fun h => ⟨h1, h⟩, fun h => h.2⟩
    · simp only [decide_eq_true_eq]
    · exact (max_eq_right (le_of_lt h1)).symm
    · dsimp only
      rw [if_neg (fun h => h.1 ht)]
  · rw [search_process_score_neg cfg killer node mv mv_index result type h1]
    refine ⟨?_, fun hb => ?_, ?_, fun h => absurd h h1, fun _ => rfl, rfl, fun _ => rfl⟩
    · constructor
      · intro h; exact absurd h Bool.false_ne_true
      · intro h; exact absurd h.1 h1
    · constructor
      · intro h; exact absurd h Bool.false_ne_true
      · intro h; exact absurd (lt_of_lt_of_le hb h) h1
    · exact (max_eq_left (not_lt.mp h1)).symm

theorem search_process_score_spec_witness :
    ((search_process_score example_config (fun _ _ => 0) example_node 7 3
        { example_move_result with score := -500 } SEARCH_SCOUT).2.2 = true ↔
      (-500 : Int) ≥ example_node.beta) :=
  (search_process_score_spec example_config (fun _ _ => 0) example_node 7 3
    { example_move_result with score := -500 } SEARCH_SCOUT).2.1 (by decide)

/-! ## The 3 x 3 box around a King -/

theorem fil_of_eq (sq : Nat) : fil_of sq = (sq / 16 % 16 + 256 - 3) % 256 := by
  unfold fil_of FIL_SHIFT FIL_MASK FIL_ORIGIN ARR_WIDTH BOARD_WIDTH
  rw [Nat.shiftRight_eq_div_pow]
  have : sq / 2 ^ 4 &&& 15 = sq / 2 ^ 4 % 16 := Nat.and_pow_two_sub_one_eq_mod _ 4
  rw [this]
  norm_num

theorem rnk_of_eq (sq : Nat) : rnk_of sq = (sq % 16 + 256 - 3) % 256 := by
  unfold rnk_of RNK_SHIFT RNK_MASK RNK_ORIGIN ARR_WIDTH BOARD_WIDTH
  rw [Nat.shiftRight_zero]
  have : sq &&& 15 = sq % 16 := Nat.and_pow_two_sub_one_eq_mod _ 4
  rw [this]

theorem as_int8_of_range {x : Int} (h1 : -128 ≤ x) (h2 : x ≤ 127) : as_int8 x = x := by
  unfold as_int8; omega

theorem as_int8_sub (a b : Int) : as_int8 (as_int8 a - b) = as_int8 (a - b) := by
  unfold as_int8; omega

theorem as_int8_add (a b : Int) : as_int8 (as_int8 a + b) = as_int8 (a + b) := by
  unfold as_int8; omega

theorem king_box_eq {k : Nat} (hk : on_board k) :
    king_box k = [k, k - 17, k - 16, k - 15, k - 1, k + 1, k + 15, k + 16, k + 17] := by
  have hr := on_board_range hk
  have e : ∀ d : Int, -17 ≤ d → d ≤ 17 → as_square ((k : Int) + d) = ((k : Int) + d).toNat := by
    intro d h1 h2
    unfold as_square
    congr 1
    omega
  have l : List.range 8 = [0, 1, 2, 3, 4, 5, 6, 7] := by decide
  unfold king_box
  rw [l]
  simp only [List.map_cons, List.map_nil]
  have d0 : dir_of 0 = -17 := by decide
  have d1 : dir_of 1 = -16 := by decide
  have d2 : dir_of 2 = -15 := by decide
  have d3 : dir_of 3 = -1 := by decide
  have d4 : dir_of 4 = 1 := by decide
  have d5 : dir_of 5 = 15 := by decide
  have d6 : dir_of 6 = 16 := by decide
  have d7 : dir_of 7 = 17 := by decide
  rw [d0, d1, d2, d3, d4, d5, d6, d7, e _ (by decide) (by decide), e _ (by decide) (by decide),
    e _ (by decide) (by decide), e _ (by decide) (by decide), e _ (by decide) (by decide),
    e _ (by decide) (by decide), e _ (by decide) (by decide), e _ (by decide) (by decide)]
  have t : ∀ d : Nat, ((k : Int) + (d : Int)).toNat = k + d := by intro d; omega
  have t2 : ∀ d : Nat, d ≤ 17 → ((k : Int) + -(d : Int)).toNat = k - d := by intro d hd; omega
  exact congrArg₂ _ rfl (congrArg₂ _ (t2 17 (by decide)) (congrArg₂ _ (t2 16 (by decide))
    (congrArg₂ _ (t2 15 (by decide)) (congrArg₂ _ (t2 1 (by decide)) (congrArg₂ _ (t 1)
    (congrArg₂ _ (t 15) (congrArg₂ _ (t 16) (congrArg₂ _ (t 17) rfl))))))))

theorem king_box_nodup {k : Nat} (hk : on_board k) : (king_box k).Nodup := by
  have hr := on_board_range hk
  have e : king_box k =
      ([17, 0, 1, 2, 16, 18, 32, 33, 34] : List Nat).map (fun d => k - 17 + d) := by
    rw [king_box_eq hk]
    simp only [List.map_cons, List.map_nil]
    exact congrArg₂ _ (by omega) (congrArg₂ _ (by omega) (congrArg₂ _ (by omega)
      (congrArg₂ _ (by omega) (congrArg₂ _ (by omega) (congrArg₂ _ (by omega)
      (congrArg₂ _ (by omega) (congrArg₂ _ (by omega) (congrArg₂ _ (by omega) rfl))))))))
  rw [e]
  exact List.Nodup.map (fun a b h => Nat.add_left_cancel h) (by decide)

/-- On the playing area the bounding-box test of `mark_laser_path_heuristics`
picks the King's square and its eight neighbours. -/
theorem in_bounding_box_iff {k s : Nat} (hk : on_board k) (hs : on_board s) :
    in_bounding_box (as_int8 ((fil_of k : Int) + 1)) (as_int8 ((fil_of k : Int) - 1))
        (as_int8 ((rnk_of k : Int) + 1)) (as_int8 ((rnk_of k : Int) - 1)) s ↔
      s ∈ king_box k := by
  rw [king_box_eq hk]
  simp only [List.mem_cons, List.mem_singleton, List.not_mem_nil, or_false]
  unfold in_bounding_box as_int8
  rw [fil_of_eq, rnk_of_eq, fil_of_eq, rnk_of_eq]
  unfold on_board FIL_ORIGIN RNK_ORIGIN ARR_WIDTH BOARD_WIDTH at hk hs
  omega

/-! ## The heuristics loop as a fold over the laser path -/

/-- The loop of `mark_laser_path_heuristics` folds `heuristics_step` over the
squares of the laser path. -/
theorem heuristics_loop_eq (board : Nat → Nat) (c : Nat) (R L T B : Int) :
    ∀ fuel h sq bdir, heuristics_loop board c R L T B fuel h sq bdir =
      (laser_path_loop board fuel sq bdir).map
        (fun l => l.foldl (heuristics_step board c R L T B) h) := by
  intro fuel
  induction fuel with
  | zero => intro h sq bdir; rfl
  | succ n ih =>
    intro h sq bdir
    unfold heuristics_loop laser_path_loop
    simp only
    by_cases h1 : ptype_of (board (as_square (↑sq + beam_of bdir))) = EMPTY
    · have hp : ¬ ptype_of (board (as_square (↑sq + beam_of bdir))) = PAWN := by
        rw [h1]; decide
      rw [if_pos h1, if_pos h1, ih, Option.map_map]
      congr 1
      funext l
      simp only [Function.comp, List.foldl_cons, heuristics_step, hp, false_and, if_false]
    · rw [if_neg h1, if_neg h1]
      by_cases h2 : ptype_of (board (as_square (↑sq + beam_of bdir))) = PAWN
      · rw [if_pos h2, if_pos h2]
        by_cases h3 : reflect_of bdir (ori_of (board (as_square (↑sq + beam_of bdir)))) < 0
        · rw [if_pos h3, if_pos h3]
          simp only [Option.map_some', List.foldl_cons, List.foldl_nil, heuristics_step, h2,
            true_and]
        · rw [if_neg h3, if_neg h3, ih, Option.map_map]
          congr 1
          funext l
          simp only [Function.comp, List.foldl_cons, heuristics_step, h2, true_and]
      · rw [if_neg h2, if_neg h2]
        simp only [Option.map_some', List.foldl_cons, List.foldl_nil, heuristics_step, h2,
          false_and, if_false]

theorem as_int8_range (x : Int) : -128 ≤ as_int8 x ∧ as_int8 x ≤ 127 := by
  unfold as_int8; omega

theorem heuristics_step_mobility (board : Nat → Nat) (c : Nat) (R L T B : Int)
    (h : heuristics_t) (sq : Nat) :
    (heuristics_step board c R L T B h sq).mobility =
      if in_bounding_box R L T B sq ∧ ptype_of (board sq) ≠ INVALID then
        as_int8 (h.mobility - 1) else h.mobility := by
  unfold heuristics_step
  dsimp only
  split <;> split <;> rfl

theorem heuristics_step_pawnpin (board : Nat → Nat) (c : Nat) (R L T B : Int)
    (h : heuristics_t) (sq : Nat) :
    (heuristics_step board c R L T B h sq).pawnpin =
      if ptype_of (board sq) = PAWN ∧ color_of (board sq) ≠ c then
        as_int8 (h.pawnpin + 1) else h.pawnpin := by
  unfold heuristics_step
  dsimp only
  split <;> split <;> rfl

/-- The field `mobility` after a fold of `heuristics_step`: an 8-bit
difference. -/
theorem heuristics_fold_mobility (board : Nat → Nat) (c : Nat) (R L T B : Int) :
    ∀ (l : List Nat) (h : heuristics_t), -128 ≤ h.mobility → h.mobility ≤ 127 →
      (l.foldl (heuristics_step board c R L T B) h).mobility =
        as_int8 (h.mobility - ((l.filter (fun sq =>
          decide (in_bounding_box R L T B sq ∧ ptype_of (board sq) ≠ INVALID))).length : Nat)) := by
  intro l
  induction l with
  | nil =>
    intro h h1 h2
    simp only [List.foldl_nil, List.filter_nil, List.length_nil, Nat.cast_zero, sub_zero]
    exact (as_int8_of_range h1 h2).symm
  | cons sq rest ih =>
    intro h h1 h2
    rw [List.foldl_cons]
    have hm := heuristics_step_mobility board c R L T B h sq
    by_cases hc : in_bounding_box R L T B sq ∧ ptype_of (board sq) ≠ INVALID
    · rw [if_pos hc] at hm
      have hr := as_int8_range (h.mobility - 1)
      rw [ih _ (by rw [hm]; exact hr.1) (by rw [hm]; exact hr.2), hm, as_int8_sub,
        List.filter_cons_of_pos (by simpa using hc), List.length_cons]
      congr 1
      push_cast
      omega
    · rw [if_neg hc] at hm
      rw [ih _ (by rw [hm]; exact h1) (by rw [hm]; exact h2), hm,
        List.filter_cons_of_neg (by simpa using hc)]

/-- The field `pawnpin` after a fold of `heuristics_step`: an 8-bit sum. -/
theorem heuristics_fold_pawnpin (board : Nat → Nat) (c : Nat) (R L T B : Int) :
    ∀ (l : List Nat) (h : heuristics_t), -128 ≤ h.pawnpin → h.pawnpin ≤ 127 →
      (l.foldl (heuristics_step board c R L T B) h).pawnpin =
        as_int8 (h.pawnpin + ((l.filter (fun sq =>
          decide (ptype_of (board sq) = PAWN ∧ color_of (board sq) ≠ c))).length : Nat)) := by
  intro l
  induction l with
  | nil =>
    intro h h1 h2
    simp only [List.foldl_nil, List.filter_nil, List.length_nil, Nat.cast_zero, add_zero]
    exact (as_int8_of_range h1 h2).symm
  | cons sq rest ih =>
    intro h h1 h2
    rw [List.foldl_cons]
    have hm := heuristics_step_pawnpin board c R L T B h sq
    by_cases hc : ptype_of (board sq) = PAWN ∧ color_of (board sq) ≠ c
    · rw [if_pos hc] at hm
      have hr := as_int8_range (h.pawnpin + 1)
      rw [ih _ (by rw [hm]; exact hr.1) (by rw [hm]; exact hr.2), hm, as_int8_add,
        List.filter_cons_of_pos (by simpa using hc), List.length_cons]
      congr 1
      push_cast
      omega
    · rw [if_neg hc] at hm
      rw [ih _ (by rw [hm]; exact h1) (by rw [hm]; exact h2), hm,
        List.filter_cons_of_neg (by simpa using hc)]

/-- The record with which `mark_laser_path_heuristics` enters its loop: the
field `mobility` after the test of the shooter's square and the loop over the
eight neighbours of the King. -/
theorem heuristics_neighbours_fold (board : Nat → Nat) (king_sq : Nat) :
    ∀ (l : List Nat) (h : heuristics_t), -128 ≤ h.mobility → h.mobility ≤ 127 →
      (l.foldl (fun heuristics d =>
        if ptype_of (board (as_square (king_sq + dir_of d))) = INVALID then
          { heuristics with mobility := as_int8 (heuristics.mobility - 1) }
        else heuristics) h).pawnpin = h.pawnpin ∧
      (l.foldl (fun (heuristics : heuristics_t) d =>
        if ptype_of (board (as_square (king_sq + dir_of d))) = INVALID then
          { heuristics with mobility := as_int8 (heuristics.mobility - 1) }
        else heuristics) h).mobility =
        as_int8 (h.mobility - ((l.filter (fun d =>
          decide (ptype_of (board (as_square (king_sq + dir_of d))) = INVALID))).length : Nat)) := by
  intro l
  induction l with
  | nil =>
    intro h h1 h2
    simp only [List.foldl_nil, List.filter_nil, List.length_nil, Nat.cast_zero, sub_zero]
    exact ⟨trivial, (as_int8_of_range h1 h2).symm⟩
  | cons d rest ih =>
    intro h h1 h2
    rw [List.foldl_cons]
    by_cases hc : ptype_of (board (as_square (king_sq + dir_of d))) = INVALID
    · rw [if_pos hc]
      have hr := as_int8_range (h.mobility - 1)
      obtain ⟨i1, i2⟩ := ih { h with mobility := as_int8 (h.mobility - 1) } hr.1 hr.2
      refine ⟨i1, ?_⟩
      rw [i2, as_int8_sub, List.filter_cons_of_pos (by simpa using hc), List.length_cons]
      congr 1
      push_cast
      omega
    · rw [if_neg hc]
      obtain ⟨i1, i2⟩ := ih h h1 h2
      refine ⟨i1, ?_⟩
      rw [i2, List.filter_cons_of_neg (by simpa using hc)]

theorem laser_path_loop_lt (board : Nat → Nat) :
    ∀ fuel sq bdir l, laser_path_loop board fuel sq bdir = some l → ∀ x ∈ l, x < 256 := by
  intro fuel
  induction fuel with
  | zero => intro sq bdir l h; exact absurd h (by unfold laser_path_loop; exact nofun)
  | succ n ih =>
    intro sq bdir l h
    unfold laser_path_loop at h
    dsimp only at h
    have key : ∀ bd, (laser_path_loop board n (as_square (↑sq + beam_of bdir)) bd).map
        (fun l => as_square (↑sq + beam_of bdir) :: l) = some l → ∀ x ∈ l, x < 256 := by
      intro bd hh x hx
      rw [Option.map_eq_some'] at hh
      obtain ⟨l2, h1, h2⟩ := hh
      rw [← h2] at hx
      rcases List.mem_cons.mp hx with e | e
      · rw [e]; exact as_square_lt _
      · exact ih _ _ l2 h1 x e
    have one : some [as_square (↑sq + beam_of bdir)] = some l → ∀ x ∈ l, x < 256 := by
      intro hh x hx
      rw [← Option.some.inj hh] at hx
      rw [List.mem_singleton.mp hx]
      exact as_square_lt _
    split at h
    · exact key _ h
    · split at h
      · split at h
        · exact one h
        · exact key _ h
      · exact one h

/-- The laser path of a King of a valid position exists. -/
theorem laser_path_exists {p : position_t} (hv : valid_position p) {c : Nat} (hc : c < 2) :
    ∃ steps, laser_path_loop p.board LASER_FUEL (p.kloc c) (ori_of (p.board (p.kloc c))) =
        some steps ∧
      laser_path p c = some (p.kloc c :: steps) := by
  obtain ⟨hk1, hk2, -⟩ := valid_kloc_on_board hv hc
  obtain ⟨r, hr⟩ := mark_laser_path_stops p (fun _ => 0) c 1 (on_board_lt hk1) hk2
  rw [mark_laser_path_eq] at hr
  unfold laser_path at hr ⊢
  cases hl : laser_path_loop p.board LASER_FUEL (p.kloc c) (ori_of (p.board (p.kloc c))) with
  | none => rw [hl] at hr; exact absurd hr (by simp)
  | some steps => exact ⟨steps, rfl, rfl⟩

/-- The record returned by `mark_laser_path_heuristics`, by the squares of the
laser path: both counters as 8-bit sums over the steps. -/
theorem mark_laser_path_heuristics_eq (p : position_t) (c : Nat) (h0 : heuristics_t)
    (steps : List Nat) (hm1 : -128 ≤ h0.mobility) (hm2 : h0.mobility ≤ 127)
    (hp1 : -128 ≤ h0.pawnpin) (hp2 : h0.pawnpin ≤ 127)
    (hpath : laser_path_loop p.board LASER_FUEL (p.kloc c) (ori_of (p.board (p.kloc c))) =
      some steps) :
    ∃ h, mark_laser_path_heuristics p c h0 = some h ∧
      h.pawnpin = as_int8 (h0.pawnpin + ((steps.filter (fun sq =>
          decide (ptype_of (p.board sq) = PAWN ∧ color_of (p.board sq) ≠ c))).length : Nat)) ∧
      h.mobility = as_int8 (h0.mobility
        - (if in_bounding_box (as_int8 ((fil_of (p.kloc (opp_color c)) : Int) + 1))
              (as_int8 ((fil_of (p.kloc (opp_color c)) : Int) - 1))
              (as_int8 ((rnk_of (p.kloc (opp_color c)) : Int) + 1))
              (as_int8 ((rnk_of (p.kloc (opp_color c)) : Int) - 1)) (p.kloc c) then 1 else 0)
        - (((List.range 8).filter (fun d => decide (ptype_of
            (p.board (as_square (p.kloc (opp_color c) + dir_of d))) = INVALID))).length : Nat)
        - ((steps.filter (fun sq => decide (in_bounding_box
              (as_int8 ((fil_of (p.kloc (opp_color c)) : Int) + 1))
              (as_int8 ((fil_of (p.kloc (opp_color c)) : Int) - 1))
              (as_int8 ((rnk_of (p.kloc (opp_color c)) : Int) + 1))
              (as_int8 ((rnk_of (p.kloc (opp_color c)) : Int) - 1)) sq ∧
            ptype_of (p.board sq) ≠ INVALID))).length : Nat)) := by
  unfold mark_laser_path_heuristics
  simp only
  rw [heuristics_loop_eq, hpath]
  refine ⟨_, rfl, ?_, ?_⟩
  · by_cases hb : in_bounding_box (as_int8 ((fil_of (p.kloc (opp_color c)) : Int) + 1))
        (as_int8 ((fil_of (p.kloc (opp_color c)) : Int) - 1))
        (as_int8 ((rnk_of (p.kloc (opp_color c)) : Int) + 1))
        (as_int8 ((rnk_of (p.kloc (opp_color c)) : Int) - 1)) (p.kloc c)
    · rw [if_pos hb]
      have hr := as_int8_range (h0.mobility - 1)
      obtain ⟨n1, -⟩ := heuristics_neighbours_fold p.board (p.kloc (opp_color c))
        (List.range 8) { h0 with mobility := as_int8 (h0.mobility - 1) } hr.1 hr.2
      rw [heuristics_fold_pawnpin _ _ _ _ _ _ _ _ (by rw [n1]; exact hp1)
        (by rw [n1]; exact hp2), n1]
    · rw [if_neg hb]
      obtain ⟨n1, -⟩ := heuristics_neighbours_fold p.board (p.kloc (opp_color c))
        (List.range 8) h0 hm1 hm2
      rw [heuristics_fold_pawnpin _ _ _ _ _ _ _ _ (by rw [n1]; exact hp1)
        (by rw [n1]; exact hp2), n1]
  · by_cases hb : in_bounding_box (as_int8 ((fil_of (p.kloc (opp_color c)) : Int) + 1))
        (as_int8 ((fil_of (p.kloc (opp_color c)) : Int) - 1))
        (as_int8 ((rnk_of (p.kloc (opp_color c)) : Int) + 1))
        (as_int8 ((rnk_of (p.kloc (opp_color c)) : Int) - 1)) (p.kloc c)
    · rw [if_pos hb, if_pos hb]
      have hr := as_int8_range (h0.mobility - 1)
      obtain ⟨-, n2⟩ := heuristics_neighbours_fold p.board (p.kloc (opp_color c))
        (List.range 8) { h0 with mobility := as_int8 (h0.mobility - 1) } hr.1 hr.2
      have hr2 := as_int8_range (as_int8 (h0.mobility - 1) - ((List.range 8).filter (fun d =>
        decide (ptype_of (p.board (as_square (p.kloc (opp_color c) + dir_of d))) =
          INVALID))).length)
      rw [heuristics_fold_mobility _ _ _ _ _ _ _ _ (by rw [n2]; exact hr2.1)
        (by rw [n2]; exact hr2.2), n2, as_int8_sub]
      dsimp only
      unfold as_int8
      omega
    · rw [if_neg hb, if_neg hb]
      obtain ⟨-, n2⟩ := heuristics_neighbours_fold p.board (p.kloc (opp_color c))
        (List.range 8) h0 hm1 hm2
      have hr2 := as_int8_range (h0.mobility - ((List.range 8).filter (fun d =>
        decide (ptype_of (p.board (as_square (p.kloc (opp_color c) + dir_of d))) =
          INVALID))).length)
      rw [heuristics_fold_mobility _ _ _ _ _ _ _ _ (by rw [n2]; exact hr2.1)
        (by rw [n2]; exact hr2.2), n2, as_int8_sub, sub_zero]

/-! ## The claims about the laser heuristics -/

set_option maxRecDepth 100000 in
/-- Claim C22 as stated fails when the beam reaches the opponent King: in
`pinned_king_position` the Black beam runs down the e-file onto the White King
on e0; three neighbours of e0 are INVALID, one neighbour (e1) lies on the
beam and the Black King is far away, but `mobility` ends at `4`, not at
`9 - 3 - 1 - 0 = 5`: the square of the King itself is counted too. -/
theorem mobility_counts_king_square :
    mark_laser_path_heuristics pinned_king_position BLACK ⟨0, 9⟩ = some ⟨0, 4⟩ ∧
    laser_path pinned_king_position BLACK =
      some [square_of 4 7, square_of 4 6, square_of 4 5, square_of 4 4, square_of 4 3,
        square_of 4 2, square_of 4 1, square_of 4 0] ∧
    pinned_king_position.kloc (opp_color BLACK) = square_of 4 0 ∧
    ((List.range 8).filter (fun d => decide (ptype_of (pinned_king_position.board
      (as_square (square_of 4 0 + dir_of d))) = INVALID))).length = 3 ∧
    ((List.range 8).filter (fun d => decide (as_square (square_of 4 0 + dir_of d) ∈
      [square_of 4 7, square_of 4 6, square_of 4 5, square_of 4 4, square_of 4 3,
        square_of 4 2, square_of 4 1, square_of 4 0]))).length = 1 ∧
    pinned_king_position.kloc BLACK ∉ king_box (square_of 4 0) ∧
    (4 : Int) ≠ 9 - 3 - 1 - 0 := by
  decide

/-- Claim C22, corrected: on a valid position, for the shooter colour `c`,
`mark_laser_path_heuristics` started with `mobility = 9` returns, and when the
beam steps onto no square of the 3 x 3 box around the opponent King twice it
ends with `mobility = 9 - (number of the eight neighbours of the opponent King
that are INVALID) - (number of squares of the box, the King's own square
included, that are not INVALID and lie on the beam) - (1 if the shooter King's
square is in the box, else 0)`. -/
theorem mobility_of_heuristics (p : position_t) (c : Nat) (pawnpin : Int)
    (hv : valid_position p) (hc : c < 2) (hp1 : -128 ≤ pawnpin) (hp2 : pawnpin ≤ 127) :
    (∃ steps, laser_path p c = some (p.kloc c :: steps)) ∧
    ∀ steps, laser_path p c = some (p.kloc c :: steps) →
      (steps.filter (fun s => decide (s ∈ king_box (p.kloc (opp_color c)) ∧
        ptype_of (p.board s) ≠ INVALID))).Nodup →
      ∃ h, mark_laser_path_heuristics p c ⟨pawnpin, 9⟩ = some h ∧
        h.mobility = 9
          - (((List.range 8).filter (fun d => decide (ptype_of
              (p.board (as_square (p.kloc (opp_color c) + dir_of d))) = INVALID))).length : Nat)
          - (((king_box (p.kloc (opp_color c))).filter (fun s =>
              decide (ptype_of (p.board s) ≠ INVALID ∧ s ∈ steps))).length : Nat)
          - (if p.kloc c ∈ king_box (p.kloc (opp_color c)) then 1 else 0) := by
  obtain ⟨steps0, hl0, hp0⟩ := laser_path_exists hv hc
  refine ⟨⟨steps0, hp0⟩, fun steps hpath hnd => ?_⟩
  have hsteps : steps = steps0 := by
    rw [hp0] at hpath
    exact ((List.cons.inj (Option.some.inj hpath)).2).symm
  rw [← hsteps] at hl0
  have hk := (valid_kloc_on_board hv (opp_color_lt c)).1
  have hs := (valid_kloc_on_board hv hc).1
  obtain ⟨h, hh, -, hm⟩ := mark_laser_path_heuristics_eq p c ⟨pawnpin, 9⟩ steps
    (by show (-128 : Int) ≤ 9; decide) (by show (9 : Int) ≤ 127; decide) hp1 hp2 hl0
  refine ⟨h, hh, ?_⟩
  rw [hm]
  dsimp only
  have hlt := laser_path_loop_lt p.board _ _ _ steps hl0
  have hfil : steps.filter (fun sq => decide (in_bounding_box
        (as_int8 ((fil_of (p.kloc (opp_color c)) : Int) + 1))
        (as_int8 ((fil_of (p.kloc (opp_color c)) : Int) - 1))
        (as_int8 ((rnk_of (p.kloc (opp_color c)) : Int) + 1))
        (as_int8 ((rnk_of (p.kloc (opp_color c)) : Int) - 1)) sq ∧
        ptype_of (p.board sq) ≠ INVALID)) =
      steps.filter (fun s => decide (s ∈ king_box (p.kloc (opp_color c)) ∧
        ptype_of (p.board s) ≠ INVALID)) := by
    apply List.filter_congr
    intro x hx
    rw [decide_eq_decide]
    constructor
    · rintro ⟨h1, h2⟩
      exact ⟨(in_bounding_box_iff hk (on_board_of_not_invalid hv.1 (hlt x hx) h2)).mp h1, h2⟩
    · rintro ⟨h1, h2⟩
      exact ⟨(in_bounding_box_iff hk (on_board_of_not_invalid hv.1 (hlt x hx) h2)).mpr h1, h2⟩
  have hperm : (steps.filter (fun s => decide (s ∈ king_box (p.kloc (opp_color c)) ∧
        ptype_of (p.board s) ≠ INVALID))).length =
      ((king_box (p.kloc (opp_color c))).filter (fun s =>
        decide (ptype_of (p.board s) ≠ INVALID ∧ s ∈ steps))).length := by
    apply List.Perm.length_eq
    rw [List.perm_ext_iff_of_nodup hnd ((king_box_nodup hk).filter _)]
    intro a
    simp only [List.mem_filter, decide_eq_true_eq]
    tauto
  have hown : (if in_bounding_box (as_int8 ((fil_of (p.kloc (opp_color c)) : Int) + 1))
        (as_int8 ((fil_of (p.kloc (opp_color c)) : Int) - 1))
        (as_int8 ((rnk_of (p.kloc (opp_color c)) : Int) + 1))
        (as_int8 ((rnk_of (p.kloc (opp_color c)) : Int) - 1)) (p.kloc c) then (1 : Int) else 0) =
      (if p.kloc c ∈ king_box (p.kloc (opp_color c)) then 1 else 0) := by
    by_cases hb : p.kloc c ∈ king_box (p.kloc (opp_color c))
    · rw [if_pos hb, if_pos ((in_bounding_box_iff hk hs).mpr hb)]
    · rw [if_neg hb, if_neg (fun h => hb ((in_bounding_box_iff hk hs).mp h))]
  rw [hfil, hperm, hown]
  have b1 : ((List.range 8).filter (fun d => decide (ptype_of
      (p.board (as_square (p.kloc (opp_color c) + dir_of d))) = INVALID))).length ≤ 8 :=
    (List.length_filter_le _ _).trans (by rw [List.length_range])
  have b2 : ((king_box (p.kloc (opp_color c))).filter (fun s =>
      decide (ptype_of (p.board s) ≠ INVALID ∧ s ∈ steps))).length ≤ 9 :=
    (List.length_filter_le _ _).trans (by rw [king_box_eq hk]; rfl)
  have b3 : (0 : Int) ≤ (if p.kloc c ∈ king_box (p.kloc (opp_color c)) then (1 : Int) else 0) ∧
      (if p.kloc c ∈ king_box (p.kloc (opp_color c)) then (1 : Int) else 0) ≤ 1 := by
    split <;> decide
  rw [as_int8_of_range (by omega) (by omega)]
  omega

set_option maxRecDepth 100000 in
theorem mobility_of_heuristics_witness :
    ∃ h, mark_laser_path_heuristics pinned_king_position BLACK ⟨0, 9⟩ = some h ∧
      h.mobility = 9
        - (((List.range 8).filter (fun d => decide (ptype_of (pinned_king_position.board
            (as_square (pinned_king_position.kloc (opp_color BLACK) + dir_of d))) =
              INVALID))).length : Nat)
        - (((king_box (pinned_king_position.kloc (opp_color BLACK))).filter (fun s =>
            decide (ptype_of (pinned_king_position.board s) ≠ INVALID ∧
              s ∈ (List.range 7).map (fun i => square_of 4 (6 - i))))).length : Nat)
        - (if pinned_king_position.kloc BLACK ∈
              king_box (pinned_king_position.kloc (opp_color BLACK)) then 1 else 0) :=
  (mobility_of_heuristics pinned_king_position BLACK 0 (by decide) (by decide) (by decide)
    (by decide)).2 ((List.range 7).map (fun i => square_of 4 (6 - i))) (by decide) (by decide)

set_option maxRecDepth 100000 in
/-- Claim C21 on `loop_position`: White has one Pawn, on c5; the Black beam
enters it, runs round the rectangle c5, c7, e7, e5 and enters it again from
the other side, so `pawnpin` is `2` and the factor of `PAWNPIN` in `eval` is
`1 - 2 = -1`, while the number of White Pawns off the marked path, which is
the number of White Pawns for which `generate_all` writes moves, is `0`. -/
theorem pawnpin_counts_pawn_twice :
    valid_position loop_position ∧
    laser_path loop_position BLACK =
      some [square_of 0 5, square_of 1 5, square_of 2 5, square_of 2 6, square_of 2 7,
        square_of 3 7, square_of 4 7, square_of 4 6, square_of 4 5, square_of 3 5,
        square_of 2 5] ∧
    number_pawns loop_position WHITE = 1 ∧
    mark_laser_path_heuristics loop_position BLACK ⟨0, 9⟩ = some ⟨2, 4⟩ ∧
    eval_unpinned loop_position WHITE = some (-1) ∧
    ((List.range NUMBER_PAWNS).filter (fun i => decide (loop_position.plocs WHITE i ≠ 0 ∧
      loop_position.plocs WHITE i ∉
        [square_of 0 5, square_of 1 5, square_of 2 5, square_of 2 6, square_of 2 7,
          square_of 3 7, square_of 4 7, square_of 4 6, square_of 4 5, square_of 3 5,
          square_of 2 5]))).length = 0 ∧
    color_to_move_of loop_position = WHITE ∧
    (generated_moves loop_position zero_list false).filter
      (fun m => decide (ptype_mv_of m = PAWN)) = [] := by
  decide

/-! ## King facing -/

/-- The quotient computed by `kface`, as a function of the facing component
`d`, the two distances and `KFACE`. -/
theorem kface_quotient_bounds (K d s : Int) (hK : 0 < K) (hs : 0 ≤ s) (hd : |d| ≤ s) :
    (0 < d → 0 ≤ Int.tdiv (d * K) s) ∧ (d < 0 → Int.tdiv (d * K) s ≤ 0) ∧
    |Int.tdiv (d * K) s| ≤ K := by
  refine ⟨fun h => Int.tdiv_nonneg (le_of_lt (mul_pos h hK)) hs, fun h => ?_, ?_⟩
  · have e : d * K = -((-d) * K) := by ring
    rw [e, Int.neg_tdiv]
    have := Int.tdiv_nonneg (le_of_lt (mul_pos (neg_pos.mpr h) hK)) hs
    omega
  · rw [← Int.natCast_natAbs, Int.natAbs_tdiv, Int.natAbs_mul]
    have hK' : (K.natAbs : Int) = K := Int.natAbs_of_nonneg (le_of_lt hK)
    have hs' : (s.natAbs : Int) = s := Int.natAbs_of_nonneg hs
    have hd' : (d.natAbs : Int) ≤ s := by rw [Int.natCast_natAbs]; exact hd
    have h1 : d.natAbs ≤ s.natAbs := by omega
    have h2 : (d.natAbs * K.natAbs).div s.natAbs ≤ K.natAbs := by
      show d.natAbs * K.natAbs / s.natAbs ≤ K.natAbs
      by_cases h0 : s.natAbs = 0
      · rw [h0, Nat.div_zero]; exact Nat.zero_le _
      · apply Nat.div_le_of_le_mul
        exact Nat.mul_le_mul_right _ h1
    omega

theorem as_int32_of_range (x : Int) (h : |x| ≤ 2147483647) : as_int32 x = x := by
  unfold as_int32
  have := abs_le.mp h
  omega

set_option maxRecDepth 100000 in
/-- Claim C23 as stated fails when the product `bonus * KFACE` leaves the range
of `int`: for the White King of `reflect_position NE SS` on e0, facing N, with
the Black King on g7, the facing component is `d = 7 > 0` and the distances are
`2 + 7`; with `KFACE = 400000000 > 0` the product `2800000000` wraps to
`-1494967296` and `kface` returns `-166107477`, which is negative and is not
the quotient `(KFACE * d) / (|df| + |dr|) = 311111111`. -/
theorem kface_overflow :
    ori_of ((reflect_position NE SS).board (square_of 4 0)) = NN ∧
    (rnk_of ((reflect_position NE SS).kloc
      (opp_color (color_of ((reflect_position NE SS).board (square_of 4 0))))) : Int) -
        (0 : Nat) = 7 ∧
    (fil_of ((reflect_position NE SS).kloc
      (opp_color (color_of ((reflect_position NE SS).board (square_of 4 0))))) : Int) -
        (4 : Nat) = 2 ∧
    kface 400000000 (reflect_position NE SS) 4 0 = -166107477 ∧
    Int.tdiv (400000000 * 7) (|(2 : Int)| + |(7 : Int)|) = 311111111 := by
  decide

/-- Claim C23, corrected: for the King on the square of file `f` and rank `r`,
with the opponent King on another square, and with the product `KFACE * d` in
the range of `int` (at most `2147483647` in absolute value), `kface` is the
truncated quotient `(KFACE * d) / (|df| + |dr|)`, where `(df, dr)` leads from
the King to the opponent King and `d` is `dr`, `df`, `-dr`, `-df` for the
facings N, E, S, W; for `KFACE > 0` it is `>= 0` when `d > 0`, `<= 0` when
`d < 0`, and at most `KFACE` in absolute value; a King of the same colour on
the same square with the opposite facing gets the negated value. -/
theorem kface_value (KFACE : Int) (p : position_t) (f r : Nat)
    (hne : (fil_of (p.kloc (opp_color (color_of (p.board (square_of f r))))) : Int) - f ≠ 0 ∨
      (rnk_of (p.kloc (opp_color (color_of (p.board (square_of f r))))) : Int) - r ≠ 0)
    (hfit : |KFACE *
          (if ori_of (p.board (square_of f r)) = NN then
            (rnk_of (p.kloc (opp_color (color_of (p.board (square_of f r))))) : Int) - r
          else if ori_of (p.board (square_of f r)) = EE then
            (fil_of (p.kloc (opp_color (color_of (p.board (square_of f r))))) : Int) - f
          else if ori_of (p.board (square_of f r)) = SS then
            -((rnk_of (p.kloc (opp_color (color_of (p.board (square_of f r))))) : Int) - r)
          else
            -((fil_of (p.kloc (opp_color (color_of (p.board (square_of f r))))) : Int) - f))|
        ≤ 2147483647) :
    kface KFACE p f r =
      Int.tdiv (KFACE *
          (if ori_of (p.board (square_of f r)) = NN then
            (rnk_of (p.kloc (opp_color (color_of (p.board (square_of f r))))) : Int) - r
          else if ori_of (p.board (square_of f r)) = EE then
            (fil_of (p.kloc (opp_color (color_of (p.board (square_of f r))))) : Int) - f
          else if ori_of (p.board (square_of f r)) = SS then
            -((rnk_of (p.kloc (opp_color (color_of (p.board (square_of f r))))) : Int) - r)
          else
            -((fil_of (p.kloc (opp_color (color_of (p.board (square_of f r))))) : Int) - f)))
        (|(fil_of (p.kloc (opp_color (color_of (p.board (square_of f r))))) : Int) - f| +
          |(rnk_of (p.kloc (opp_color (color_of (p.board (square_of f r))))) : Int) - r|) ∧
    (0 < KFACE →
      ((0 < (if ori_of (p.board (square_of f r)) = NN then
            (rnk_of (p.kloc (opp_color (color_of (p.board (square_of f r))))) : Int) - r
          else if ori_of (p.board (square_of f r)) = EE then
            (fil_of (p.kloc (opp_color (color_of (p.board (square_of f r))))) : Int) - f
          else if ori_of (p.board (square_of f r)) = SS then
            -((rnk_of (p.kloc (opp_color (color_of (p.board (square_of f r))))) : Int) - r)
          else
            -((fil_of (p.kloc (opp_color (color_of (p.board (square_of f r))))) : Int) - f))) →
        0 ≤ kface KFACE p f r) ∧
      (((if ori_of (p.board (square_of f r)) = NN then
            (rnk_of (p.kloc (opp_color (color_of (p.board (square_of f r))))) : Int) - r
          else if ori_of (p.board (square_of f r)) = EE then
            (fil_of (p.kloc (opp_color (color_of (p.board (square_of f r))))) : Int) - f
          else if ori_of (p.board (square_of f r)) = SS then
            -((rnk_of (p.kloc (opp_color (color_of (p.board (square_of f r))))) : Int) - r)
          else
            -((fil_of (p.kloc (opp_color (color_of (p.board (square_of f r))))) : Int) - f))
          < 0) → kface KFACE p f r ≤ 0) ∧
      |kface KFACE p f r| ≤ KFACE) ∧
    (∀ p2 : position_t, p2.kloc = p.kloc →
      color_of (p2.board (square_of f r)) = color_of (p.board (square_of f r)) →
      ori_of (p2.board (square_of f r)) = opposite (ori_of (p.board (square_of f r))) →
      kface KFACE p2 f r = - kface KFACE p f r) := by
  generalize hdf : (fil_of (p.kloc (opp_color (color_of (p.board (square_of f r))))) : Int)
    - f = df at hne hfit ⊢
  generalize hdr : (rnk_of (p.kloc (opp_color (color_of (p.board (square_of f r))))) : Int)
    - r = dr at hne hfit ⊢
  have ho := ori_of_lt (p.board (square_of f r))
  have hval : ∀ q : position_t, q.kloc = p.kloc →
      color_of (q.board (square_of f r)) = color_of (p.board (square_of f r)) →
      kface KFACE q f r = Int.tdiv (as_int32 (KFACE *
        (if ori_of (q.board (square_of f r)) = NN then dr
          else if ori_of (q.board (square_of f r)) = EE then df
          else if ori_of (q.board (square_of f r)) = SS then -dr
          else -df))) (|df| + |dr|) := by
    intro q hk hc
    have hq := ori_of_lt (q.board (square_of f r))
    unfold kface
    simp only [hk, hc, hdf, hdr, Int.natCast_natAbs]
    rw [add_comm |dr| |df|, mul_comm]
    congr 3
    unfold NN EE SS WW at *
    split_ifs <;> first | rfl | omega
  have hmain : kface KFACE p f r = Int.tdiv (KFACE *
        (if ori_of (p.board (square_of f r)) = NN then dr
          else if ori_of (p.board (square_of f r)) = EE then df
          else if ori_of (p.board (square_of f r)) = SS then -dr
          else -df)) (|df| + |dr|) := by
    rw [hval p rfl rfl, as_int32_of_range _ hfit]
  refine ⟨hmain, fun hK => ?_, fun p2 hk hc ho2 => ?_⟩
  · have hs : (0 : Int) ≤ |df| + |dr| := add_nonneg (abs_nonneg _) (abs_nonneg _)
    have hd : |(if ori_of (p.board (square_of f r)) = NN then dr
          else if ori_of (p.board (square_of f r)) = EE then df
          else if ori_of (p.board (square_of f r)) = SS then -dr
          else -df)| ≤ |df| + |dr| := by
      split_ifs
      · exact le_add_of_nonneg_left (abs_nonneg _)
      · exact le_add_of_nonneg_right (abs_nonneg _)
      · rw [abs_neg]; exact le_add_of_nonneg_left (abs_nonneg _)
      · rw [abs_neg]; exact le_add_of_nonneg_right (abs_nonneg _)
    rw [hmain, mul_comm]
    exact kface_quotient_bounds _ _ _ hK hs hd
  · have e2 : (if ori_of (p2.board (square_of f r)) = NN then dr
          else if ori_of (p2.board (square_of f r)) = EE then df
          else if ori_of (p2.board (square_of f r)) = SS then -dr
          else -df) = -(if ori_of (p.board (square_of f r)) = NN then dr
          else if ori_of (p.board (square_of f r)) = EE then df
          else if ori_of (p.board (square_of f r)) = SS then -dr
          else -df) := by
      rw [ho2]
      unfold opposite
      have h4 : ori_of (p.board (square_of f r)) = 0 ∨ ori_of (p.board (square_of f r)) = 1 ∨
          ori_of (p.board (square_of f r)) = 2 ∨ ori_of (p.board (square_of f r)) = 3 := by
        omega
      rcases h4 with e | e | e | e <;> rw [e] <;> simp
    rw [hval p2 hk hc, hmain, e2, mul_neg, as_int32_of_range _ (by rw [abs_neg]; exact hfit),
      Int.neg_tdiv]

set_option maxRecDepth 100000 in
theorem kface_value_witness :
    0 ≤ kface 5 pinned_king_position 4 0 ∧ |kface 5 pinned_king_position 4 0| ≤ 5 :=
  ⟨((kface_value 5 pinned_king_position 4 0 (by decide) (by decide)).2.1 (by decide)).1
      (by decide),
   ((kface_value 5 pinned_king_position 4 0 (by decide) (by decide)).2.1 (by decide)).2.2⟩

/-! ## The killer table -/

/-- Claim C31 as stated fails when the tables are switched off: with
`ENABLE_TABLES = 0` a child score of `-500 >= beta = -1000` makes
`search_process_score` signal a cutoff for the move `7`, and slot 0 of the
killer table for the ply of the node still holds the old move `5`. -/
theorem cutoff_without_killer_update :
    (search_process_score { example_config with ENABLE_TABLES := 0 } (fun _ _ => 5)
      example_node 7 3 { example_move_result with score := -500 } SEARCH_SCOUT).2.2 = true ∧
    (search_process_score { example_config with ENABLE_TABLES := 0 } (fun _ _ => 5)
      example_node 7 3 { example_move_result with score := -500 } SEARCH_SCOUT).2.1
        example_node.ply 0 = 5 := by
  decide

/-- Claim C31, corrected: with `ENABLE_TABLES` set, when `search_process_score`
signals a cutoff for the move `mv` on a node of ply `n`, slot 0 of the killer
table for ply `n` holds `mv` afterwards; if `mv` differed from the old slot 0,
slot 1 holds the old slot 0, and if `mv` equalled the old slot 0 both slots are
as before; the slots of every other ply, and the slots other than 0 and 1, are
as before. When no cutoff is signalled, and when `ENABLE_TABLES` is 0, the
killer table is unchanged. -/
theorem killer_slots_after_cutoff (cfg : search_config) (killer : Int → Nat → Nat)
    (node : searchNode) (mv : Nat) (mv_index : Int) (result : moveEvaluationResult)
    (type : searchType_t) :
    (cfg.ENABLE_TABLES ≠ 0 →
      (search_process_score cfg killer node mv mv_index result type).2.2 = true →
      (search_process_score cfg killer node mv mv_index result type).2.1 node.ply 0 = mv ∧
      (mv ≠ killer node.ply 0 →
        (search_process_score cfg killer node mv mv_index result type).2.1 node.ply 1 =
          killer node.ply 0) ∧
      (mv = killer node.ply 0 →
        (search_process_score cfg killer node mv mv_index result type).2.1 node.ply 0 =
          killer node.ply 0 ∧
        (search_process_score cfg killer node mv mv_index result type).2.1 node.ply 1 =
          killer node.ply 1) ∧
      (∀ ply i, ply ≠ node.ply ∨ 2 ≤ i →
        (search_process_score cfg killer node mv mv_index result type).2.1 ply i =
          killer ply i)) ∧
    ((search_process_score cfg killer node mv mv_index result type).2.2 = false →
      (search_process_score cfg killer node mv mv_index result type).2.1 = killer) ∧
    (cfg.ENABLE_TABLES = 0 →
      (search_process_score cfg killer node mv mv_index result type).2.1 = killer) := by
  by_cases h1 : result.score > node.best_score
  · rw [search_process_score_pos cfg killer node mv mv_index result type h1]
    dsimp only
    refine ⟨fun he hc => ?_, fun hc => ?_, fun he => ?_⟩
    · have h3 : result.score ≥ node.beta := of_decide_eq_true hc
      by_cases h4 : mv = killer node.ply 0
      · rw [if_neg (fun h => h.2.1 h4)]
        exact ⟨h4.symm, fun h => absurd h4 h, fun _ => ⟨rfl, rfl⟩, fun _ _ _ => rfl⟩
      · rw [if_pos ⟨h3, h4, he⟩]
        refine ⟨?_, fun _ => ?_, fun h => absurd h h4, fun ply i hp => ?_⟩
        · rw [if_pos ⟨rfl, rfl⟩]
        · rw [if_neg (fun h => absurd h.2 (by decide)), if_pos ⟨rfl, rfl⟩]
        · have a1 : ¬ (ply = node.ply ∧ i = 0) := by
            rintro ⟨e1, e2⟩
            rcases hp with hp | hp
            · exact hp e1
            · omega
          have a2 : ¬ (ply = node.ply ∧ i = 1) := by
            rintro ⟨e1, e2⟩
            rcases hp with hp | hp
            · exact hp e1
            · omega
          rw [if_neg a1, if_neg a2]
    · have h3 : ¬ result.score ≥ node.beta := of_decide_eq_false hc
      rw [if_neg (fun h => h3 h.1)]
    · rw [if_neg (fun h => h.2.2 he)]
  · rw [search_process_score_neg cfg killer node mv mv_index result type h1]
    exact ⟨fun _ hc => absurd hc Bool.false_ne_true, fun _ => rfl, fun _ => rfl⟩

theorem killer_slots_after_cutoff_witness :
    (search_process_score example_config (fun _ _ => 5) example_node 7 3
        { example_move_result with score := -500 } SEARCH_SCOUT).2.1 example_node.ply 0 = 7 ∧
    (search_process_score example_config (fun _ _ => 5) example_node 7 3
        { example_move_result with score := -500 } SEARCH_SCOUT).2.1 example_node.ply 1 = 5 :=
  ⟨((killer_slots_after_cutoff example_config (fun _ _ => 5) example_node 7 3
      { example_move_result with score := -500 } SEARCH_SCOUT).1 (by decide) (by decide)).1,
   ((killer_slots_after_cutoff example_config (fun _ _ => 5) example_node 7 3
      { example_move_result with score := -500 } SEARCH_SCOUT).1 (by decide) (by decide)).2.1
        (by decide)⟩

/-! ## Sorting the move list -/

theorem select_fold (ml : Nat → Nat) (i : Nat) :
    ∀ m, ((List.range' (i + 1) m).foldl
        (fun (s : Nat × Nat) j => if ml j > s.1 then (ml j, j) else s) (ml i, i)).1 =
        ml ((List.range' (i + 1) m).foldl
          (fun (s : Nat × Nat) j => if ml j > s.1 then (ml j, j) else s) (ml i, i)).2 ∧
      i ≤ ((List.range' (i + 1) m).foldl
        (fun (s : Nat × Nat) j => if ml j > s.1 then (ml j, j) else s) (ml i, i)).2 ∧
      ((List.range' (i + 1) m).foldl
        (fun (s : Nat × Nat) j => if ml j > s.1 then (ml j, j) else s) (ml i, i)).2 ≤ i + m ∧
      ∀ j, i ≤ j → j ≤ i + m → ml j ≤ ((List.range' (i + 1) m).foldl
        (fun (s : Nat × Nat) j => if ml j > s.1 then (ml j, j) else s) (ml i, i)).1 := by
  intro m
  induction m with
  | zero =>
    refine ⟨rfl, le_refl _, le_refl _, fun j h1 h2 => ?_⟩
    have : j = i := by omega
    subst this
    exact le_refl _
  | succ m ih =>
    rw [List.range'_concat, List.foldl_append]
    generalize ((List.range' (i + 1) m).foldl
        (fun (s : Nat × Nat) j => if ml j > s.1 then (ml j, j) else s) (ml i, i)) = s at ih ⊢
    obtain ⟨h1, h2, h3, h4⟩ := ih
    simp only [List.foldl_cons, List.foldl_nil, Nat.one_mul]
    by_cases hc : ml (i + 1 + m) > s.1
    · rw [if_pos hc]
      refine ⟨rfl, by dsimp only; omega, by dsimp only; omega, fun j hj1 hj2 => ?_⟩
      dsimp only
      by_cases hj : j = i + 1 + m
      · rw [hj]
      · exact le_trans (h4 j hj1 (by omega)) (le_of_lt hc)
    · rw [if_neg hc]
      refine ⟨h1, h2, by omega, fun j hj1 hj2 => ?_⟩
      by_cases hj : j = i + 1 + m
      · rw [hj]; exact not_lt.mp hc
      · exact h4 j hj1 (by omega)

/-- A call of `sort_incremental_new` exchanges entry `mv_index` with an entry
`h` of the tail that holds the maximum of the tail. -/
theorem sort_incremental_new_apply (ml : Nat → Nat) (n i : Nat) (hi : i < n) :
    ∃ h, i ≤ h ∧ h < n ∧ (∀ j, i ≤ j → j < n → ml j ≤ ml h) ∧
      sort_incremental_new ml n i =
        Function.update (Function.update ml h (ml i)) i (ml h) := by
  obtain ⟨h1, h2, h3, h4⟩ := select_fold ml i (n - (i + 1))
  refine ⟨_, h2, by omega, fun j hj1 hj2 => ?_, ?_⟩
  · rw [← h1]; exact h4 j hj1 (by omega)
  · unfold sort_incremental_new
    dsimp only
    rw [← h1]

theorem swap_entries_perm (ml : Nat → Nat) (n i h : Nat) (hi : i < n) (hh : h < n) :
    ((List.range n).map (Function.update (Function.update ml h (ml i)) i (ml h))).Perm
      ((List.range n).map ml) := by
  have e : Function.update (Function.update ml h (ml i)) i (ml h) =
      ml ∘ (Equiv.swap i h) := by
    funext x
    rw [Function.comp_apply, Equiv.swap_apply_def]
    by_cases h1 : x = i
    · subst h1; rw [Function.update_same, if_pos rfl]
    · rw [Function.update_noteq h1, if_neg h1]
      by_cases h2 : x = h
      · subst h2; rw [Function.update_same, if_pos rfl]
      · rw [Function.update_noteq h2, if_neg h2]
  rw [e, ← List.map_map]
  apply List.Perm.map
  rw [List.perm_ext_iff_of_nodup
    (List.Nodup.map (Equiv.swap i h).injective (List.nodup_range n)) (List.nodup_range n)]
  intro a
  rw [List.mem_map, List.mem_range]
  constructor
  · rintro ⟨y, hy, rfl⟩
    rw [List.mem_range] at hy
    rw [Equiv.swap_apply_def]
    split_ifs <;> omega
  · intro ha
    refine ⟨Equiv.swap i h a, ?_, Equiv.swap_apply_self i h a⟩
    rw [List.mem_range, Equiv.swap_apply_def]
    split_ifs <;> omega

theorem move_entries_zero (ml : Nat → Nat) (n : Nat) :
    move_entries ml 0 n = (List.range n).map ml := by
  unfold move_entries
  rw [List.range_eq_range']

theorem move_entries_split (ml : Nat → Nat) (k n : Nat) (hk : k ≤ n) :
    move_entries ml 0 n = move_entries ml 0 k ++ move_entries ml k (n - k) := by
  unfold move_entries
  rw [← List.map_append]
  congr 1
  have := List.range'_append 0 k (n - k) 1
  rw [Nat.one_mul, Nat.zero_add] at this
  rw [this]
  congr 1
  omega

theorem move_entries_sorted (ml : Nat → Nat) (lo n : Nat)
    (h : ∀ a b, lo ≤ a → a ≤ b → b < lo + n → ml b ≤ ml a) :
    List.Sorted (fun x y => x ≥ y) (move_entries ml lo n) := by
  unfold move_entries List.Sorted
  rw [List.pairwise_map, List.range'_eq_map_range, List.pairwise_map]
  refine List.Pairwise.imp_of_mem ?_ (List.pairwise_lt_range n)
  intro a b ha hb hab
  rw [List.mem_range] at ha hb
  exact h _ _ (by omega) (by omega) (by omega)

theorem move_entries_congr (f g : Nat → Nat) (lo n : Nat)
    (h : ∀ i, lo ≤ i → i < lo + n → f i = g i) : move_entries f lo n = move_entries g lo n := by
  unfold move_entries
  rw [List.map_inj_left]
  intro a ha
  rw [List.mem_range'_1] at ha
  exact h a ha.1 ha.2

theorem move_entries_inj (f g : Nat → Nat) (lo n : Nat)
    (h : move_entries f lo n = move_entries g lo n) :
    ∀ i, lo ≤ i → i < lo + n → f i = g i := by
  unfold move_entries at h
  rw [List.map_inj_left] at h
  intro i h1 h2
  exact h i (List.mem_range'_1.mpr ⟨h1, h2⟩)

theorem mem_move_entries (f : Nat → Nat) (lo n x : Nat) :
    x ∈ move_entries f lo n ↔ ∃ i, lo ≤ i ∧ i < lo + n ∧ f i = x := by
  unfold move_entries
  rw [List.mem_map]
  constructor
  · rintro ⟨i, hi, rfl⟩
    rw [List.mem_range'_1] at hi
    exact ⟨i, hi.1, hi.2, rfl⟩
  · rintro ⟨i, h1, h2, rfl⟩
    exact ⟨i, List.mem_range'_1.mpr ⟨h1, h2⟩, rfl⟩

theorem move_entries_length (f : Nat → Nat) (lo n : Nat) :
    (move_entries f lo n).length = n := by
  unfold move_entries
  rw [List.length_map, List.length_range']

/-- One call of `sort_incremental_new`, entry by entry. -/
theorem sort_incremental_new_step (ml : Nat → Nat) (n i : Nat) (hi : i < n) :
    (∀ k, k < i ∨ n ≤ k → sort_incremental_new ml n i k = ml k) ∧
    (∃ j, i ≤ j ∧ j < n ∧ sort_incremental_new ml n i i = ml j) ∧
    (∀ j, i ≤ j → j < n → ml j ≤ sort_incremental_new ml n i i) ∧
    (∀ k, i ≤ k → k < n → ∃ j, i ≤ j ∧ j < n ∧ sort_incremental_new ml n i k = ml j) ∧
    (move_entries (sort_incremental_new ml n i) 0 n).Perm (move_entries ml 0 n) := by
  obtain ⟨h, h1, h2, h3, h4⟩ := sort_incremental_new_apply ml n i hi
  rw [h4]
  refine ⟨fun k hk => ?_, ⟨h, h1, h2, by rw [Function.update_same]⟩, fun j hj1 hj2 => ?_,
    fun k hk1 hk2 => ?_, ?_⟩
  · rw [Function.update_noteq (by omega), Function.update_noteq (by omega)]
  · rw [Function.update_same]; exact h3 j hj1 hj2
  · by_cases e1 : k = i
    · exact ⟨h, h1, h2, by rw [e1, Function.update_same]⟩
    · rw [Function.update_noteq e1]
      by_cases e2 : k = h
      · exact ⟨i, le_refl _, hi, by rw [e2, Function.update_same]⟩
      · exact ⟨k, hk1, hk2, by rw [Function.update_noteq e2]⟩
  · rw [move_entries_zero, move_entries_zero]
    exact swap_entries_perm ml n i h hi h2

theorem sort_incremental_new_upto_succ (ml : Nat → Nat) (n k : Nat) :
    sort_incremental_new_upto ml n (k + 1) =
      sort_incremental_new (sort_incremental_new_upto ml n k) n k := by
  unfold sort_incremental_new_upto
  rw [List.range_succ, List.foldl_append]
  rfl

/-- The state of the move list after the first `k` calls of the selection:
a permutation of the list, the entries outside `0 .. n - 1` untouched, and
each of the first `k` entries at least as large as every entry behind it. -/
theorem sort_incremental_new_upto_spec (ml : Nat → Nat) (n : Nat) :
    ∀ k, k ≤ n →
      (move_entries (sort_incremental_new_upto ml n k) 0 n).Perm (move_entries ml 0 n) ∧
      (∀ i, n ≤ i → sort_incremental_new_upto ml n k i = ml i) ∧
      (∀ a b, a < k → a ≤ b → b < n →
        sort_incremental_new_upto ml n k b ≤ sort_incremental_new_upto ml n k a) := by
  intro k
  induction k with
  | zero =>
    intro _
    exact ⟨List.Perm.refl _, fun _ _ => rfl, fun a b h => absurd h (Nat.not_lt_zero a)⟩
  | succ k ih =>
    intro hk
    obtain ⟨p1, p2, p3⟩ := ih (by omega)
    rw [sort_incremental_new_upto_succ]
    generalize sort_incremental_new_upto ml n k = A at p1 p2 p3 ⊢
    obtain ⟨s1, s2, s3, s4, s5⟩ := sort_incremental_new_step A n k (by omega)
    refine ⟨s5.trans p1, fun i hi => ?_, fun a b ha hab hb => ?_⟩
    · rw [s1 i (Or.inr hi)]; exact p2 i hi
    · by_cases hak : a < k
      · rw [s1 a (Or.inl hak)]
        by_cases hbk : b < k
        · rw [s1 b (Or.inl hbk)]; exact p3 a b hak hab hb
        · obtain ⟨j, j1, j2, j3⟩ := s4 b (by omega) hb
          rw [j3]; exact p3 a j hak (by omega) j2
      · have e : a = k := by omega
        subst e
        obtain ⟨j, j1, j2, j3⟩ := s4 b hab hb
        rw [j3]; exact s3 j j1 j2

theorem sort_incremental_new_upto_prefix (ml : Nat → Nat) (n : Nat) :
    ∀ k m i, i < k → sort_incremental_new_upto ml n (k + m) i =
      sort_incremental_new_upto ml n k i := by
  intro k m
  induction m with
  | zero => intro i _; rfl
  | succ m ih =>
    intro i hi
    rw [← Nat.add_assoc, sort_incremental_new_upto_succ]
    by_cases hn : k + m < n
    · rw [(sort_incremental_new_step _ n (k + m) hn).1 i (Or.inl (by omega))]
      exact ih i hi
    · unfold sort_incremental_new
      have e : n - (k + m + 1) = 0 := by omega
      rw [e]
      simp only [List.range'_zero, List.foldl_nil, Function.update_eq_self]
      exact ih i hi

/-- The `while` loop of `sort_incremental`, entry by entry: the entries
`h + 1 .. hole` hold the old entries `h .. hole - 1`, all of them below
`insert`, and the loop was left at `h = 0` or at an entry `h - 1` not below
`insert`. -/
theorem sort_incremental_shift_spec (x : Nat) :
    ∀ hole ml, (sort_incremental_shift x ml hole).2 ≤ hole ∧
      (∀ k, (sort_incremental_shift x ml hole).1 k =
        if (sort_incremental_shift x ml hole).2 < k ∧ k ≤ hole then ml (k - 1) else ml k) ∧
      (∀ k, (sort_incremental_shift x ml hole).2 ≤ k → k < hole → ml k < x) ∧
      ((sort_incremental_shift x ml hole).2 = 0 ∨
        x ≤ ml ((sort_incremental_shift x ml hole).2 - 1)) := by
  intro hole
  induction hole with
  | zero =>
    intro ml
    refine ⟨le_refl _, fun k => ?_, fun k h1 h2 => absurd h2 (Nat.not_lt_zero k), Or.inl rfl⟩
    rw [if_neg]
    · rfl
    · rintro ⟨h1, h2⟩
      have : (sort_incremental_shift x ml 0).2 = 0 := rfl
      omega
  | succ hole ih =>
    intro ml
    unfold sort_incremental_shift
    by_cases hc : x > ml hole
    · rw [if_pos hc]
      obtain ⟨i1, i2, i3, i4⟩ := ih (Function.update ml (hole + 1) (ml hole))
      generalize sort_incremental_shift x (Function.update ml (hole + 1) (ml hole)) hole = r
        at i1 i2 i3 i4 ⊢
      refine ⟨by omega, fun k => ?_, fun k h1 h2 => ?_, ?_⟩
      · rw [i2 k]
        by_cases h1 : r.2 < k ∧ k ≤ hole
        · rw [if_pos h1, if_pos ⟨h1.1, by omega⟩, Function.update_noteq (by omega)]
        · rw [if_neg h1]
          by_cases h2 : k = hole + 1
          · rw [if_pos ⟨by omega, by omega⟩, h2, Function.update_same]
            rfl
          · rw [Function.update_noteq h2, if_neg (by omega)]
      · by_cases h3 : k = hole
        · rw [h3]; exact hc
        · have := i3 k h1 (by omega)
          rwa [Function.update_noteq (by omega)] at this
      · rcases i4 with i4 | i4
        · exact Or.inl i4
        · by_cases h0 : r.2 = 0
          · exact Or.inl h0
          · right
            rwa [Function.update_noteq (by omega)] at i4
    · rw [if_neg hc]
      refine ⟨le_refl _, fun k => ?_, fun k h1 h2 => ?_, Or.inr ?_⟩
      · rw [if_neg]
        dsimp only
        omega
      · dsimp only at h1
        omega
      · exact not_lt.mp hc

/-- The `while` loop of `sort_incremental` followed by the write of `insert`
into the hole permutes the entries. -/
theorem sort_incremental_shift_perm (x : Nat) (n : Nat) :
    ∀ hole ml, hole < n →
      (move_entries (Function.update (sort_incremental_shift x ml hole).1
        (sort_incremental_shift x ml hole).2 x) 0 n).Perm
      (move_entries (Function.update ml hole x) 0 n) := by
  intro hole
  induction hole with
  | zero => intro ml _; exact List.Perm.refl _
  | succ hole ih =>
    intro ml hn
    unfold sort_incremental_shift
    by_cases hc : x > ml hole
    · rw [if_pos hc]
      refine (ih (Function.update ml (hole + 1) (ml hole)) (by omega)).trans ?_
      have e : Function.update (Function.update ml (hole + 1) (ml hole)) hole x =
          Function.update (Function.update (Function.update ml (hole + 1) x) (hole + 1)
            (Function.update ml (hole + 1) x hole)) hole
            (Function.update ml (hole + 1) x (hole + 1)) := by
        rw [Function.update_same, Function.update_idem,
          Function.update_noteq (Nat.ne_of_lt (Nat.lt_succ_self hole))]
      rw [e, move_entries_zero, move_entries_zero]
      exact swap_entries_perm (Function.update ml (hole + 1) x) n hole (hole + 1)
        (by omega) hn
    · rw [if_neg hc]

theorem sort_incremental_body_spec (ml : Nat → Nat) (n j : Nat) (hj : j < n)
    (hs : ∀ a b, a ≤ b → b < j → ml b ≤ ml a) :
    (move_entries (sort_incremental_body ml j) 0 n).Perm (move_entries ml 0 n) ∧
    (∀ k, j < k → sort_incremental_body ml j k = ml k) ∧
    (∀ a b, a ≤ b → b < j + 1 → sort_incremental_body ml j b ≤ sort_incremental_body ml j a) := by
  obtain ⟨s1, s2, s3, s4⟩ := sort_incremental_shift_spec (ml j) j ml
  have hp := sort_incremental_shift_perm (ml j) n j ml hj
  rw [Function.update_eq_self] at hp
  unfold sort_incremental_body
  generalize sort_incremental_shift (ml j) ml j = r at s1 s2 s3 s4 hp ⊢
  have val : ∀ k, Function.update r.1 r.2 (ml j) k =
      if k = r.2 then ml j else if r.2 < k ∧ k ≤ j then ml (k - 1) else ml k := by
    intro k
    by_cases e : k = r.2
    · rw [if_pos e, e, Function.update_same]
    · rw [if_neg e, Function.update_noteq e, s2 k]
  have v1 : ∀ k, k = r.2 → Function.update r.1 r.2 (ml j) k = ml j := by
    intro k h; rw [val k, if_pos h]
  have v2 : ∀ k, r.2 < k → k ≤ j → Function.update r.1 r.2 (ml j) k = ml (k - 1) := by
    intro k h1 h2; rw [val k, if_neg (by omega), if_pos ⟨h1, h2⟩]
  have v3 : ∀ k, k < r.2 ∨ j < k → Function.update r.1 r.2 (ml j) k = ml k := by
    intro k h; rw [val k, if_neg (by omega), if_neg (by omega)]
  refine ⟨hp, fun k hk => v3 k (Or.inr hk), fun a b hab hb => ?_⟩
  rcases Nat.lt_trichotomy a r.2 with ha | ha | ha
  · rw [v3 a (Or.inl ha)]
    rcases Nat.lt_trichotomy b r.2 with hb2 | hb2 | hb2
    · rw [v3 b (Or.inl hb2)]
      exact hs a b hab (by omega)
    · rw [v1 b hb2]
      rcases s4 with s4 | s4
      · omega
      · exact le_trans s4 (hs a (r.2 - 1) (by omega) (by omega))
    · rw [v2 b hb2 (by omega)]
      exact hs a (b - 1) (by omega) (by omega)
  · rw [v1 a ha]
    rcases Nat.lt_or_ge r.2 b with hb2 | hb2
    · rw [v2 b hb2 (by omega)]
      exact le_of_lt (s3 (b - 1) (by omega) (by omega))
    · rw [v1 b (by omega)]
  · rw [v2 a ha (by omega), v2 b (by omega) (by omega)]
    exact hs (a - 1) (b - 1) (by omega) (by omega)

theorem sort_incremental_fold (ml : Nat → Nat) (n : Nat) :
    ∀ j, j ≤ n →
      (move_entries ((List.range j).foldl sort_incremental_body ml) 0 n).Perm
        (move_entries ml 0 n) ∧
      (∀ k, j ≤ k → (List.range j).foldl sort_incremental_body ml k = ml k) ∧
      (∀ a b, a ≤ b → b < j → (List.range j).foldl sort_incremental_body ml b ≤
        (List.range j).foldl sort_incremental_body ml a) := by
  intro j
  induction j with
  | zero =>
    intro _
    exact ⟨List.Perm.refl _, fun _ _ => rfl, fun a b _ h => absurd h (Nat.not_lt_zero b)⟩
  | succ j ih =>
    intro hj
    obtain ⟨p1, p2, p3⟩ := ih (by omega)
    rw [List.range_succ, List.foldl_append]
    generalize (List.range j).foldl sort_incremental_body ml = B at p1 p2 p3 ⊢
    simp only [List.foldl_cons, List.foldl_nil]
    obtain ⟨b1, b2, b3⟩ := sort_incremental_body_spec B n j (by omega) p3
    exact ⟨b1.trans p1, fun k hk => by rw [b2 k (by omega)]; exact p2 k (by omega), b3⟩

/-- The result of `sort_incremental`: a permutation of the list in
non-increasing order, the entries outside `0 .. n - 1` untouched. -/
theorem sort_incremental_spec (ml : Nat → Nat) (n i : Nat) :
    (move_entries (sort_incremental ml n i) 0 n).Perm (move_entries ml 0 n) ∧
    (∀ k, n ≤ k → sort_incremental ml n i k = ml k) ∧
    (∀ a b, a ≤ b → b < n → sort_incremental ml n i b ≤ sort_incremental ml n i a) :=
  sort_incremental_fold ml n n (le_refl n)

/-- Two move lists that are permutations of each other on `0 .. n - 1` and
both in non-increasing order there are equal there. -/
theorem sorted_entries_unique (f g : Nat → Nat) (n : Nat)
    (hp : (move_entries f 0 n).Perm (move_entries g 0 n))
    (hf : ∀ a b, a ≤ b → b < n → f b ≤ f a)
    (hg : ∀ a b, a ≤ b → b < n → g b ≤ g a) :
    ∀ i, i < n → f i = g i := by
  have e := List.eq_of_perm_of_sorted hp
    (move_entries_sorted f 0 n (fun a b _ h2 h3 => hf a b h2 (by omega)))
    (move_entries_sorted g 0 n (fun a b _ h2 h3 => hg a b h2 (by omega)))
  intro i hi
  exact move_entries_inj f g 0 n e i (Nat.zero_le i) (by omega)

/-! ## The claims about sorting the move list -/

/-- Claim C32: for a move list with `n` entries and an index `i < n`,
`sort_incremental_new(list, n, i)` leaves the entries `0 .. i - 1` as they are,
makes entry `i` the maximum of the old entries `i .. n - 1`, and leaves the
list a permutation of the old one; the calls for `i = 0, 1, ..., n - 1` in turn
give the list in non-increasing order, a permutation of the old one. -/
theorem sort_incremental_new_selects (ml : Nat → Nat) (n i : Nat) (hi : i < n) :
    (∀ k, k < i → sort_incremental_new ml n i k = ml k) ∧
    (∃ j, i ≤ j ∧ j < n ∧ sort_incremental_new ml n i i = ml j) ∧
    (∀ j, i ≤ j → j < n → ml j ≤ sort_incremental_new ml n i i) ∧
    (move_entries (sort_incremental_new ml n i) 0 n).Perm (move_entries ml 0 n) ∧
    List.Sorted (fun x y => x ≥ y) (move_entries (sort_incremental_new_upto ml n n) 0 n) ∧
    (move_entries (sort_incremental_new_upto ml n n) 0 n).Perm (move_entries ml 0 n) := by
  obtain ⟨s1, s2, s3, _, s5⟩ := sort_incremental_new_step ml n i hi
  obtain ⟨p1, _, p3⟩ := sort_incremental_new_upto_spec ml n n (le_refl n)
  refine ⟨fun k hk => s1 k (Or.inl hk), s2, s3, s5, ?_, p1⟩
  exact move_entries_sorted _ 0 n (fun a b _ h2 h3 => p3 a b (by omega) h2 (by omega))

theorem sort_incremental_new_selects_witness :
    (∀ k, k < 1 → sort_incremental_new example_move_list 6 1 k = example_move_list k) ∧
    (∃ j, 1 ≤ j ∧ j < 6 ∧ sort_incremental_new example_move_list 6 1 1 = example_move_list j) ∧
    (∀ j, 1 ≤ j → j < 6 → example_move_list j ≤ sort_incremental_new example_move_list 6 1 1) ∧
    (move_entries (sort_incremental_new example_move_list 6 1) 0 6).Perm
      (move_entries example_move_list 0 6) ∧
    List.Sorted (fun x y => x ≥ y)
      (move_entries (sort_incremental_new_upto example_move_list 6 6) 0 6) ∧
    (move_entries (sort_incremental_new_upto example_move_list 6 6) 0 6).Perm
      (move_entries example_move_list 0 6) :=
  sort_incremental_new_selects example_move_list 6 1 (by decide)

/-- Claim C40: for a move list with `n` entries and `k <= n`, after the calls
of `sort_incremental_new` for the indices `0 .. k - 1`, `sort_incremental` on
the whole list leaves the entries `0 .. k - 1` as they are and puts the entries
`k .. n - 1` in non-increasing order as a permutation of the tail before the
call, so the entries that the second loop of `scout_search` reads from index
`k` on are the entries not yet read, each as often as before; and the calls of
`sort_incremental_new` for all the indices `0 .. n - 1` give the same array as
`sort_incremental`. -/
theorem sort_incremental_after_selection (ml : Nat → Nat) (n k : Nat) (hk : k ≤ n) :
    (∀ i, i < k →
      sort_incremental (sort_incremental_new_upto ml n k) n k i =
        sort_incremental_new_upto ml n k i) ∧
    List.Sorted (fun x y => x ≥ y)
      (move_entries (sort_incremental (sort_incremental_new_upto ml n k) n k) k (n - k)) ∧
    (move_entries (sort_incremental (sort_incremental_new_upto ml n k) n k) k (n - k)).Perm
      (move_entries (sort_incremental_new_upto ml n k) k (n - k)) ∧
    (∀ x, (move_entries (sort_incremental (sort_incremental_new_upto ml n k) n k) k
        (n - k)).count x =
      (move_entries (sort_incremental_new_upto ml n k) k (n - k)).count x) ∧
    (∀ m, sort_incremental_new_upto ml n n = sort_incremental ml n m) := by
  obtain ⟨_, _, p3⟩ := sort_incremental_new_upto_spec ml n k hk
  obtain ⟨r1, _, r3⟩ := sort_incremental_spec (sort_incremental_new_upto ml n k) n k
  generalize sort_incremental_new_upto ml n k = A at p3 r1 r3 ⊢
  generalize sort_incremental A n k = R at r1 r3 ⊢
  have hP : List.Sorted (fun x y => x ≥ y) (move_entries A 0 k) :=
    move_entries_sorted A 0 k (fun a b _ h2 h3 => p3 a b (by omega) h2 (by omega))
  have hS := List.sorted_insertionSort (fun x y : Nat => x ≥ y) (move_entries A k (n - k))
  have hSp := List.perm_insertionSort (fun x y : Nat => x ≥ y) (move_entries A k (n - k))
  have hcross : ∀ x ∈ move_entries A 0 k,
      ∀ y ∈ List.insertionSort (fun x y : Nat => x ≥ y) (move_entries A k (n - k)),
      x ≥ y := by
    intro x hx y hy
    rw [mem_move_entries] at hx
    rw [hSp.mem_iff, mem_move_entries] at hy
    obtain ⟨a, _, a2, rfl⟩ := hx
    obtain ⟨b, b1, b2, rfl⟩ := hy
    exact p3 a b (by omega) (by omega) (by omega)
  have hPS : List.Sorted (fun x y => x ≥ y) (move_entries A 0 k ++
      List.insertionSort (fun x y : Nat => x ≥ y) (move_entries A k (n - k))) :=
    List.pairwise_append.mpr ⟨hP, hS, hcross⟩
  have hR : List.Sorted (fun x y => x ≥ y) (move_entries R 0 n) :=
    move_entries_sorted R 0 n (fun a b _ h2 h3 => r3 a b h2 (by omega))
  have hperm : (move_entries R 0 n).Perm (move_entries A 0 k ++
      List.insertionSort (fun x y : Nat => x ≥ y) (move_entries A k (n - k))) := by
    refine r1.trans ?_
    rw [move_entries_split A k n hk]
    exact List.Perm.append_left _ hSp.symm
  have e := List.eq_of_perm_of_sorted hperm hR hPS
  rw [move_entries_split R k n hk] at e
  obtain ⟨e1, e2⟩ := List.append_inj e
    (by rw [move_entries_length, move_entries_length])
  refine ⟨fun i hi => move_entries_inj R A 0 k e1 i (Nat.zero_le i) (by omega), ?_, ?_, ?_, ?_⟩
  · rw [e2]; exact hS
  · rw [e2]; exact hSp
  · intro x
    rw [e2]
    exact hSp.count_eq x
  · intro m
    obtain ⟨q1, q2, q3⟩ := sort_incremental_new_upto_spec ml n n (le_refl n)
    obtain ⟨t1, t2, t3⟩ := sort_incremental_spec ml n m
    funext i
    by_cases hi : i < n
    · exact sorted_entries_unique _ _ n (q1.trans t1.symm)
        (fun a b h2 h3 => q3 a b (by omega) h2 h3) t3 i hi
    · rw [q2 i (by omega), t2 i (by omega)]

theorem sort_incremental_after_selection_witness :
    sort_incremental_new_upto example_move_list 6 6 = sort_incremental example_move_list 6 2 :=
  (sort_incremental_after_selection example_move_list 6 2 (by decide)).2.2.2.2 2

/-! ## The laser walk stays inside the array -/

theorem laser_index_loop_squares (board : Nat → Nat) :
    ∀ fuel sq bdir, (laser_index_loop board fuel sq bdir).map (fun l => l.map as_square) =
      laser_path_loop board fuel sq bdir := by
  intro fuel
  induction fuel with
  | zero => intro sq bdir; rfl
  | succ n ih =>
    intro sq bdir
    unfold laser_index_loop laser_path_loop
    dsimp only
    split
    · rw [← ih, Option.map_map, Option.map_map]; rfl
    · split
      · split
        · rfl
        · rw [← ih, Option.map_map, Option.map_map]; rfl
      · rfl

theorem laser_index_loop_length (board : Nat → Nat) :
    ∀ fuel sq bdir l, laser_index_loop board fuel sq bdir = some l → l.length ≤ fuel := by
  intro fuel
  induction fuel with
  | zero => intro sq bdir l h; exact absurd h (by unfold laser_index_loop; exact nofun)
  | succ n ih =>
    intro sq bdir l h
    unfold laser_index_loop at h
    dsimp only at h
    have key : ∀ bd, (laser_index_loop board n (as_square (↑sq + beam_of bdir)) bd).map
        (fun l => ((sq : Int) + beam_of bdir) :: l) = some l → l.length ≤ n + 1 := by
      intro bd hh
      rw [Option.map_eq_some'] at hh
      obtain ⟨l2, h1, h2⟩ := hh
      rw [← h2, List.length_cons]
      exact Nat.succ_le_succ (ih _ _ l2 h1)
    have one : some [(sq : Int) + beam_of bdir] = some l → l.length ≤ n + 1 := by
      intro hh
      rw [← Option.some.inj hh, List.length_singleton]
      omega
    split at h
    · exact key _ h
    · split at h
      · split at h
        · exact one h
        · exact key _ h
      · exact one h

theorem beam_step_range (sq bdir : Nat) (h : on_board sq) :
    0 ≤ (sq : Int) + beam_of bdir ∧ (sq : Int) + beam_of bdir ≤ 255 := by
  have h2 : sq < 256 := on_board_lt h
  have h3 : 16 ≤ sq := by
    unfold on_board at h
    simp only [FIL_ORIGIN, RNK_ORIGIN, ARR_WIDTH, BOARD_WIDTH] at h
    omega
  have h4 : sq ≤ 239 := by
    unfold on_board at h
    simp only [FIL_ORIGIN, RNK_ORIGIN, ARR_WIDTH, BOARD_WIDTH] at h
    omega
  have hb : beam_of bdir = 1 ∨ beam_of bdir = 16 ∨ beam_of bdir = -1 ∨ beam_of bdir = -16 ∨
      beam_of bdir = 0 := by
    unfold beam_of beam
    rcases bdir with _ | _ | _ | _ | _ <;> simp
  omega

/-- On a board whose squares outside the playing area hold INVALID, a walk
that starts on the playing area computes only indices in `0 .. 255`. -/
theorem laser_index_loop_range (board : Nat → Nat)
    (hb : ∀ sq, sq < ARR_SIZE → ¬ on_board sq → ptype_of (board sq) = INVALID) :
    ∀ fuel sq bdir l, on_board sq → laser_index_loop board fuel sq bdir = some l →
      ∀ x ∈ l, 0 ≤ x ∧ x ≤ 255 := by
  intro fuel
  induction fuel with
  | zero => intro sq bdir l _ h; exact absurd h (by unfold laser_index_loop; exact nofun)
  | succ n ih =>
    intro sq bdir l hsq h
    unfold laser_index_loop at h
    dsimp only at h
    have hr := beam_step_range sq bdir hsq
    have hon : ptype_of (board (as_square (↑sq + beam_of bdir))) ≠ INVALID →
        on_board (as_square (↑sq + beam_of bdir)) := by
      intro hne
      by_contra hc
      exact hne (hb _ (as_square_lt _) hc)
    have key : ∀ bd, on_board (as_square (↑sq + beam_of bdir)) →
        (laser_index_loop board n (as_square (↑sq + beam_of bdir)) bd).map
        (fun l => ((sq : Int) + beam_of bdir) :: l) = some l → ∀ x ∈ l, 0 ≤ x ∧ x ≤ 255 := by
      intro bd ho hh x hx
      rw [Option.map_eq_some'] at hh
      obtain ⟨l2, h1, h2⟩ := hh
      rw [← h2] at hx
      rcases List.mem_cons.mp hx with e | e
      · rw [e]; exact hr
      · exact ih _ _ l2 ho h1 x e
    have one : some [(sq : Int) + beam_of bdir] = some l → ∀ x ∈ l, 0 ≤ x ∧ x ≤ 255 := by
      intro hh x hx
      rw [← Option.some.inj hh] at hx
      rw [List.mem_singleton.mp hx]
      exact hr
    split at h
    · rename_i he
      exact key _ (hon (by rw [he]; decide)) h
    · split at h
      · rename_i he
        split at h
        · exact one h
        · exact key _ (hon (by rw [he]; decide)) h
      · exact one h

theorem map_as_square_of_range (l : List Int) (h : ∀ x ∈ l, 0 ≤ x ∧ x ≤ 255) :
    l.map as_square = l.map Int.toNat := by
  rw [List.map_inj_left]
  intro x hx
  obtain ⟨h1, h2⟩ := h x hx
  unfold as_square
  rw [Int.emod_eq_of_lt h1 (by omega)]

/-- Claim C35: on a board whose squares outside the playing area hold INVALID,
with a KING on the square `kloc[c]` of the playing area, the laser walk from
that King stops within the step budget whatever Pawns stand on the board; every
index `sq + beam_of(bdir)` that it computes lies in `0 .. 255`; `fire` (when
`c` is the shooter), `mark_laser_path` and `mark_laser_path_heuristics` return,
and the squares they step on are these indices. -/
theorem laser_walks_terminate (p : position_t) (c : Nat) (laser_map : Nat → Nat)
    (mark_mask : Nat) (heuristics : heuristics_t)
    (hb : border_ok p) (hk : on_board (p.kloc c))
    (hking : ptype_of (p.board (p.kloc c)) = KING) :
    ∃ indices : List Int,
      laser_index_loop p.board LASER_FUEL (p.kloc c) (ori_of (p.board (p.kloc c))) =
        some indices ∧
      indices.length ≤ LASER_FUEL ∧
      (∀ x ∈ indices, 0 ≤ x ∧ x ≤ 255) ∧
      laser_path p c = some (p.kloc c :: indices.map Int.toNat) ∧
      mark_laser_path p laser_map c mark_mask =
        some ((p.kloc c :: indices.map Int.toNat).foldl
          (fun m x => Function.update m x (m x ||| mark_mask)) laser_map) ∧
      (∃ h, mark_laser_path_heuristics p c heuristics = some h) ∧
      (c = (if color_to_move_of p = WHITE then BLACK else WHITE) →
        ∃ trace v, fire_trace p = some (trace, v) ∧ fire p = some v ∧
          trace.map Prod.fst = indices.map Int.toNat) := by
  obtain ⟨r, hr⟩ := mark_laser_path_stops p laser_map c mark_mask (on_board_lt hk) hking
  rw [mark_laser_path_eq] at hr
  have hsq := laser_index_loop_squares p.board LASER_FUEL (p.kloc c)
    (ori_of (p.board (p.kloc c)))
  cases hi : laser_index_loop p.board LASER_FUEL (p.kloc c) (ori_of (p.board (p.kloc c))) with
  | none =>
    rw [hi] at hsq
    unfold laser_path at hr
    rw [← hsq] at hr
    exact absurd hr (by simp)
  | some indices =>
    rw [hi] at hsq
    have hrange := laser_index_loop_range p.board hb LASER_FUEL (p.kloc c) _ indices hk hi
    have hpath : laser_path_loop p.board LASER_FUEL (p.kloc c)
        (ori_of (p.board (p.kloc c))) = some (indices.map Int.toNat) := by
      rw [← hsq, Option.map_some', map_as_square_of_range indices hrange]
    have hlp : laser_path p c = some (p.kloc c :: indices.map Int.toNat) := by
      unfold laser_path
      rw [hpath]
      rfl
    refine ⟨indices, rfl, laser_index_loop_length p.board _ _ _ indices hi, hrange, hlp, ?_, ?_,
      ?_⟩
    · rw [mark_laser_path_eq, hlp]
      rfl
    · unfold mark_laser_path_heuristics
      dsimp only
      rw [heuristics_loop_eq, hpath]
      exact ⟨_, rfl⟩
    · intro hc
      have ht := fire_trace_squares p.board LASER_FUEL (p.kloc c) (ori_of (p.board (p.kloc c)))
      rw [hpath] at ht
      rw [Option.map_eq_some'] at ht
      obtain ⟨⟨trace, v⟩, t1, t2⟩ := ht
      have hft : fire_trace p = some (trace, v) := by
        unfold fire_trace
        dsimp only
        rw [← hc]
        exact t1
      refine ⟨trace, v, hft, ?_, t2⟩
      unfold fire
      dsimp only
      rw [← hc, fire_loop_eq_trace, t1]
      rfl

set_option maxRecDepth 100000 in
theorem laser_walks_terminate_witness :
    ∃ indices : List Int,
      laser_index_loop loop_position.board LASER_FUEL (loop_position.kloc BLACK)
        (ori_of (loop_position.board (loop_position.kloc BLACK))) = some indices ∧
      indices.length ≤ LASER_FUEL ∧
      (∀ x ∈ indices, 0 ≤ x ∧ x ≤ 255) ∧
      laser_path loop_position BLACK =
        some (loop_position.kloc BLACK :: indices.map Int.toNat) ∧
      mark_laser_path loop_position init_laser_map BLACK 1 =
        some ((loop_position.kloc BLACK :: indices.map Int.toNat).foldl
          (fun m x => Function.update m x (m x ||| 1)) init_laser_map) ∧
      (∃ h, mark_laser_path_heuristics loop_position BLACK ⟨0, 9⟩ = some h) ∧
      (BLACK = (if color_to_move_of loop_position = WHITE then BLACK else WHITE) →
        ∃ trace v, fire_trace loop_position = some (trace, v) ∧ fire loop_position = some v ∧
          trace.map Prod.fst = indices.map Int.toNat) :=
  laser_walks_terminate loop_position BLACK init_laser_map 1 ⟨0, 9⟩ (by decide) (by decide)
    (by decide)

/-! ## The generated moves and the assertions of low_level_make_move -/

/-- Claim C37: on a position that satisfies the board/plocs/kloc invariants,
`generate_all` returns, and every move it returns is nonzero, has its from- and
to-square on the playing area, and either from = to, or the destination is
EMPTY, or a PAWN moves onto a PAWN of the opposite colour; every index
`sq + dir_of(d)` formed from a nonzero pawn slot of the side to move or from
its King square lies in `0 .. 255`. -/
theorem generated_moves_meet_assertions (p : position_t) (list : Nat → Nat) (strict : Bool)
    (hv : valid_position p) :
    ∃ r, generate_all p list strict = some r ∧
      (∀ mv, mv ∈ emitted r →
        mv ≠ 0 ∧ on_board (from_square mv) ∧ on_board (to_square mv) ∧
        (from_square mv = to_square mv ∨ ptype_of (p.board (to_square mv)) = EMPTY ∨
          (ptype_of (p.board (from_square mv)) = PAWN ∧
            ptype_of (p.board (to_square mv)) = PAWN ∧
            color_of (p.board (to_square mv)) =
              opp_color (color_of (p.board (from_square mv)))))) ∧
      (∀ i d, i < NUMBER_PAWNS → d < 8 → p.plocs (color_to_move_of p) i ≠ 0 →
        0 ≤ (p.plocs (color_to_move_of p) i : Int) + dir_of d ∧
        (p.plocs (color_to_move_of p) i : Int) + dir_of d ≤ 255) ∧
      (∀ d, d < 8 →
        0 ≤ (p.kloc (color_to_move_of p) : Int) + dir_of d ∧
        (p.kloc (color_to_move_of p) : Int) + dir_of d ≤ 255) := by
  obtain ⟨lm, -, hg⟩ := generate_all_valid hv list strict
  refine ⟨_, hg, fun mv hmv => ?_, fun i d hi hd h0 => ?_, fun d hd => ?_⟩
  · obtain ⟨h1, h2, hc, h⟩ := generated_move_ok hv hg hmv
    have hne : mv ≠ 0 := by
      intro e
      rw [e] at h
      rcases h with h | h
      · exact absurd h.2.1 (by decide)
      · exact absurd h.2.1 (by decide)
    refine ⟨hne, h1, h2, ?_⟩
    rcases h with ⟨a1, -, a3⟩ | ⟨a1, -, a3⟩
    · rcases a3 with e | e | ⟨e1, e2⟩
      · exact Or.inl e.symm
      · exact Or.inr (Or.inl e)
      · refine Or.inr (Or.inr ⟨a1, e1, ?_⟩)
        rw [hc]
        have l1 := color_of_lt (p.board (to_square mv))
        have l2 := color_to_move_lt p
        unfold opp_color
        simp only [WHITE, BLACK]
        split_ifs <;> omega
    · rcases a3 with e | e
      · exact Or.inl e.symm
      · exact Or.inr (Or.inl e)
  · have := on_board_range (valid_ploc_on_board hv (color_to_move_lt p) hi h0).1
    have := dir_of_cases d hd
    omega
  · have := on_board_range (valid_kloc_on_board hv (color_to_move_lt p)).1
    have := dir_of_cases d hd
    omega

set_option maxRecDepth 100000 in
theorem generated_moves_meet_assertions_witness :
    ∃ r, generate_all pinned_king_position zero_list true = some r ∧
      (∀ mv, mv ∈ emitted r →
        mv ≠ 0 ∧ on_board (from_square mv) ∧ on_board (to_square mv) ∧
        (from_square mv = to_square mv ∨
          ptype_of (pinned_king_position.board (to_square mv)) = EMPTY ∨
          (ptype_of (pinned_king_position.board (from_square mv)) = PAWN ∧
            ptype_of (pinned_king_position.board (to_square mv)) = PAWN ∧
            color_of (pinned_king_position.board (to_square mv)) =
              opp_color (color_of (pinned_king_position.board (from_square mv)))))) ∧
      (∀ i d, i < NUMBER_PAWNS → d < 8 →
        pinned_king_position.plocs (color_to_move_of pinned_king_position) i ≠ 0 →
        0 ≤ (pinned_king_position.plocs (color_to_move_of pinned_king_position) i : Int) +
          dir_of d ∧
        (pinned_king_position.plocs (color_to_move_of pinned_king_position) i : Int) +
          dir_of d ≤ 255) ∧
      (∀ d, d < 8 →
        0 ≤ (pinned_king_position.kloc (color_to_move_of pinned_king_position) : Int) +
          dir_of d ∧
        (pinned_king_position.kloc (color_to_move_of pinned_king_position) : Int) +
          dir_of d ≤ 255) :=
  generated_moves_meet_assertions pinned_king_position zero_list true (by decide)

/-! ## The King null move and the Ko rule -/

/-- The position after `low_level_make_move` for a null move on the square
`k`: the board is the old board, and the key is the old key XOR `zob_color`. -/
theorem llmm_null_move (zob : Nat → Nat → Nat) (zob_color : Nat) (old : position_t)
    (typ k : Nat) (hk : k < 256) (hbyte : old.board k < 256) :
    low_level_make_move zob zob_color old (move_of typ NONE k k) =
      ({ old with history := some old, last_move := move_of typ NONE k k,
                  key := old.key ^^^ zob_color, ply := as_int16 (old.ply + 1) }, 0) := by
  have hf : from_square (move_of typ NONE k k) = k := by
    rw [from_square_move_of, Nat.mod_eq_of_lt hk]
  have ht : to_square (move_of typ NONE k k) = k := by
    rw [to_square_move_of, Nat.mod_eq_of_lt hk]
  have hr : rot_of (move_of typ NONE k k) = 0 := by
    rw [rot_of_move_of]
    rfl
  rw [llmm_rot zob zob_color old _ (by rw [hf, ht]), hf, hr]
  have hs : set_ori (old.board k) (0 + ori_of (old.board k)) = old.board k := by
    rw [set_ori_eq, ori_of_eq]
    omega
  rw [hs, Function.update_eq_self, Nat.xor_assoc (old.key ^^^ zob_color), Nat.xor_self,
    Nat.xor_zero]

/-- The victims of the zap phase on a position with nothing stomped are not the
KO sentinel. -/
theorem zap_phase_not_ko (zob : Nat → Nat → Nat) (q : position_t) (vsq : Nat)
    (hs : q.victims.stomped = 0)
    (hty : ptype_of (q.board vsq) = PAWN ∨ ptype_of (q.board vsq) = KING) :
    is_KO (zap_phase zob q vsq).victims = false ∧ (zap_phase zob q vsq).victims ≠ KO := by
  have h1 : is_KO (zap_phase zob q vsq).victims = false :=
    not_is_KO_of_pieces _ (Or.inl hs) (Or.inr hty)
  refine ⟨h1, fun e => ?_⟩
  rw [e] at h1
  exact absurd h1 (by decide)

/-- Claim C38: on a position that satisfies the invariants, with `USE_KO` set,
`make_move` with the null move of the King of the side to move returns the KO
sentinel if and only if the laser of that King hits nothing (`fire` returns
0); with `USE_KO = 0`, `make_move` returns for every generated move a record
that is not the KO sentinel. -/
theorem null_move_ko (zob : Nat → Nat → Nat) (zob_color : Nat) (USE_KO : Int)
    (old : position_t) (list : Nat → Nat) (strict : Bool)
    (hv : valid_position old)
    (hbyte : old.board (old.kloc (color_to_move_of old)) ≤ MAX_UINT8_T) :
    (∃ new v vsq,
      make_move zob zob_color USE_KO old
        (move_of KING NONE (old.kloc (color_to_move_of old))
          (old.kloc (color_to_move_of old))) = some (new, v) ∧
      fire_loop old.board LASER_FUEL (old.kloc (color_to_move_of old))
        (ori_of (old.board (old.kloc (color_to_move_of old)))) = some vsq ∧
      (USE_KO ≠ 0 → (v = KO ↔ vsq = 0) ∧ (is_KO v = true ↔ vsq = 0))) ∧
    (∀ mv, mv ∈ generated_moves old list strict →
      ∃ new v, make_move zob zob_color 0 old mv = some (new, v) ∧
        is_KO v = false ∧ v ≠ KO) := by
  constructor
  · obtain ⟨hon, hking, -⟩ := valid_kloc_on_board hv (color_to_move_lt old)
    have hk := on_board_lt hon
    obtain ⟨vsq, hfire⟩ := @fire_loop_stops old.board _ _ hk
      (ori_of_lt (old.board (old.kloc (color_to_move_of old))))
      ⟨by rw [hking]; decide, by rw [hking]; decide⟩
    have hll := llmm_null_move zob zob_color old KING _ hk
      (Nat.lt_succ_of_le hbyte)
    have hcol := fire_color zob zob_color old
      (move_of KING NONE (old.kloc (color_to_move_of old)) (old.kloc (color_to_move_of old)))
    have hf : fire (stomp_phase zob (low_level_make_move zob zob_color old
        (move_of KING NONE (old.kloc (color_to_move_of old))
          (old.kloc (color_to_move_of old)))).1
        (low_level_make_move zob zob_color old
        (move_of KING NONE (old.kloc (color_to_move_of old))
          (old.kloc (color_to_move_of old)))).2) = some vsq := by
      unfold fire
      simp only
      rw [hcol, hll]
      simp only [stomp_phase_zero]
      exact hfire
    rw [make_move_eq, hf, hll]
    simp only [stomp_phase_zero]
    by_cases h0 : vsq = 0
    · rw [if_pos h0]
      by_cases hko : USE_KO ≠ 0
      · rw [if_pos ⟨hko, by decide, trivial⟩]
        exact ⟨_, _, vsq, rfl, hfire, fun _ =>
          ⟨⟨fun _ => h0, fun _ => rfl⟩, ⟨fun _ => h0, fun _ => by decide⟩⟩⟩
      · rw [if_neg (fun h => hko h.1)]
        exact ⟨_, _, vsq, rfl, hfire, fun h => absurd h hko⟩
    · rw [if_neg h0]
      have hty : ptype_of (old.board vsq) = PAWN ∨ ptype_of (old.board vsq) = KING := by
        rcases fire_loop_result _ _ _ _ hfire with z | ⟨-, hty⟩
        · exact absurd z h0
        · exact hty
      refine ⟨_, _, vsq, rfl, hfire, fun _ => ⟨⟨fun e => ?_, fun e => absurd e h0⟩,
        ⟨fun e => ?_, fun e => absurd e h0⟩⟩⟩
      · exact absurd e (fun e2 => (zap_phase_not_ko zob _ vsq (by rfl) (by exact hty)).2 e2)
      · exact absurd ((zap_phase_not_ko zob _ vsq (by rfl) (by exact hty)).1.symm.trans e)
          Bool.false_ne_true
  · intro mv hmv
    obtain ⟨new, v, hm, -⟩ := make_move_spec zob zob_color 0 hv (generated_moves_ok hv hmv)
    have hvict := make_move_victims hm
    have hnot : is_KO new.victims = false :=
      not_is_KO_of_pieces _ (hvict.1.elim Or.inl (fun x => Or.inr (Or.inl x))) hvict.2.1
    obtain ⟨q, vsq, -, -, hc⟩ := make_move_cases hm
    have hv2 : v = new.victims := by
      rcases hc with ⟨-, -, ⟨⟨h0, -, -⟩, -⟩ | ⟨-, e⟩⟩ | ⟨-, -, -, -, e⟩
      · exact absurd rfl h0
      · exact e
      · exact e
    refine ⟨new, v, hm, by rw [hv2]; exact hnot, ?_⟩
    intro e
    rw [hv2] at e
    rw [e] at hnot
    exact absurd hnot (by decide)

set_option maxRecDepth 100000 in
theorem null_move_ko_witness :
    (example_result 1 quiet_position
      (move_of KING NONE (square_of 0 0) (square_of 0 0))).2 = KO ∧
    fire_loop quiet_position.board LASER_FUEL (square_of 0 0)
      (ori_of (quiet_position.board (square_of 0 0))) = some 0 ∧
    ∀ mv, mv ∈ generated_moves quiet_position zero_list true →
      ∃ new v, make_move example_zob example_zob_color 0 quiet_position mv = some (new, v) ∧
        is_KO v = false ∧ v ≠ KO :=
  have h := null_move_ko example_zob example_zob_color 1 quiet_position zero_list true
    (by decide) (by decide)
  ⟨by decide, by decide, h.2⟩

/-! ## perft_search and make_move -/

set_option maxRecDepth 100000 in
/-- Claim C39 fails on `stomp_position` (valid, White to move) for the
generated move c3 x d4, which stomps the Black Pawn and zaps nothing: the
position that `perft_search` builds has the board, key and king table of the
position that `make_move` writes, but slot 0 of `plocs[BLACK]` still holds c3,
where `make_move` writes 0; the square c3 is EMPTY, so the pawn-table invariant
fails, and `generate_all` on that position returns the rotation of a Pawn on
c3 that does not exist. -/
theorem perft_successor_keeps_stomped_slot :
    valid_position stomp_position ∧
    move_of PAWN NONE (square_of 2 3) (square_of 3 4) ∈
      generated_moves stomp_position zero_list true ∧
    (example_result 0 stomp_position
      (move_of PAWN NONE (square_of 2 3) (square_of 3 4))).2 =
        ⟨piece_byte PAWN BLACK SW, 0⟩ ∧
    (example_perft_successor stomp_position
      (move_of PAWN NONE (square_of 2 3) (square_of 3 4))).2 = false ∧
    (example_perft_successor stomp_position
      (move_of PAWN NONE (square_of 2 3) (square_of 3 4))).1.key =
      (example_result 0 stomp_position
        (move_of PAWN NONE (square_of 2 3) (square_of 3 4))).1.key ∧
    (∀ sq, sq < ARR_SIZE →
      (example_perft_successor stomp_position
        (move_of PAWN NONE (square_of 2 3) (square_of 3 4))).1.board sq =
      (example_result 0 stomp_position
        (move_of PAWN NONE (square_of 2 3) (square_of 3 4))).1.board sq) ∧
    (example_result 0 stomp_position
      (move_of PAWN NONE (square_of 2 3) (square_of 3 4))).1.plocs BLACK 0 = 0 ∧
    (example_perft_successor stomp_position
      (move_of PAWN NONE (square_of 2 3) (square_of 3 4))).1.plocs BLACK 0 = square_of 2 3 ∧
    ptype_of ((example_perft_successor stomp_position
      (move_of PAWN NONE (square_of 2 3) (square_of 3 4))).1.board (square_of 2 3)) = EMPTY ∧
    pawns_ok (example_result 0 stomp_position
      (move_of PAWN NONE (square_of 2 3) (square_of 3 4))).1 ∧
    ¬ pawns_ok (example_perft_successor stomp_position
      (move_of PAWN NONE (square_of 2 3) (square_of 3 4))).1 ∧
    move_of PAWN RIGHT (square_of 2 3) (square_of 2 3) ∈
      generated_moves (example_perft_successor stomp_position
        (move_of PAWN NONE (square_of 2 3) (square_of 3 4))).1 zero_list true := by
  refine ⟨by decide, by decide, by decide, by decide, by decide, by decide, by decide,
    by decide, by decide, by decide, by decide, by decide⟩

theorem fire_congr (a b : position_t) (h1 : a.board = b.board) (h2 : a.kloc = b.kloc)
    (h3 : a.ply = b.ply) : fire a = fire b := by
  unfold fire color_to_move_of
  rw [h1, h2, h3]

/-- The stomp phase of `perft_search`. -/
theorem perft_successor_eq (zob : Nat → Nat → Nat) (zob_color : Nat) (p : position_t)
    (mv : Nat) (np0 : position_t)
    (h0 : np0 = if (low_level_make_move zob zob_color p mv).2 ≠ 0 then
        { (low_level_make_move zob zob_color p mv).1 with
          victims := { (low_level_make_move zob zob_color p mv).1.victims with
            stomped := (low_level_make_move zob zob_color p mv).1.board
              (low_level_make_move zob zob_color p mv).2 },
          key := (low_level_make_move zob zob_color p mv).1.key ^^^
            zob (low_level_make_move zob zob_color p mv).2
              ((low_level_make_move zob zob_color p mv).1.board
                (low_level_make_move zob zob_color p mv).2) ^^^
            zob (low_level_make_move zob zob_color p mv).2 0,
          board := Function.update (low_level_make_move zob zob_color p mv).1.board
            (low_level_make_move zob zob_color p mv).2 0 }
      else (low_level_make_move zob zob_color p mv).1) :
    perft_successor zob zob_color p mv =
      match fire np0 with
      | none => none
      | some victim_sq =>
        if victim_sq ≠ 0 then
          if ptype_of (np0.board victim_sq) = KING then some (np0, true)
          else some ({ np0 with
            victims := { np0.victims with zapped := np0.board victim_sq },
            key := np0.key ^^^ zob victim_sq (np0.board victim_sq) ^^^ zob victim_sq 0,
            board := Function.update np0.board victim_sq 0 }, false)
        else some (np0, false) := by
  subst h0
  rfl

/-- The position that `perft_search` builds for a move that does not zap a
King has the board, the key and the king table of the position that
`make_move` writes with the Ko rule off, and its pawn table too when the move
has no victim. -/
theorem perft_successor_agrees (zob : Nat → Nat → Nat) (zob_color : Nat) (p : position_t)
    (mv : Nat) (new : position_t) (v : victims_t)
    (h : make_move zob zob_color 0 p mv = some (new, v))
    (hk : ptype_of new.victims.zapped ≠ KING) :
    ∃ np, perft_successor zob zob_color p mv = some (np, false) ∧
      np.board = new.board ∧ np.key = new.key ∧ np.kloc = new.kloc ∧
      (zero_victims new.victims = true → np.plocs = new.plocs) := by
  obtain ⟨q, vsq, hq, hfire, hc⟩ := make_move_cases h
  have hany := llmm_stomped_any zob zob_color p mv
  rw [perft_successor_eq zob zob_color p mv _ rfl]
  generalize hL : low_level_make_move zob zob_color p mv = L at hq hany ⊢
  obtain ⟨L1, s⟩ := L
  dsimp only at hq hany ⊢
  have hst := stomp_phase_stomped zob L1 s hany
  rw [← hq] at hst
  by_cases hs : s = 0
  · subst hs
    rw [stomp_phase_zero] at hq
    rw [if_neg (fun hh => hh rfl)]
    have hf : fire L1 = some vsq := by
      rw [← hfire]
      exact fire_congr _ _ (by rw [hq]) (by rw [hq]) (by rw [hq])
    rw [hf]
    dsimp only
    rcases hc with ⟨hv0, hnew, -⟩ | ⟨hv0, -, hty, hnew, -⟩
    · rw [if_neg (fun hh => hh hv0)]
      refine ⟨L1, rfl, ?_, ?_, ?_, fun _ => ?_⟩ <;> rw [hnew, hq]
    · have hzap : new.victims.zapped = L1.board vsq := by
        rw [hnew, zap_phase_eq, hq]
      rw [hzap] at hk
      rw [if_pos hv0, if_neg hk]
      refine ⟨_, rfl, ?_, ?_, ?_, fun hz => ?_⟩
      · rw [hnew, hq]; rfl
      · rw [hnew, hq]; rfl
      · rw [hnew, hq]; rfl
      · exfalso
        unfold zero_victims at hz
        simp only [Bool.and_eq_true, beq_iff_eq] at hz
        rw [hzap] at hz
        rw [hq] at hty
        exact ptype_ne_zero_of hty hz.2
  · rw [stomp_phase_pos zob L1 hs] at hq
    rw [if_pos hs]
    have hsne : new.victims.stomped ≠ 0 := by
      have e : new.victims.stomped = q.victims.stomped := by
        rcases hc with ⟨-, hnew, -⟩ | ⟨-, -, -, hnew, -⟩
        · rw [hnew]
        · rw [hnew]; rfl
      rw [e]
      exact fun hh => hs (hst.1.mp hh)
    have hnz : zero_victims new.victims = true → False := by
      intro hz
      unfold zero_victims at hz
      simp only [Bool.and_eq_true, beq_iff_eq] at hz
      exact hsne hz.1
    have hkey : L1.key ^^^ zob s (L1.board s) ^^^ zob s 0 = q.key := by
      rw [hq]
    have hf : fire ({ L1 with
        victims := { L1.victims with stomped := L1.board s },
        key := L1.key ^^^ zob s (L1.board s) ^^^ zob s 0,
        board := Function.update L1.board s 0 } : position_t) = some vsq := by
      rw [← hfire]
      exact fire_congr _ _ (by rw [hq]) (by rw [hq]) (by rw [hq])
    rw [hf]
    dsimp only
    rcases hc with ⟨hv0, hnew, -⟩ | ⟨hv0, -, hty, hnew, -⟩
    · rw [if_neg (fun hh => hh hv0)]
      refine ⟨_, rfl, ?_, ?_, ?_, fun hz => (hnz hz).elim⟩
      · rw [hnew, hq]
      · rw [hnew]; exact hkey
      · rw [hnew, hq]
    · have hzap : new.victims.zapped = Function.update L1.board s 0 vsq := by
        rw [hnew, zap_phase_eq, hq]
      rw [hzap] at hk
      rw [if_pos hv0, if_neg hk]
      refine ⟨_, rfl, ?_, ?_, ?_, fun hz => (hnz hz).elim⟩
      · rw [hnew, hq]; rfl
      · rw [hnew]
        dsimp only
        rw [hkey, hq]
        rfl
      · rw [hnew, hq]; rfl

/-! ## old_generate_all as a list of blocks -/

theorem old_gen_square_block (p : position_t) (lm : Nat → Nat) (s : (Nat → Nat) × Nat)
    (sq : Nat) :
    old_gen_square p (color_to_move_of p) lm s sq = emit_all s (old_block p lm sq) := by
  unfold old_gen_square old_block
  dsimp only
  by_cases h0 : ptype_of (p.board sq) = EMPTY
  · rw [if_pos h0, if_pos h0]; rfl
  rw [if_neg h0, if_neg h0]
  by_cases h1 : ptype_of (p.board sq) = PAWN ∧ lm sq = 1
  · rw [if_pos h1, if_pos h1]; rfl
  rw [if_neg h1, if_neg h1]
  by_cases h2 : ptype_of (p.board sq) = PAWN ∨ ptype_of (p.board sq) = KING
  · rw [if_pos h2, if_pos h2]
    by_cases h3 : color_of (p.board sq) ≠ color_to_move_of p
    · rw [if_pos h3, if_pos h3]; rfl
    rw [if_neg h3, if_neg h3]
    rw [foldl_emit_filter, foldl_emit_map, emit_all_append, emit_all_append]
    by_cases h4 : ptype_of (p.board sq) = KING
    · rw [if_pos h4, if_pos h4]; rfl
    · rw [if_neg h4, if_neg h4]; rfl
  · rw [if_neg h2, if_neg h2]; rfl

theorem board_squares_flatMap {β : Type} (B : Nat → List β) :
    board_squares.flatMap B =
      (List.range BOARD_WIDTH).flatMap (fun f =>
        (List.range BOARD_WIDTH).flatMap (fun r => B (square_of f r))) := by
  unfold board_squares
  simp only [List.flatMap_assoc, List.flatMap_map]

/-- `old_generate_all` writes the blocks of the squares of the playing area in
the order of the loops, when the marking of the enemy laser stops. -/
theorem old_generate_all_blocks (p : position_t) (list : Nat → Nat) (strict : Bool) :
    old_generate_all p list strict =
      (mark_laser_path p init_laser_map (opp_color (color_to_move_of p)) 1).map
        (fun lm => emit_all (list, 0) (board_squares.flatMap (old_block p lm))) := by
  unfold old_generate_all
  simp only
  cases hm : mark_laser_path p init_laser_map (opp_color (color_to_move_of p)) 1 with
  | none => rfl
  | some lm =>
    simp only [Option.map_some']
    congr 1
    rw [board_squares_flatMap, ← foldl_emit_all_flatMap]
    apply List.foldl_ext
    intro s f _
    rw [← foldl_emit_all_flatMap]
    apply List.foldl_ext
    intro s r _
    exact old_gen_square_block p lm s (square_of f r)

/-! ## The two move generators write the same moves -/

theorem flatMap_filter_of_nil {α β : Type} (l : List α) (P : α → Bool) (f : α → List β)
    (h : ∀ x ∈ l, P x = false → f x = []) : l.flatMap f = (l.filter P).flatMap f := by
  induction l with
  | nil => rfl
  | cons a l ih =>
    have ih2 := ih (fun x hx => h x (List.mem_cons_of_mem a hx))
    rw [List.flatMap_cons, ih2]
    cases hp : P a with
    | true => rw [List.filter_cons_of_pos hp, List.flatMap_cons]
    | false =>
      rw [List.filter_cons_of_neg (by rw [hp]; exact Bool.false_ne_true),
        h a (List.mem_cons_self a l) hp, List.nil_append]

/-- The block of `old_generate_all` for the square of a pawn slot of the side
to move is the block of `generate_all` for the slot. -/
theorem old_block_pawn (p : position_t) (lm : Nat → Nat) (i : Nat)
    (h0 : p.plocs (color_to_move_of p) i ≠ 0)
    (hp : ptype_of (p.board (p.plocs (color_to_move_of p) i)) = PAWN)
    (hc : color_of (p.board (p.plocs (color_to_move_of p) i)) = color_to_move_of p) :
    old_block p lm (p.plocs (color_to_move_of p) i) = pawn_block p lm i := by
  unfold old_block pawn_block
  dsimp only
  rw [hp, hc, if_neg (by decide), if_neg h0]
  by_cases h1 : lm (p.plocs (color_to_move_of p) i) = 1
  · rw [if_pos ⟨rfl, h1⟩, if_pos h1]
  · rw [if_neg (fun h => h1 h.2), if_neg h1, if_pos (Or.inl rfl), if_neg (fun h => h rfl),
      if_neg (by decide), List.append_nil]
    congr 2
    apply List.filter_congr
    intro d _
    apply decide_eq_decide.mpr
    constructor
    · intro h hh
      apply h
      rcases hh with hh | hh | hh
      · exact Or.inl hh
      · exact Or.inr (Or.inl hh)
      · exact Or.inr (Or.inr (Or.inr ⟨rfl, hh⟩))
    · intro h hh
      apply h
      rcases hh with hh | hh | hh | hh
      · exact Or.inl hh
      · exact Or.inr (Or.inl hh)
      · exact absurd hh.1 (by decide)
      · exact Or.inr (Or.inr hh.2)

/-- The block of `old_generate_all` for the square of the King of the side to
move is the King block of `generate_all`. -/
theorem old_block_king (p : position_t) (lm : Nat → Nat)
    (hp : ptype_of (p.board (p.kloc (color_to_move_of p))) = KING)
    (hc : color_of (p.board (p.kloc (color_to_move_of p))) = color_to_move_of p) :
    old_block p lm (p.kloc (color_to_move_of p)) = king_block p := by
  unfold old_block king_block
  dsimp only
  rw [hp, hc, if_neg (by decide), if_neg (fun h => absurd h.1 (by decide)),
    if_pos (Or.inr rfl), if_neg (fun h => h rfl), if_pos rfl]
  congr 3
  apply List.filter_congr
  intro d _
  apply decide_eq_decide.mpr
  constructor
  · intro h hh
    exact h (Or.inr (Or.inr (Or.inl ⟨rfl, hh⟩)))
  · intro h hh
    apply h
    rcases hh with hh | hh | hh | hh
    · rw [hh]; decide
    · rw [hh]; decide
    · exact hh.2
    · exact absurd hh.1 (by decide)

/-- The block of `old_generate_all` is empty on a square that holds neither a
PAWN nor a KING of the side to move. -/
theorem old_block_other (p : position_t) (lm : Nat → Nat) (sq : Nat)
    (h : ¬ ((ptype_of (p.board sq) = PAWN ∨ ptype_of (p.board sq) = KING) ∧
      color_of (p.board sq) = color_to_move_of p)) :
    old_block p lm sq = [] := by
  unfold old_block
  dsimp only
  by_cases h1 : ptype_of (p.board sq) = EMPTY
  · rw [if_pos h1]
  rw [if_neg h1]
  by_cases h2 : ptype_of (p.board sq) = PAWN ∧ lm sq = 1
  · rw [if_pos h2]
  rw [if_neg h2]
  by_cases h3 : ptype_of (p.board sq) = PAWN ∨ ptype_of (p.board sq) = KING
  · rw [if_pos h3, if_pos (fun e => h ⟨h3, e⟩)]
  · rw [if_neg h3]

/-- On a valid position the squares of the playing area that hold a PAWN or
the KING of the side to move are its nonzero pawn slots and its King square. -/
theorem own_squares_perm {p : position_t} (hv : valid_position p) :
    (board_squares.filter (fun sq =>
      decide ((ptype_of (p.board sq) = PAWN ∨ ptype_of (p.board sq) = KING) ∧
        color_of (p.board sq) = color_to_move_of p))).Perm
    (((List.range NUMBER_PAWNS).filter
        (fun i => decide (p.plocs (color_to_move_of p) i ≠ 0))).map
        (p.plocs (color_to_move_of p)) ++ [p.kloc (color_to_move_of p)]) := by
  have hc := color_to_move_lt p
  obtain ⟨kon, kty, kcol⟩ := valid_kloc_on_board hv hc
  have hpt := hv.2.1
  have hkg := hv.2.2 _ hc
  rw [List.perm_ext_iff_of_nodup (List.Nodup.filter _ board_squares_nodup)]
  · intro sq
    rw [List.mem_filter, mem_board_squares, decide_eq_true_eq, List.mem_append,
      List.mem_singleton, List.mem_map]
    constructor
    · rintro ⟨hon, hty | hty, hcol⟩
      · left
        obtain ⟨i, hi, he, -⟩ := hpt.1 _ hc sq (on_board_lt hon) ⟨hty, hcol⟩
        refine ⟨i, ?_, he⟩
        rw [List.mem_filter, List.mem_range, decide_eq_true_eq, he]
        exact ⟨hi, on_board_ne_zero hon⟩
      · right
        exact hkg.2.2.2 sq (on_board_lt hon) ⟨hty, hcol⟩
    · rintro (⟨i, hi, rfl⟩ | rfl)
      · rw [List.mem_filter, List.mem_range, decide_eq_true_eq] at hi
        obtain ⟨a1, a2, a3⟩ := valid_ploc_on_board hv hc hi.1 hi.2
        exact ⟨a1, Or.inl a2, a3⟩
      · exact ⟨kon, Or.inr kty, kcol⟩
  · rw [List.nodup_append]
    refine ⟨?_, List.nodup_singleton _, ?_⟩
    · apply List.Nodup.map_on _ (List.Nodup.filter _ (List.nodup_range _))
      intro i hi j hj hij
      rw [List.mem_filter, List.mem_range, decide_eq_true_eq] at hi hj
      obtain ⟨a1, a2, a3⟩ := valid_ploc_on_board hv hc hi.1 hi.2
      obtain ⟨k, -, -, huniq⟩ := hpt.1 _ hc _ (on_board_lt a1) ⟨a2, a3⟩
      rw [huniq i hi.1 rfl, huniq j hj.1 hij.symm]
    · intro sq h1 h2
      rw [List.mem_singleton] at h2
      rw [List.mem_map] at h1
      obtain ⟨i, hi, rfl⟩ := h1
      rw [List.mem_filter, List.mem_range, decide_eq_true_eq] at hi
      obtain ⟨-, a2, -⟩ := valid_ploc_on_board hv hc hi.1 hi.2
      rw [h2, kty] at a2
      exact absurd a2 (by decide)

/-- On a valid position the moves written by `old_generate_all` are a
permutation of the moves written by `generate_all`. -/
theorem blocks_perm {p : position_t} (hv : valid_position p) (lm : Nat → Nat) :
    ((List.range NUMBER_PAWNS).flatMap (pawn_block p lm) ++ king_block p).Perm
      (board_squares.flatMap (old_block p lm)) := by
  have hc := color_to_move_lt p
  obtain ⟨-, kty, kcol⟩ := valid_kloc_on_board hv hc
  have e1 : board_squares.flatMap (old_block p lm) =
      (board_squares.filter (fun sq =>
        decide ((ptype_of (p.board sq) = PAWN ∨ ptype_of (p.board sq) = KING) ∧
          color_of (p.board sq) = color_to_move_of p))).flatMap (old_block p lm) := by
    apply flatMap_filter_of_nil
    intro sq _ h
    exact old_block_other p lm sq (of_decide_eq_false h)
  have e2 : (List.range NUMBER_PAWNS).flatMap (pawn_block p lm) =
      ((List.range NUMBER_PAWNS).filter
        (fun i => decide (p.plocs (color_to_move_of p) i ≠ 0))).flatMap (pawn_block p lm) := by
    apply flatMap_filter_of_nil
    intro i _ h
    have h0 : p.plocs (color_to_move_of p) i = 0 := not_not.mp (of_decide_eq_false h)
    unfold pawn_block
    dsimp only
    rw [if_pos h0]
  have e3 : ((List.range NUMBER_PAWNS).filter
        (fun i => decide (p.plocs (color_to_move_of p) i ≠ 0))).flatMap (pawn_block p lm) =
      (((List.range NUMBER_PAWNS).filter
        (fun i => decide (p.plocs (color_to_move_of p) i ≠ 0))).map
        (p.plocs (color_to_move_of p))).flatMap (old_block p lm) := by
    rw [List.flatMap_map]
    apply List.flatMap_congr
    intro i hi
    rw [List.mem_filter, List.mem_range, decide_eq_true_eq] at hi
    obtain ⟨-, a2, a3⟩ := valid_ploc_on_board hv hc hi.1 hi.2
    exact (old_block_pawn p lm i hi.2 a2 a3).symm
  rw [e1, e2, e3, ← old_block_king p lm kty kcol, ← List.flatMap_singleton (old_block p lm),
    ← List.flatMap_append]
  exact List.Perm.flatMap_right _ (own_squares_perm hv).symm

/-- Claim C36: on a position that satisfies the board/plocs/kloc invariants,
`generate_all` and `old_generate_all` return, with the same number of moves,
and the moves they write are permutations of each other (so the same set of
moves); neither result depends on the argument `strict`. -/
theorem generators_agree (p : position_t) (list list_old : Nat → Nat)
    (strict strict_old : Bool) (hv : valid_position p) :
    ∃ r r_old, generate_all p list strict = some r ∧
      old_generate_all p list_old strict_old = some r_old ∧
      r.2 = r_old.2 ∧ (emitted r).Perm (emitted r_old) ∧
      (∀ mv, mv ∈ emitted r ↔ mv ∈ emitted r_old) ∧
      (∀ b, generate_all p list b = some r) ∧
      (∀ b, old_generate_all p list_old b = some r_old) := by
  have hk := valid_kloc_on_board hv (opp_color_lt (color_to_move_of p))
  obtain ⟨lm, hlm⟩ := mark_laser_path_stops p init_laser_map
    (opp_color (color_to_move_of p)) 1 (on_board_lt hk.1) hk.2.1
  have hperm := blocks_perm hv lm
  have g1 : ∀ b, generate_all p list b = some (emit_all (list, 0)
      ((List.range NUMBER_PAWNS).flatMap (pawn_block p lm) ++ king_block p)) := by
    intro b
    rw [generate_all_blocks, hlm]
    rfl
  have g2 : ∀ b, old_generate_all p list_old b = some (emit_all (list_old, 0)
      (board_squares.flatMap (old_block p lm))) := by
    intro b
    rw [old_generate_all_blocks, hlm]
    rfl
  refine ⟨_, _, g1 strict, g2 strict_old, ?_, ?_, ?_, g1, g2⟩
  · rw [(emit_all_spec _ _).1, (emit_all_spec _ _).1, hperm.length_eq]
  · rw [emitted_emit_all, emitted_emit_all]
    exact hperm
  · intro mv
    rw [emitted_emit_all, emitted_emit_all]
    exact hperm.mem_iff

set_option maxRecDepth 100000 in
theorem generators_agree_witness :
    ∃ r r_old, generate_all pinned_king_position zero_list true = some r ∧
      old_generate_all pinned_king_position zero_list false = some r_old ∧
      r.2 = r_old.2 ∧ (emitted r).Perm (emitted r_old) ∧
      (∀ mv, mv ∈ emitted r ↔ mv ∈ emitted r_old) ∧
      (∀ b, generate_all pinned_king_position zero_list b = some r) ∧
      (∀ b, old_generate_all pinned_king_position zero_list b = some r_old) :=
  generators_agree pinned_king_position zero_list zero_list true false (by decide)

/-! ## evaluateMove returns -/

theorem exists_some_ite {α : Type} {c : Prop} [Decidable c] {a b : Option α}
    (ha : ∃ r, a = some r) (hb : ∃ r, b = some r) : ∃ r, (if c then a else b) = some r := by
  by_cases h : c
  · rw [if_pos h]; exact ha
  · rw [if_neg h]; exact hb

/-- On a position whose history chain holds a victim the repetition test
returns, and so does the draw score when the test says yes. -/
theorem is_repeated_returns (DETECT_DRAWS DRAW : Int) (next old : position_t) (ply : Int)
    (hh : next.history = some old) (he : history_ends old) :
    ∃ b, is_repeated DETECT_DRAWS next ply = some b ∧
      (b = true → ∃ score, get_draw_score DRAW next ply = some (some score)) := by
  obtain ⟨b, hb, -⟩ := repetition_scan_spec next.key (old :: ancestors old) he
  rw [← is_repeated_loop_scan] at hb
  unfold is_repeated get_draw_score
  rw [hh]
  dsimp only
  by_cases hd : DETECT_DRAWS = 0
  · rw [if_pos hd]
    exact ⟨false, rfl, fun h => absurd h Bool.false_ne_true⟩
  · rw [if_neg hd]
    refine ⟨b, hb, fun hbt => ?_⟩
    rw [get_draw_score_loop_repeated, hb, hbt]
    exact ⟨_, rfl⟩

/-- On a valid position whose history chain holds a victim, `evaluateMove`
returns for every move that meets the preconditions of
`low_level_make_move`. -/
theorem evaluateMove_returns (cfg : search_config) (zob : Nat → Nat → Nat) (zob_color : Nat)
    (scout_search searchPV : Nat → Int → Int) (abortf : Bool)
    (node : searchNode) (mv killer_a killer_b : Nat) (type : searchType_t)
    (result : moveEvaluationResult)
    (hv : valid_position node.position) (he : history_ends node.position)
    (hm : move_ok node.position mv) :
    ∃ r, evaluateMove cfg zob zob_color scout_search searchPV abortf node mv killer_a killer_b
      type result = some r := by
  obtain ⟨next, v, hmm, -⟩ := make_move_spec zob zob_color cfg.USE_KO hv hm
  obtain ⟨b, hb, hdraw⟩ := is_repeated_returns cfg.DETECT_DRAWS cfg.DRAW next node.position
    node.ply (make_move_history hmm) he
  unfold evaluateMove
  rw [hmm]
  dsimp only
  by_cases h1 : is_KO v = true
  · rw [if_pos h1]; exact ⟨_, rfl⟩
  rw [if_neg h1]
  by_cases h2 : is_game_over v node.pov node.ply = true
  · rw [if_pos h2]; exact ⟨_, rfl⟩
  rw [if_neg h2]
  by_cases h3 : zero_victims v = true ∧ node.quiescence = true
  · rw [if_pos h3]; exact ⟨_, rfl⟩
  rw [if_neg h3, hb]
  cases b with
  | true =>
    obtain ⟨score, hs⟩ := hdraw rfl
    dsimp only
    rw [hs]
    exact ⟨_, rfl⟩
  | false =>
    dsimp only
    exact exists_some_ite ⟨_, rfl⟩
      (exists_some_ite (exists_some_ite ⟨_, rfl⟩ ⟨_, rfl⟩) ⟨_, rfl⟩)

/-! ## The loop body of scout_search after evaluateMove -/

theorem search_process_score_frame (cfg : search_config) (killer : Int → Nat → Nat)
    (node : searchNode) (mv : Nat) (mv_index : Int) (result : moveEvaluationResult) :
    (search_process_score cfg killer node mv mv_index result SEARCH_SCOUT).1.position =
      node.position ∧
    (search_process_score cfg killer node mv mv_index result SEARCH_SCOUT).1.quiescence =
      node.quiescence ∧
    (search_process_score cfg killer node mv mv_index result SEARCH_SCOUT).1.legal_move_count =
      node.legal_move_count ∧
    (search_process_score cfg killer node mv mv_index result SEARCH_SCOUT).1.abort =
      node.abort ∧
    (search_process_score cfg killer node mv mv_index result SEARCH_SCOUT).1.depth =
      node.depth ∧
    (search_process_score cfg killer node mv mv_index result SEARCH_SCOUT).1.beta =
      node.beta := by
  by_cases h1 : result.score > node.best_score
  · rw [search_process_score_pos cfg killer node mv mv_index result _ h1]
    exact ⟨rfl, rfl, rfl, rfl, rfl, rfl⟩
  · rw [search_process_score_neg cfg killer node mv mv_index result _ h1]
    exact ⟨rfl, rfl, rfl, rfl, rfl, rfl⟩

/-- What the loop body after `evaluateMove` keeps of the node, and how it
moves `legal_move_count` and `abort`. -/
theorem after_move_frame (cfg : search_config) (killer : Int → Nat → Nat)
    (abortf parent_aborted : Bool) (node : searchNode) (mv : Nat) (local_index : Int)
    (result : moveEvaluationResult) :
    (scout_search_after_move cfg killer abortf parent_aborted node mv local_index
      result).1.position = node.position ∧
    (scout_search_after_move cfg killer abortf parent_aborted node mv local_index
      result).1.quiescence = node.quiescence ∧
    ((scout_search_after_move cfg killer abortf parent_aborted node mv local_index
      result).2.2 = false →
      (scout_search_after_move cfg killer abortf parent_aborted node mv local_index
        result).1.abort = node.abort) ∧
    ((scout_search_after_move cfg killer abortf parent_aborted node mv local_index
      result).2.2 = true →
      (scout_search_after_move cfg killer abortf parent_aborted node mv local_index
        result).1.abort = true) ∧
    (abortf = true →
      scout_search_after_move cfg killer abortf parent_aborted node mv local_index result =
        (node, killer, false)) := by
  unfold scout_search_after_move
  by_cases h1 : result.type = MOVE_ILLEGAL ∨ result.type = MOVE_IGNORE ∨ abortf = true ∨
      parent_aborted = true
  · rw [if_pos h1]
    exact ⟨rfl, rfl, fun _ => rfl, fun h => absurd h Bool.false_ne_true, fun _ => rfl⟩
  · rw [if_neg h1]
    dsimp only
    have hab : abortf = true → False := fun h => h1 (Or.inr (Or.inr (Or.inl h)))
    by_cases h2 : result.type = MOVE_EVALUATED
    · rw [if_pos h2]
      obtain ⟨f1, f2, f3, f4, -, -⟩ := search_process_score_frame cfg killer
        { node with legal_move_count := node.legal_move_count + 1 } mv local_index result
      by_cases h3 : (search_process_score cfg killer
          { node with legal_move_count := node.legal_move_count + 1 } mv local_index result
          SEARCH_SCOUT).2.2 = true
      · rw [if_pos h3]
        exact ⟨f1, f2, fun h => absurd h (by simp), fun _ => rfl, fun h => (hab h).elim⟩
      · rw [if_neg h3]
        exact ⟨f1, f2, fun _ => f4, fun h => absurd h h3, fun h => (hab h).elim⟩
    · rw [if_neg h2]
      obtain ⟨f1, f2, f3, f4, -, -⟩ := search_process_score_frame cfg killer node mv
        local_index result
      by_cases h3 : (search_process_score cfg killer node mv local_index result
          SEARCH_SCOUT).2.2 = true
      · rw [if_pos h3]
        exact ⟨f1, f2, fun h => absurd h (by simp), fun _ => rfl, fun h => (hab h).elim⟩
      · rw [if_neg h3]
        exact ⟨f1, f2, fun _ => f4, fun h => absurd h h3, fun h => (hab h).elim⟩

/-- The loop body after `evaluateMove` on a result of type `MOVE_EVALUATED`
that is no cutoff, with no abort seen: the move is counted, and the loop goes
on. -/
theorem after_move_evaluated (cfg : search_config) (killer : Int → Nat → Nat)
    (node : searchNode) (mv : Nat) (local_index : Int) (result : moveEvaluationResult)
    (ht : result.type = MOVE_EVALUATED) (hs : result.score < node.beta) :
    (scout_search_after_move cfg killer false false node mv local_index
      result).1.legal_move_count = node.legal_move_count + 1 ∧
    (scout_search_after_move cfg killer false false node mv local_index result).2.2 = false ∧
    (scout_search_after_move cfg killer false false node mv local_index result).1.beta =
      node.beta := by
  unfold scout_search_after_move
  have h1 : ¬ (result.type = MOVE_ILLEGAL ∨ result.type = MOVE_IGNORE ∨ false = true ∨
      false = true) := by
    rw [ht]
    simp
  rw [if_neg h1, if_pos ht]
  dsimp only
  obtain ⟨-, -, f3, -, -, f6⟩ := search_process_score_frame cfg killer
    { node with legal_move_count := node.legal_move_count + 1 } mv local_index result
  have key : ∀ nd : searchNode, result.score < nd.beta →
      (search_process_score cfg killer nd mv local_index result SEARCH_SCOUT).2.2 = false := by
    intro nd hnd
    by_cases hb : result.score > nd.best_score
    · rw [search_process_score_pos cfg killer nd mv local_index result _ hb]
      exact decide_eq_false (not_le.mpr hnd)
    · rw [search_process_score_neg cfg killer nd mv local_index result _ hb]
  have hcut : (search_process_score cfg killer
      { node with legal_move_count := node.legal_move_count + 1 } mv local_index result
      SEARCH_SCOUT).2.2 = false := key _ hs
  rw [if_neg (by rw [hcut]; exact Bool.false_ne_true)]
  exact ⟨f3, hcut, f6⟩

/-! ## The loops of scout_search, one iteration at a time -/

theorem serial_loop_stop (cfg : search_config) (zob : Nat → Nat → Nat) (zob_color : Nat)
    (env : scout_env) (ka kb n todo : Nat) (s : scout_state)
    (h : s.node.legal_move_count > YOUNG_BROTHERS_WAIT) :
    scout_serial_loop cfg zob zob_color env ka kb n (todo + 1) s = some s := by
  unfold scout_serial_loop
  rw [if_pos h]

theorem serial_loop_step (cfg : search_config) (zob : Nat → Nat → Nat) (zob_color : Nat)
    (env : scout_env) (ka kb n todo : Nat) (s : scout_state)
    (r : moveEvaluationResult × List (searchType_t × Int))
    (h : ¬ s.node.legal_move_count > YOUNG_BROTHERS_WAIT)
    (hev : evaluateMove cfg zob zob_color (env.scout_search s.number_of_moves_evaluated)
      (env.searchPV s.number_of_moves_evaluated) (env.abortf_move s.number_of_moves_evaluated)
      s.node (get_move (sort_incremental_new s.move_list n s.number_of_moves_evaluated
        s.number_of_moves_evaluated)) ka kb SEARCH_SCOUT s.result = some r) :
    scout_serial_loop cfg zob zob_color env ka kb n (todo + 1) s =
      if (scout_search_after_move cfg s.killer (env.abortf_after s.number_of_moves_evaluated)
          (env.parent_aborted_after s.number_of_moves_evaluated) s.node
          (get_move (sort_incremental_new s.move_list n s.number_of_moves_evaluated
            s.number_of_moves_evaluated))
          s.number_of_moves_evaluated r.1).2.2 = true
      then some (serial_next cfg env n s r.1)
      else scout_serial_loop cfg zob zob_color env ka kb n todo (serial_next cfg env n s r.1) := by
  conv => lhs; unfold scout_serial_loop
  rw [if_neg h]
  dsimp only
  rw [hev]
  rfl

theorem serial_loop_none (cfg : search_config) (zob : Nat → Nat → Nat) (zob_color : Nat)
    (env : scout_env) (ka kb n todo : Nat) (s : scout_state)
    (h : ¬ s.node.legal_move_count > YOUNG_BROTHERS_WAIT)
    (hev : evaluateMove cfg zob zob_color (env.scout_search s.number_of_moves_evaluated)
      (env.searchPV s.number_of_moves_evaluated) (env.abortf_move s.number_of_moves_evaluated)
      s.node (get_move (sort_incremental_new s.move_list n s.number_of_moves_evaluated
        s.number_of_moves_evaluated)) ka kb SEARCH_SCOUT s.result = none) :
    scout_serial_loop cfg zob zob_color env ka kb n (todo + 1) s = none := by
  conv => lhs; unfold scout_serial_loop
  rw [if_neg h]
  dsimp only
  rw [hev]

theorem parallel_loop_skip (cfg : search_config) (zob : Nat → Nat → Nat) (zob_color : Nat)
    (env : scout_env) (ka kb todo : Nat) (s : scout_state) (h : s.node.abort = true) :
    scout_parallel_loop cfg zob zob_color env ka kb (todo + 1) s =
      scout_parallel_loop cfg zob zob_color env ka kb todo s := by
  conv => lhs; unfold scout_parallel_loop
  rw [if_pos h]

theorem parallel_loop_step (cfg : search_config) (zob : Nat → Nat → Nat) (zob_color : Nat)
    (env : scout_env) (ka kb todo : Nat) (s : scout_state)
    (r : moveEvaluationResult × List (searchType_t × Int))
    (h : ¬ s.node.abort = true)
    (hev : evaluateMove cfg zob zob_color (env.scout_search s.number_of_moves_evaluated)
      (env.searchPV s.number_of_moves_evaluated) (env.abortf_move s.number_of_moves_evaluated)
      s.node (get_move (s.move_list s.number_of_moves_evaluated)) ka kb SEARCH_SCOUT
      (fresh_result env) = some r) :
    scout_parallel_loop cfg zob zob_color env ka kb (todo + 1) s =
      scout_parallel_loop cfg zob zob_color env ka kb todo (parallel_next cfg env s r.1) := by
  conv => lhs; unfold scout_parallel_loop
  rw [if_neg h]
  dsimp only
  unfold fresh_result at hev
  rw [hev]
  rfl

theorem parallel_loop_none (cfg : search_config) (zob : Nat → Nat → Nat) (zob_color : Nat)
    (env : scout_env) (ka kb todo : Nat) (s : scout_state)
    (h : ¬ s.node.abort = true)
    (hev : evaluateMove cfg zob zob_color (env.scout_search s.number_of_moves_evaluated)
      (env.searchPV s.number_of_moves_evaluated) (env.abortf_move s.number_of_moves_evaluated)
      s.node (get_move (s.move_list s.number_of_moves_evaluated)) ka kb SEARCH_SCOUT
      (fresh_result env) = none) :
    scout_parallel_loop cfg zob zob_color env ka kb (todo + 1) s = none := by
  conv => lhs; unfold scout_parallel_loop
  rw [if_neg h]
  dsimp only
  unfold fresh_result at hev
  rw [hev]

/-! ## The moves of the sorted move list -/

theorem get_move_set_sort_key (x key : Nat) : get_move (set_sort_key x key) = get_move x := by
  rw [get_move_eq, get_move_eq, set_sort_key_eq]
  omega

theorem move_ok_get_move (p : position_t) (x : Nat) (h : move_ok p x) :
    move_ok p (get_move x) := by
  have e1 : from_square (get_move x) = from_square x := by
    rw [from_square_eq, from_square_eq, get_move_eq]; omega
  have e2 : to_square (get_move x) = to_square x := by
    rw [to_square_eq, to_square_eq, get_move_eq]; omega
  have e3 : ptype_mv_of (get_move x) = ptype_mv_of x := by
    rw [ptype_mv_of_eq, ptype_mv_of_eq, get_move_eq]; omega
  unfold move_ok at h ⊢
  rw [e1, e2, e3]
  exact h

/-- The loop of `get_sortable_move_list` over the move list changes sort keys
only. -/
theorem sort_keys_fold (hash_table_move killer_a killer_b : Nat) (key : Nat → Nat) :
    ∀ (l : List Nat) (ml : Nat → Nat) (i : Nat),
      get_move ((l.foldl (fun move_list mv_index =>
        if get_move (move_list mv_index) = hash_table_move then
          Function.update move_list mv_index (set_sort_key (move_list mv_index) SORT_MASK)
        else if get_move (move_list mv_index) = killer_a then
          Function.update move_list mv_index
            (set_sort_key (move_list mv_index) (SORT_MASK - 1))
        else if get_move (move_list mv_index) = killer_b then
          Function.update move_list mv_index
            (set_sort_key (move_list mv_index) (SORT_MASK - 2))
        else
          Function.update move_list mv_index
            (set_sort_key (move_list mv_index) (key (get_move (move_list mv_index))))) ml) i) =
      get_move (ml i) := by
  intro l
  induction l with
  | nil => intro ml i; rfl
  | cons a l ih =>
    intro ml i
    rw [List.foldl_cons, ih]
    have upd : ∀ k, get_move (Function.update ml a (set_sort_key (ml a) k) i) =
        get_move (ml i) := by
      intro k
      by_cases e : i = a
      · rw [e, Function.update_same, get_move_set_sort_key]
      · rw [Function.update_noteq e]
    split_ifs <;> exact upd _

/-- On a valid position `get_sortable_move_list` returns, with the number of
moves of `generate_all`, and every entry holds a move that meets the
preconditions of `low_level_make_move`. -/
theorem get_sortable_move_list_returns (best_move_history : Nat → Nat → Nat → Nat → Nat)
    (killer : Int → Nat → Nat) (node : searchNode) (list : Nat → Nat) (hash_table_move : Nat)
    (hv : valid_position node.position) :
    ∃ ml n, get_sortable_move_list best_move_history killer node list hash_table_move =
        some (ml, n) ∧
      moves_ok node.position ml n ∧
      (generate_all node.position list false).map (fun r => r.2) = some n := by
  obtain ⟨lm, -, hg⟩ := generate_all_valid hv list false
  unfold get_sortable_move_list
  rw [hg]
  dsimp only
  refine ⟨_, _, rfl, ?_, rfl⟩
  intro i hi
  have hkey := sort_keys_fold hash_table_move (killer node.ply 0) (killer node.ply 1)
    (fun mv => best_move_history (color_to_move_of node.position) (ptype_mv_of mv)
      (to_square mv) (ORI_MASK &&& (ori_of (node.position.board (from_square mv)) + rot_of mv)))
  rw [hkey]
  apply move_ok_get_move
  obtain ⟨h1, -, h3⟩ := emit_all_spec
    ((List.range NUMBER_PAWNS).flatMap (spec_pawn_moves node.position lm) ++
      spec_king_moves node.position) (list, 0)
  rw [h1, Nat.zero_add] at hi
  have h4 := h3 i hi
  rw [Nat.zero_add] at h4
  rw [h4]
  apply generated_move_ok hv hg
  rw [emitted_emit_all, List.getD_eq_getElem?_getD, List.getElem?_eq_getElem hi]
  exact List.getElem_mem hi

theorem moves_ok_sort_incremental_new (p : position_t) (ml : Nat → Nat) (n i : Nat)
    (hi : i < n) (h : moves_ok p ml n) : moves_ok p (sort_incremental_new ml n i) n := by
  obtain ⟨s1, -, -, s4, -⟩ := sort_incremental_new_step ml n i hi
  intro k hk
  by_cases hki : k < i
  · rw [s1 k (Or.inl hki)]; exact h k hk
  · obtain ⟨j, -, j2, j3⟩ := s4 k (by omega) hk
    rw [j3]; exact h j j2

theorem moves_ok_sort_incremental (p : position_t) (ml : Nat → Nat) (n i : Nat)
    (h : moves_ok p ml n) : moves_ok p (sort_incremental ml n i) n := by
  obtain ⟨hp, -, -⟩ := sort_incremental_spec ml n i
  intro k hk
  have hm : sort_incremental ml n i k ∈ move_entries (sort_incremental ml n i) 0 n :=
    (mem_move_entries _ 0 n _).mpr ⟨k, Nat.zero_le k, by omega, rfl⟩
  rw [hp.mem_iff, mem_move_entries] at hm
  obtain ⟨j, -, j2, j3⟩ := hm
  rw [← j3]
  exact h j (by omega)

/-- The calls of `sort_incremental_new` for the indices from `start` on leave
the entries below `start` as they are. -/
theorem selection_fold_frame (n : Nat) :
    ∀ k start (ml : Nat → Nat) j, start + k ≤ n → j < start →
      ((List.range' start k).foldl (fun ml i => sort_incremental_new ml n i) ml) j = ml j := by
  intro k
  induction k with
  | zero => intro start ml j _ _; rfl
  | succ k ih =>
    intro start ml j hk hj
    rw [List.range'_succ, List.foldl_cons, ih (start + 1) _ j (by omega) (by omega)]
    exact (sort_incremental_new_step ml n start (by omega)).1 j (Or.inl hj)

theorem selection_fold_upto (ml : Nat → Nat) (n k : Nat) :
    (List.range' 0 k).foldl (fun ml i => sort_incremental_new ml n i) ml =
      sort_incremental_new_upto ml n k := by
  unfold sort_incremental_new_upto
  rw [List.range_eq_range']

/-! ## The serial loop of scout_search -/

/-- On a valid position whose history chain holds a victim the serial loop
returns; it keeps the position of the node and the moves of the list. -/
theorem serial_loop_returns (cfg : search_config) (zob : Nat → Nat → Nat) (zob_color : Nat)
    (env : scout_env) (ka kb n : Nat) :
    ∀ todo (s : scout_state), valid_position s.node.position → history_ends s.node.position →
      moves_ok s.node.position s.move_list n → s.number_of_moves_evaluated + todo ≤ n →
      ∃ s', scout_serial_loop cfg zob zob_color env ka kb n todo s = some s' ∧
        s'.node.position = s.node.position ∧ s'.node.quiescence = s.node.quiescence ∧
        moves_ok s.node.position s'.move_list n := by
  intro todo
  induction todo with
  | zero => intro s _ _ hm _; exact ⟨s, rfl, rfl, rfl, hm⟩
  | succ todo ih =>
    intro s hv he hm hn
    by_cases hl : s.node.legal_move_count > YOUNG_BROTHERS_WAIT
    · rw [serial_loop_stop cfg zob zob_color env ka kb n todo s hl]
      exact ⟨s, rfl, rfl, rfl, hm⟩
    · have hm1 := moves_ok_sort_incremental_new _ _ n s.number_of_moves_evaluated
        (by omega) hm
      obtain ⟨r, hev⟩ := evaluateMove_returns cfg zob zob_color
        (env.scout_search s.number_of_moves_evaluated)
        (env.searchPV s.number_of_moves_evaluated)
        (env.abortf_move s.number_of_moves_evaluated) s.node
        (get_move (sort_incremental_new s.move_list n s.number_of_moves_evaluated
          s.number_of_moves_evaluated)) ka kb SEARCH_SCOUT s.result hv he
        (hm1 _ (by omega))
      rw [serial_loop_step cfg zob zob_color env ka kb n todo s r hl hev]
      obtain ⟨f1, f2, -⟩ := after_move_frame cfg s.killer
        (env.abortf_after s.number_of_moves_evaluated)
        (env.parent_aborted_after s.number_of_moves_evaluated) s.node
        (get_move (sort_incremental_new s.move_list n s.number_of_moves_evaluated
          s.number_of_moves_evaluated)) s.number_of_moves_evaluated r.1
      have g1 : (serial_next cfg env n s r.1).node.position = s.node.position := f1
      have g2 : (serial_next cfg env n s r.1).node.quiescence = s.node.quiescence := f2
      have g3 : (serial_next cfg env n s r.1).number_of_moves_evaluated =
          s.number_of_moves_evaluated + 1 := rfl
      have g4 : (serial_next cfg env n s r.1).move_list =
          sort_incremental_new s.move_list n s.number_of_moves_evaluated := rfl
      split
      · exact ⟨_, rfl, g1, g2, by rw [g4]; exact hm1⟩
      · obtain ⟨s', h1, h2, h3, h4⟩ := ih (serial_next cfg env n s r.1)
          (by rw [g1]; exact hv) (by rw [g1]; exact he) (by rw [g1, g4]; exact hm1)
          (by rw [g3]; omega)
        exact ⟨s', h1, h2.trans g1, h3.trans g2, by rw [← g1]; exact h4⟩

/-- The events of the serial loop: the moves are dispatched under consecutive
local indices, each one the entry of the list that `sort_incremental_new` has
put at its index, each one with `legal_move_count` at most
`YOUNG_BROTHERS_WAIT` and the abort flag of the node not set; the loop is left
before the end of the list only with `legal_move_count` above
`YOUNG_BROTHERS_WAIT` or with the abort flag set. -/
theorem serial_loop_events (cfg : search_config) (zob : Nat → Nat → Nat) (zob_color : Nat)
    (env : scout_env) (ka kb n : Nat) :
    ∀ todo (s s' : scout_state), s.number_of_moves_evaluated + todo ≤ n →
      s.node.abort = false →
      scout_serial_loop cfg zob zob_color env ka kb n todo s = some s' →
      ∃ k new, k ≤ todo ∧
        s'.number_of_moves_evaluated = s.number_of_moves_evaluated + k ∧
        s'.events = s.events ++ new ∧
        new.map event_index = List.range' s.number_of_moves_evaluated k ∧
        s'.move_list = (List.range' s.number_of_moves_evaluated k).foldl
          (fun ml i => sort_incremental_new ml n i) s.move_list ∧
        (∀ e ∈ new, ∃ i c, e = scout_event.serial_move i (get_move (s'.move_list i)) c false ∧
          c ≤ YOUNG_BROTHERS_WAIT) ∧
        (k < todo → s'.node.legal_move_count > YOUNG_BROTHERS_WAIT ∨ s'.node.abort = true) := by
  intro todo
  induction todo with
  | zero =>
    intro s s' _ _ h
    have e : s' = s := (Option.some.inj h).symm
    subst e
    exact ⟨0, [], le_refl _, rfl, (List.append_nil _).symm, rfl, rfl,
      fun e he => absurd he (List.not_mem_nil e), fun h => absurd h (Nat.lt_irrefl 0)⟩
  | succ todo ih =>
    intro s s' hn ha h
    by_cases hl : s.node.legal_move_count > YOUNG_BROTHERS_WAIT
    · rw [serial_loop_stop cfg zob zob_color env ka kb n todo s hl] at h
      have e : s' = s := (Option.some.inj h).symm
      subst e
      exact ⟨0, [], Nat.zero_le _, rfl, (List.append_nil _).symm, rfl, rfl,
        fun e he => absurd he (List.not_mem_nil e), fun _ => Or.inl hl⟩
    · cases hev : evaluateMove cfg zob zob_color
        (env.scout_search s.number_of_moves_evaluated)
        (env.searchPV s.number_of_moves_evaluated)
        (env.abortf_move s.number_of_moves_evaluated) s.node
        (get_move (sort_incremental_new s.move_list n s.number_of_moves_evaluated
          s.number_of_moves_evaluated)) ka kb SEARCH_SCOUT s.result with
      | none =>
        rw [serial_loop_none cfg zob zob_color env ka kb n todo s hl hev] at h
        cases h
      | some r =>
        rw [serial_loop_step cfg zob zob_color env ka kb n todo s r hl hev] at h
        obtain ⟨-, -, f3, f4, -⟩ := after_move_frame cfg s.killer
          (env.abortf_after s.number_of_moves_evaluated)
          (env.parent_aborted_after s.number_of_moves_evaluated) s.node
          (get_move (sort_incremental_new s.move_list n s.number_of_moves_evaluated
            s.number_of_moves_evaluated)) s.number_of_moves_evaluated r.1
        have g3 : (serial_next cfg env n s r.1).number_of_moves_evaluated =
            s.number_of_moves_evaluated + 1 := rfl
        have g4 : (serial_next cfg env n s r.1).move_list =
            sort_incremental_new s.move_list n s.number_of_moves_evaluated := rfl
        have g5 : (serial_next cfg env n s r.1).events = s.events ++
            [scout_event.serial_move s.number_of_moves_evaluated
              (get_move (sort_incremental_new s.move_list n s.number_of_moves_evaluated
                s.number_of_moves_evaluated)) s.node.legal_move_count s.node.abort] := rfl
        have hc : s.node.legal_move_count ≤ YOUNG_BROTHERS_WAIT := not_lt.mp hl
        by_cases hf : (scout_search_after_move cfg s.killer
            (env.abortf_after s.number_of_moves_evaluated)
            (env.parent_aborted_after s.number_of_moves_evaluated) s.node
            (get_move (sort_incremental_new s.move_list n s.number_of_moves_evaluated
              s.number_of_moves_evaluated)) s.number_of_moves_evaluated r.1).2.2 = true
        · rw [if_pos hf] at h
          have e : s' = serial_next cfg env n s r.1 := (Option.some.inj h).symm
          subst e
          refine ⟨1, [(scout_event.serial_move s.number_of_moves_evaluated
            (get_move (sort_incremental_new s.move_list n s.number_of_moves_evaluated
              s.number_of_moves_evaluated)) s.node.legal_move_count s.node.abort)],
            by omega, g3, g5, rfl, rfl, ?_, fun _ => Or.inr (f4 hf)⟩
          intro e he
          rw [List.mem_singleton] at he
          rw [he, ha]
          exact ⟨_, _, rfl, hc⟩
        · rw [if_neg hf] at h
          have hff : (scout_search_after_move cfg s.killer
              (env.abortf_after s.number_of_moves_evaluated)
              (env.parent_aborted_after s.number_of_moves_evaluated) s.node
              (get_move (sort_incremental_new s.move_list n s.number_of_moves_evaluated
                s.number_of_moves_evaluated)) s.number_of_moves_evaluated r.1).2.2 = false := by
            simpa using hf
          have ga : (serial_next cfg env n s r.1).node.abort = false := (f3 hff).trans ha
          obtain ⟨k, new, k1, k2, k3, k4, k5, k6, k7⟩ := ih (serial_next cfg env n s r.1) s'
            (by rw [g3]; omega) ga h
          rw [g3] at k2 k4 k5
          rw [g4] at k5
          rw [g5] at k3
          refine ⟨k + 1, (scout_event.serial_move s.number_of_moves_evaluated
            (get_move (sort_incremental_new s.move_list n s.number_of_moves_evaluated
              s.number_of_moves_evaluated)) s.node.legal_move_count s.node.abort) :: new,
            by omega, by rw [k2]; omega, ?_, ?_, ?_, ?_, ?_⟩
          · rw [k3, List.append_assoc]; rfl
          · rw [List.map_cons, k4, List.range'_succ]; rfl
          · rw [k5, List.range'_succ, List.foldl_cons]
          · intro e he
            rcases List.mem_cons.mp he with he | he
            · have hfr : s'.move_list s.number_of_moves_evaluated =
                  sort_incremental_new s.move_list n s.number_of_moves_evaluated
                    s.number_of_moves_evaluated := by
                rw [k5]
                exact selection_fold_frame n k (s.number_of_moves_evaluated + 1) _ _
                  (by omega) (by omega)
              rw [he, ha, ← hfr]
              exact ⟨_, _, rfl, hc⟩
            · exact k6 e he
          · intro hk
            exact k7 (by omega)

/-- With the flag `abortf` read as set after every call of `evaluateMove`, the
serial loop leaves the node and the killer table as they are. -/
theorem serial_loop_abortf (cfg : search_config) (zob : Nat → Nat → Nat) (zob_color : Nat)
    (env : scout_env) (ka kb n : Nat) (hab : ∀ i, env.abortf_after i = true) :
    ∀ todo (s s' : scout_state),
      scout_serial_loop cfg zob zob_color env ka kb n todo s = some s' →
      s'.node = s.node ∧ s'.killer = s.killer := by
  intro todo
  induction todo with
  | zero =>
    intro s s' h
    have e : s' = s := (Option.some.inj h).symm
    subst e
    exact ⟨rfl, rfl⟩
  | succ todo ih =>
    intro s s' h
    by_cases hl : s.node.legal_move_count > YOUNG_BROTHERS_WAIT
    · rw [serial_loop_stop cfg zob zob_color env ka kb n todo s hl] at h
      have e : s' = s := (Option.some.inj h).symm
      subst e
      exact ⟨rfl, rfl⟩
    · cases hev : evaluateMove cfg zob zob_color
        (env.scout_search s.number_of_moves_evaluated)
        (env.searchPV s.number_of_moves_evaluated)
        (env.abortf_move s.number_of_moves_evaluated) s.node
        (get_move (sort_incremental_new s.move_list n s.number_of_moves_evaluated
          s.number_of_moves_evaluated)) ka kb SEARCH_SCOUT s.result with
      | none =>
        rw [serial_loop_none cfg zob zob_color env ka kb n todo s hl hev] at h
        cases h
      | some r =>
        rw [serial_loop_step cfg zob zob_color env ka kb n todo s r hl hev] at h
        obtain ⟨-, -, -, -, f5⟩ := after_move_frame cfg s.killer
          (env.abortf_after s.number_of_moves_evaluated)
          (env.parent_aborted_after s.number_of_moves_evaluated) s.node
          (get_move (sort_incremental_new s.move_list n s.number_of_moves_evaluated
            s.number_of_moves_evaluated)) s.number_of_moves_evaluated r.1
        have f := f5 (hab _)
        have g1 : (serial_next cfg env n s r.1).node = s.node := by
          unfold serial_next
          dsimp only
          rw [f]
        have g2 : (serial_next cfg env n s r.1).killer = s.killer := by
          unfold serial_next
          dsimp only
          rw [f]
        rw [f] at h
        rw [if_neg Bool.false_ne_true] at h
        obtain ⟨h1, h2⟩ := ih _ _ h
        exact ⟨h1.trans g1, h2.trans g2⟩

/-! ## The parallel loop of scout_search, run by one worker -/

theorem parallel_loop_aborted (cfg : search_config) (zob : Nat → Nat → Nat) (zob_color : Nat)
    (env : scout_env) (ka kb : Nat) :
    ∀ todo (s : scout_state), s.node.abort = true →
      scout_parallel_loop cfg zob zob_color env ka kb todo s = some s := by
  intro todo
  induction todo with
  | zero => intro s _; rfl
  | succ todo ih =>
    intro s h
    rw [parallel_loop_skip cfg zob zob_color env ka kb todo s h]
    exact ih s h

/-- On a valid position whose history chain holds a victim the parallel loop
returns; it keeps the position of the node and the move list, dispatches the
entries of the list under consecutive local indices, and leaves entries
undispatched only when the abort flag of the node is set. -/
theorem parallel_loop_returns (cfg : search_config) (zob : Nat → Nat → Nat) (zob_color : Nat)
    (env : scout_env) (ka kb n : Nat) :
    ∀ todo (s : scout_state), valid_position s.node.position → history_ends s.node.position →
      moves_ok s.node.position s.move_list n → s.number_of_moves_evaluated + todo ≤ n →
      ∃ s' k new, scout_parallel_loop cfg zob zob_color env ka kb todo s = some s' ∧
        s'.node.position = s.node.position ∧ s'.node.quiescence = s.node.quiescence ∧
        s'.move_list = s.move_list ∧ k ≤ todo ∧
        s'.number_of_moves_evaluated = s.number_of_moves_evaluated + k ∧
        s'.events = s.events ++ new ∧
        new.map event_index = List.range' s.number_of_moves_evaluated k ∧
        (∀ e ∈ new, ∃ i, e = scout_event.parallel_move i (get_move (s.move_list i))) ∧
        (k < todo → s'.node.abort = true) := by
  intro todo
  induction todo with
  | zero =>
    intro s _ _ _ _
    exact ⟨s, 0, [], rfl, rfl, rfl, rfl, le_refl _, rfl, (List.append_nil _).symm, rfl,
      fun e he => absurd he (List.not_mem_nil e), fun h => absurd h (Nat.lt_irrefl 0)⟩
  | succ todo ih =>
    intro s hv he hm hn
    by_cases ha : s.node.abort = true
    · rw [parallel_loop_aborted cfg zob zob_color env ka kb (todo + 1) s ha]
      exact ⟨s, 0, [], rfl, rfl, rfl, rfl, Nat.zero_le _, rfl, (List.append_nil _).symm, rfl,
        fun e he => absurd he (List.not_mem_nil e), fun _ => ha⟩
    · obtain ⟨r, hev⟩ := evaluateMove_returns cfg zob zob_color
        (env.scout_search s.number_of_moves_evaluated)
        (env.searchPV s.number_of_moves_evaluated)
        (env.abortf_move s.number_of_moves_evaluated) s.node
        (get_move (s.move_list s.number_of_moves_evaluated)) ka kb SEARCH_SCOUT
        (fresh_result env) hv he (hm _ (by omega))
      rw [parallel_loop_step cfg zob zob_color env ka kb todo s r ha hev]
      obtain ⟨f1, f2, -⟩ := after_move_frame cfg s.killer
        (env.abortf_after s.number_of_moves_evaluated)
        (env.parent_aborted_after s.number_of_moves_evaluated) s.node
        (get_move (s.move_list s.number_of_moves_evaluated)) s.number_of_moves_evaluated r.1
      have g1 : (parallel_next cfg env s r.1).node.position = s.node.position := f1
      have g2 : (parallel_next cfg env s r.1).node.quiescence = s.node.quiescence := f2
      have g3 : (parallel_next cfg env s r.1).number_of_moves_evaluated =
          s.number_of_moves_evaluated + 1 := rfl
      have g4 : (parallel_next cfg env s r.1).move_list = s.move_list := rfl
      have g5 : (parallel_next cfg env s r.1).events = s.events ++
          [scout_event.parallel_move s.number_of_moves_evaluated
            (get_move (s.move_list s.number_of_moves_evaluated))] := rfl
      obtain ⟨s', k, new, h1, h2, h3, h4, k1, k2, k3, k4, k6, k7⟩ :=
        ih (parallel_next cfg env s r.1)
          (by rw [g1]; exact hv) (by rw [g1]; exact he) (by rw [g1, g4]; exact hm)
          (by rw [g3]; omega)
      rw [g3] at k2 k4
      rw [g4] at k6 h4
      rw [g5] at k3
      refine ⟨s', k + 1, (scout_event.parallel_move s.number_of_moves_evaluated
            (get_move (s.move_list s.number_of_moves_evaluated))) :: new, h1, h2.trans g1,
        h3.trans g2, h4, by omega, by rw [k2]; omega, ?_, ?_, ?_, fun hk => k7 (by omega)⟩
      · rw [k3, List.append_assoc]; rfl
      · rw [List.map_cons, k4, List.range'_succ]; rfl
      · intro e he2
        rcases List.mem_cons.mp he2 with he2 | he2
        · exact ⟨_, he2⟩
        · exact k6 e he2

/-- With the flag `abortf` read as set after every call of `evaluateMove`, the
parallel loop leaves the node and the killer table as they are. -/
theorem parallel_loop_abortf (cfg : search_config) (zob : Nat → Nat → Nat) (zob_color : Nat)
    (env : scout_env) (ka kb : Nat) (hab : ∀ i, env.abortf_after i = true) :
    ∀ todo (s s' : scout_state),
      scout_parallel_loop cfg zob zob_color env ka kb todo s = some s' →
      s'.node = s.node ∧ s'.killer = s.killer := by
  intro todo
  induction todo with
  | zero =>
    intro s s' h
    have e : s' = s := (Option.some.inj h).symm
    subst e
    exact ⟨rfl, rfl⟩
  | succ todo ih =>
    intro s s' h
    by_cases ha : s.node.abort = true
    · rw [parallel_loop_skip cfg zob zob_color env ka kb todo s ha] at h
      exact ih s s' h
    · cases hev : evaluateMove cfg zob zob_color
        (env.scout_search s.number_of_moves_evaluated)
        (env.searchPV s.number_of_moves_evaluated)
        (env.abortf_move s.number_of_moves_evaluated) s.node
        (get_move (s.move_list s.number_of_moves_evaluated)) ka kb SEARCH_SCOUT
        (fresh_result env) with
      | none =>
        rw [parallel_loop_none cfg zob zob_color env ka kb todo s ha hev] at h
        cases h
      | some r =>
        rw [parallel_loop_step cfg zob zob_color env ka kb todo s r ha hev] at h
        obtain ⟨-, -, -, -, f5⟩ := after_move_frame cfg s.killer
          (env.abortf_after s.number_of_moves_evaluated)
          (env.parent_aborted_after s.number_of_moves_evaluated) s.node
          (get_move (s.move_list s.number_of_moves_evaluated)) s.number_of_moves_evaluated r.1
        have f := f5 (hab _)
        have g1 : (parallel_next cfg env s r.1).node = s.node := by
          unfold parallel_next
          dsimp only
          rw [f]
        have g2 : (parallel_next cfg env s r.1).killer = s.killer := by
          unfold parallel_next
          dsimp only
          rw [f]
        obtain ⟨h1, h2⟩ := ih _ _ h
        exact ⟨h1.trans g1, h2.trans g2⟩

/-! ## The serial loop when every move is searched and none is a cutoff -/

theorem sat_sort_incremental_new (Q : Nat → Prop) (ml : Nat → Nat) (n i : Nat)
    (hi : i < n) (h : ∀ j, j < n → Q (ml j)) : ∀ j, j < n → Q (sort_incremental_new ml n i j) := by
  obtain ⟨s1, -, -, s4, -⟩ := sort_incremental_new_step ml n i hi
  intro k hk
  by_cases hki : k < i
  · rw [s1 k (Or.inl hki)]; exact h k hk
  · obtain ⟨j, -, j2, j3⟩ := s4 k (by omega) hk
    rw [j3]; exact h j j2

/-- When no abort is seen and `evaluateMove` gives every move of the list the
type `MOVE_EVALUATED` and a score below `beta`, the serial loop counts every
move that it dispatches: the move with local index `i` is dispatched with
`legal_move_count` grown by the number of moves dispatched before it. -/
theorem serial_loop_quiet (cfg : search_config) (zob : Nat → Nat → Nat) (zob_color : Nat)
    (env : scout_env) (ka kb n : Nat) (p : position_t) (β : Int) (Q : Nat → Prop)
    (hab : ∀ i, env.abortf_after i = false) (hpa : ∀ i, env.parent_aborted_after i = false)
    (hq : ∀ (i : Nat) (nd : searchNode) (x : Nat) (res : moveEvaluationResult)
        (r : moveEvaluationResult × List (searchType_t × Int)),
      nd.position = p → nd.quiescence = false → nd.beta = β → Q x →
      evaluateMove cfg zob zob_color (env.scout_search i) (env.searchPV i) (env.abortf_move i)
        nd (get_move x) ka kb SEARCH_SCOUT res = some r →
      r.1.type = MOVE_EVALUATED ∧ r.1.score < β) :
    ∀ todo (s s' : scout_state), s.node.position = p → s.node.quiescence = false →
      s.node.beta = β → (∀ j, j < n → Q (s.move_list j)) →
      s.number_of_moves_evaluated + todo ≤ n →
      scout_serial_loop cfg zob zob_color env ka kb n todo s = some s' →
      s'.node.abort = s.node.abort ∧
      s.number_of_moves_evaluated ≤ s'.number_of_moves_evaluated ∧
      s'.node.legal_move_count = s.node.legal_move_count +
        ((s'.number_of_moves_evaluated : Int) - (s.number_of_moves_evaluated : Int)) ∧
      ∀ i mv c a, scout_event.serial_move i mv c a ∈ s'.events →
        scout_event.serial_move i mv c a ∈ s.events ∨
        (s.number_of_moves_evaluated ≤ i ∧
          c = s.node.legal_move_count + ((i : Int) - (s.number_of_moves_evaluated : Int))) := by
  intro todo
  induction todo with
  | zero =>
    intro s s' _ _ _ _ _ h
    have e : s' = s := (Option.some.inj h).symm
    subst e
    exact ⟨rfl, le_refl _, by omega, fun i mv c a h => Or.inl h⟩
  | succ todo ih =>
    intro s s' hp hqu hb hm hn h
    by_cases hl : s.node.legal_move_count > YOUNG_BROTHERS_WAIT
    · rw [serial_loop_stop cfg zob zob_color env ka kb n todo s hl] at h
      have e : s' = s := (Option.some.inj h).symm
      subst e
      exact ⟨rfl, le_refl _, by omega, fun i mv c a h => Or.inl h⟩
    · have hm1 := sat_sort_incremental_new Q _ n s.number_of_moves_evaluated
        (by omega) hm
      cases hev : evaluateMove cfg zob zob_color
        (env.scout_search s.number_of_moves_evaluated)
        (env.searchPV s.number_of_moves_evaluated)
        (env.abortf_move s.number_of_moves_evaluated) s.node
        (get_move (sort_incremental_new s.move_list n s.number_of_moves_evaluated
          s.number_of_moves_evaluated)) ka kb SEARCH_SCOUT s.result with
      | none =>
        rw [serial_loop_none cfg zob zob_color env ka kb n todo s hl hev] at h
        cases h
      | some r =>
        rw [serial_loop_step cfg zob zob_color env ka kb n todo s r hl hev] at h
        obtain ⟨q1, q2⟩ := hq _ _ _ _ r hp hqu hb (hm1 _ (by omega)) hev
        rw [← hb] at q2
        obtain ⟨f1, f2, f3, -, -⟩ := after_move_frame cfg s.killer
          (env.abortf_after s.number_of_moves_evaluated)
          (env.parent_aborted_after s.number_of_moves_evaluated) s.node
          (get_move (sort_incremental_new s.move_list n s.number_of_moves_evaluated
            s.number_of_moves_evaluated)) s.number_of_moves_evaluated r.1
        have e1 := after_move_evaluated cfg s.killer s.node
          (get_move (sort_incremental_new s.move_list n s.number_of_moves_evaluated
            s.number_of_moves_evaluated)) s.number_of_moves_evaluated r.1 q1 q2
        rw [hab, hpa] at h f1 f2 f3
        obtain ⟨c1, c2, c3⟩ := e1
        rw [c2] at h
        rw [if_neg Bool.false_ne_true] at h
        have g1 : (serial_next cfg env n s r.1).node.position = p := by
          unfold serial_next
          dsimp only
          rw [hab, hpa, f1, hp]
        have g2 : (serial_next cfg env n s r.1).node.quiescence = false := by
          unfold serial_next
          dsimp only
          rw [hab, hpa, f2, hqu]
        have g3 : (serial_next cfg env n s r.1).number_of_moves_evaluated =
            s.number_of_moves_evaluated + 1 := rfl
        have g4 : (serial_next cfg env n s r.1).move_list =
            sort_incremental_new s.move_list n s.number_of_moves_evaluated := rfl
        have g5 : (serial_next cfg env n s r.1).events = s.events ++
            [scout_event.serial_move s.number_of_moves_evaluated
              (get_move (sort_incremental_new s.move_list n s.number_of_moves_evaluated
                s.number_of_moves_evaluated)) s.node.legal_move_count s.node.abort] := rfl
        have g6 : (serial_next cfg env n s r.1).node.beta = β := by
          unfold serial_next
          dsimp only
          rw [hab, hpa, c3, hb]
        have g7 : (serial_next cfg env n s r.1).node.legal_move_count =
            s.node.legal_move_count + 1 := by
          unfold serial_next
          dsimp only
          rw [hab, hpa, c1]
        have g8 : (serial_next cfg env n s r.1).node.abort = s.node.abort := by
          unfold serial_next
          dsimp only
          rw [hab, hpa]
          exact f3 c2
        obtain ⟨i1, i2, i3, i4⟩ := ih (serial_next cfg env n s r.1) s' g1 g2 g6
          (by rw [g4]; exact hm1) (by rw [g3]; omega) h
        rw [g3] at i2 i3 i4
        rw [g7] at i3 i4
        refine ⟨i1.trans g8, by omega, by rw [i3]; push_cast; ring, ?_⟩
        intro i mv c a hmem
        rcases i4 i mv c a hmem with h5 | ⟨h5, h6⟩
        · rw [g5] at h5
          rcases List.mem_append.mp h5 with h7 | h7
          · exact Or.inl h7
          · rw [List.mem_singleton] at h7
            injection h7 with j1 j2 j3 j4
            right
            rw [j1, j3]
            exact ⟨le_refl _, by omega⟩
        · right
          refine ⟨by omega, ?_⟩
          rw [h6]
          push_cast
          ring

/-! ## scout_search, phase by phase -/

theorem scout_search_entry_abort (cfg : search_config) (zob : Nat → Nat → Nat)
    (zob_color : Nat) (best_move_history : Nat → Nat → Nat → Nat → Nat) (env : scout_env)
    (killer : Int → Nat → Nat) (node parent : searchNode) (depth : Int) (list : Nat → Nat)
    (h : env.should_abort_check = true ∨ env.parent_aborted_entry = true) :
    scout_search cfg zob zob_color best_move_history env killer node parent depth list =
      some { score := 0, node := initialize_scout_node node parent depth, killer := killer,
             events := [] } := by
  unfold scout_search
  dsimp only
  rw [if_pos h]

theorem scout_search_pre_final (cfg : search_config) (zob : Nat → Nat → Nat)
    (zob_color : Nat) (best_move_history : Nat → Nat → Nat → Nat → Nat) (env : scout_env)
    (killer : Int → Nat → Nat) (node parent : searchNode) (depth : Int) (list : Nat → Nat)
    (h : ¬ (env.should_abort_check = true ∨ env.parent_aborted_entry = true))
    (hpre : (evaluate_as_leaf cfg env.RANDOMIZE env.rnd env.scores env.tt_record
      (initialize_scout_node node parent depth) SEARCH_SCOUT).type = MOVE_EVALUATED) :
    scout_search cfg zob zob_color best_move_history env killer node parent depth list =
      some { score := (evaluate_as_leaf cfg env.RANDOMIZE env.rnd env.scores env.tt_record
               (initialize_scout_node node parent depth) SEARCH_SCOUT).score,
             node := initialize_scout_node node parent depth, killer := killer,
             events := [] } := by
  unfold scout_search
  dsimp only
  rw [if_neg h, if_pos hpre]

theorem scout_search_loops (cfg : search_config) (zob : Nat → Nat → Nat)
    (zob_color : Nat) (best_move_history : Nat → Nat → Nat → Nat → Nat) (env : scout_env)
    (killer : Int → Nat → Nat) (node parent : searchNode) (depth : Int) (list : Nat → Nat)
    (ml : Nat → Nat) (n : Nat) (s : scout_state)
    (h : ¬ (env.should_abort_check = true ∨ env.parent_aborted_entry = true))
    (hpre : (evaluate_as_leaf cfg env.RANDOMIZE env.rnd env.scores env.tt_record
      (initialize_scout_node node parent depth) SEARCH_SCOUT).type ≠ MOVE_EVALUATED)
    (hl : get_sortable_move_list best_move_history killer
      (scout_start_node cfg env node parent depth) list
      (evaluate_as_leaf cfg env.RANDOMIZE env.rnd env.scores env.tt_record
        (initialize_scout_node node parent depth) SEARCH_SCOUT).hash_table_move = some (ml, n))
    (hs : scout_serial_loop cfg zob zob_color env
      (killer (scout_start_node cfg env node parent depth).ply 0)
      (killer (scout_start_node cfg env node parent depth).ply 1) n n
      { node := scout_start_node cfg env node parent depth, killer := killer, move_list := ml,
        number_of_moves_evaluated := 0, result := fresh_result env, events := [] } = some s) :
    scout_search cfg zob zob_color best_move_history env killer node parent depth list =
      if env.parent_aborted_serial = true then
        some { score := 0, node := s.node, killer := s.killer, events := s.events }
      else if ¬ s.node.abort = true then
        (scout_parallel_loop cfg zob zob_color env
          (killer (scout_start_node cfg env node parent depth).ply 0)
          (killer (scout_start_node cfg env node parent depth).ply 1)
          (n - s.number_of_moves_evaluated) (parallel_start s n)).map (scout_finish env)
      else some (scout_finish env s) := by
  unfold scout_start_node at hl hs ⊢
  unfold fresh_result at hs
  unfold scout_search
  dsimp only
  rw [if_neg h, if_neg hpre, hl]
  dsimp only
  rw [hs]
  dsimp only
  split
  · rfl
  · split
    · unfold parallel_start
      cases scout_parallel_loop cfg zob zob_color env _ _ _ _ <;> rfl
    · rfl

/-- The end of `scout_search`: with the abort flag of an ancestor set it
returns 0 and calls neither `update_best_move_history` nor
`update_transposition_table`; otherwise it calls `update_best_move_history`
when the node is not a quiescence node, then `update_transposition_table`,
and returns `best_score`. -/
theorem scout_finish_spec (env : scout_env) (s : scout_state) :
    (scout_finish env s).node = s.node ∧
    ∃ fin, (scout_finish env s).events = s.events ++ fin ∧
      (∀ e ∈ fin, is_table_update e = true) ∧
      (env.parent_aborted_final = true → fin = [] ∧ (scout_finish env s).score = 0) ∧
      (env.parent_aborted_final = false →
        (scout_finish env s).score = s.node.best_score ∧
        scout_event.update_transposition_table s.node.position.key s.node.depth
          s.node.best_score ∈ fin ∧
        (s.node.quiescence = false →
          scout_event.update_best_move_history s.node.best_move_index
            s.number_of_moves_evaluated ∈ fin)) := by
  unfold scout_finish
  by_cases h : env.parent_aborted_final = true
  · rw [if_pos h]
    refine ⟨rfl, [], (List.append_nil _).symm, fun e he => absurd he (List.not_mem_nil e),
      fun _ => ⟨rfl, rfl⟩, fun h2 => ?_⟩
    rw [h] at h2
    exact absurd h2 (by decide)
  · rw [if_neg h]
    dsimp only
    by_cases hq : s.node.quiescence = false
    · rw [if_pos hq]
      refine ⟨rfl, [scout_event.update_best_move_history s.node.best_move_index
          s.number_of_moves_evaluated,
        scout_event.update_transposition_table s.node.position.key s.node.depth
          s.node.best_score], by rw [List.append_assoc]; rfl, ?_, fun h2 => absurd h2 h,
        fun _ => ⟨rfl, by simp, fun _ => by simp⟩⟩
      intro e he
      rcases List.mem_cons.mp he with he | he
      · rw [he]; rfl
      · rw [List.mem_singleton.mp he]; rfl
    · rw [if_neg hq]
      refine ⟨rfl, [scout_event.update_transposition_table s.node.position.key s.node.depth
          s.node.best_score], rfl, ?_, fun h2 => absurd h2 h,
        fun _ => ⟨rfl, by simp, fun h3 => absurd h3 hq⟩⟩
      intro e he
      rw [List.mem_singleton.mp he]; rfl

theorem mem_range_of_map_index {new : List scout_event} {a k : Nat}
    (h : new.map event_index = List.range' a k) {e : scout_event} (he : e ∈ new) :
    a ≤ event_index e ∧ event_index e < a + k := by
  have h1 : event_index e ∈ new.map event_index := List.mem_map_of_mem _ he
  rw [h, List.mem_range'_1] at h1
  exact h1

/-- The phases of `scout_search` past the entry test and the pre-evaluation:
the serial loop, its events and the state in which it is left, then the events
of the parallel loop and of the end of the function. -/
theorem scout_search_phases (cfg : search_config) (zob : Nat → Nat → Nat)
    (zob_color : Nat) (best_move_history : Nat → Nat → Nat → Nat → Nat) (env : scout_env)
    (killer : Int → Nat → Nat) (node parent : searchNode) (depth : Int) (list : Nat → Nat)
    (hv : valid_position node.position) (he : history_ends node.position)
    (h : ¬ (env.should_abort_check = true ∨ env.parent_aborted_entry = true))
    (hpre : (evaluate_as_leaf cfg env.RANDOMIZE env.rnd env.scores env.tt_record
      (initialize_scout_node node parent depth) SEARCH_SCOUT).type ≠ MOVE_EVALUATED) :
    ∃ out ml n s m par fin,
      scout_search cfg zob zob_color best_move_history env killer node parent depth list =
        some out ∧
      get_sortable_move_list best_move_history killer
        (scout_start_node cfg env node parent depth) list
        (evaluate_as_leaf cfg env.RANDOMIZE env.rnd env.scores env.tt_record
          (initialize_scout_node node parent depth) SEARCH_SCOUT).hash_table_move =
        some (ml, n) ∧
      scout_serial_loop cfg zob zob_color env
        (killer (scout_start_node cfg env node parent depth).ply 0)
        (killer (scout_start_node cfg env node parent depth).ply 1) n n
        { node := scout_start_node cfg env node parent depth, killer := killer,
          move_list := ml, number_of_moves_evaluated := 0, result := fresh_result env,
          events := [] } = some s ∧
      s.number_of_moves_evaluated ≤ n ∧
      s.events.map event_index = List.range s.number_of_moves_evaluated ∧
      (∀ e ∈ s.events, ∃ i c,
        e = scout_event.serial_move i (get_move (sort_incremental_new_upto ml n n i)) c false ∧
        c ≤ YOUNG_BROTHERS_WAIT) ∧
      (s.number_of_moves_evaluated < n →
        s.node.legal_move_count > YOUNG_BROTHERS_WAIT ∨ s.node.abort = true) ∧
      out.events = s.events ++ (par ++ fin) ∧
      par.map event_index = List.range' s.number_of_moves_evaluated m ∧
      s.number_of_moves_evaluated + m ≤ n ∧
      (∀ e ∈ par, ∃ i, e = scout_event.parallel_move i
        (get_move (sort_incremental (sort_incremental_new_upto ml n s.number_of_moves_evaluated)
          n s.number_of_moves_evaluated i))) ∧
      (∀ e ∈ fin, is_table_update e = true) ∧
      (s.number_of_moves_evaluated + m < n →
        out.node.abort = true ∨ env.parent_aborted_serial = true) ∧
      (env.parent_aborted_serial = true ∨ env.parent_aborted_final = true →
        fin = [] ∧ out.score = 0) ∧
      (env.parent_aborted_serial = false → env.parent_aborted_final = false →
        out.score = out.node.best_score ∧
        scout_event.update_transposition_table out.node.position.key out.node.depth
          out.node.best_score ∈ fin ∧
        (out.node.quiescence = false →
          scout_event.update_best_move_history out.node.best_move_index
            (s.number_of_moves_evaluated + m) ∈ fin)) := by
  obtain ⟨ml, n, hl, hmo, -⟩ := get_sortable_move_list_returns best_move_history killer
    (scout_start_node cfg env node parent depth) list
    (evaluate_as_leaf cfg env.RANDOMIZE env.rnd env.scores env.tt_record
      (initialize_scout_node node parent depth) SEARCH_SCOUT).hash_table_move hv
  obtain ⟨s, hs, sp, -, sm⟩ := serial_loop_returns cfg zob zob_color env
    (killer (scout_start_node cfg env node parent depth).ply 0)
    (killer (scout_start_node cfg env node parent depth).ply 1) n n
    { node := scout_start_node cfg env node parent depth, killer := killer,
      move_list := ml, number_of_moves_evaluated := 0, result := fresh_result env,
      events := [] } hv he hmo (by show 0 + n ≤ n; omega)
  obtain ⟨k, new, k1, k2, k3, k4, k5, k6, k7⟩ := serial_loop_events cfg zob zob_color env
    (killer (scout_start_node cfg env node parent depth).ply 0)
    (killer (scout_start_node cfg env node parent depth).ply 1) n n _ s
    (by show 0 + n ≤ n; omega) rfl hs
  have e2 : s.number_of_moves_evaluated = k := by rw [k2]; exact Nat.zero_add k
  have e3 : s.events = new := k3
  have e5 : s.move_list = sort_incremental_new_upto ml n k := by
    rw [k5]; exact selection_fold_upto ml n k
  have e4 : new.map event_index = List.range' 0 k := k4
  have hser : ∀ e ∈ s.events, ∃ i c,
      e = scout_event.serial_move i (get_move (sort_incremental_new_upto ml n n i)) c false ∧
      c ≤ YOUNG_BROTHERS_WAIT := by
    intro e hin
    rw [e3] at hin
    obtain ⟨i, c, hi, hc⟩ := k6 e hin
    have hik := (mem_range_of_map_index e4 hin).2
    rw [hi] at hik
    have hik2 : i < k := by simpa [event_index] using hik
    refine ⟨i, c, ?_, hc⟩
    rw [hi, e5]
    have hp := sort_incremental_new_upto_prefix ml n k (n - k) i hik2
    rw [show k + (n - k) = n by omega] at hp
    rw [hp]
  have hshape := scout_search_loops cfg zob zob_color best_move_history env killer node parent
    depth list ml n s h hpre hl hs
  have hidx : s.events.map event_index = List.range s.number_of_moves_evaluated := by
    rw [e3, e4, e2, List.range_eq_range']
  have hstop : s.number_of_moves_evaluated < n →
      s.node.legal_move_count > YOUNG_BROTHERS_WAIT ∨ s.node.abort = true := by
    intro hlt
    exact k7 (by omega)
  by_cases hps : env.parent_aborted_serial = true
  · rw [if_pos hps] at hshape
    exact ⟨_, ml, n, s, 0, [], [], hshape, hl, hs, by omega, hidx, hser, hstop,
      by simp, rfl, by omega, fun e hin => absurd hin (List.not_mem_nil e),
      fun e hin => absurd hin (List.not_mem_nil e), fun _ => Or.inr hps,
      fun _ => ⟨rfl, rfl⟩, fun hc => by rw [hps] at hc; exact absurd hc (by decide)⟩
  · rw [if_neg hps] at hshape
    by_cases hab : s.node.abort = true
    · rw [if_neg (not_not.mpr hab)] at hshape
      obtain ⟨f0, fin, f1, f2, f3, f4⟩ := scout_finish_spec env s
      refine ⟨_, ml, n, s, 0, [], fin, hshape, hl, hs, by omega, hidx, hser, hstop,
        by rw [f1]; rfl, rfl, by omega, fun e hin => absurd hin (List.not_mem_nil e),
        f2, fun _ => Or.inl (by rw [f0]; exact hab), fun hc => ?_, fun _ hf => ?_⟩
      · rcases hc with hc | hc
        · exact absurd hc hps
        · exact f3 hc
      · rw [f0]
        exact f4 hf
    · rw [if_pos hab] at hshape
      obtain ⟨s2, m, par, p1, p2, -, p4, p5, p6, p7, p8, p9, p10⟩ :=
        parallel_loop_returns cfg zob zob_color env
          (killer (scout_start_node cfg env node parent depth).ply 0)
          (killer (scout_start_node cfg env node parent depth).ply 1) n
          (n - s.number_of_moves_evaluated) (parallel_start s n)
          (by show valid_position s.node.position; rw [sp]; exact hv)
          (by show history_ends s.node.position; rw [sp]; exact he)
          (by
            show moves_ok s.node.position
              (sort_incremental s.move_list n s.number_of_moves_evaluated) n
            rw [sp]
            exact moves_ok_sort_incremental _ _ n _ sm)
          (by show s.number_of_moves_evaluated + (n - s.number_of_moves_evaluated) ≤ n; omega)
      rw [p1] at hshape
      obtain ⟨f0, fin, f1, f2, f3, f4⟩ := scout_finish_spec env s2
      refine ⟨_, ml, n, s, m, par, fin, hshape, hl, hs, by omega, hidx, hser, hstop,
        ?_, p8, ?_, ?_, f2, fun hlt => Or.inl ?_, fun hc => ?_, fun _ hf => ?_⟩
      · show (scout_finish env s2).events = _
        rw [f1, p7, List.append_assoc]
        rfl
      · omega
      · intro e hin
        obtain ⟨i, hi⟩ := p9 e hin
        refine ⟨i, ?_⟩
        rw [hi]
        show scout_event.parallel_move i (get_move (sort_incremental s.move_list n
          s.number_of_moves_evaluated i)) = _
        rw [e5, e2]
      · show (scout_finish env s2).node.abort = true
        rw [f0]
        exact p10 (by omega)
      · rcases hc with hc | hc
        · exact absurd hc hps
        · exact f3 hc
      · show (scout_finish env s2).score = (scout_finish env s2).node.best_score ∧ _
        have p6b : s2.number_of_moves_evaluated = s.number_of_moves_evaluated + m := p6
        rw [f0, ← p6b]
        exact f4 hf

/-! ## An example: eighteen quiet moves, no cutoff -/

/-- The moves of the list that `get_sortable_move_list` returns are the moves
of `generate_all`, entry by entry. -/
theorem get_sortable_move_list_entries (best_move_history : Nat → Nat → Nat → Nat → Nat)
    (killer : Int → Nat → Nat) (node : searchNode) (list : Nat → Nat) (hash_table_move : Nat)
    (r : (Nat → Nat) × Nat) (hg : generate_all node.position list false = some r) :
    ∃ ml, get_sortable_move_list best_move_history killer node list hash_table_move =
        some (ml, r.2) ∧ ∀ i, get_move (ml i) = get_move (r.1 i) := by
  unfold get_sortable_move_list
  rw [hg]
  dsimp only
  refine ⟨_, rfl, fun i => ?_⟩
  exact sort_keys_fold hash_table_move (killer node.ply 0) (killer node.ply 1)
    (fun mv => best_move_history (color_to_move_of node.position) (ptype_mv_of mv)
      (to_square mv) (ORI_MASK &&& (ori_of (node.position.board (from_square mv)) + rot_of mv)))
    _ _ i

theorem search_position_valid : valid_position search_position := by
  set_option maxRecDepth 100000 in decide

theorem search_position_history : history_ends search_position :=
  ⟨1, _, rfl, by decide⟩

theorem search_position_moves :
    (generated_moves search_position zero_list false).length = 18 ∧
    ∀ mv ∈ generated_moves search_position zero_list false,
      (make_move example_zob example_zob_color 0 search_position (get_move mv)).isSome = true ∧
      (example_result 0 search_position (get_move mv)).2.stomped = 0 ∧
      (example_result 0 search_position (get_move mv)).2.zapped = 0 := by
  set_option maxRecDepth 100000 in decide

theorem search_position_not_repeated (DETECT_DRAWS : Int) (next : position_t) (ply : Int)
    (h : next.history = some search_position) :
    is_repeated DETECT_DRAWS next ply = some false := by
  unfold is_repeated
  rw [h]
  split
  · rfl
  · rfl

/-- On a node on `search_position` that is not a quiescence node, with child
searches that return 0 and `beta = 1000`, `evaluateMove` gives every generated
move the type `MOVE_EVALUATED` and the score 0. -/
theorem search_position_evaluated (i : Nat) (nd : searchNode) (x : Nat)
    (res : moveEvaluationResult) (ka kb : Nat)
    (r : moveEvaluationResult × List (searchType_t × Int))
    (hp : nd.position = search_position) (hqu : nd.quiescence = false) (hb : nd.beta = 1000)
    (hx : ∃ mv ∈ generated_moves search_position zero_list false, get_move x = get_move mv)
    (hev : evaluateMove no_ko_config example_zob example_zob_color (quiet_env.scout_search i)
      (quiet_env.searchPV i) (quiet_env.abortf_move i) nd (get_move x) ka kb SEARCH_SCOUT res =
        some r) :
    r.1.type = MOVE_EVALUATED ∧ r.1.score < 1000 := by
  obtain ⟨mv, hmv, hxe⟩ := hx
  obtain ⟨hsome, hst, hz⟩ := search_position_moves.2 mv hmv
  rw [← hxe] at hsome hst hz
  obtain ⟨⟨next, v⟩, hmk⟩ := Option.isSome_iff_exists.mp hsome
  have hv2 : (example_result 0 search_position (get_move x)).2 = v := by
    unfold example_result
    rw [hmk]
    rfl
  rw [hv2] at hst hz
  have hmk2 : make_move example_zob example_zob_color no_ko_config.USE_KO nd.position
      (get_move x) = some (next, v) := by
    rw [hp]; exact hmk
  have h1 : is_KO v = false := by
    unfold is_KO
    rw [hst, hz]
    decide
  have h2 : ptype_of v.zapped ≠ KING := by
    rw [hz]; decide
  have hev2 := evaluateMove_scout_search no_ko_config example_zob example_zob_color
    (quiet_env.scout_search i) (quiet_env.searchPV i) nd (get_move x) ka kb res next v hmk2
    h1 h2 (fun hc => by rw [hqu] at hc; exact absurd hc.2 (by decide))
    (search_position_not_repeated _ next nd.ply
      ((make_move_history hmk2).trans (by rw [hp])))
    (fun hc => by rw [hqu] at hc; exact absurd hc.1 (by decide))
  have hev3 : evaluateMove no_ko_config example_zob example_zob_color
      (quiet_env.scout_search i) (quiet_env.searchPV i) false nd (get_move x) ka kb
      SEARCH_SCOUT res = some r := hev
  rw [hev2] at hev3
  dsimp only at hev3
  rw [hb] at hev3
  split at hev3
  · split at hev3
    · cases hev3
      exact ⟨rfl, (by decide : (-(0 : Int)) < 1000)⟩
    · cases hev3
      exact ⟨rfl, (by decide : (-(0 : Int)) < 1000)⟩
  · cases hev3
    exact ⟨rfl, (by decide : (-(0 : Int)) < 1000)⟩

theorem search_example_entry :
    ¬ (quiet_env.should_abort_check = true ∨ quiet_env.parent_aborted_entry = true) ∧
    (evaluate_as_leaf no_ko_config quiet_env.RANDOMIZE quiet_env.rnd quiet_env.scores
      quiet_env.tt_record (initialize_scout_node search_node example_parent 4)
      SEARCH_SCOUT).type ≠ MOVE_EVALUATED ∧
    (scout_start_node no_ko_config quiet_env search_node example_parent 4).quiescence = false ∧
    (scout_start_node no_ko_config quiet_env search_node example_parent 4).beta = 1000 := by
  set_option maxRecDepth 100000 in decide

/-- Claim C33 (counterexample): on `search_position` (eighteen moves, none with
a victim) with child searches that return 0, `beta = 1000` and no abort, the
serial loop of `scout_search` dispatches a sixth move, the move with local
index 5, when `legal_move_count` is 5: five legal moves have been searched (all
with a result of type `MOVE_EVALUATED`) and no cutoff has occurred. -/
theorem sixth_move_dispatched_serially :
    YOUNG_BROTHERS_WAIT = 5 ∧
    ∃ mv, scout_event.serial_move 5 mv 5 false ∈
      (example_outcome no_ko_config quiet_env 4).events := by
  refine ⟨rfl, ?_⟩
  obtain ⟨e1, e2, e3, e4⟩ := search_example_entry
  obtain ⟨out, ml, n, s, m, par, fin, hout, hl, hs, -, hidx, hser, hstop, hev, -⟩ :=
    scout_search_phases no_ko_config example_zob example_zob_color (fun _ _ _ _ => 0)
      quiet_env (fun _ _ => 0) search_node example_parent 4 zero_list
      search_position_valid search_position_history e1 e2
  have hout2 : example_outcome no_ko_config quiet_env 4 = out :=
    congrArg (fun o => o.getD
      { score := 12345, node := example_node, killer := fun _ _ => 0, events := [] }) hout
  rw [hout2, hev]
  obtain ⟨hlen, -⟩ := search_position_moves
  -- the move list
  have hn : n = 18 ∧ ∀ j, j < n →
      ∃ mv ∈ generated_moves search_position zero_list false,
        get_move (ml j) = get_move mv := by
    cases hg : generate_all search_position zero_list false with
    | none =>
      have : generated_moves search_position zero_list false = [] := by
        unfold generated_moves; rw [hg]
      rw [this] at hlen
      exact absurd hlen (by decide)
    | some r =>
      have hgm : generated_moves search_position zero_list false = emitted r := by
        unfold generated_moves; rw [hg]
      obtain ⟨ml2, h1, h2⟩ := get_sortable_move_list_entries (fun _ _ _ _ => 0)
        (fun _ _ => 0) (scout_start_node no_ko_config quiet_env search_node example_parent 4)
        zero_list
        (evaluate_as_leaf no_ko_config quiet_env.RANDOMIZE quiet_env.rnd quiet_env.scores
          quiet_env.tt_record (initialize_scout_node search_node example_parent 4)
          SEARCH_SCOUT).hash_table_move r hg
      rw [hl] at h1
      have h3 := Option.some.inj h1
      have h4 : ml = ml2 := congrArg Prod.fst h3
      have h5 : n = r.2 := congrArg Prod.snd h3
      have h6 : (emitted r).length = r.2 := by
        unfold emitted; rw [List.length_map, List.length_range]
      rw [hgm, h6] at hlen
      refine ⟨by rw [h5, hlen], fun j hj => ⟨r.1 j, ?_, by rw [h4, h2 j]⟩⟩
      rw [hgm]
      unfold emitted
      exact List.mem_map_of_mem _ (List.mem_range.mpr (by omega))
  obtain ⟨hn18, hQ⟩ := hn
  obtain ⟨qa, -, ql, qe⟩ := serial_loop_quiet no_ko_config example_zob example_zob_color
    quiet_env _ _ n search_position 1000
    (fun x => ∃ mv ∈ generated_moves search_position zero_list false,
      get_move x = get_move mv)
    (fun _ => rfl) (fun _ => rfl)
    (fun i nd x res r hp hqu hb hx h =>
      search_position_evaluated i nd x res _ _ r hp hqu hb hx h)
    n _ s rfl e3 e4 hQ (by show 0 + n ≤ n; omega) hs
  have qa2 : s.node.abort = false := qa
  have ql2 : s.node.legal_move_count = (s.number_of_moves_evaluated : Int) := by
    rw [ql]
    show (0 : Int) + ((s.number_of_moves_evaluated : Int) - ((0 : Nat) : Int)) = _
    omega
  have h6 : 6 ≤ s.number_of_moves_evaluated := by
    by_contra hc
    rcases hstop (by omega) with h | h
    · rw [ql2] at h
      have : (5 : Int) < (s.number_of_moves_evaluated : Int) := h
      omega
    · rw [qa2] at h
      exact absurd h (by decide)
  have h5 : 5 ∈ s.events.map event_index := by
    rw [hidx]; exact List.mem_range.mpr (by omega)
  obtain ⟨e, he, hei⟩ := List.mem_map.mp h5
  obtain ⟨i, c, hi, -⟩ := hser e he
  rw [hi] at hei he
  have hi5 : i = 5 := hei
  rw [hi5] at he
  rcases qe _ _ _ _ he with h | ⟨-, h⟩
  · exact absurd h (List.not_mem_nil _)
  · have hc : c = 5 := by
      rw [h]
      rfl
    rw [hc] at he
    exact ⟨_, List.mem_append_left _ he⟩

theorem table_update_not_move {par : List scout_event}
    (h : ∀ e ∈ par, ∃ i mv, e = scout_event.parallel_move i mv) :
    ∀ e ∈ par, is_table_update e = false := by
  intro e he
  obtain ⟨i, mv, hi⟩ := h e he
  rw [hi]
  rfl

/-- The reads of `should_abort_check()` and of the abort flags of the ancestors
in `scout_search`, on a valid position whose history chain holds a victim: the
call returns, and
* when `should_abort_check()` returns true at its entry or the abort flag of an
  ancestor is set there, it returns 0 and calls neither `evaluateMove` nor
  `update_best_move_history` nor `update_transposition_table`;
* when the node is searched (the pre-evaluation does not end the call) and the
  abort flag of an ancestor is read as set after the serial loop or after the
  parallel loop, it returns 0 and calls neither `update_best_move_history` nor
  `update_transposition_table`;
* it calls one of the two only when all these reads were false;
* with all these reads false and the node searched, it calls
  `update_transposition_table` and returns `best_score`, and calls
  `update_best_move_history` when the node is not a quiescence node: the flag
  `abortf` is not among the values read. -/
theorem scout_search_abort_reads (cfg : search_config) (zob : Nat → Nat → Nat)
    (zob_color : Nat) (best_move_history : Nat → Nat → Nat → Nat → Nat) (env : scout_env)
    (killer : Int → Nat → Nat) (node parent : searchNode) (depth : Int) (list : Nat → Nat)
    (hv : valid_position node.position) (he : history_ends node.position) :
    ∃ out,
      scout_search cfg zob zob_color best_move_history env killer node parent depth list =
        some out ∧
      (env.should_abort_check = true ∨ env.parent_aborted_entry = true →
        out.score = 0 ∧ out.events = []) ∧
      ((evaluate_as_leaf cfg env.RANDOMIZE env.rnd env.scores env.tt_record
          (initialize_scout_node node parent depth) SEARCH_SCOUT).type ≠ MOVE_EVALUATED →
        env.parent_aborted_serial = true ∨ env.parent_aborted_final = true →
        out.score = 0 ∧ ∀ e ∈ out.events, is_table_update e = false) ∧
      (∀ e ∈ out.events, is_table_update e = true →
        env.should_abort_check = false ∧ env.parent_aborted_entry = false ∧
        env.parent_aborted_serial = false ∧ env.parent_aborted_final = false) ∧
      (¬ (env.should_abort_check = true ∨ env.parent_aborted_entry = true) →
        (evaluate_as_leaf cfg env.RANDOMIZE env.rnd env.scores env.tt_record
          (initialize_scout_node node parent depth) SEARCH_SCOUT).type ≠ MOVE_EVALUATED →
        env.parent_aborted_serial = false → env.parent_aborted_final = false →
        out.score = out.node.best_score ∧
        scout_event.update_transposition_table out.node.position.key out.node.depth
          out.node.best_score ∈ out.events ∧
        (out.node.quiescence = false →
          ∃ count, scout_event.update_best_move_history out.node.best_move_index count ∈
            out.events)) := by
  by_cases h : env.should_abort_check = true ∨ env.parent_aborted_entry = true
  · refine ⟨_, scout_search_entry_abort cfg zob zob_color best_move_history env killer node
      parent depth list h, fun _ => ⟨rfl, rfl⟩, fun _ _ => ⟨rfl, fun e hin => ?_⟩,
      fun e hin => ?_, fun hn => absurd h hn⟩
    · exact absurd hin (List.not_mem_nil e)
    · exact absurd hin (List.not_mem_nil e)
  · by_cases hpre : (evaluate_as_leaf cfg env.RANDOMIZE env.rnd env.scores env.tt_record
        (initialize_scout_node node parent depth) SEARCH_SCOUT).type = MOVE_EVALUATED
    · refine ⟨_, scout_search_pre_final cfg zob zob_color best_move_history env killer node
        parent depth list h hpre, fun hc => absurd hc h, fun hn => absurd hpre hn,
        fun e hin => ?_, fun _ hn => absurd hpre hn⟩
      exact absurd hin (List.not_mem_nil e)
    · obtain ⟨out, ml, n, s, m, par, fin, hout, -, -, -, -, hser, -, hev, -, -, hpar, hfin, -,
        hA, hB⟩ := scout_search_phases cfg zob zob_color best_move_history env killer node
          parent depth list hv he h hpre
      have hs0 : ∀ e ∈ s.events, is_table_update e = false := by
        intro e hin
        obtain ⟨i, c, hi, -⟩ := hser e hin
        rw [hi]
        rfl
      have hp0 : ∀ e ∈ par, is_table_update e = false :=
        table_update_not_move (fun e hin => by
          obtain ⟨i, hi⟩ := hpar e hin
          exact ⟨i, _, hi⟩)
      have b1 : ∀ b : Bool, ¬ b = true → b = false := by decide
      refine ⟨out, hout, fun hc => absurd hc h, fun _ hc => ?_, fun e hin ht => ?_,
        fun _ _ h1 h2 => ?_⟩
      · obtain ⟨a1, a2⟩ := hA hc
        refine ⟨a2, fun e hin => ?_⟩
        rw [hev, a1, List.append_nil] at hin
        rcases List.mem_append.mp hin with h1 | h1
        · exact hs0 e h1
        · exact hp0 e h1
      · refine ⟨b1 _ (fun hc => h (Or.inl hc)), b1 _ (fun hc => h (Or.inr hc)), ?_⟩
        have key : ¬ (env.parent_aborted_serial = true ∨ env.parent_aborted_final = true) := by
          intro hc
          obtain ⟨a1, -⟩ := hA hc
          rw [hev, a1, List.append_nil] at hin
          rcases List.mem_append.mp hin with h1 | h1
          · rw [hs0 e h1] at ht; exact absurd ht (by decide)
          · rw [hp0 e h1] at ht; exact absurd ht (by decide)
        exact ⟨b1 _ (fun hc => key (Or.inl hc)), b1 _ (fun hc => key (Or.inr hc))⟩
      · obtain ⟨c1, c2, c3⟩ := hB h1 h2
        rw [hev]
        refine ⟨c1, ?_, fun hq => ⟨s.number_of_moves_evaluated + m, ?_⟩⟩
        · exact List.mem_append_right _ (List.mem_append_right _ c2)
        · exact List.mem_append_right _ (List.mem_append_right _ (c3 hq))

theorem timeout_example_entry :
    ¬ (timeout_env.should_abort_check = true ∨ timeout_env.parent_aborted_entry = true) ∧
    (evaluate_as_leaf example_config timeout_env.RANDOMIZE timeout_env.rnd timeout_env.scores
      timeout_env.tt_record (initialize_scout_node search_node example_parent 4)
      SEARCH_SCOUT).type ≠ MOVE_EVALUATED ∧
    (scout_start_node example_config timeout_env search_node example_parent 4).quiescence =
      false ∧
    (scout_start_node example_config timeout_env search_node example_parent 4).best_score =
      -32700 ∧
    (scout_start_node example_config timeout_env search_node example_parent 4).abort = false := by
  set_option maxRecDepth 100000 in decide

/-- Claim C34 fails on the code: in `timeout_env` the time-out flag `abortf` is
not set when the node is entered (`should_abort_check()` returns false) and is
set during the search of the first child, so that it is read as set after every
call of `evaluateMove`; no ancestor has its abort flag set. Every move of the
node is then skipped, and the call of `scout_search` on `search_position` at
depth 4 returns `-32700` (`-INF`, the `best_score` set before any move was
searched), not 0, and calls `update_best_move_history` and
`update_transposition_table`, the latter with the score `-32700`. -/
theorem timeout_node_updates_tables :
    timeout_env.should_abort_check = false ∧
    (∀ i, timeout_env.abortf_after i = true) ∧
    timeout_env.parent_aborted_entry = false ∧ timeout_env.parent_aborted_serial = false ∧
    timeout_env.parent_aborted_final = false ∧
    (example_outcome example_config timeout_env 4).score = -32700 ∧
    scout_event.update_transposition_table search_position.key 4 (-32700) ∈
      (example_outcome example_config timeout_env 4).events ∧
    ∃ count, scout_event.update_best_move_history 0 count ∈
      (example_outcome example_config timeout_env 4).events := by
  refine ⟨rfl, fun _ => rfl, rfl, rfl, rfl, ?_⟩
  obtain ⟨e1, e2, e3, e4, e5⟩ := timeout_example_entry
  obtain ⟨out, ml, n, s, m, par, fin, hout, hl, hs, -⟩ :=
    scout_search_phases example_config example_zob example_zob_color (fun _ _ _ _ => 0)
      timeout_env (fun _ _ => 0) search_node example_parent 4 zero_list
      search_position_valid search_position_history e1 e2
  have hout2 : example_outcome example_config timeout_env 4 = out :=
    congrArg (fun o => o.getD
      { score := 12345, node := example_node, killer := fun _ _ => 0, events := [] }) hout
  rw [hout2]
  have hshape := scout_search_loops example_config example_zob example_zob_color
    (fun _ _ _ _ => 0) timeout_env (fun _ _ => 0) search_node example_parent 4 zero_list
    ml n s e1 e2 hl hs
  rw [hout] at hshape
  obtain ⟨n1, -⟩ := serial_loop_abortf example_config example_zob example_zob_color
    timeout_env _ _ n (fun _ => rfl) n _ s hs
  have n2 : s.node = scout_start_node example_config timeout_env search_node example_parent 4 :=
    n1
  have hab : ¬ s.node.abort = true := by
    rw [n2, e5]; decide
  rw [if_neg (by decide), if_pos hab] at hshape
  cases hp : scout_parallel_loop example_config example_zob example_zob_color timeout_env
      ((fun (_ : Int) (_ : Nat) => 0)
        (scout_start_node example_config timeout_env search_node example_parent 4).ply 0)
      ((fun (_ : Int) (_ : Nat) => 0)
        (scout_start_node example_config timeout_env search_node example_parent 4).ply 1)
      (n - s.number_of_moves_evaluated) (parallel_start s n) with
  | none =>
    rw [hp] at hshape
    cases hshape
  | some s2 =>
    rw [hp] at hshape
    have ho : out = scout_finish timeout_env s2 := Option.some.inj hshape
    obtain ⟨n3, -⟩ := parallel_loop_abortf example_config example_zob example_zob_color
      timeout_env _ _ (fun _ => rfl) _ _ s2 hp
    have n4 : s2.node =
        scout_start_node example_config timeout_env search_node example_parent 4 :=
      n3.trans n2
    obtain ⟨-, fin2, f1, -, -, f4⟩ := scout_finish_spec timeout_env s2
    obtain ⟨g1, g2, g3⟩ := f4 rfl
    rw [n4] at g1 g2 g3
    rw [e4] at g1 g2
    rw [ho, f1]
    exact ⟨g1, List.mem_append_right _ g2, _, List.mem_append_right _ (g3 e3)⟩

/-- Claim C33 (amended): past the entry test and the pre-evaluation,
`scout_search` returns on a valid position whose history chain holds a victim,
and its serial phase dispatches the moves one at a time under the local indices
`0, 1, 2, ...`, the move with index `i` being entry `i` of the move list in
selection-sort order (`sort_incremental_new` applied for the indices from 0
on); every serial dispatch happens with `legal_move_count` (the number of
results of type `MOVE_EVALUATED` counted so far) at most `YOUNG_BROTHERS_WAIT`
and with no cutoff (the abort flag of the node not set), and the serial phase
ends before the end of the list only with `legal_move_count` above
`YOUNG_BROTHERS_WAIT` or after a cutoff. Whatever is dispatched afterwards is
dispatched by the parallel phase, under the indices that follow, from the list
sorted by `sort_incremental`, and that phase leaves moves undispatched only
after a cutoff or with the abort flag of an ancestor set. -/
theorem serial_phase_dispatch (cfg : search_config) (zob : Nat → Nat → Nat)
    (zob_color : Nat) (best_move_history : Nat → Nat → Nat → Nat → Nat) (env : scout_env)
    (killer : Int → Nat → Nat) (node parent : searchNode) (depth : Int) (list : Nat → Nat)
    (hv : valid_position node.position) (he : history_ends node.position)
    (h : ¬ (env.should_abort_check = true ∨ env.parent_aborted_entry = true))
    (hpre : (evaluate_as_leaf cfg env.RANDOMIZE env.rnd env.scores env.tt_record
      (initialize_scout_node node parent depth) SEARCH_SCOUT).type ≠ MOVE_EVALUATED) :
    ∃ out ml n s m par fin,
      scout_search cfg zob zob_color best_move_history env killer node parent depth list =
        some out ∧
      get_sortable_move_list best_move_history killer
        (scout_start_node cfg env node parent depth) list
        (evaluate_as_leaf cfg env.RANDOMIZE env.rnd env.scores env.tt_record
          (initialize_scout_node node parent depth) SEARCH_SCOUT).hash_table_move =
        some (ml, n) ∧
      scout_serial_loop cfg zob zob_color env
        (killer (scout_start_node cfg env node parent depth).ply 0)
        (killer (scout_start_node cfg env node parent depth).ply 1) n n
        { node := scout_start_node cfg env node parent depth, killer := killer,
          move_list := ml, number_of_moves_evaluated := 0, result := fresh_result env,
          events := [] } = some s ∧
      s.number_of_moves_evaluated ≤ n ∧
      s.events.map event_index = List.range s.number_of_moves_evaluated ∧
      (∀ e ∈ s.events, ∃ i c,
        e = scout_event.serial_move i (get_move (sort_incremental_new_upto ml n n i)) c false ∧
        c ≤ YOUNG_BROTHERS_WAIT) ∧
      (s.number_of_moves_evaluated < n →
        s.node.legal_move_count > YOUNG_BROTHERS_WAIT ∨ s.node.abort = true) ∧
      out.events = s.events ++ (par ++ fin) ∧
      par.map event_index = List.range' s.number_of_moves_evaluated m ∧
      s.number_of_moves_evaluated + m ≤ n ∧
      (∀ e ∈ par, ∃ i, e = scout_event.parallel_move i
        (get_move (sort_incremental (sort_incremental_new_upto ml n s.number_of_moves_evaluated)
          n s.number_of_moves_evaluated i))) ∧
      (∀ e ∈ fin, is_table_update e = true) ∧
      (s.number_of_moves_evaluated + m < n →
        out.node.abort = true ∨ env.parent_aborted_serial = true) := by
  obtain ⟨out, ml, n, s, m, par, fin, h1, h2, h3, h4, h5, h6, h7, h8, h9, h10, h11, h12, h13,
    -⟩ := scout_search_phases cfg zob zob_color best_move_history env killer node parent
      depth list hv he h hpre
  exact ⟨out, ml, n, s, m, par, fin, h1, h2, h3, h4, h5, h6, h7, h8, h9, h10, h11, h12, h13⟩

theorem serial_phase_dispatch_witness :
    ∃ out ml n s m par fin,
      scout_search no_ko_config example_zob example_zob_color (fun _ _ _ _ => 0) quiet_env
        (fun _ _ => 0) search_node example_parent 4 zero_list = some out ∧
      get_sortable_move_list (fun _ _ _ _ => 0) (fun _ _ => 0)
        (scout_start_node no_ko_config quiet_env search_node example_parent 4) zero_list
        (evaluate_as_leaf no_ko_config quiet_env.RANDOMIZE quiet_env.rnd quiet_env.scores
          quiet_env.tt_record (initialize_scout_node search_node example_parent 4)
          SEARCH_SCOUT).hash_table_move = some (ml, n) ∧
      scout_serial_loop no_ko_config example_zob example_zob_color quiet_env
        ((fun _ _ => 0)
          (scout_start_node no_ko_config quiet_env search_node example_parent 4).ply 0)
        ((fun _ _ => 0)
          (scout_start_node no_ko_config quiet_env search_node example_parent 4).ply 1) n n
        { node := scout_start_node no_ko_config quiet_env search_node example_parent 4,
          killer := fun _ _ => 0, move_list := ml, number_of_moves_evaluated := 0,
          result := fresh_result quiet_env, events := [] } = some s ∧
      s.number_of_moves_evaluated ≤ n ∧
      s.events.map event_index = List.range s.number_of_moves_evaluated ∧
      (∀ e ∈ s.events, ∃ i c,
        e = scout_event.serial_move i (get_move (sort_incremental_new_upto ml n n i)) c false ∧
        c ≤ YOUNG_BROTHERS_WAIT) ∧
      (s.number_of_moves_evaluated < n →
        s.node.legal_move_count > YOUNG_BROTHERS_WAIT ∨ s.node.abort = true) ∧
      out.events = s.events ++ (par ++ fin) ∧
      par.map event_index = List.range' s.number_of_moves_evaluated m ∧
      s.number_of_moves_evaluated + m ≤ n ∧
      (∀ e ∈ par, ∃ i, e = scout_event.parallel_move i
        (get_move (sort_incremental (sort_incremental_new_upto ml n s.number_of_moves_evaluated)
          n s.number_of_moves_evaluated i))) ∧
      (∀ e ∈ fin, is_table_update e = true) ∧
      (s.number_of_moves_evaluated + m < n →
        out.node.abort = true ∨ quiet_env.parent_aborted_serial = true) :=
  serial_phase_dispatch no_ko_config example_zob example_zob_color (fun _ _ _ _ => 0) quiet_env
    (fun _ _ => 0) search_node example_parent 4 zero_list search_position_valid
    search_position_history search_example_entry.1 search_example_entry.2.1

end Leiserchess
